import Mathlib

/-!
# SwiftSoup fast-path HTML pre-scanner (`swiftsoup_scan.c`)

A shallow embedding of the C scanner and a verification development over it.

Conventions of the embedding:

* a byte (`uint8_t`) is a `Fin 256`; a buffer is a `List Byte`; a read
  `bytes[k]` is `byteAt bytes k`;
* indices and `length` are `int` in the source; inside the loops they are
  natural numbers (all of them stay within `0..length`), the entry points take
  `length : Int` and a possibly null buffer (`Option (List Byte)`);
* the static lookup tables filled by `init_scan_tables` are computed by the
  same loops, as lists;
* callbacks are modelled by their presence (`Bool`) and by the ordered trace
  of calls they receive (`Event`);
* heap allocation (`malloc`, `realloc`) is assumed to succeed.
-/

namespace SwiftSoupScan

/-- A byte of the input buffer (`uint8_t`). -/
abbrev Byte := Fin 256

/-- The read `bytes[k]`. -/
def byteAt (bytes : List Byte) (k : Nat) : Byte := bytes.getD k 0

/-! ## Character classification tables (`init_scan_tables`) -/

/-- Entry `b` of `asciiLowerTable`: `(b >= 65 && b <= 90) ? b + 32 : b`. -/
def asciiLowerTable (b : Byte) : Byte :=
  if 65 ≤ b.val ∧ b.val ≤ 90 then ⟨(b.val + 32) % 256, Nat.mod_lt _ (by decide)⟩ else b

/-- Entry `b` of `isWhitespaceTable`: space, tab, line feed, carriage return. -/
def isWhitespaceTable (b : Byte) : Bool :=
  b.val == 0x20 || b.val == 0x09 || b.val == 0x0A || b.val == 0x0D

/-- Entry `b` of `isNameCharTable`: `A-Z`, `a-z`, `:`, `_`, `0-9`, `-`, `.`. -/
def isNameCharTable (b : Byte) : Bool :=
  (decide (65 ≤ b.val) && decide (b.val ≤ 90)) ||
  (decide (97 ≤ b.val) && decide (b.val ≤ 122)) ||
  b.val == 0x3A || b.val == 0x5F ||
  (decide (48 ≤ b.val) && decide (b.val ≤ 57)) ||
  b.val == 0x2D || b.val == 0x2E

/-- The bytes of an ASCII string literal of the source. -/
def cstr (s : String) : List Byte := s.toList.map (fun c => Fin.ofNat c.toNat)

/-! ## Boolean attribute dictionary -/

/-- The table `booleanAttrNames`. -/
def booleanAttrNames : List (List Byte) :=
  [ cstr "allowfullscreen", cstr "async", cstr "autofocus", cstr "checked", cstr "compact",
    cstr "controls", cstr "declare", cstr "default", cstr "defer",
    cstr "disabled", cstr "formnovalidate", cstr "hidden", cstr "inert", cstr "ismap",
    cstr "itemscope", cstr "multiple", cstr "muted", cstr "nohref",
    cstr "noresize", cstr "noshade", cstr "novalidate", cstr "nowrap", cstr "open",
    cstr "readonly", cstr "required", cstr "reversed", cstr "seamless",
    cstr "selected", cstr "sortable", cstr "truespeed", cstr "typemustmatch" ]

/-- The table `booleanAttrLengths`, as written in the source. -/
def booleanAttrLengths : List Nat :=
  [ 14, 5, 9, 7, 7, 8, 7, 7, 5,
    8, 13, 6, 5, 5, 9, 8, 5, 6,
    8, 7, 10, 6, 4, 8, 8, 8, 8,
    8, 8, 9, 12 ]

/-- The constant `booleanAttrCount`. -/
def booleanAttrCount : Nat := 31

/-- First byte of the `i`-th name, `(uint8_t)booleanAttrNames[i][0]`. -/
def booleanAttrFirst (i : Nat) : Nat := (byteAt (booleanAttrNames.getD i []) 0).val

/-- The table `booleanAttrLengthLookup` after `init_scan_tables`: 32 entries,
entry `len` set to 1 for every `len < 32` listed in `booleanAttrLengths`. -/
def booleanAttrLengthLookup : List Nat :=
  (List.range booleanAttrCount).foldl
    (fun t i =>
      let len := booleanAttrLengths.getD i 0
      if len < 32 then t.set len 1 else t)
    (List.replicate 32 0)

/-- The table `booleanAttrBucketCount` after the first counting loop. -/
def bucketCountPass1 : List Nat :=
  (List.range booleanAttrCount).foldl
    (fun t i =>
      let first := booleanAttrFirst i
      if first < 128 then t.set first ((t.getD first 0 + 1) % 256) else t)
    (List.replicate 128 0)

/-- The table `booleanAttrBucketStart`: running sums of the first-pass counts. -/
def booleanAttrBucketStart : List Nat :=
  ((List.range 128).foldl
    (fun (acc : List Nat × Nat) i =>
      (acc.1.set i acc.2, (acc.2 + bucketCountPass1.getD i 0) % 256))
    (List.replicate 128 0, 0)).1

/-- The tables `booleanAttrBucketIndices` and `booleanAttrBucketCount` after
the final filling loop (the counts were reset to zero by the running-sum loop). -/
def bucketFill : List Nat × List Nat :=
  (List.range booleanAttrCount).foldl
    (fun (acc : List Nat × List Nat) i =>
      let first := booleanAttrFirst i
      if first < 128 then
        let offset := (booleanAttrBucketStart.getD first 0 + acc.2.getD first 0) % 256
        (acc.1.set offset (i % 256), acc.2.set first ((acc.2.getD first 0 + 1) % 256))
      else acc)
    (List.replicate 32 0, List.replicate 128 0)

/-- The table `booleanAttrBucketIndices`. -/
def booleanAttrBucketIndices : List Nat := bucketFill.1

/-- The table `booleanAttrBucketCount` (final contents). -/
def booleanAttrBucketCount : List Nat := bucketFill.2

/-- The inner comparison loop of `boolean_attribute_index`
(`for (j = 0; j < length; j++)`); `n` counts the remaining iterations.
Result: `none` for the early `return -1` on a byte `>= 0x80`, otherwise the
final value of `matches`. -/
def boolean_attribute_compare (bytes : List Byte) (start : Nat) (target : List Byte) :
    Nat → Nat → Option Bool
  | 0, _ => some true
  | n + 1, j =>
    let b := byteAt bytes (start + j)
    if b.val ≥ 0x80 then none
    else if asciiLowerTable b ≠ byteAt target j then some false
    else boolean_attribute_compare bytes start target n (j + 1)

/-- The candidate loop of `boolean_attribute_index`
(`for (idx = 0; idx < count; idx++)`); `n` counts the remaining iterations. -/
def boolean_attribute_bucket (bytes : List Byte) (start length : Nat) (startOffset : Nat) :
    Nat → Nat → Int
  | 0, _ => -1
  | n + 1, idx =>
    let entryIndex := booleanAttrBucketIndices.getD (startOffset + idx) 0
    if booleanAttrLengths.getD entryIndex 0 ≠ length then
      boolean_attribute_bucket bytes start length startOffset n (idx + 1)
    else
      match boolean_attribute_compare bytes start (booleanAttrNames.getD entryIndex []) length 0 with
      | none => -1
      | some true => (entryIndex : Int)
      | some false => boolean_attribute_bucket bytes start length startOffset n (idx + 1)

/-- The function `boolean_attribute_index(bytes, start, end)`. -/
def boolean_attribute_index (bytes : List Byte) (start stop : Nat) : Int :=
  let length : Int := (stop : Int) - (start : Int)
  if length ≤ 0 ∨ length ≥ 32 ∨ booleanAttrLengthLookup.getD length.toNat 0 = 0 then -1
  else
    let first := byteAt bytes start
    if first.val ≥ 0x80 then -1
    else
      let lowerFirst := asciiLowerTable first
      if lowerFirst.val ≥ 128 then -1
      else
        let startOffset := booleanAttrBucketStart.getD lowerFirst.val 0
        let count := booleanAttrBucketCount.getD lowerFirst.val 0
        boolean_attribute_bucket bytes start length.toNat startOffset count 0



/-! ## Generic loop and library helpers -/

/-- The largest value of the type `int` of the source (32 bits). Lengths and
cursors are `int`s; the few sums of the source that can exceed `INT_MAX` for a
cursor below an `int` length are the look-ahead guards `i + 3`, `i + 4`,
`j + 1`, `j + 2` and `j + tagLen + 2`, and the doubling of the capacity of the
pair buffer. Where such a sum exceeds `INT_MAX` the behaviour of the source is
undefined, and the embedding gives no result there. A sum that is below the
length is representable, because the length is an `int`. -/
def INT_MAX : Nat := 2147483647

/-- The loop `while (j < length && cond(bytes[j])) j++`; `n` bounds the
remaining iterations (callers pass `length - j`, which the loop never exceeds). -/
def advanceWhile (bytes : List Byte) (length : Nat) (cond : Byte → Bool) : Nat → Nat → Nat
  | 0, j => j
  | n + 1, j =>
    if j < length ∧ cond (byteAt bytes j) = true then advanceWhile bytes length cond n (j + 1)
    else j

/-- The library call `memchr(bytes + start, c, n)`, as the index of the first
occurrence of `c` among the `n` bytes from `start` (`none` for `NULL`). -/
def memchr (bytes : List Byte) : Nat → Byte → Nat → Option Nat
  | _, _, 0 => none
  | start, c, n + 1 =>
    if byteAt bytes start = c then some start else memchr bytes (start + 1) c n

/-- The `n` bytes of the buffer from `start` on (the argument `bytes + start`
read over `n` positions). -/
def slice (bytes : List Byte) (start n : Nat) : List Byte :=
  (List.range n).map (fun k => byteAt bytes (start + k))

/-! ## Tag identity classifier -/

/-- The enumeration `tag_id`. -/
inductive tag_id
  | TAG_NONE | TAG_A | TAG_B | TAG_I | TAG_U | TAG_P | TAG_EM | TAG_STRONG | TAG_FONT
  | TAG_H1 | TAG_H2 | TAG_H3 | TAG_H4 | TAG_H5 | TAG_H6
  | TAG_TABLE | TAG_TBODY | TAG_THEAD | TAG_TFOOT | TAG_TR | TAG_TD | TAG_TH
  | TAG_CAPTION | TAG_COLGROUP | TAG_COL
  | TAG_BASE | TAG_META | TAG_TITLE | TAG_STYLE | TAG_SCRIPT | TAG_LINK
  | TAG_BR | TAG_HR | TAG_IMG | TAG_EMBED | TAG_INPUT | TAG_WBR | TAG_AREA
  | TAG_PARAM | TAG_TRACK | TAG_SOURCE | TAG_NOSCRIPT | TAG_HGROUP
  | TAG_HTML | TAG_HEAD | TAG_BODY | TAG_TEXTAREA | TAG_SELECT
  deriving DecidableEq, Repr

open tag_id

/-- All enumerators of `tag_id`, in declaration order (`TAG_NONE = 0`). -/
def tag_id.all : List tag_id :=
  [ TAG_NONE, TAG_A, TAG_B, TAG_I, TAG_U, TAG_P, TAG_EM, TAG_STRONG, TAG_FONT,
    TAG_H1, TAG_H2, TAG_H3, TAG_H4, TAG_H5, TAG_H6,
    TAG_TABLE, TAG_TBODY, TAG_THEAD, TAG_TFOOT, TAG_TR, TAG_TD, TAG_TH,
    TAG_CAPTION, TAG_COLGROUP, TAG_COL,
    TAG_BASE, TAG_META, TAG_TITLE, TAG_STYLE, TAG_SCRIPT, TAG_LINK,
    TAG_BR, TAG_HR, TAG_IMG, TAG_EMBED, TAG_INPUT, TAG_WBR, TAG_AREA,
    TAG_PARAM, TAG_TRACK, TAG_SOURCE, TAG_NOSCRIPT, TAG_HGROUP,
    TAG_HTML, TAG_HEAD, TAG_BODY, TAG_TEXTAREA, TAG_SELECT ]

/-- The integer value of an enumerator. -/
def tag_id.value (t : tag_id) : Nat := tag_id.all.indexOf t

/-- The cast `(tag_id)n`. -/
def tag_id.ofValue (n : Nat) : tag_id := tag_id.all.getD n TAG_NONE

/-- The function `matches_tag(bytes, start, end, tag, length)`. -/
def matches_tag (bytes : List Byte) (start stop : Nat) (tag : List Byte) (length : Nat) : Bool :=
  if (stop : Int) - (start : Int) ≠ (length : Int) then false
  else (List.range length).all (fun i =>
    let b := byteAt bytes (start + i)
    !(decide (b.val ≥ 0x80)) && (asciiLowerTable b == byteAt tag i))

/-- The function `tag_id_for_ascii_lowercase(bytes, start, end)`. -/
def tag_id_for_ascii_lowercase (bytes : List Byte) (start stop : Nat) : tag_id :=
  let length : Int := (stop : Int) - (start : Int)
  if length ≤ 0 then TAG_NONE
  else
    let first := asciiLowerTable (byteAt bytes start)
    match length.toNat with
    | 1 =>
      if first = 0x61 then TAG_A            -- 'a'
      else if first = 0x62 then TAG_B       -- 'b'
      else if first = 0x69 then TAG_I       -- 'i'
      else if first = 0x70 then TAG_P       -- 'p'
      else if first = 0x75 then TAG_U       -- 'u'
      else TAG_NONE
    | 2 =>
      let second := asciiLowerTable (byteAt bytes (start + 1))
      if first = 0x65 ∧ matches_tag bytes start stop (cstr "em") 2 = true then TAG_EM
      else if first = 0x74 ∧ second = 0x72 then TAG_TR      -- 't', 'r'
      else if first = 0x74 ∧ second = 0x64 then TAG_TD      -- 't', 'd'
      else if first = 0x74 ∧ second = 0x68 then TAG_TH      -- 't', 'h'
      else if first = 0x62 ∧ matches_tag bytes start stop (cstr "br") 2 = true then TAG_BR
      else if first = 0x68 ∧ second = 0x72 then TAG_HR      -- 'h', 'r'
      else if first = 0x68 ∧ second.val ≥ 0x31 ∧ second.val ≤ 0x36 then  -- 'h', '1'..'6'
        tag_id.ofValue (TAG_H1.value + (second.val - 0x31))
      else TAG_NONE
    | 3 =>
      if first = 0x69 ∧ matches_tag bytes start stop (cstr "img") 3 = true then TAG_IMG
      else if first = 0x63 ∧ matches_tag bytes start stop (cstr "col") 3 = true then TAG_COL
      else if first = 0x77 ∧ matches_tag bytes start stop (cstr "wbr") 3 = true then TAG_WBR
      else TAG_NONE
    | 4 =>
      if first = 0x62 ∧ matches_tag bytes start stop (cstr "base") 4 = true then TAG_BASE
      else if first = 0x6D ∧ matches_tag bytes start stop (cstr "meta") 4 = true then TAG_META
      else if first = 0x6C ∧ matches_tag bytes start stop (cstr "link") 4 = true then TAG_LINK
      else if first = 0x62 ∧ matches_tag bytes start stop (cstr "body") 4 = true then TAG_BODY
      else if first = 0x68 ∧ matches_tag bytes start stop (cstr "head") 4 = true then TAG_HEAD
      else if first = 0x68 ∧ matches_tag bytes start stop (cstr "html") 4 = true then TAG_HTML
      else if first = 0x61 ∧ matches_tag bytes start stop (cstr "area") 4 = true then TAG_AREA
      else if first = 0x66 ∧ matches_tag bytes start stop (cstr "font") 4 = true then TAG_FONT
      else TAG_NONE
    | 5 =>
      if first = 0x74 ∧ matches_tag bytes start stop (cstr "title") 5 = true then TAG_TITLE
      else if first = 0x73 ∧ matches_tag bytes start stop (cstr "style") 5 = true then TAG_STYLE
      else if first = 0x69 ∧ matches_tag bytes start stop (cstr "input") 5 = true then TAG_INPUT
      else if first = 0x65 ∧ matches_tag bytes start stop (cstr "embed") 5 = true then TAG_EMBED
      else if first = 0x74 ∧ matches_tag bytes start stop (cstr "table") 5 = true then TAG_TABLE
      else if first = 0x74 ∧ matches_tag bytes start stop (cstr "tbody") 5 = true then TAG_TBODY
      else if first = 0x74 ∧ matches_tag bytes start stop (cstr "thead") 5 = true then TAG_THEAD
      else if first = 0x74 ∧ matches_tag bytes start stop (cstr "tfoot") 5 = true then TAG_TFOOT
      else if first = 0x74 ∧ matches_tag bytes start stop (cstr "track") 5 = true then TAG_TRACK
      else if first = 0x70 ∧ matches_tag bytes start stop (cstr "param") 5 = true then TAG_PARAM
      else TAG_NONE
    | 6 =>
      if first = 0x73 ∧ matches_tag bytes start stop (cstr "script") 6 = true then TAG_SCRIPT
      else if first = 0x73 ∧ matches_tag bytes start stop (cstr "select") 6 = true then TAG_SELECT
      else if first = 0x73 ∧ matches_tag bytes start stop (cstr "source") 6 = true then TAG_SOURCE
      else if first = 0x73 ∧ matches_tag bytes start stop (cstr "strong") 6 = true then TAG_STRONG
      else if first = 0x68 ∧ matches_tag bytes start stop (cstr "hgroup") 6 = true then TAG_HGROUP
      else TAG_NONE
    | 7 =>
      if first = 0x63 ∧ matches_tag bytes start stop (cstr "caption") 7 = true then TAG_CAPTION
      else TAG_NONE
    | 8 =>
      if first = 0x63 ∧ matches_tag bytes start stop (cstr "colgroup") 8 = true then TAG_COLGROUP
      else if first = 0x6E ∧ matches_tag bytes start stop (cstr "noscript") 8 = true then TAG_NOSCRIPT
      else if first = 0x74 ∧ matches_tag bytes start stop (cstr "textarea") 8 = true then TAG_TEXTAREA
      else TAG_NONE
    | _ => TAG_NONE

/-- The predicate `is_heading_tag`: `id >= TAG_H1 && id <= TAG_H6`. -/
def is_heading_tag (id : tag_id) : Bool :=
  decide (TAG_H1.value ≤ id.value) && decide (id.value ≤ TAG_H6.value)

/-- The predicate `is_table_structure_tag`. -/
def is_table_structure_tag : tag_id → Bool
  | TAG_TABLE | TAG_TBODY | TAG_THEAD | TAG_TFOOT | TAG_TR | TAG_TD | TAG_TH
  | TAG_CAPTION | TAG_COLGROUP | TAG_COL => true
  | _ => false

/-- The predicate `is_table_outside_row_allowed`. -/
def is_table_outside_row_allowed : tag_id → Bool
  | TAG_TABLE | TAG_THEAD | TAG_TBODY | TAG_TFOOT | TAG_TR | TAG_COL | TAG_CAPTION
  | TAG_COLGROUP | TAG_STYLE | TAG_SCRIPT => true
  | _ => false

/-- The predicate `is_head_allowed_tag`. -/
def is_head_allowed_tag : tag_id → Bool
  | TAG_BASE | TAG_META | TAG_TITLE | TAG_STYLE | TAG_SCRIPT | TAG_LINK => true
  | _ => false

/-- The predicate `is_void_tag`. -/
def is_void_tag : tag_id → Bool
  | TAG_BR | TAG_HR | TAG_COL | TAG_IMG | TAG_EMBED | TAG_INPUT | TAG_META | TAG_BASE
  | TAG_WBR | TAG_AREA | TAG_LINK | TAG_PARAM | TAG_TRACK | TAG_SOURCE => true
  | _ => false

/-- The function `formatting_tag_id`. -/
def formatting_tag_id : tag_id → Int
  | TAG_A => 0
  | TAG_B => 1
  | TAG_I => 2
  | TAG_U => 3
  | TAG_EM => 4
  | TAG_FONT => 5
  | TAG_STRONG => 6
  | _ => -1

/-! ## Raw-text skipper -/

/-- The inner loop of `skip_raw_text` comparing the name after `</`:
`while (k < tagLen) { b = bytes[j + 2 + k]; if (b >= 0x80 || lower(b) != tag[k]) break; k++; }`;
`n` counts the remaining iterations. -/
def skip_raw_text_name (bytes : List Byte) (j : Nat) (tag : List Byte) : Nat → Nat → Nat
  | 0, k => k
  | n + 1, k =>
    let b := byteAt bytes (j + 2 + k)
    if b.val ≥ 0x80 ∨ asciiLowerTable b ≠ byteAt tag k then k
    else skip_raw_text_name bytes j tag n (k + 1)

/-- The outer loop of `skip_raw_text` (`while (j + tagLen + 2 < length)`), with
the returned `int`; `n` bounds the evaluations of the loop condition. The
result is `none` when the sum `j + tagLen + 2` is not below `length` and
exceeds `INT_MAX` (the `int` sum of the source overflows), and when the bound
`n` is used up. -/
def skip_raw_text_loop (bytes : List Byte) (length : Nat) (tag : List Byte) (tagLen : Nat) :
    Nat → Nat → Option Int
  | 0, _ => none
  | n + 1, j =>
    if j + tagLen + 2 < length then
      if byteAt bytes j = 0x3C ∧ byteAt bytes (j + 1) = 0x2F then
        if skip_raw_text_name bytes j tag tagLen 0 = tagLen then
          let end0 := j + 2 + tagLen
          let stop := advanceWhile bytes length (fun b => b != 0x3E) (length - end0) end0
          if stop ≥ length then some (-1)
          else if stop + 1 ≤ length then some ((stop + 1 : Nat) : Int) else some (length : Int)
        else skip_raw_text_loop bytes length tag tagLen n (j + 1)
      else skip_raw_text_loop bytes length tag tagLen n (j + 1)
    else if j + tagLen + 2 ≤ INT_MAX then some (-1)
    else none

/-- The function `skip_raw_text(bytes, length, tag, tagLen, start)`: the
returned `int`, or `none` when the `int` sum of the loop condition overflows.
The loop condition is evaluated at most `length - start + 1` times. -/
def skip_raw_text (bytes : List Byte) (length : Nat) (tag : List Byte) (tagLen : Nat)
    (start : Nat) : Option Int :=
  skip_raw_text_loop bytes length tag tagLen (length - start + 1) start


/-! ## Hints, sinks and results -/

/-- The enumeration `swiftsoup_fallback_reason`. -/
inductive swiftsoup_fallback_reason
  | SWIFTSOUP_FALLBACK_NONE
  | SWIFTSOUP_FALLBACK_NO_TAG_DELIMITER
  | SWIFTSOUP_FALLBACK_CONTAINS_NULL
  | SWIFTSOUP_FALLBACK_COMMENT_DASH_DASH_DASH
  | SWIFTSOUP_FALLBACK_MALFORMED_TAG
  | SWIFTSOUP_FALLBACK_NON_ASCII_TAG_NAME
  | SWIFTSOUP_FALLBACK_NAMESPACED_TAG
  | SWIFTSOUP_FALLBACK_TABLE_HEURISTICS
  | SWIFTSOUP_FALLBACK_HEAD_BODY_PLACEMENT
  | SWIFTSOUP_FALLBACK_FORMATTING_MISMATCH
  | SWIFTSOUP_FALLBACK_VOID_END_TAG
  | SWIFTSOUP_FALLBACK_NON_ASCII_ATTRIBUTE_NAME
  | SWIFTSOUP_FALLBACK_MALFORMED_ATTRIBUTE
  | SWIFTSOUP_FALLBACK_RAW_TEXT_UNTERMINATED
  deriving DecidableEq, Repr

open swiftsoup_fallback_reason

/-- The numeric value of a fallback reason, as fixed by the header. -/
def swiftsoup_fallback_reason.code : swiftsoup_fallback_reason → Nat
  | SWIFTSOUP_FALLBACK_NONE => 0
  | SWIFTSOUP_FALLBACK_NO_TAG_DELIMITER => 1
  | SWIFTSOUP_FALLBACK_CONTAINS_NULL => 2
  | SWIFTSOUP_FALLBACK_COMMENT_DASH_DASH_DASH => 3
  | SWIFTSOUP_FALLBACK_MALFORMED_TAG => 4
  | SWIFTSOUP_FALLBACK_NON_ASCII_TAG_NAME => 5
  | SWIFTSOUP_FALLBACK_NAMESPACED_TAG => 6
  | SWIFTSOUP_FALLBACK_TABLE_HEURISTICS => 7
  | SWIFTSOUP_FALLBACK_HEAD_BODY_PLACEMENT => 8
  | SWIFTSOUP_FALLBACK_FORMATTING_MISMATCH => 9
  | SWIFTSOUP_FALLBACK_VOID_END_TAG => 10
  | SWIFTSOUP_FALLBACK_NON_ASCII_ATTRIBUTE_NAME => 11
  | SWIFTSOUP_FALLBACK_MALFORMED_ATTRIBUTE => 12
  | SWIFTSOUP_FALLBACK_RAW_TEXT_UNTERMINATED => 13

/-- One observable action of a scan on its sinks, in the order performed.
The field `pos` is the byte offset of the tag name or attribute name being
processed when the action happens; it is bookkeeping of the embedding and is
not passed to the sink. -/
inductive Event
  /-- A call `recordSelfClosing(name, length, isSelfClosing, ctx)`. -/
  | selfClosing (pos : Nat) (name : List Byte) (length : Int) (isSelfClosing : Int)
  /-- A call `recordBoolean(index, isBoolean, ctx)`. -/
  | boolean (pos : Nat) (index : Int) (isBoolean : Int)
  /-- A call `boolean_occurrences_append(booleanBuf, index, isBoolean)`. -/
  | append (pos : Nat) (index : Int) (isBoolean : Int)
  deriving DecidableEq, Repr

/-- Which sinks a call installs: the two callbacks and the pair buffer
(`true` for a non-null pointer). -/
structure Sinks where
  recordSelfClosing : Bool
  recordBoolean : Bool
  booleanBuf : Bool
  deriving DecidableEq, Repr

/-- The boolean-hint delivery shared by both scanners:
`if (recordBoolean) recordBoolean(index, isBoolean, ctx);`
`if (booleanBuf) boolean_occurrences_append(booleanBuf, index, isBoolean);`. -/
def emitBoolean (sinks : Sinks) (pos : Nat) (index : Int) (isBoolean : Int) : List Event :=
  (if sinks.recordBoolean then [Event.boolean pos index isBoolean] else []) ++
  (if sinks.booleanBuf then [Event.append pos index isBoolean] else [])

/-- The sequence of `(index, isBoolean)` arguments of the `recordBoolean` calls. -/
def booleanCalls (events : List Event) : List (Int × Int) :=
  events.filterMap (fun e => match e with
    | Event.boolean _ index isBoolean => some (index, isBoolean)
    | _ => none)

/-- The sequence of `(index, isBoolean)` pairs appended to the pair buffer. -/
def collectedPairs (events : List Event) : List (Int × Int) :=
  events.filterMap (fun e => match e with
    | Event.append _ index isBoolean => some (index, isBoolean)
    | _ => none)

/-- The sequence of `(name, length, isSelfClosing)` arguments of the
`recordSelfClosing` calls. -/
def selfClosingCalls (events : List Event) : List (List Byte × Int × Int) :=
  events.filterMap (fun e => match e with
    | Event.selfClosing _ name length flag => some (name, length, flag)
    | _ => none)

/-! ## Decision scanner (`swiftsoup_should_fallback_internal`) -/

/-- The local struct `TableState`. -/
structure TableState where
  captionDepth : Nat
  sectionDepth : Nat
  trDepth : Nat
  cellDepth : Nat
  deriving DecidableEq, Repr

/-- The local variables of `swiftsoup_should_fallback_internal` at a main-loop
iteration boundary. The two stacks are lists whose head is the top of the
stack (`formatStack[formatCount - 1]`, `tableStack[tableCount - 1]`);
`events` is the trace of sink actions so far. -/
structure ScanState where
  i : Nat
  sawTagDelimiter : Bool
  sawHtmlTag : Bool
  sawBodyTag : Bool
  inHead : Bool
  sawContentBeforeHtml : Bool
  headingOpen : Bool
  openTagDepth : Nat
  selectDepth : Nat
  formatStack : List Nat
  tableStack : List TableState
  events : List Event
  deriving DecidableEq, Repr

/-- The values of the locals before the main loop. -/
def ScanState.init : ScanState :=
  { i := 0, sawTagDelimiter := false, sawHtmlTag := false, sawBodyTag := false,
    inHead := false, sawContentBeforeHtml := false, headingOpen := false,
    openTagDepth := 0, selectDepth := 0, formatStack := [], tableStack := [], events := [] }

/-- What a main-loop iteration does: `FAIL(reason)`, or `continue` with new
locals. The iteration has no result (`noResult`, with the sink actions made
before) when one of its `int` sums exceeds `INT_MAX`, where the behaviour of
the source is undefined, or when an iteration bound of the embedding was too
small (which the bounds used rule out, see `attrLoop_ne_outOfFuel`). -/
inductive Step
  | fail (reason : swiftsoup_fallback_reason) (events : List Event)
  | next (st : ScanState)
  | noResult (events : List Event)
  deriving DecidableEq, Repr

/-- The index of the next `<` after the cursor in the text branch:
`nextTagPtr = (i + 1 < length) ? memchr(bytes + i + 1, '<', length - (i + 1)) : NULL;`
`nextTagIndex = nextTagPtr ? nextTagPtr - bytes : length`. -/
def nextTagIndex (bytes : List Byte) (length : Nat) (i : Nat) : Nat :=
  let nextTagPtr := if i + 1 < length then memchr bytes (i + 1) 0x3C (length - (i + 1)) else none
  match nextTagPtr with
  | some p => p
  | none => length

/-- The placement bookkeeping of the text branch over the span
`[i, nextTagIndex)`: a non-whitespace byte before `<html>` sets
`sawContentBeforeHtml`, and between `<html>` and `<body>` outside the head it
sets `sawBodyTag`. -/
def textSpanPlacement (bytes : List Byte) (st : ScanState) (nextTagIndex : Nat) : ScanState :=
  if !st.sawHtmlTag || (st.sawHtmlTag && !st.sawBodyTag && !st.inHead) then
    let sawNonWhitespace :=
      (List.range (nextTagIndex - st.i)).any (fun k => !isWhitespaceTable (byteAt bytes (st.i + k)))
    if sawNonWhitespace then
      let st2 : ScanState := if !st.sawHtmlTag then { st with sawContentBeforeHtml := true } else st
      if st2.sawHtmlTag && !st2.sawBodyTag && !st2.inHead then { st2 with sawBodyTag := true }
      else st2
    else st
  else st

/-- The text branch of the main loop (`bytes[i] != '<'`). -/
def textSpan (bytes : List Byte) (length : Nat) (st : ScanState) : Step :=
  let next := nextTagIndex bytes length st.i
  if (memchr bytes st.i 0x00 (next - st.i)).isSome then
    Step.fail SWIFTSOUP_FALLBACK_CONTAINS_NULL st.events
  else
    Step.next { textSpanPlacement bytes st next with i := next }

/-- How a search loop with a look-ahead condition (`j + 2 < length`,
`j + 1 < length`) ends: with a match at `j` (`break`), without a match (the
condition became false), or with no result: the `int` sum of the condition
is not below `length` and exceeds `INT_MAX`, or the iteration bound of the
embedding was used up. -/
inductive SearchEnd
  | found (j : Nat)
  | notFound
  | noResult
  deriving DecidableEq, Repr

/-- The comment search loop
`while (j + 2 < length) { if (bytes[j..j+2] == "-->") break; j++; }`
together with the test `j + 2 >= length` behind it: the position of the first
`-->` at or after `j`, if any; `n` bounds the evaluations of the loop
condition. -/
def findCommentEnd (bytes : List Byte) (length : Nat) : Nat → Nat → SearchEnd
  | 0, _ => SearchEnd.noResult
  | n + 1, j =>
    if j + 2 < length then
      if byteAt bytes j = 0x2D ∧ byteAt bytes (j + 1) = 0x2D ∧ byteAt bytes (j + 2) = 0x3E then
        SearchEnd.found j
      else findCommentEnd bytes length n (j + 1)
    else if j + 2 ≤ INT_MAX then SearchEnd.notFound
    else SearchEnd.noResult

/-- The loop `while (j < length && bytes[j] != '>') j++`. -/
def seekGt (bytes : List Byte) (length : Nat) (j : Nat) : Nat :=
  advanceWhile bytes length (fun b => b != 0x3E) (length - j) j

/-- The loop `while (j < length && isWhitespaceTable[bytes[j]]) j++`. -/
def skipWhitespace (bytes : List Byte) (length : Nat) (j : Nat) : Nat :=
  advanceWhile bytes length isWhitespaceTable (length - j) j

/-- The branch `next == '!'` of the decision scanner (comments and markup
declarations); the state already has `sawTagDelimiter` set. The sum `i + 4` of
the first test is an `int`: where it is not below `length` and exceeds
`INT_MAX`, the iteration has no result (`i + 3` is then representable or
below `length`). -/
def commentOrDeclaration (bytes : List Byte) (length : Nat) (st : ScanState) : Step :=
  let i := st.i
  if i + 4 < length ∧ byteAt bytes (i + 2) = 0x2D ∧ byteAt bytes (i + 3) = 0x2D ∧
      byteAt bytes (i + 4) = 0x2D then
    Step.fail SWIFTSOUP_FALLBACK_COMMENT_DASH_DASH_DASH st.events
  else if ¬ i + 4 < length ∧ INT_MAX < i + 4 then Step.noResult st.events
  else if i + 3 < length ∧ byteAt bytes (i + 2) = 0x2D ∧ byteAt bytes (i + 3) = 0x2D then
    match findCommentEnd bytes length (length - (i + 4) + 1) (i + 4) with
    | SearchEnd.found j => Step.next { st with i := j + 3 }
    | SearchEnd.notFound => Step.fail SWIFTSOUP_FALLBACK_MALFORMED_TAG st.events
    | SearchEnd.noResult => Step.noResult st.events
  else
    let j := seekGt bytes length (i + 2)
    if j ≥ length then Step.fail SWIFTSOUP_FALLBACK_MALFORMED_TAG st.events
    else Step.next { st with i := j + 1 }

/-- The tag-name loop shared by start and end tags:
`while (nameEnd < length && isNameCharTable[bytes[nameEnd]]) { if (b == ':') FAIL(NAMESPACED_TAG); nameEnd++; }`.
Result: `none` for the `FAIL`, otherwise the final `nameEnd`; `n` bounds the
remaining iterations. -/
def scanTagName (bytes : List Byte) (length : Nat) : Nat → Nat → Option Nat
  | 0, nameEnd => some nameEnd
  | n + 1, nameEnd =>
    if nameEnd < length ∧ isNameCharTable (byteAt bytes nameEnd) = true then
      if byteAt bytes nameEnd = 0x3A then none
      else scanTagName bytes length n (nameEnd + 1)
    else some nameEnd

/-- The table-stack update of an end tag. -/
def endTagTable (tagId : tag_id) (tableStack : List TableState) : List TableState :=
  if is_table_structure_tag tagId then
    match tableStack with
    | [] => []
    | state :: rest =>
      if tagId = TAG_TABLE then rest
      else
        let state1 : TableState :=
          if tagId = TAG_CAPTION then
            (if state.captionDepth > 0 then { state with captionDepth := state.captionDepth - 1 } else state)
          else if tagId = TAG_TBODY ∨ tagId = TAG_THEAD ∨ tagId = TAG_TFOOT then
            (if state.sectionDepth > 0 then { state with sectionDepth := state.sectionDepth - 1 } else state)
          else if tagId = TAG_TR then
            { (if state.trDepth > 0 then { state with trDepth := state.trDepth - 1 } else state) with
              cellDepth := 0 }
          else if tagId = TAG_TD ∨ tagId = TAG_TH then
            (if state.cellDepth > 0 then { state with cellDepth := state.cellDepth - 1 } else state)
          else state
        state1 :: rest
  else tableStack

/-- The search `for (k = formatCount - 1; k >= 0; k--) if (formatStack[k] == formatId) { idx = k; break; }`
on a stack whose head is the top: the distance from the top of the first
match, `none` for `idx = -1`. -/
def formatSearch (formatStack : List Nat) (formatId : Nat) : Option Nat :=
  match formatStack with
  | [] => none
  | x :: rest => if x = formatId then some 0 else (formatSearch rest formatId).map (fun d => d + 1)

/-- The formatting-stack update of an end tag: `none` for
`FAIL(FORMATTING_MISMATCH)`, otherwise the new stack. -/
def endTagFormatting (tagId : tag_id) (formatStack : List Nat) : Option (List Nat) :=
  let formatId := formatting_tag_id tagId
  if formatId ≥ 0 then
    match formatSearch formatStack (formatId.toNat % 256) with
    | none => some formatStack
    | some 0 => some formatStack.tail
    | some (_ + 1) => none
  else some formatStack

/-- The branch `next == '/'` of the decision scanner (end tags); the state
already has `sawTagDelimiter` set. -/
def endTag (bytes : List Byte) (length : Nat) (st : ScanState) : Step :=
  let nameStart := st.i + 2
  match scanTagName bytes length (length - nameStart) nameStart with
  | none => Step.fail SWIFTSOUP_FALLBACK_NAMESPACED_TAG st.events
  | some nameEnd =>
    if nameEnd = nameStart then Step.fail SWIFTSOUP_FALLBACK_MALFORMED_TAG st.events
    else if nameEnd < length ∧ (byteAt bytes nameEnd).val ≥ 0x80 then
      Step.fail SWIFTSOUP_FALLBACK_NON_ASCII_TAG_NAME st.events
    else
      let tagId := tag_id_for_ascii_lowercase bytes nameStart nameEnd
      if is_void_tag tagId then Step.fail SWIFTSOUP_FALLBACK_VOID_END_TAG st.events
      else
        let tableStack := endTagTable tagId st.tableStack
        let selectDepth :=
          if tagId = TAG_SELECT then (if st.selectDepth > 0 then st.selectDepth - 1 else st.selectDepth)
          else st.selectDepth
        let headingOpen := if is_heading_tag tagId then false else st.headingOpen
        match endTagFormatting tagId st.formatStack with
        | none => Step.fail SWIFTSOUP_FALLBACK_FORMATTING_MISMATCH st.events
        | some formatStack =>
          let inHead := if tagId = TAG_HEAD then false else st.inHead
          let sawBodyTag := if tagId = TAG_HEAD then st.sawBodyTag
            else if tagId = TAG_BODY then true else st.sawBodyTag
          let openTagDepth := if st.openTagDepth > 0 then st.openTagDepth - 1 else st.openTagDepth
          let j := seekGt bytes length nameEnd
          if j ≥ length then Step.fail SWIFTSOUP_FALLBACK_MALFORMED_TAG st.events
          else
            Step.next { st with
              i := j + 1, tableStack := tableStack, selectDepth := selectDepth,
              headingOpen := headingOpen, formatStack := formatStack, inHead := inHead,
              sawBodyTag := sawBodyTag, openTagDepth := openTagDepth }

/-- The branch `next == '?'` of the decision scanner (processing
instructions); the state already has `sawTagDelimiter` set. -/
def processingInstruction (bytes : List Byte) (length : Nat) (st : ScanState) : Step :=
  let j := seekGt bytes length (st.i + 2)
  if j ≥ length then Step.fail SWIFTSOUP_FALLBACK_MALFORMED_TAG st.events
  else Step.next { st with i := j + 1 }


/-- The table preflight of a start tag: `none` for `FAIL(TABLE_HEURISTICS)`,
otherwise the new table stack. -/
def startTagTable (tagId : tag_id) (tableStack : List TableState) : Option (List TableState) :=
  if tagId = TAG_TABLE then
    match tableStack with
    | [] => some [{ captionDepth := 0, sectionDepth := 0, trDepth := 0, cellDepth := 0 }]
    | top :: rest =>
      if top.cellDepth = 0 then none
      else some ({ captionDepth := 0, sectionDepth := 0, trDepth := 0, cellDepth := 0 } :: top :: rest)
  else
    match tableStack with
    | [] => if is_table_structure_tag tagId then none else some []
    | state :: rest =>
      if state.captionDepth > 0 ∧ is_table_structure_tag tagId = true then none
      else
        let updated : Option TableState :=
          if tagId = TAG_CAPTION then
            (if state.captionDepth > 0 then none
             else some { state with captionDepth := state.captionDepth + 1 })
          else if tagId = TAG_TBODY ∨ tagId = TAG_THEAD ∨ tagId = TAG_TFOOT then
            (if state.captionDepth > 0 then none
             else some { state with sectionDepth := state.sectionDepth + 1 })
          else if tagId = TAG_TR then
            (if state.captionDepth > 0 then none
             else some { state with trDepth := state.trDepth + 1, cellDepth := 0 })
          else if tagId = TAG_TD ∨ tagId = TAG_TH then
            (if state.captionDepth > 0 ∨ state.trDepth = 0 then none
             else some { state with cellDepth := state.cellDepth + 1 })
          else some state
        match updated with
        | none => none
        | some state1 =>
          if state1.captionDepth = 0 ∧ state1.trDepth = 0 ∧ is_table_outside_row_allowed tagId = false
          then none
          else some (state1 :: rest)

/-- The head/body placement update of a start tag, on
`(sawHtmlTag, sawBodyTag, inHead)` after the `TAG_HTML` check:
`none` for `FAIL(HEAD_BODY_PLACEMENT)`, otherwise the new `(sawBodyTag, inHead)`. -/
def startTagPlacement (tagId : tag_id) (sawHtmlTag sawBodyTag inHead sawContentBeforeHtml : Bool)
    (openTagDepth : Nat) : Option (Bool × Bool) :=
  if sawHtmlTag && !sawBodyTag then
    if tagId = TAG_HEAD then some (sawBodyTag, true)
    else if tagId = TAG_BODY then some (true, false)
    else if inHead then
      (if !is_head_allowed_tag tagId then some (true, false) else some (sawBodyTag, inHead))
    else if !is_head_allowed_tag tagId then some (true, inHead)
    else some (sawBodyTag, inHead)
  else if tagId = TAG_BODY then
    (if !sawHtmlTag && (sawContentBeforeHtml || decide (openTagDepth > 0)) then none
     else some (sawBodyTag, inHead))
  else some (sawBodyTag, inHead)

/-- The attribute-name loop of the decision scanner; `n` bounds the remaining
iterations. -/
def attrNameScan (bytes : List Byte) (length : Nat) :
    Nat → Nat → Except swiftsoup_fallback_reason Nat
  | 0, j => Except.ok j
  | n + 1, j =>
    let b := byteAt bytes j
    if j < length ∧ isWhitespaceTable b = false ∧ b ≠ 0x3D ∧ b ≠ 0x3E ∧ b ≠ 0x2F then
      if b.val ≥ 0x80 then Except.error SWIFTSOUP_FALLBACK_NON_ASCII_ATTRIBUTE_NAME
      else if b = 0x22 ∨ b = 0x27 ∨ b = 0x00 ∨ b = 0x3C ∨ b = 0x3E then
        Except.error SWIFTSOUP_FALLBACK_MALFORMED_ATTRIBUTE
      else attrNameScan bytes length n (j + 1)
    else Except.ok j

/-- The unquoted-value loop of the decision scanner: `none` for
`FAIL(MALFORMED_ATTRIBUTE)`; `n` bounds the remaining iterations. -/
def unquotedValueScan (bytes : List Byte) (length : Nat) : Nat → Nat → Option Nat
  | 0, j => some j
  | n + 1, j =>
    let b := byteAt bytes j
    if j < length ∧ isWhitespaceTable b = false ∧ b ≠ 0x3E then
      if b = 0x3C ∨ b = 0x22 ∨ b = 0x27 then none
      else unquotedValueScan bytes length n (j + 1)
    else some j

/-- The attribute value of the decision scanner, entered at `j < length` after
the `=` and the whitespace behind it: `none` for `FAIL(MALFORMED_ATTRIBUTE)`,
otherwise the position after the value. -/
def attrValue (bytes : List Byte) (length : Nat) (j : Nat) : Option Nat :=
  let b := byteAt bytes j
  if b = 0x22 ∨ b = 0x27 then
    let quote := b
    let j1 := j + 1
    if j1 ≥ length then none
    else
      match memchr bytes j1 quote (length - j1) with
      | none => none
      | some stop =>
        if (memchr bytes j1 0x00 (stop - j1)).isSome then none
        else some (stop + 1)
  else if b = 0x3C ∨ b = 0x3D then none
  else unquotedValueScan bytes length (length - j) j

/-- What one iteration of the attribute loop of the decision scanner does. -/
inductive AttrStep
  /-- A `FAIL(reason)` inside the iteration. -/
  | fail (reason : swiftsoup_fallback_reason) (events : List Event)
  /-- A `break` with `sawTagEnd = 1`: final `j` and `sawSelfClosing`. -/
  | ended (j : Nat) (sawSelfClosing : Bool) (events : List Event)
  /-- The end of the loop body: back to the loop condition with a new `j`. -/
  | again (j : Nat) (events : List Event)
  deriving DecidableEq, Repr

/-- One iteration of the attribute loop of the decision scanner, entered with
`j < length`. -/
def attrStep (bytes : List Byte) (length : Nat) (sinks : Sinks) (j : Nat) (events : List Event) :
    AttrStep :=
  let j1 := skipWhitespace bytes length j
  if j1 ≥ length then AttrStep.fail SWIFTSOUP_FALLBACK_MALFORMED_TAG events
  else if byteAt bytes j1 = 0x3E then AttrStep.ended (j1 + 1) false events
  else if byteAt bytes j1 = 0x2F ∧ j1 + 1 < length ∧ byteAt bytes (j1 + 1) = 0x3E then
    AttrStep.ended (j1 + 2) true events
  else
    let attrStart := j1
    match attrNameScan bytes length (length - j1) j1 with
    | Except.error reason => AttrStep.fail reason events
    | Except.ok j2 =>
      if attrStart = j2 then AttrStep.fail SWIFTSOUP_FALLBACK_MALFORMED_ATTRIBUTE events
      else
        let booleanIndex := boolean_attribute_index bytes attrStart j2
        let j3 := skipWhitespace bytes length j2
        if j3 < length ∧ byteAt bytes j3 = 0x3D then
          let j4 := skipWhitespace bytes length (j3 + 1)
          if j4 ≥ length then AttrStep.fail SWIFTSOUP_FALLBACK_MALFORMED_ATTRIBUTE events
          else
            match attrValue bytes length j4 with
            | none => AttrStep.fail SWIFTSOUP_FALLBACK_MALFORMED_ATTRIBUTE events
            | some j5 =>
              AttrStep.again j5
                (events ++ (if booleanIndex ≥ 0 then emitBoolean sinks attrStart booleanIndex 0
                            else []))
        else
          AttrStep.again j3
            (events ++ (if booleanIndex ≥ 0 then emitBoolean sinks attrStart booleanIndex 1
                        else []))

/-- How the attribute loop of the decision scanner ends. -/
inductive AttrResult
  /-- A `FAIL(reason)` inside the loop. -/
  | fail (reason : swiftsoup_fallback_reason) (events : List Event)
  /-- A `break` with `sawTagEnd = 1`: final `j` and `sawSelfClosing`. -/
  | ended (j : Nat) (sawSelfClosing : Bool) (events : List Event)
  /-- The loop condition `j < length` became false (`sawTagEnd = 0`). -/
  | noTagEnd (events : List Event)
  /-- The iteration bound of the embedding was too small. -/
  | outOfFuel
  deriving DecidableEq, Repr

/-- The attribute loop of the decision scanner (`while (j < length)`);
`n` bounds the remaining iterations. -/
def attrLoop (bytes : List Byte) (length : Nat) (sinks : Sinks) :
    Nat → Nat → List Event → AttrResult
  | 0, j, events => if j < length then AttrResult.outOfFuel else AttrResult.noTagEnd events
  | n + 1, j, events =>
    if j < length then
      match attrStep bytes length sinks j events with
      | AttrStep.fail reason events1 => AttrResult.fail reason events1
      | AttrStep.ended j1 sawSelfClosing events1 => AttrResult.ended j1 sawSelfClosing events1
      | AttrStep.again j1 events1 => attrLoop bytes length sinks n j1 events1
    else AttrResult.noTagEnd events

/-- The backward loop `while (scan > nameEnd && isWhitespaceTable[bytes[scan]]) scan--`;
`n` bounds the remaining iterations. -/
def scanBack (bytes : List Byte) (nameEnd : Nat) : Nat → Nat → Nat
  | 0, scan => scan
  | n + 1, scan =>
    if scan > nameEnd ∧ isWhitespaceTable (byteAt bytes scan) = true then
      scanBack bytes nameEnd n (scan - 1)
    else scan

/-- The self-closing determination after the attribute loop. -/
def selfClosingFlag (bytes : List Byte) (nameEnd j : Nat) (sawSelfClosing : Bool) : Bool :=
  if sawSelfClosing then true
  else if j > 0 then
    let scan := scanBack bytes nameEnd (j - 1 - nameEnd) (j - 1)
    decide (byteAt bytes scan = 0x2F)
  else false

/-- The raw-text branch for one of `script`, `style`, `textarea`; no result
where `skip_raw_text` has none. -/
def rawText (bytes : List Byte) (length : Nat) (tag : List Byte) (tagLen : Nat) (j : Nat)
    (st : ScanState) : Step :=
  match skip_raw_text bytes length tag tagLen j with
  | none => Step.noResult st.events
  | some newIndex =>
    if newIndex ≥ 0 then Step.next { st with i := newIndex.toNat }
    else Step.fail SWIFTSOUP_FALLBACK_RAW_TEXT_UNTERMINATED st.events

/-- The part of a start tag after the attribute loop ended with
`sawTagEnd = 1`: self-closing determination, self-closing hint, raw-text
skipping and the stack updates. The state `st` carries the locals as updated
by the preflight checks and the events of the attribute loop. -/
def startTagFinish (bytes : List Byte) (length : Nat) (sinks : Sinks) (tagId : tag_id)
    (nameStart nameEnd j : Nat) (sawSelfClosing : Bool) (st : ScanState) : Step :=
  let isSelfClosing := selfClosingFlag bytes nameEnd j sawSelfClosing
  let events :=
    if tagId = TAG_NONE ∧ sinks.recordSelfClosing = true then
      let tagLen := nameEnd - nameStart
      st.events ++ [Event.selfClosing nameStart
        ((List.range tagLen).map (fun k => asciiLowerTable (byteAt bytes (nameStart + k))))
        (tagLen : Int) (if isSelfClosing then 1 else 0)]
    else st.events
  let st1 : ScanState := { st with events := events }
  if !isSelfClosing ∧ tagId = TAG_SCRIPT then rawText bytes length (cstr "script") 6 j st1
  else if !isSelfClosing ∧ tagId = TAG_STYLE then rawText bytes length (cstr "style") 5 j st1
  else if !isSelfClosing ∧ tagId = TAG_TEXTAREA then rawText bytes length (cstr "textarea") 8 j st1
  else
    let formatId := formatting_tag_id tagId
    let formatStack :=
      if formatId ≥ 0 ∧ isSelfClosing = false ∧ is_void_tag tagId = false then
        (formatId.toNat % 256) :: st1.formatStack
      else st1.formatStack
    let selectDepth :=
      if tagId = TAG_SELECT ∧ isSelfClosing = false then st1.selectDepth + 1 else st1.selectDepth
    let openTagDepth := if isSelfClosing = false then st1.openTagDepth + 1 else st1.openTagDepth
    Step.next { st1 with
      i := j, formatStack := formatStack, selectDepth := selectDepth, openTagDepth := openTagDepth }

/-- What the first part of a start tag establishes before the attribute
loop: the classified tag, the bounds of its name, and the locals as updated
by the preflight checks. -/
structure StartTagHead where
  tagId : tag_id
  nameStart : Nat
  nameEnd : Nat
  st : ScanState
  deriving DecidableEq, Repr

/-- The first part of the start-tag branch: the tag name, its
classification, and the table, heading, paragraph and head/body checks, in
source order. `Except.error reason` stands for `FAIL(reason)`. -/
def startTagPreflight (bytes : List Byte) (length : Nat) (st : ScanState) :
    Except swiftsoup_fallback_reason StartTagHead :=
  let nameStart := st.i + 1
  match scanTagName bytes length (length - nameStart) nameStart with
  | none => Except.error SWIFTSOUP_FALLBACK_NAMESPACED_TAG
  | some nameEnd =>
    if nameEnd = nameStart then Except.error SWIFTSOUP_FALLBACK_MALFORMED_TAG
    else if nameEnd < length ∧ (byteAt bytes nameEnd).val ≥ 0x80 then
      Except.error SWIFTSOUP_FALLBACK_NON_ASCII_TAG_NAME
    else
      let tagId := tag_id_for_ascii_lowercase bytes nameStart nameEnd
      if tagId = TAG_HGROUP then Except.error SWIFTSOUP_FALLBACK_TABLE_HEURISTICS
      else
        match startTagTable tagId st.tableStack with
        | none => Except.error SWIFTSOUP_FALLBACK_TABLE_HEURISTICS
        | some tableStack =>
          if is_heading_tag tagId = true ∧ st.headingOpen = true then
            Except.error SWIFTSOUP_FALLBACK_FORMATTING_MISMATCH
          else
            let headingOpen := if is_heading_tag tagId then true else st.headingOpen
            if tagId = TAG_P ∧ st.formatStack ≠ [] then
              Except.error SWIFTSOUP_FALLBACK_FORMATTING_MISMATCH
            else if tagId = TAG_HTML ∧ st.sawContentBeforeHtml = true then
              Except.error SWIFTSOUP_FALLBACK_HEAD_BODY_PLACEMENT
            else
              let sawHtmlTag := if tagId = TAG_HTML then true else st.sawHtmlTag
              match startTagPlacement tagId sawHtmlTag st.sawBodyTag st.inHead
                  st.sawContentBeforeHtml st.openTagDepth with
              | none => Except.error SWIFTSOUP_FALLBACK_HEAD_BODY_PLACEMENT
              | some (sawBodyTag, inHead) =>
                Except.ok
                  { tagId := tagId, nameStart := nameStart, nameEnd := nameEnd,
                    st := { st with
                      tableStack := tableStack, headingOpen := headingOpen,
                      sawHtmlTag := sawHtmlTag, sawBodyTag := sawBodyTag, inHead := inHead } }

/-- The start-tag branch of the decision scanner (`next` is a name
character); the state already has `sawTagDelimiter` set. -/
def startTag (bytes : List Byte) (length : Nat) (sinks : Sinks) (st : ScanState) : Step :=
  match startTagPreflight bytes length st with
  | Except.error reason => Step.fail reason st.events
  | Except.ok head =>
    match attrLoop bytes length sinks (length - head.nameEnd) head.nameEnd head.st.events with
    | AttrResult.outOfFuel => Step.noResult head.st.events
    | AttrResult.fail reason events => Step.fail reason events
    | AttrResult.noTagEnd events => Step.fail SWIFTSOUP_FALLBACK_MALFORMED_TAG events
    | AttrResult.ended j sawSelfClosing events =>
      startTagFinish bytes length sinks head.tagId head.nameStart head.nameEnd j sawSelfClosing
        { head.st with events := events }

/-- One iteration of the main loop of the decision scanner, entered with
`i < length`. -/
def step (bytes : List Byte) (length : Nat) (sinks : Sinks) (st : ScanState) : Step :=
  if byteAt bytes st.i = 0x00 then Step.fail SWIFTSOUP_FALLBACK_CONTAINS_NULL st.events
  else if byteAt bytes st.i ≠ 0x3C then textSpan bytes length st
  else
    let st1 : ScanState := { st with sawTagDelimiter := true }
    if st1.i + 1 ≥ length then Step.fail SWIFTSOUP_FALLBACK_MALFORMED_TAG st1.events
    else
      let next := byteAt bytes (st1.i + 1)
      if next = 0x21 then commentOrDeclaration bytes length st1
      else if next = 0x2F then endTag bytes length st1
      else if next = 0x3F then processingInstruction bytes length st1
      else if isNameCharTable next = false then Step.fail SWIFTSOUP_FALLBACK_MALFORMED_TAG st1.events
      else startTag bytes length sinks st1

/-- What a call of the decision scanner produces: the returned `int`, the
value stored through `reasonOut`, and the trace of sink actions. -/
structure Outcome where
  ret : Int
  reason : swiftsoup_fallback_reason
  events : List Event
  deriving DecidableEq, Repr

/-- The code after the main loop: the end-of-input checks and the success return. -/
def finish (st : ScanState) : Outcome :=
  if !st.sawTagDelimiter then ⟨1, SWIFTSOUP_FALLBACK_NO_TAG_DELIMITER, st.events⟩
  else if st.headingOpen || decide (st.formatStack.length > 0) then
    ⟨1, SWIFTSOUP_FALLBACK_FORMATTING_MISMATCH, st.events⟩
  else if st.selectDepth > 0 then ⟨1, SWIFTSOUP_FALLBACK_TABLE_HEURISTICS, st.events⟩
  else ⟨0, SWIFTSOUP_FALLBACK_NONE, st.events⟩

/-- The main loop `while (i < length)` of the decision scanner followed by
the end-of-input checks; `n` bounds the remaining iterations. The result is
`none` when an iteration has no result (an `int` sum of the source exceeds
`INT_MAX`) and when the bound was too small. -/
def mainLoop (bytes : List Byte) (length : Nat) (sinks : Sinks) : Nat → ScanState → Option Outcome
  | 0, st => if st.i < length then none else some (finish st)
  | n + 1, st =>
    if st.i < length then
      match step bytes length sinks st with
      | Step.fail reason events => some ⟨1, reason, events⟩
      | Step.next st1 => mainLoop bytes length sinks n st1
      | Step.noResult _ => none
    else some (finish st)

/-- The function `swiftsoup_should_fallback_internal`. The buffer pointer may
be null (`none`); `reasonOut` is taken to be non-null and its final value is
the `reason` of the outcome. The main loop is run with the bound `length`
(every iteration advances `i`). The result is `none` where the behaviour of
the source is undefined because an `int` sum exceeds `INT_MAX`. -/
def swiftsoup_should_fallback_internal (bytes : Option (List Byte)) (length : Int)
    (sinks : Sinks) : Option Outcome :=
  match bytes with
  | none => some ⟨1, SWIFTSOUP_FALLBACK_MALFORMED_TAG, []⟩
  | some buf =>
    if length ≤ 0 then some ⟨1, SWIFTSOUP_FALLBACK_MALFORMED_TAG, []⟩
    else mainLoop buf length.toNat sinks length.toNat ScanState.init

/-- The entry point `swiftsoup_should_fallback`: callbacks, no pair buffer. -/
def swiftsoup_should_fallback (bytes : Option (List Byte)) (length : Int)
    (recordSelfClosing recordBoolean : Bool) : Option Outcome :=
  swiftsoup_should_fallback_internal bytes length
    { recordSelfClosing := recordSelfClosing, recordBoolean := recordBoolean, booleanBuf := false }

/-- The struct `boolean_occurrences_buf`: the integers stored in
`data[0 .. count)` and the two `int32_t` fields. -/
structure boolean_occurrences_buf where
  data : List Int
  count : Int
  capacity : Int
  deriving DecidableEq, Repr

/-- The function `boolean_occurrences_init`. -/
def boolean_occurrences_init : boolean_occurrences_buf :=
  { data := [], count := 0, capacity := 0 }

/-- The function `boolean_occurrences_append` on a non-null buffer, with
`realloc` taken to succeed: the buffer after the call, or `none` when the
doubling `buf->capacity * 2` exceeds `INT_MAX` (the `int32_t` product of the
source overflows). -/
def boolean_occurrences_append (buf : boolean_occurrences_buf) (index isBoolean : Int) :
    Option boolean_occurrences_buf :=
  if buf.count + 2 > buf.capacity then
    if buf.capacity ≠ 0 ∧ buf.capacity * 2 > (INT_MAX : Int) then none
    else
      let newCap : Int := if buf.capacity = 0 then 64 else buf.capacity * 2
      some { data := buf.data ++ [index, isBoolean], count := buf.count + 2, capacity := newCap }
  else some { buf with data := buf.data ++ [index, isBoolean], count := buf.count + 2 }

/-- The calls of `boolean_occurrences_append` of a scan, made in order on the
buffer. -/
def boolean_occurrences_fill :
    List (Int × Int) → boolean_occurrences_buf → Option boolean_occurrences_buf
  | [], buf => some buf
  | p :: rest, buf =>
    (boolean_occurrences_append buf p.1 p.2).bind (boolean_occurrences_fill rest)

/-- The function `boolean_occurrences_finish` on the buffer filled during a
scan from its initial state: the flat array handed back through `outPairs`
and the count stored through `outCount` (`count / 2`); `none` when an append
of the scan has no result. -/
def boolean_occurrences_finish (events : List Event) : Option (List Int × Int) :=
  (boolean_occurrences_fill (collectedPairs events) boolean_occurrences_init).map
    (fun buf => (buf.data, buf.count / 2))

/-- The entry point `swiftsoup_should_fallback_collect`: the outcome of the
scan together with `(*outBooleanPairs, *outBooleanCount)`. -/
def swiftsoup_should_fallback_collect (bytes : Option (List Byte)) (length : Int)
    (recordSelfClosing : Bool) : Option (Outcome × List Int × Int) :=
  (swiftsoup_should_fallback_internal bytes length
    { recordSelfClosing := recordSelfClosing, recordBoolean := false, booleanBuf := true }).bind
    (fun out => (boolean_occurrences_finish out.events).map (fun r => (out, r)))

/-- The decision scanner on a buffer of exactly `input.length` bytes, with
both callbacks installed. -/
def decide_input (input : List Byte) : Option Outcome :=
  swiftsoup_should_fallback (some input) (input.length : Int) true true


/-! ## Hint-only scanner (`swiftsoup_scan_hints_internal`) -/

/-- The loop of the hint-only scanner that looks for the `>` ending a start
tag, tracking quotes and the last non-whitespace byte. Result: the final `j`
and `isSelfClosing`; `n` bounds the remaining iterations. -/
def hintTagEnd (bytes : List Byte) (length : Nat) : Nat → Nat → Nat → Nat → Nat × Bool
  | 0, j, _, _ => (j, false)
  | n + 1, j, quote, lastNonWhitespace =>
    if j < length then
      let b := byteAt bytes j
      if quote ≠ 0 then
        (if b.val = quote % 256 then hintTagEnd bytes length n (j + 1) 0 lastNonWhitespace
         else hintTagEnd bytes length n (j + 1) quote lastNonWhitespace)
      else if b = 0x22 ∨ b = 0x27 then hintTagEnd bytes length n (j + 1) b.val lastNonWhitespace
      else if b = 0x3E then (j, decide (lastNonWhitespace = 0x2F))
      else if isWhitespaceTable b = false then hintTagEnd bytes length n (j + 1) quote b.val
      else hintTagEnd bytes length n (j + 1) quote lastNonWhitespace
    else (j, false)

/-- The attribute loop of the hint-only scanner (`while (attrIndex < length)`):
the events after the loop; `n` bounds the remaining iterations and `none`
marks a bound that was too small. -/
def hintAttrLoop (bytes : List Byte) (length : Nat) (sinks : Sinks) :
    Nat → Nat → List Event → Option (List Event)
  | 0, attrIndex, events => if attrIndex < length then none else some events
  | n + 1, attrIndex, events =>
    if attrIndex < length then
      let a1 := skipWhitespace bytes length attrIndex
      if a1 ≥ length then some events
      else if byteAt bytes a1 = 0x3E then some events
      else if byteAt bytes a1 = 0x2F ∧ a1 + 1 < length ∧ byteAt bytes (a1 + 1) = 0x3E then some events
      else
        let attrStart := a1
        let a2 := advanceWhile bytes length
          (fun b => !isWhitespaceTable b && b != 0x3D && b != 0x3E && b != 0x2F) (length - a1) a1
        if attrStart = a2 then some events
        else
          let attrEnd := a2
          let booleanIndex : Int :=
            if sinks.recordBoolean || sinks.booleanBuf then boolean_attribute_index bytes attrStart attrEnd
            else -1
          let a3 := skipWhitespace bytes length a2
          if a3 < length ∧ byteAt bytes a3 = 0x3D then
            let a4 := skipWhitespace bytes length (a3 + 1)
            if a4 ≥ length then some events
            else
              let a5 :=
                if byteAt bytes a4 = 0x22 ∨ byteAt bytes a4 = 0x27 then
                  let q := byteAt bytes a4
                  let a := a4 + 1
                  if a < length then
                    match memchr bytes a q (length - a) with
                    | none => length
                    | some found => found + 1
                  else a
                else
                  advanceWhile bytes length (fun b => !isWhitespaceTable b && b != 0x3E)
                    (length - a4) a4
              hintAttrLoop bytes length sinks n a5
                (events ++ (if booleanIndex ≥ 0 then emitBoolean sinks attrStart booleanIndex 0
                            else []))
          else
            hintAttrLoop bytes length sinks n a3
              (events ++ (if booleanIndex ≥ 0 then emitBoolean sinks attrStart booleanIndex 1
                          else []))
    else some events

/-- The processing-instruction search loop of the hint-only scanner
`while (j + 1 < length) { if (bytes[j] == '?' && bytes[j + 1] == '>') break; j++; }`
together with the test `j + 1 >= length` behind it: the position of the first
`?>` at or after `j`, if any; `n` bounds the evaluations of the loop
condition. -/
def findPiEnd (bytes : List Byte) (length : Nat) : Nat → Nat → SearchEnd
  | 0, _ => SearchEnd.noResult
  | n + 1, j =>
    if j + 1 < length then
      if byteAt bytes j = 0x3F ∧ byteAt bytes (j + 1) = 0x3E then SearchEnd.found j
      else findPiEnd bytes length n (j + 1)
    else if j + 1 ≤ INT_MAX then SearchEnd.notFound
    else SearchEnd.noResult

/-- What a main-loop iteration of the hint-only scanner does: `break`
(`stop`), or `continue` with a new cursor. The iteration has no result
(`noResult`, with the sink actions made before) when one of its `int` sums
exceeds `INT_MAX`, where the behaviour of the source is undefined, or when an
iteration bound of the embedding was too small. -/
inductive HintStep
  | stop (events : List Event)
  | next (i : Nat) (events : List Event)
  | noResult (events : List Event)
  deriving DecidableEq, Repr

/-- The cursor update `i = (j + 1 <= length) ? (j + 1) : length` of the
hint-only scanner: `none` when the `int` sum `j + 1` is not at most `length`
and exceeds `INT_MAX`. -/
def hintCursor (length j : Nat) : Option Nat :=
  if j + 1 ≤ length then some (j + 1)
  else if j + 1 ≤ INT_MAX then some length
  else none

/-- The end of an iteration of the hint-only scanner that sets the cursor
from `j` and goes on. -/
def hintContinue (length j : Nat) (events : List Event) : HintStep :=
  match hintCursor length j with
  | some i1 => HintStep.next i1 events
  | none => HintStep.noResult events

/-- One iteration of the main loop of the hint-only scanner, entered with
`i < length`. The sum `i + 3` of the comment test and the sums `j + 1` of the
cursor updates are `int`s: where one is not below (at most) `length` and
exceeds `INT_MAX`, the iteration has no result. -/
def hintStep (bytes : List Byte) (length : Nat) (sinks : Sinks) (i : Nat) (events : List Event) :
    HintStep :=
  if byteAt bytes i ≠ 0x3C then
    if i + 1 ≥ length then HintStep.stop events
    else
      match memchr bytes (i + 1) 0x3C (length - (i + 1)) with
      | none => HintStep.stop events
      | some found => HintStep.next found events
  else if i + 1 ≥ length then HintStep.stop events
  else
    let next := byteAt bytes (i + 1)
    if next = 0x21 then
      if i + 3 < length ∧ byteAt bytes (i + 2) = 0x2D ∧ byteAt bytes (i + 3) = 0x2D then
        match findCommentEnd bytes length (length - (i + 4) + 1) (i + 4) with
        | SearchEnd.found j => HintStep.next (j + 3) events
        | SearchEnd.notFound => HintStep.stop events
        | SearchEnd.noResult => HintStep.noResult events
      else if ¬ i + 3 < length ∧ INT_MAX < i + 3 then HintStep.noResult events
      else
        let j := seekGt bytes length (i + 2)
        hintContinue length j events
    else if next = 0x2F then
      let j := seekGt bytes length (i + 2)
      hintContinue length j events
    else if next = 0x3F then
      match findPiEnd bytes length (length - (i + 2) + 1) (i + 2) with
      | SearchEnd.found j => HintStep.next (j + 2) events
      | SearchEnd.notFound => HintStep.stop events
      | SearchEnd.noResult => HintStep.noResult events
    else if isNameCharTable next = false then HintStep.next (i + 1) events
    else
      let nameStart := i + 1
      let nameEnd := advanceWhile bytes length isNameCharTable (length - nameStart) nameStart
      if nameEnd = nameStart then HintStep.next (i + 1) events
      else
        let tagEnd := hintTagEnd bytes length (length - nameEnd) nameEnd 0 0
        let j := tagEnd.1
        let isSelfClosing := tagEnd.2
        let events1 :=
          if sinks.recordSelfClosing then
            events ++ [Event.selfClosing nameStart (slice bytes nameStart (nameEnd - nameStart))
              ((nameEnd - nameStart : Nat) : Int) (if isSelfClosing then 1 else 0)]
          else events
        match hintAttrLoop bytes length sinks (length - nameEnd) nameEnd events1 with
        | none => HintStep.noResult events1
        | some events2 => hintContinue length j events2

/-- The main loop `while (i < length)` of the hint-only scanner; `n` bounds
the remaining iterations. The result is `none` when an iteration has no
result (an `int` sum of the source exceeds `INT_MAX`) and when the bound was
too small. -/
def hintLoop (bytes : List Byte) (length : Nat) (sinks : Sinks) :
    Nat → Nat → List Event → Option (List Event)
  | 0, i, events => if i < length then none else some events
  | n + 1, i, events =>
    if i < length then
      match hintStep bytes length sinks i events with
      | HintStep.stop events1 => some events1
      | HintStep.next i1 events1 => hintLoop bytes length sinks n i1 events1
      | HintStep.noResult _ => none
    else some events

/-- The function `swiftsoup_scan_hints_internal`: the trace of sink actions of
the call. The main loop is run with the bound `length`. The result is `none`
where the behaviour of the source is undefined because an `int` sum exceeds
`INT_MAX`. -/
def swiftsoup_scan_hints_internal (bytes : Option (List Byte)) (length : Int) (sinks : Sinks) :
    Option (List Event) :=
  match bytes with
  | none => some []
  | some buf =>
    if length ≤ 0 then some []
    else hintLoop buf length.toNat sinks length.toNat 0 []

/-- The entry point `swiftsoup_scan_hints`. -/
def swiftsoup_scan_hints (bytes : Option (List Byte)) (length : Int)
    (recordSelfClosing recordBoolean : Bool) : Option (List Event) :=
  swiftsoup_scan_hints_internal bytes length
    { recordSelfClosing := recordSelfClosing, recordBoolean := recordBoolean, booleanBuf := false }

/-- The entry point `swiftsoup_scan_hints_collect`: the trace together with
`(*outBooleanPairs, *outBooleanCount)`. -/
def swiftsoup_scan_hints_collect (bytes : Option (List Byte)) (length : Int)
    (recordSelfClosing : Bool) : Option (List Event × List Int × Int) :=
  (swiftsoup_scan_hints_internal bytes length
    { recordSelfClosing := recordSelfClosing, recordBoolean := false, booleanBuf := true }).bind
    (fun events => (boolean_occurrences_finish events).map (fun r => (events, r)))

/-! ## Predicates used in the statements -/

/-- The iteration has a result. -/
def Step.Defined : Step → Prop
  | Step.noResult _ => False
  | _ => True

/-- The iteration of the hint-only scanner has a result. -/
def HintStep.Defined : HintStep → Prop
  | HintStep.noResult _ => False
  | _ => True

/-- A result of a main-loop iteration started at cursor `i` is well-behaved:
a `FAIL` carries a reason other than `NONE`, and a `continue` leaves the
cursor strictly greater than `i` and at most `length`. -/
def Step.Good (length i : Nat) : Step → Prop
  | Step.fail reason _ => reason ≠ SWIFTSOUP_FALLBACK_NONE
  | Step.next st => i < st.i ∧ st.i ≤ length
  | Step.noResult _ => True

/-- An outcome of the decision scanner respects the return contract: either
it returns 0 with reason `NONE` (code 0), or it returns 1 with one of the
thirteen other reasons (codes 1 to 13). -/
def Outcome.Contract (out : Outcome) : Prop :=
  (out.ret = 0 ∧ out.reason.code = 0) ∨
  (out.ret = 1 ∧ 1 ≤ out.reason.code ∧ out.reason.code ≤ 13)

/-- A result of an attribute-loop iteration started at `j` is well-behaved:
a `FAIL` carries a reason other than `NONE`, and in the other two cases the
new `j` is strictly greater and at most `length`. -/
def AttrStep.Good (length j : Nat) : AttrStep → Prop
  | AttrStep.fail reason _ => reason ≠ SWIFTSOUP_FALLBACK_NONE
  | AttrStep.ended j1 _ _ => j < j1 ∧ j1 ≤ length
  | AttrStep.again j1 _ => j < j1 ∧ j1 ≤ length

/-! ## Reference definitions for the refinement claims -/

/-- The recognized tags with their lowercase names, as enumerated by the
specification (47 entries). -/
def tagNameTable : List (List Byte × tag_id) :=
  [ (cstr "a", TAG_A), (cstr "b", TAG_B), (cstr "i", TAG_I), (cstr "u", TAG_U), (cstr "p", TAG_P),
    (cstr "em", TAG_EM), (cstr "strong", TAG_STRONG), (cstr "font", TAG_FONT),
    (cstr "h1", TAG_H1), (cstr "h2", TAG_H2), (cstr "h3", TAG_H3),
    (cstr "h4", TAG_H4), (cstr "h5", TAG_H5), (cstr "h6", TAG_H6),
    (cstr "table", TAG_TABLE), (cstr "tbody", TAG_TBODY), (cstr "thead", TAG_THEAD),
    (cstr "tfoot", TAG_TFOOT), (cstr "tr", TAG_TR), (cstr "td", TAG_TD), (cstr "th", TAG_TH),
    (cstr "caption", TAG_CAPTION), (cstr "colgroup", TAG_COLGROUP), (cstr "col", TAG_COL),
    (cstr "base", TAG_BASE), (cstr "meta", TAG_META), (cstr "title", TAG_TITLE),
    (cstr "style", TAG_STYLE), (cstr "script", TAG_SCRIPT), (cstr "link", TAG_LINK),
    (cstr "br", TAG_BR), (cstr "hr", TAG_HR), (cstr "img", TAG_IMG), (cstr "embed", TAG_EMBED),
    (cstr "input", TAG_INPUT), (cstr "wbr", TAG_WBR), (cstr "area", TAG_AREA),
    (cstr "param", TAG_PARAM), (cstr "track", TAG_TRACK), (cstr "source", TAG_SOURCE),
    (cstr "noscript", TAG_NOSCRIPT), (cstr "hgroup", TAG_HGROUP),
    (cstr "html", TAG_HTML), (cstr "head", TAG_HEAD), (cstr "body", TAG_BODY),
    (cstr "textarea", TAG_TEXTAREA), (cstr "select", TAG_SELECT) ]

/-- The reference classifier of the specification: the tag whose lowercase
name equals the ASCII-lowercased byte sequence, `TAG_NONE` when there is none. -/
def tag_for (name : List Byte) : tag_id :=
  match tagNameTable.find? (fun p => p.1 == name.map asciiLowerTable) with
  | some p => p.2
  | none => TAG_NONE

/-- The ASCII-lowercased bytes of the range `[start, stop)` of a buffer. -/
def lowerSlice (bytes : List Byte) (start stop : Nat) : List Byte :=
  (slice bytes start (stop - start)).map asciiLowerTable

/-- The decision structure of `tag_id_for_ascii_lowercase`, read on the
lowercased name alone: the same dispatch on the length and on the first byte,
with each `matches_tag` comparison replaced by an equality of lists. It is an
intermediate form used to compare the classifier with `tagNameTable`. -/
def classifyLowered (name : List Byte) : tag_id :=
  let first := byteAt name 0
  let second := byteAt name 1
  match name.length with
  | 1 =>
    if first = 0x61 then TAG_A
    else if first = 0x62 then TAG_B
    else if first = 0x69 then TAG_I
    else if first = 0x70 then TAG_P
    else if first = 0x75 then TAG_U
    else TAG_NONE
  | 2 =>
    if first = 0x65 ∧ name = cstr "em" then TAG_EM
    else if first = 0x74 ∧ second = 0x72 then TAG_TR
    else if first = 0x74 ∧ second = 0x64 then TAG_TD
    else if first = 0x74 ∧ second = 0x68 then TAG_TH
    else if first = 0x62 ∧ name = cstr "br" then TAG_BR
    else if first = 0x68 ∧ second = 0x72 then TAG_HR
    else if first = 0x68 ∧ second.val ≥ 0x31 ∧ second.val ≤ 0x36 then
      tag_id.ofValue (TAG_H1.value + (second.val - 0x31))
    else TAG_NONE
  | 3 =>
    if first = 0x69 ∧ name = cstr "img" then TAG_IMG
    else if first = 0x63 ∧ name = cstr "col" then TAG_COL
    else if first = 0x77 ∧ name = cstr "wbr" then TAG_WBR
    else TAG_NONE
  | 4 =>
    if first = 0x62 ∧ name = cstr "base" then TAG_BASE
    else if first = 0x6D ∧ name = cstr "meta" then TAG_META
    else if first = 0x6C ∧ name = cstr "link" then TAG_LINK
    else if first = 0x62 ∧ name = cstr "body" then TAG_BODY
    else if first = 0x68 ∧ name = cstr "head" then TAG_HEAD
    else if first = 0x68 ∧ name = cstr "html" then TAG_HTML
    else if first = 0x61 ∧ name = cstr "area" then TAG_AREA
    else if first = 0x66 ∧ name = cstr "font" then TAG_FONT
    else TAG_NONE
  | 5 =>
    if first = 0x74 ∧ name = cstr "title" then TAG_TITLE
    else if first = 0x73 ∧ name = cstr "style" then TAG_STYLE
    else if first = 0x69 ∧ name = cstr "input" then TAG_INPUT
    else if first = 0x65 ∧ name = cstr "embed" then TAG_EMBED
    else if first = 0x74 ∧ name = cstr "table" then TAG_TABLE
    else if first = 0x74 ∧ name = cstr "tbody" then TAG_TBODY
    else if first = 0x74 ∧ name = cstr "thead" then TAG_THEAD
    else if first = 0x74 ∧ name = cstr "tfoot" then TAG_TFOOT
    else if first = 0x74 ∧ name = cstr "track" then TAG_TRACK
    else if first = 0x70 ∧ name = cstr "param" then TAG_PARAM
    else TAG_NONE
  | 6 =>
    if first = 0x73 ∧ name = cstr "script" then TAG_SCRIPT
    else if first = 0x73 ∧ name = cstr "select" then TAG_SELECT
    else if first = 0x73 ∧ name = cstr "source" then TAG_SOURCE
    else if first = 0x73 ∧ name = cstr "strong" then TAG_STRONG
    else if first = 0x68 ∧ name = cstr "hgroup" then TAG_HGROUP
    else TAG_NONE
  | 7 =>
    if first = 0x63 ∧ name = cstr "caption" then TAG_CAPTION
    else TAG_NONE
  | 8 =>
    if first = 0x63 ∧ name = cstr "colgroup" then TAG_COLGROUP
    else if first = 0x6E ∧ name = cstr "noscript" then TAG_NOSCRIPT
    else if first = 0x74 ∧ name = cstr "textarea" then TAG_TEXTAREA
    else TAG_NONE
  | _ => TAG_NONE

/-! ## Reachable loop states -/

/-- The locals `st` occur at an iteration boundary of the main loop of the
decision scanner run on `bytes`: they are the initial locals, or the result
of an iteration that ended in `continue` from locals that occur. -/
inductive Reaches (bytes : List Byte) (length : Nat) (sinks : Sinks) : ScanState → Prop
  | init : Reaches bytes length sinks ScanState.init
  | next {st st1 : ScanState} :
      Reaches bytes length sinks st → st.i < length →
      step bytes length sinks st = Step.next st1 → Reaches bytes length sinks st1

/-- The pair `(j, events)` occurs at an iteration boundary of the attribute
loop entered with `(j0, events0)`. -/
inductive AttrReaches (bytes : List Byte) (length : Nat) (sinks : Sinks) (j0 : Nat)
    (events0 : List Event) : Nat → List Event → Prop
  | start : AttrReaches bytes length sinks j0 events0 j0 events0
  | again {j j1 : Nat} {events events1 : List Event} :
      AttrReaches bytes length sinks j0 events0 j events → j < length →
      attrStep bytes length sinks j events = AttrStep.again j1 events1 →
      AttrReaches bytes length sinks j0 events0 j1 events1

/-- The attribute loop of the start tag at the cursor of `st` arrives at the
position `j` with the events `events`: the cursor is on a `<` followed by a
name character, the preflight checks of the start tag pass, and `(j, events)`
occurs at an iteration boundary of its attribute loop with `j < length`. -/
def AtAttribute (bytes : List Byte) (length : Nat) (sinks : Sinks) (st : ScanState)
    (j : Nat) (events : List Event) : Prop :=
  byteAt bytes st.i = 0x3C ∧ st.i + 1 < length ∧
  isNameCharTable (byteAt bytes (st.i + 1)) = true ∧
  ∃ head, startTagPreflight bytes length { st with sawTagDelimiter := true } = Except.ok head ∧
    AttrReaches bytes length sinks head.nameEnd head.st.events j events ∧ j < length

/-- The attribute that the attribute loop meets at position `j` (after the
whitespace from `j` on) has a name, and a 0x00 byte lies in the run of bytes
of that name (the bytes up to the first whitespace, `=`, `>` or `/`). -/
def NullInAttrName (bytes : List Byte) (length : Nat) (j : Nat) : Prop :=
  let a := skipWhitespace bytes length j
  a < length ∧ byteAt bytes a ≠ 0x3E ∧
  ¬ (byteAt bytes a = 0x2F ∧ a + 1 < length ∧ byteAt bytes (a + 1) = 0x3E) ∧
  ∃ k, a ≤ k ∧ k < length ∧ byteAt bytes k = 0x00 ∧
    ∀ m, a ≤ m → m < k →
      isWhitespaceTable (byteAt bytes m) = false ∧ byteAt bytes m ≠ 0x3D ∧
      byteAt bytes m ≠ 0x3E ∧ byteAt bytes m ≠ 0x2F

/-- The attribute that the attribute loop meets at position `j` has a
well-formed name followed by `=` and a value that opens with a quote at `q`,
and a 0x00 byte lies after the opening quote with no matching quote between
them. -/
def NullInQuotedValue (bytes : List Byte) (length : Nat) (j : Nat) : Prop :=
  let a := skipWhitespace bytes length j
  a < length ∧ byteAt bytes a ≠ 0x3E ∧
  ¬ (byteAt bytes a = 0x2F ∧ a + 1 < length ∧ byteAt bytes (a + 1) = 0x3E) ∧
  ∃ j2, attrNameScan bytes length (length - a) a = Except.ok j2 ∧ a ≠ j2 ∧
    skipWhitespace bytes length j2 < length ∧
    byteAt bytes (skipWhitespace bytes length j2) = 0x3D ∧
    ∃ q, q = skipWhitespace bytes length (skipWhitespace bytes length j2 + 1) ∧ q < length ∧
      (byteAt bytes q = 0x22 ∨ byteAt bytes q = 0x27) ∧
      ∃ k, q < k ∧ k < length ∧ byteAt bytes k = 0x00 ∧
        ∀ m, q < m → m < k → byteAt bytes m ≠ byteAt bytes q

/-- Equality of `Except` values is decidable when it is on both sides. -/
instance instDecidableEqExcept {ε α : Type} [DecidableEq ε] [DecidableEq α] :
    DecidableEq (Except ε α) := fun a b =>
  match a, b with
  | Except.error x, Except.error y =>
    if h : x = y then isTrue (by rw [h]) else isFalse (fun hc => h (by injection hc))
  | Except.ok x, Except.ok y =>
    if h : x = y then isTrue (by rw [h]) else isFalse (fun hc => h (by injection hc))
  | Except.error _, Except.ok _ => isFalse (fun hc => by cases hc)
  | Except.ok _, Except.error _ => isFalse (fun hc => by cases hc)

/-! ## Inputs, runs of iterations, and the tag sets of the specification -/

/-- The bytes `pat` stand in the buffer from position `p` on. -/
def OccursAt (bytes : List Byte) (p : Nat) (pat : List Byte) : Prop :=
  ∀ k, k < pat.length → byteAt bytes (p + k) = byteAt pat k

/-- The main loop of the decision scanner goes from the locals `st` to the
locals `st1` in zero or more iterations that all end in `continue`. -/
inductive Steps (bytes : List Byte) (length : Nat) (sinks : Sinks) : ScanState → ScanState → Prop
  | refl (st : ScanState) : Steps bytes length sinks st st
  | head {st st1 st2 : ScanState} :
      st.i < length → step bytes length sinks st = Step.next st1 →
      Steps bytes length sinks st1 st2 → Steps bytes length sinks st st2

/-- The void elements of the specification's glossary, by lowercase name. -/
def voidElementNames : List (List Byte) :=
  [ cstr "br", cstr "hr", cstr "col", cstr "img", cstr "embed", cstr "input", cstr "meta",
    cstr "base", cstr "wbr", cstr "area", cstr "link", cstr "param", cstr "track", cstr "source" ]

/-- The formatting elements of the specification's glossary, by lowercase
name, in the order of their stack ids 0 to 6. -/
def formattingElementNames : List (List Byte) :=
  [ cstr "a", cstr "b", cstr "i", cstr "u", cstr "em", cstr "font", cstr "strong" ]

/-- The table-structure tags other than `table`, by lowercase name. -/
def tableInnerNames : List (List Byte) :=
  [ cstr "tbody", cstr "thead", cstr "tfoot", cstr "tr", cstr "td", cstr "th",
    cstr "caption", cstr "colgroup", cstr "col" ]

/-- The raw-text elements of the specification's glossary, by lowercase name. -/
def rawTextNames : List (List Byte) :=
  [ cstr "script", cstr "style", cstr "textarea" ]

/-! ## Comparing the two boolean-hint deliveries -/

/-- The same action on the other boolean-hint sink: a `recordBoolean` call
becomes an append to the pair buffer and conversely; a `recordSelfClosing`
call is unchanged. -/
def Event.swap : Event → Event
  | Event.boolean pos index isBoolean => Event.append pos index isBoolean
  | Event.append pos index isBoolean => Event.boolean pos index isBoolean
  | Event.selfClosing pos name length isSelfClosing =>
    Event.selfClosing pos name length isSelfClosing

/-- The locals with every sink action moved to the other boolean-hint sink. -/
def ScanState.swapEvents (st : ScanState) : ScanState :=
  { st with events := st.events.map Event.swap }

/-- An iteration result with every sink action moved to the other sink. -/
def Step.swapEvents : Step → Step
  | Step.fail reason events => Step.fail reason (events.map Event.swap)
  | Step.next st => Step.next st.swapEvents
  | Step.noResult events => Step.noResult (events.map Event.swap)

/-- An attribute-iteration result with every sink action moved to the other sink. -/
def AttrStep.swapEvents : AttrStep → AttrStep
  | AttrStep.fail reason events => AttrStep.fail reason (events.map Event.swap)
  | AttrStep.ended j s events => AttrStep.ended j s (events.map Event.swap)
  | AttrStep.again j events => AttrStep.again j (events.map Event.swap)

/-- An attribute-loop result with every sink action moved to the other sink. -/
def AttrResult.swapEvents : AttrResult → AttrResult
  | AttrResult.fail reason events => AttrResult.fail reason (events.map Event.swap)
  | AttrResult.ended j s events => AttrResult.ended j s (events.map Event.swap)
  | AttrResult.noTagEnd events => AttrResult.noTagEnd (events.map Event.swap)
  | AttrResult.outOfFuel => AttrResult.outOfFuel

/-- An outcome with every sink action moved to the other sink. -/
def Outcome.swapEvents (out : Outcome) : Outcome :=
  { out with events := out.events.map Event.swap }

/-- A hint-only iteration result with every sink action moved to the other sink. -/
def HintStep.swapEvents : HintStep → HintStep
  | HintStep.stop events => HintStep.stop (events.map Event.swap)
  | HintStep.next i events => HintStep.next i (events.map Event.swap)
  | HintStep.noResult events => HintStep.noResult (events.map Event.swap)

/-- The flat array of `2 * N` integers that holds `N` pairs. -/
def flatPairs (pairs : List (Int × Int)) : List Int :=
  pairs.foldr (fun p acc => p.1 :: p.2 :: acc) []

/-- The sinks of the callback entry points: `recordBoolean` installed, no
pair buffer. -/
def callbackSinks (recordSelfClosing : Bool) : Sinks :=
  { recordSelfClosing := recordSelfClosing, recordBoolean := true, booleanBuf := false }

/-- The sinks of the collecting entry points: no `recordBoolean`, a pair
buffer. -/
def collectSinks (recordSelfClosing : Bool) : Sinks :=
  { recordSelfClosing := recordSelfClosing, recordBoolean := false, booleanBuf := true }

/-! ## Self-closing hints of the decision scanner -/

/-- A sink action is a well-formed self-closing hint of the decision scanner
on the buffer, or is not a self-closing hint at all. For a call
`recordSelfClosing(name, length, flag)` made for the tag name at `pos`: a `<`
stands just before `pos`; `length` is the number of bytes of `name`; the
bytes at `pos` are a maximal run of name characters of that length; `name` is
that run ASCII-lowercased; the classifier maps the run to `TAG_NONE`, and the
name is none of the recognized tag names; the flag is 0 or 1. -/
def SelfClosingHintOk (bytes : List Byte) (length : Nat) : Event → Prop
  | Event.selfClosing pos name len flag =>
    1 ≤ pos ∧ byteAt bytes (pos - 1) = 0x3C ∧ len = (name.length : Int) ∧
    0 < name.length ∧ pos + name.length ≤ length ∧
    (∀ k, k < name.length → isNameCharTable (byteAt bytes (pos + k)) = true) ∧
    (pos + name.length < length →
      isNameCharTable (byteAt bytes (pos + name.length)) = false) ∧
    name = lowerSlice bytes pos (pos + name.length) ∧
    tag_id_for_ascii_lowercase bytes pos (pos + name.length) = TAG_NONE ∧
    (∀ p ∈ tagNameTable, name ≠ p.1) ∧
    (flag = 0 ∨ flag = 1)
  | _ => True

/-- A `break` of an attribute-loop iteration with `sawTagEnd = 1` leaves `j`
just behind a `>`, and behind `/>` when `sawSelfClosing` is set. -/
def AttrStep.TagEnd (bytes : List Byte) : AttrStep → Prop
  | AttrStep.ended j1 s _ =>
    1 ≤ j1 ∧ byteAt bytes (j1 - 1) = 0x3E ∧ (s = true → 2 ≤ j1 ∧ byteAt bytes (j1 - 2) = 0x2F)
  | _ => True

/-- The events carried by the result of a main-loop iteration of the
decision scanner. -/
def Step.events : Step → List Event
  | Step.fail _ events => events
  | Step.next st => st.events
  | Step.noResult events => events

/-- The events carried by the result of an attribute-loop iteration. -/
def AttrStep.events : AttrStep → List Event
  | AttrStep.fail _ events => events
  | AttrStep.ended _ _ events => events
  | AttrStep.again _ events => events

/-- The events carried by the result of the attribute loop. -/
def AttrResult.events : AttrResult → List Event
  | AttrResult.fail _ events => events
  | AttrResult.ended _ _ events => events
  | AttrResult.noTagEnd events => events
  | AttrResult.outOfFuel => []

/-- The events carried by the result of a main-loop iteration of the
hint-only scanner. -/
def HintStep.events : HintStep → List Event
  | HintStep.stop events => events
  | HintStep.next _ events => events
  | HintStep.noResult events => events

/-- A result of a main-loop iteration of the hint-only scanner started at
cursor `i` is well-behaved: a `continue` leaves the cursor strictly greater
than `i` and at most `length`. -/
def HintStep.Good (length i : Nat) : HintStep → Prop
  | HintStep.stop _ => True
  | HintStep.next i1 _ => i < i1 ∧ i1 ≤ length
  | HintStep.noResult _ => True

/-- The event is a call of the self-closing callback. -/
def Event.isSelfClosing : Event → Bool
  | Event.selfClosing _ _ _ _ => true
  | _ => false

/-- The event is a boolean hint (a `recordBoolean` call or a pair appended to
the pair buffer) made for an attribute name that starts at a position in
`[lo, hi)`: its index is the non-negative value of `boolean_attribute_index`
on a range starting there, and its flag is 0 or 1. -/
def Event.IsBooleanHint (bytes : List Byte) (lo hi : Nat) : Event → Prop
  | Event.selfClosing _ _ _ _ => False
  | Event.boolean pos index isBoolean =>
    lo ≤ pos ∧ pos < hi ∧ 0 ≤ index ∧
    (∃ stop, index = boolean_attribute_index bytes pos stop) ∧ (isBoolean = 0 ∨ isBoolean = 1)
  | Event.append pos index isBoolean =>
    lo ≤ pos ∧ pos < hi ∧ 0 ≤ index ∧
    (∃ stop, index = boolean_attribute_index bytes pos stop) ∧ (isBoolean = 0 ∨ isBoolean = 1)

/-- The event, if it is a boolean hint, has an index in `0..30` and a flag
that is 0 or 1. -/
def Event.BooleanInRange : Event → Prop
  | Event.selfClosing _ _ _ _ => True
  | Event.boolean _ index isBoolean => 0 ≤ index ∧ index ≤ 30 ∧ (isBoolean = 0 ∨ isBoolean = 1)
  | Event.append _ index isBoolean => 0 ≤ index ∧ index ≤ 30 ∧ (isBoolean = 0 ∨ isBoolean = 1)

/-- Reference definition for `skip_raw_text`, the end-tag test: at the index
`p` there is room for `</`, the name and one more byte (`p + L + 2 < length`),
`bytes[p]` is `<`, `bytes[p+1]` is `/`, and the `L` bytes from `p + 2` equal
the name `tag` under ASCII-case-insensitive comparison. -/
def rawEndAt (bytes : List Byte) (length : Nat) (tag : List Byte) (p : Nat) : Bool :=
  decide (p + tag.length + 2 < length) && byteAt bytes p == 0x3C && byteAt bytes (p + 1) == 0x2F &&
  (List.range tag.length).all
    (fun k => asciiLowerTable (byteAt bytes (p + 2 + k)) == asciiLowerTable (byteAt tag k))

/-- Reference definition for `skip_raw_text`, in the words of the
specification: `p` is the smallest index at or after `start` that passes the
end-tag test, `e` is the smallest index at or after `p + 2 + L` (and below
`length`) with `bytes[e]` equal to `>`; the result is `e + 1` when both exist
and the sentinel `-1` otherwise. -/
def skip_raw_text_ref (bytes : List Byte) (length : Nat) (tag : List Byte) (start : Nat) : Int :=
  match (List.range' start (length - start)).find? (rawEndAt bytes length tag) with
  | none => -1
  | some p =>
    match (List.range' (p + 2 + tag.length) (length - (p + 2 + tag.length))).find?
        (fun e => byteAt bytes e == 0x3E) with
    | none => -1
    | some e => ((e + 1 : Nat) : Int)

/-- The byte offsets of the attribute names for which the `recordBoolean`
calls of a trace were made, in the order of the calls. -/
def booleanPositions (events : List Event) : List Nat :=
  events.filterMap (fun e => match e with
    | Event.boolean pos _ _ => some pos
    | _ => none)

/-- The byte offsets of the tag names for which the `recordSelfClosing` calls
of a trace were made, in the order of the calls. -/
def selfClosingPositions (events : List Event) : List Nat :=
  events.filterMap (fun e => match e with
    | Event.selfClosing pos _ _ _ => some pos
    | _ => none)

/-- The properly nested sequences of formatting tags,
`W ::= empty | <X> W </X> W`, where the name of the start tag and the name of
the end tag are the same formatting element name in any ASCII letter case. -/
inductive Nested : List Byte → Prop
  | empty : Nested []
  | node {o c w1 w2 : List Byte} :
      o.map asciiLowerTable ∈ formattingElementNames →
      c.map asciiLowerTable = o.map asciiLowerTable →
      Nested w1 → Nested w2 →
      Nested (0x3C :: (o ++ 0x3E :: (w1 ++ 0x3C :: 0x2F :: (c ++ 0x3E :: w2))))

/-- The input `<b>` repeated `n` times followed by `</b>` repeated `n` times. -/
def nestedB (n : Nat) : List Byte :=
  (List.replicate n (cstr "<b>")).flatten ++ (List.replicate n (cstr "</b>")).flatten

/-- The three syntactic classes of the table grammar: a table, a sequence of
rows, a sequence of cells. -/
inductive TableKind
  | table
  | rows
  | cells
  deriving DecidableEq, Repr

/-- The well-formed tables:
`Table ::= <table> Row* </table>`, `Row ::= <tr> Cell* </tr>`,
`Cell ::= <td> (Text | Table)? </td>`, where `Text` is a non-empty run of
bytes containing neither `<` nor 0x00. `TableGen TableKind.table w` says that
`w` is a table, `TableGen TableKind.rows w` that `w` is a sequence of rows,
`TableGen TableKind.cells w` that `w` is a sequence of cells. -/
inductive TableGen : TableKind → List Byte → Prop
  | table {rs : List Byte} :
      TableGen TableKind.rows rs →
      TableGen TableKind.table (cstr "<table>" ++ (rs ++ cstr "</table>"))
  | rowsNil : TableGen TableKind.rows []
  | rowsCons {cs rs : List Byte} :
      TableGen TableKind.cells cs → TableGen TableKind.rows rs →
      TableGen TableKind.rows (cstr "<tr>" ++ (cs ++ (cstr "</tr>" ++ rs)))
  | cellsNil : TableGen TableKind.cells []
  | cellEmpty {cs : List Byte} :
      TableGen TableKind.cells cs →
      TableGen TableKind.cells (cstr "<td>" ++ (cstr "</td>" ++ cs))
  | cellText {t cs : List Byte} :
      t ≠ [] → (∀ b ∈ t, b ≠ 0x3C ∧ b ≠ 0x00) → TableGen TableKind.cells cs →
      TableGen TableKind.cells (cstr "<td>" ++ (t ++ (cstr "</td>" ++ cs)))
  | cellTable {tb cs : List Byte} :
      TableGen TableKind.table tb → TableGen TableKind.cells cs →
      TableGen TableKind.cells (cstr "<td>" ++ (tb ++ (cstr "</td>" ++ cs)))

/-- The table stack that the decision scanner has when it stands before a
word of the given class: before a table, no frame is open or the innermost
frame is inside a cell of a row; before a sequence of rows the innermost frame
is fresh; before a sequence of cells the innermost frame is inside a row and
outside a cell. -/
def TableKind.Context : TableKind → List TableState → Prop
  | TableKind.table, ts => ts = [] ∨ ∃ rest, ts = ⟨0, 0, 1, 1⟩ :: rest
  | TableKind.rows, ts => ∃ rest, ts = ⟨0, 0, 0, 0⟩ :: rest
  | TableKind.cells, ts => ∃ rest, ts = ⟨0, 0, 1, 0⟩ :: rest

/-- The tags of the table grammar with their names. -/
def tableGenTags : List (List Byte × tag_id) :=
  [(cstr "table", TAG_TABLE), (cstr "tr", TAG_TR), (cstr "td", TAG_TD)]

/-- The byte string `C` contains `</` followed by the name `T` under
ASCII-case-insensitive comparison: at some index `k` of `C` stand `<`, `/` and
then `|T|` bytes that equal the bytes of `T` after ASCII-lowercasing both. -/
def ContainsRawEnd (C T : List Byte) : Prop :=
  ∃ k, k + 2 + T.length ≤ C.length ∧ byteAt C k = 0x3C ∧ byteAt C (k + 1) = 0x2F ∧
    ∀ m, m < T.length →
      asciiLowerTable (byteAt C (k + 2 + m)) = asciiLowerTable (byteAt T m)

/-- The raw-text tags with their names, as used by the raw-text branch of the
decision scanner. -/
def rawTextTags : List (List Byte × tag_id) :=
  [(cstr "script", TAG_SCRIPT), (cstr "style", TAG_STYLE), (cstr "textarea", TAG_TEXTAREA)]

/-! ## The placement flags of the decision scanner -/

/-- The locals `st` with the two placement flags `sawBodyTag` and `inHead`
overwritten by the given values. -/
def ScanState.withPlacement (st : ScanState) (sawBodyTag inHead : Bool) : ScanState :=
  { st with sawBodyTag := sawBodyTag, inHead := inHead }

/-- The result of an iteration with the two placement flags of the new
locals cleared. -/
def Step.clearPlacement : Step → Step
  | Step.fail reason events => Step.fail reason events
  | Step.next st => Step.next (st.withPlacement false false)
  | Step.noResult events => Step.noResult events

/-- The start-tag branch of the iteration at the cursor of `st` gets as far
as its head/body placement block, with the tag classified as `tagId`: the
cursor is on a `<` followed by a name character, and the checks that the
branch makes before that block pass (the name is not namespaced, not empty
and not followed by a byte `>= 0x80`, the tag is not `hgroup`, the table
heuristics accept it, no heading is open when it is a heading, and the
formatting stack is empty when it is `p`). -/
def AtPlacementCheck (bytes : List Byte) (length : Nat) (st : ScanState) (tagId : tag_id) :
    Prop :=
  byteAt bytes st.i = 0x3C ∧ st.i + 1 < length ∧
  isNameCharTable (byteAt bytes (st.i + 1)) = true ∧
  ∃ nameEnd,
    scanTagName bytes length (length - (st.i + 1)) (st.i + 1) = some nameEnd ∧
    nameEnd ≠ st.i + 1 ∧
    ¬ (nameEnd < length ∧ (byteAt bytes nameEnd).val ≥ 0x80) ∧
    tag_id_for_ascii_lowercase bytes (st.i + 1) nameEnd = tagId ∧
    tagId ≠ TAG_HGROUP ∧
    (startTagTable tagId st.tableStack).isSome = true ∧
    ¬ (is_heading_tag tagId = true ∧ st.headingOpen = true) ∧
    ¬ (tagId = TAG_P ∧ st.formatStack ≠ [])

/-! ## Checked embedding: reads that can leave the buffer

A second embedding of the two scanners and of the functions they call, in
which every read of the input buffer and of a table of the boolean
dictionary is checked: a function of this section returns `none` as soon as
it reads at an index that is not an index of the buffer (or table), and
otherwise `some` of what the function of the first embedding returns. Where
an `int` sum of the source exceeds `INT_MAX`, the behaviour of the source is
undefined (the compiled code may read outside the buffer from there on), and
a function of this section has, like the function of the first embedding, no
result (`noResult`, or `none` inside the `some`): nothing is said about the
reads of such a scan. Reads of the 256-entry character tables (indexed by a
`uint8_t`) and of the string literals passed as tag names are not checked. -/

/-- The read `bytes[k]`, `none` when `k` is not an index of the buffer. -/
def readAt (bytes : List Byte) (k : Nat) : Option Byte := bytes[k]?

/-- The read `table[k]` of a table, `none` when `k` is not an index of it. -/
def tableAt {α : Type} (table : List α) (k : Nat) : Option α := table[k]?

/-- The inner comparison loop of `boolean_attribute_index`, with checked
reads of `bytes[start + j]` and of `target[j]` (the name with its
terminating NUL). -/
def boolean_attribute_compare_checked (bytes : List Byte) (start : Nat) (target : List Byte) :
    Nat → Nat → Option (Option Bool)
  | 0, _ => some (some true)
  | n + 1, j =>
    (readAt bytes (start + j)).bind fun b =>
      if b.val ≥ 0x80 then some none
      else
        (readAt (target ++ [0]) j).bind fun t =>
          if asciiLowerTable b ≠ t then some (some false)
          else boolean_attribute_compare_checked bytes start target n (j + 1)

/-- The candidate loop of `boolean_attribute_index`, with checked reads of
`booleanAttrBucketIndices[startOffset + idx]`, `booleanAttrLengths[entryIndex]`
and `booleanAttrNames[entryIndex]`. -/
def boolean_attribute_bucket_checked (bytes : List Byte) (start length : Nat)
    (startOffset : Nat) : Nat → Nat → Option Int
  | 0, _ => some (-1)
  | n + 1, idx =>
    (tableAt booleanAttrBucketIndices (startOffset + idx)).bind fun entryIndex =>
      (tableAt booleanAttrLengths entryIndex).bind fun entryLength =>
        if entryLength ≠ length then
          boolean_attribute_bucket_checked bytes start length startOffset n (idx + 1)
        else
          (tableAt booleanAttrNames entryIndex).bind fun target =>
            (boolean_attribute_compare_checked bytes start target length 0).bind fun m =>
              match m with
              | none => some (-1)
              | some true => some (entryIndex : Int)
              | some false =>
                boolean_attribute_bucket_checked bytes start length startOffset n (idx + 1)

/-- The function `boolean_attribute_index(bytes, start, end)`, with checked
reads of `booleanAttrLengthLookup[length]`, `bytes[start]`,
`booleanAttrBucketStart[lowerFirst]` and `booleanAttrBucketCount[lowerFirst]`. -/
def boolean_attribute_index_checked (bytes : List Byte) (start stop : Nat) : Option Int :=
  let length : Int := (stop : Int) - (start : Int)
  if length ≤ 0 ∨ length ≥ 32 then some (-1)
  else
    (tableAt booleanAttrLengthLookup length.toNat).bind fun known =>
      if known = 0 then some (-1)
      else
        (readAt bytes start).bind fun first =>
          if first.val ≥ 0x80 then some (-1)
          else
            let lowerFirst := asciiLowerTable first
            if lowerFirst.val ≥ 128 then some (-1)
            else
              (tableAt booleanAttrBucketStart lowerFirst.val).bind fun startOffset =>
                (tableAt booleanAttrBucketCount lowerFirst.val).bind fun count =>
                  boolean_attribute_bucket_checked bytes start length.toNat startOffset count 0

/-- The loop `while (j < length && cond(bytes[j])) j++` with a checked read. -/
def advanceWhile_checked (bytes : List Byte) (length : Nat) (cond : Byte → Bool) :
    Nat → Nat → Option Nat
  | 0, j => some j
  | n + 1, j =>
    if j < length then
      (readAt bytes j).bind fun b =>
        if cond b = true then advanceWhile_checked bytes length cond n (j + 1) else some j
    else some j

/-- The library call `memchr(bytes + start, c, n)`, which requires the `n`
bytes from `start` on to be readable: `none` when they are not all inside
the buffer. -/
def memchr_checked (bytes : List Byte) (start : Nat) (c : Byte) (n : Nat) : Option (Option Nat) :=
  if start + n ≤ bytes.length then some (memchr bytes start c n) else none

/-- The loop of `matches_tag` with a checked read of `bytes[start + i]`;
`n` counts the remaining iterations. -/
def matches_tag_loop_checked (bytes : List Byte) (start : Nat) (tag : List Byte) :
    Nat → Nat → Option Bool
  | 0, _ => some true
  | n + 1, i =>
    (readAt bytes (start + i)).bind fun b =>
      if b.val ≥ 0x80 then some false
      else if asciiLowerTable b ≠ byteAt tag i then some false
      else matches_tag_loop_checked bytes start tag n (i + 1)

/-- The function `matches_tag(bytes, start, end, tag, length)` with checked reads. -/
def matches_tag_checked (bytes : List Byte) (start stop : Nat) (tag : List Byte) (length : Nat) :
    Option Bool :=
  if (stop : Int) - (start : Int) ≠ (length : Int) then some false
  else matches_tag_loop_checked bytes start tag length 0

/-- One line `if (first == c && matches_tag(bytes, start, end, tag, n)) return t;`
of `tag_id_for_ascii_lowercase`, followed by the rest of the case. -/
def tagCase_checked (bytes : List Byte) (start stop : Nat) (first c : Byte) (tag : List Byte)
    (n : Nat) (t : tag_id) (rest : Option tag_id) : Option tag_id :=
  if first = c then
    (matches_tag_checked bytes start stop tag n).bind fun m => if m = true then some t else rest
  else rest

/-- The function `tag_id_for_ascii_lowercase(bytes, start, end)` with checked
reads of `bytes[start]`, of `bytes[start + 1]` (read in `case 2` when the
first byte is `t` or `h`) and inside `matches_tag`. -/
def tag_id_for_ascii_lowercase_checked (bytes : List Byte) (start stop : Nat) : Option tag_id :=
  let length : Int := (stop : Int) - (start : Int)
  if length ≤ 0 then some TAG_NONE
  else
    (readAt bytes start).bind fun firstByte =>
      let first := asciiLowerTable firstByte
      match length.toNat with
      | 1 =>
        some (if first = 0x61 then TAG_A
          else if first = 0x62 then TAG_B
          else if first = 0x69 then TAG_I
          else if first = 0x70 then TAG_P
          else if first = 0x75 then TAG_U
          else TAG_NONE)
      | 2 =>
        let caseH : Option tag_id :=
          if first = 0x68 then
            (readAt bytes (start + 1)).bind fun secondByte =>
              let second := asciiLowerTable secondByte
              if second = 0x72 then some TAG_HR
              else if second.val ≥ 0x31 ∧ second.val ≤ 0x36 then
                some (tag_id.ofValue (TAG_H1.value + (second.val - 0x31)))
              else some TAG_NONE
          else some TAG_NONE
        let caseBr : Option tag_id :=
          tagCase_checked bytes start stop first 0x62 (cstr "br") 2 TAG_BR caseH
        let caseT : Option tag_id :=
          if first = 0x74 then
            (readAt bytes (start + 1)).bind fun secondByte =>
              let second := asciiLowerTable secondByte
              if second = 0x72 then some TAG_TR
              else if second = 0x64 then some TAG_TD
              else if second = 0x68 then some TAG_TH
              else caseBr
          else caseBr
        tagCase_checked bytes start stop first 0x65 (cstr "em") 2 TAG_EM caseT
      | 3 =>
        tagCase_checked bytes start stop first 0x69 (cstr "img") 3 TAG_IMG
          (tagCase_checked bytes start stop first 0x63 (cstr "col") 3 TAG_COL
            (tagCase_checked bytes start stop first 0x77 (cstr "wbr") 3 TAG_WBR
              (some TAG_NONE)))
      | 4 =>
        tagCase_checked bytes start stop first 0x62 (cstr "base") 4 TAG_BASE
          (tagCase_checked bytes start stop first 0x6D (cstr "meta") 4 TAG_META
            (tagCase_checked bytes start stop first 0x6C (cstr "link") 4 TAG_LINK
              (tagCase_checked bytes start stop first 0x62 (cstr "body") 4 TAG_BODY
                (tagCase_checked bytes start stop first 0x68 (cstr "head") 4 TAG_HEAD
                  (tagCase_checked bytes start stop first 0x68 (cstr "html") 4 TAG_HTML
                    (tagCase_checked bytes start stop first 0x61 (cstr "area") 4 TAG_AREA
                      (tagCase_checked bytes start stop first 0x66 (cstr "font") 4 TAG_FONT
                        (some TAG_NONE))))))))
      | 5 =>
        tagCase_checked bytes start stop first 0x74 (cstr "title") 5 TAG_TITLE
          (tagCase_checked bytes start stop first 0x73 (cstr "style") 5 TAG_STYLE
            (tagCase_checked bytes start stop first 0x69 (cstr "input") 5 TAG_INPUT
              (tagCase_checked bytes start stop first 0x65 (cstr "embed") 5 TAG_EMBED
                (tagCase_checked bytes start stop first 0x74 (cstr "table") 5 TAG_TABLE
                  (tagCase_checked bytes start stop first 0x74 (cstr "tbody") 5 TAG_TBODY
                    (tagCase_checked bytes start stop first 0x74 (cstr "thead") 5 TAG_THEAD
                      (tagCase_checked bytes start stop first 0x74 (cstr "tfoot") 5 TAG_TFOOT
                        (tagCase_checked bytes start stop first 0x74 (cstr "track") 5 TAG_TRACK
                          (tagCase_checked bytes start stop first 0x70 (cstr "param") 5 TAG_PARAM
                            (some TAG_NONE))))))))))
      | 6 =>
        tagCase_checked bytes start stop first 0x73 (cstr "script") 6 TAG_SCRIPT
          (tagCase_checked bytes start stop first 0x73 (cstr "select") 6 TAG_SELECT
            (tagCase_checked bytes start stop first 0x73 (cstr "source") 6 TAG_SOURCE
              (tagCase_checked bytes start stop first 0x73 (cstr "strong") 6 TAG_STRONG
                (tagCase_checked bytes start stop first 0x68 (cstr "hgroup") 6 TAG_HGROUP
                  (some TAG_NONE)))))
      | 7 =>
        tagCase_checked bytes start stop first 0x63 (cstr "caption") 7 TAG_CAPTION (some TAG_NONE)
      | 8 =>
        tagCase_checked bytes start stop first 0x63 (cstr "colgroup") 8 TAG_COLGROUP
          (tagCase_checked bytes start stop first 0x6E (cstr "noscript") 8 TAG_NOSCRIPT
            (tagCase_checked bytes start stop first 0x74 (cstr "textarea") 8 TAG_TEXTAREA
              (some TAG_NONE)))
      | _ => some TAG_NONE

/-- The operand `guard && test(bytes[k])` of a short-circuit conjunction: the
byte is read only when `guard` holds. -/
def guardedTest (guard : Bool) (bytes : List Byte) (k : Nat) (test : Byte → Bool) : Option Bool :=
  if guard = true then (readAt bytes k).bind fun b => some (test b) else some false

/-- The inner loop of `skip_raw_text` with a checked read of `bytes[j + 2 + k]`. -/
def skip_raw_text_name_checked (bytes : List Byte) (j : Nat) (tag : List Byte) :
    Nat → Nat → Option Nat
  | 0, k => some k
  | n + 1, k =>
    (readAt bytes (j + 2 + k)).bind fun b =>
      if b.val ≥ 0x80 ∨ asciiLowerTable b ≠ byteAt tag k then some k
      else skip_raw_text_name_checked bytes j tag n (k + 1)

/-- The outer loop of `skip_raw_text` with checked reads of `bytes[j]`,
`bytes[j + 1]` and inside its two inner loops. -/
def skip_raw_text_loop_checked (bytes : List Byte) (length : Nat) (tag : List Byte)
    (tagLen : Nat) : Nat → Nat → Option (Option Int)
  | 0, _ => some none
  | n + 1, j =>
    if j + tagLen + 2 < length then
      (guardedTest true bytes j (fun b => b == 0x3C)).bind fun t1 =>
        (guardedTest t1 bytes (j + 1) (fun b => b == 0x2F)).bind fun t2 =>
          if t2 = true then
            (skip_raw_text_name_checked bytes j tag tagLen 0).bind fun k =>
              if k = tagLen then
                let end0 := j + 2 + tagLen
                (advanceWhile_checked bytes length (fun b => b != 0x3E) (length - end0)
                    end0).bind fun stop =>
                  if stop ≥ length then some (some (-1))
                  else if stop + 1 ≤ length then some (some ((stop + 1 : Nat) : Int))
                  else some (some (length : Int))
              else skip_raw_text_loop_checked bytes length tag tagLen n (j + 1)
          else skip_raw_text_loop_checked bytes length tag tagLen n (j + 1)
    else if j + tagLen + 2 ≤ INT_MAX then some (some (-1))
    else some none

/-- The function `skip_raw_text(bytes, length, tag, tagLen, start)` with checked reads. -/
def skip_raw_text_checked (bytes : List Byte) (length : Nat) (tag : List Byte) (tagLen : Nat)
    (start : Nat) : Option (Option Int) :=
  skip_raw_text_loop_checked bytes length tag tagLen (length - start + 1) start

/-- The index of the next `<` after the cursor in the text branch, with the
checked `memchr`. -/
def nextTagIndex_checked (bytes : List Byte) (length : Nat) (i : Nat) : Option Nat :=
  (if i + 1 < length then memchr_checked bytes (i + 1) 0x3C (length - (i + 1))
   else some none).bind fun nextTagPtr =>
    match nextTagPtr with
    | some p => some p
    | none => some length

/-- The loop `while (j < nextTagIndex) { if (!isWhitespaceTable[bytes[j]]) { sawNonWhitespace = 1; break; } j++; }`
of the text branch with a checked read: the final `sawNonWhitespace`. -/
def sawNonWhitespace_checked (bytes : List Byte) (nextTagIndex : Nat) : Nat → Nat → Option Bool
  | 0, _ => some false
  | n + 1, j =>
    if j < nextTagIndex then
      (readAt bytes j).bind fun b =>
        if (!isWhitespaceTable b) = true then some true
        else sawNonWhitespace_checked bytes nextTagIndex n (j + 1)
    else some false

/-- The placement bookkeeping of the text branch with checked reads. -/
def textSpanPlacement_checked (bytes : List Byte) (st : ScanState) (nextTagIndex : Nat) :
    Option ScanState :=
  if !st.sawHtmlTag || (st.sawHtmlTag && !st.sawBodyTag && !st.inHead) then
    (sawNonWhitespace_checked bytes nextTagIndex (nextTagIndex - st.i) st.i).bind
      fun sawNonWhitespace =>
        if sawNonWhitespace then
          let st2 : ScanState :=
            if !st.sawHtmlTag then { st with sawContentBeforeHtml := true } else st
          if st2.sawHtmlTag && !st2.sawBodyTag && !st2.inHead then
            some { st2 with sawBodyTag := true }
          else some st2
        else some st
  else some st

/-- The text branch of the main loop with checked reads. -/
def textSpan_checked (bytes : List Byte) (length : Nat) (st : ScanState) : Option Step :=
  (nextTagIndex_checked bytes length st.i).bind fun next =>
    (memchr_checked bytes st.i 0x00 (next - st.i)).bind fun nullPtr =>
      if nullPtr.isSome then some (Step.fail SWIFTSOUP_FALLBACK_CONTAINS_NULL st.events)
      else
        (textSpanPlacement_checked bytes st next).bind fun st1 =>
          some (Step.next { st1 with i := next })

/-- The comment search loop with checked reads of `bytes[j]`, `bytes[j + 1]`
and `bytes[j + 2]`. -/
def findCommentEnd_checked (bytes : List Byte) (length : Nat) : Nat → Nat → Option SearchEnd
  | 0, _ => some SearchEnd.noResult
  | n + 1, j =>
    if j + 2 < length then
      (guardedTest true bytes j (fun b => b == 0x2D)).bind fun t1 =>
        (guardedTest t1 bytes (j + 1) (fun b => b == 0x2D)).bind fun t2 =>
          (guardedTest t2 bytes (j + 2) (fun b => b == 0x3E)).bind fun t3 =>
            if t3 = true then some (SearchEnd.found j)
            else findCommentEnd_checked bytes length n (j + 1)
    else if j + 2 ≤ INT_MAX then some SearchEnd.notFound
    else some SearchEnd.noResult

/-- The loop `while (j < length && bytes[j] != '>') j++` with a checked read. -/
def seekGt_checked (bytes : List Byte) (length : Nat) (j : Nat) : Option Nat :=
  advanceWhile_checked bytes length (fun b => b != 0x3E) (length - j) j

/-- The loop `while (j < length && isWhitespaceTable[bytes[j]]) j++` with a checked read. -/
def skipWhitespace_checked (bytes : List Byte) (length : Nat) (j : Nat) : Option Nat :=
  advanceWhile_checked bytes length isWhitespaceTable (length - j) j

/-- The branch `next == '!'` of the decision scanner with checked reads. -/
def commentOrDeclaration_checked (bytes : List Byte) (length : Nat) (st : ScanState) :
    Option Step :=
  let i := st.i
  if ¬ i + 4 < length ∧ INT_MAX < i + 4 then some (Step.noResult st.events)
  else
  (guardedTest (decide (i + 4 < length)) bytes (i + 2) (fun b => b == 0x2D)).bind fun t1 =>
    (guardedTest t1 bytes (i + 3) (fun b => b == 0x2D)).bind fun t2 =>
      (guardedTest t2 bytes (i + 4) (fun b => b == 0x2D)).bind fun dashDashDash =>
        if dashDashDash = true then
          some (Step.fail SWIFTSOUP_FALLBACK_COMMENT_DASH_DASH_DASH st.events)
        else
          (guardedTest (decide (i + 3 < length)) bytes (i + 2) (fun b => b == 0x2D)).bind
            fun u1 =>
              (guardedTest u1 bytes (i + 3) (fun b => b == 0x2D)).bind fun isComment =>
                if isComment = true then
                  (findCommentEnd_checked bytes length (length - (i + 4) + 1) (i + 4)).bind
                    fun found =>
                      match found with
                      | SearchEnd.found j => some (Step.next { st with i := j + 3 })
                      | SearchEnd.notFound =>
                        some (Step.fail SWIFTSOUP_FALLBACK_MALFORMED_TAG st.events)
                      | SearchEnd.noResult => some (Step.noResult st.events)
                else
                  (seekGt_checked bytes length (i + 2)).bind fun j =>
                    if j ≥ length then
                      some (Step.fail SWIFTSOUP_FALLBACK_MALFORMED_TAG st.events)
                    else some (Step.next { st with i := j + 1 })

/-- The tag-name loop shared by start and end tags, with a checked read of
`bytes[nameEnd]`. -/
def scanTagName_checked (bytes : List Byte) (length : Nat) : Nat → Nat → Option (Option Nat)
  | 0, nameEnd => some (some nameEnd)
  | n + 1, nameEnd =>
    if nameEnd < length then
      (readAt bytes nameEnd).bind fun b =>
        if isNameCharTable b = true then
          if b = 0x3A then some none
          else scanTagName_checked bytes length n (nameEnd + 1)
        else some (some nameEnd)
    else some (some nameEnd)

/-- The branch `next == '/'` of the decision scanner with checked reads. -/
def endTag_checked (bytes : List Byte) (length : Nat) (st : ScanState) : Option Step :=
  let nameStart := st.i + 2
  (scanTagName_checked bytes length (length - nameStart) nameStart).bind fun name =>
    match name with
    | none => some (Step.fail SWIFTSOUP_FALLBACK_NAMESPACED_TAG st.events)
    | some nameEnd =>
      if nameEnd = nameStart then some (Step.fail SWIFTSOUP_FALLBACK_MALFORMED_TAG st.events)
      else
        (guardedTest (decide (nameEnd < length)) bytes nameEnd
            (fun b => decide (b.val ≥ 0x80))).bind fun nonAscii =>
          if nonAscii = true then
            some (Step.fail SWIFTSOUP_FALLBACK_NON_ASCII_TAG_NAME st.events)
          else
            (tag_id_for_ascii_lowercase_checked bytes nameStart nameEnd).bind fun tagId =>
              if is_void_tag tagId then
                some (Step.fail SWIFTSOUP_FALLBACK_VOID_END_TAG st.events)
              else
                let tableStack := endTagTable tagId st.tableStack
                let selectDepth :=
                  if tagId = TAG_SELECT then
                    (if st.selectDepth > 0 then st.selectDepth - 1 else st.selectDepth)
                  else st.selectDepth
                let headingOpen := if is_heading_tag tagId then false else st.headingOpen
                match endTagFormatting tagId st.formatStack with
                | none => some (Step.fail SWIFTSOUP_FALLBACK_FORMATTING_MISMATCH st.events)
                | some formatStack =>
                  let inHead := if tagId = TAG_HEAD then false else st.inHead
                  let sawBodyTag := if tagId = TAG_HEAD then st.sawBodyTag
                    else if tagId = TAG_BODY then true else st.sawBodyTag
                  let openTagDepth :=
                    if st.openTagDepth > 0 then st.openTagDepth - 1 else st.openTagDepth
                  (seekGt_checked bytes length nameEnd).bind fun j =>
                    if j ≥ length then
                      some (Step.fail SWIFTSOUP_FALLBACK_MALFORMED_TAG st.events)
                    else
                      some (Step.next { st with
                        i := j + 1, tableStack := tableStack, selectDepth := selectDepth,
                        headingOpen := headingOpen, formatStack := formatStack,
                        inHead := inHead, sawBodyTag := sawBodyTag,
                        openTagDepth := openTagDepth })

/-- The branch `next == '?'` of the decision scanner with checked reads. -/
def processingInstruction_checked (bytes : List Byte) (length : Nat) (st : ScanState) :
    Option Step :=
  (seekGt_checked bytes length (st.i + 2)).bind fun j =>
    if j ≥ length then some (Step.fail SWIFTSOUP_FALLBACK_MALFORMED_TAG st.events)
    else some (Step.next { st with i := j + 1 })

/-- The attribute-name loop of the decision scanner with a checked read of `bytes[j]`. -/
def attrNameScan_checked (bytes : List Byte) (length : Nat) :
    Nat → Nat → Option (Except swiftsoup_fallback_reason Nat)
  | 0, j => some (Except.ok j)
  | n + 1, j =>
    if j < length then
      (readAt bytes j).bind fun b =>
        if isWhitespaceTable b = false ∧ b ≠ 0x3D ∧ b ≠ 0x3E ∧ b ≠ 0x2F then
          if b.val ≥ 0x80 then some (Except.error SWIFTSOUP_FALLBACK_NON_ASCII_ATTRIBUTE_NAME)
          else if b = 0x22 ∨ b = 0x27 ∨ b = 0x00 ∨ b = 0x3C ∨ b = 0x3E then
            some (Except.error SWIFTSOUP_FALLBACK_MALFORMED_ATTRIBUTE)
          else attrNameScan_checked bytes length n (j + 1)
        else some (Except.ok j)
    else some (Except.ok j)

/-- The unquoted-value loop of the decision scanner with a checked read of `bytes[j]`. -/
def unquotedValueScan_checked (bytes : List Byte) (length : Nat) :
    Nat → Nat → Option (Option Nat)
  | 0, j => some (some j)
  | n + 1, j =>
    if j < length then
      (readAt bytes j).bind fun b =>
        if isWhitespaceTable b = false ∧ b ≠ 0x3E then
          if b = 0x3C ∨ b = 0x22 ∨ b = 0x27 then some none
          else unquotedValueScan_checked bytes length n (j + 1)
        else some (some j)
    else some (some j)

/-- The attribute value of the decision scanner with checked reads of
`bytes[j]` and inside `memchr` and the unquoted-value loop. -/
def attrValue_checked (bytes : List Byte) (length : Nat) (j : Nat) : Option (Option Nat) :=
  (readAt bytes j).bind fun b =>
    if b = 0x22 ∨ b = 0x27 then
      let quote := b
      let j1 := j + 1
      if j1 ≥ length then some none
      else
        (memchr_checked bytes j1 quote (length - j1)).bind fun found =>
          match found with
          | none => some none
          | some stop =>
            (memchr_checked bytes j1 0x00 (stop - j1)).bind fun nullPtr =>
              if nullPtr.isSome then some none
              else some (some (stop + 1))
    else if b = 0x3C ∨ b = 0x3D then some none
    else unquotedValueScan_checked bytes length (length - j) j

/-- One iteration of the attribute loop of the decision scanner with checked reads. -/
def attrStep_checked (bytes : List Byte) (length : Nat) (sinks : Sinks) (j : Nat)
    (events : List Event) : Option AttrStep :=
  (skipWhitespace_checked bytes length j).bind fun j1 =>
    if j1 ≥ length then some (AttrStep.fail SWIFTSOUP_FALLBACK_MALFORMED_TAG events)
    else
      (readAt bytes j1).bind fun b1 =>
        if b1 = 0x3E then some (AttrStep.ended (j1 + 1) false events)
        else
          (guardedTest (decide (b1 = 0x2F ∧ j1 + 1 < length)) bytes (j1 + 1)
              (fun b => b == 0x3E)).bind fun slashGt =>
            if slashGt = true then some (AttrStep.ended (j1 + 2) true events)
            else
              let attrStart := j1
              (attrNameScan_checked bytes length (length - j1) j1).bind fun name =>
                match name with
                | Except.error reason => some (AttrStep.fail reason events)
                | Except.ok j2 =>
                  if attrStart = j2 then
                    some (AttrStep.fail SWIFTSOUP_FALLBACK_MALFORMED_ATTRIBUTE events)
                  else
                    (boolean_attribute_index_checked bytes attrStart j2).bind
                      fun booleanIndex =>
                        (skipWhitespace_checked bytes length j2).bind fun j3 =>
                          (guardedTest (decide (j3 < length)) bytes j3
                              (fun b => b == 0x3D)).bind fun isEq =>
                            if isEq = true then
                              (skipWhitespace_checked bytes length (j3 + 1)).bind fun j4 =>
                                if j4 ≥ length then
                                  some (AttrStep.fail SWIFTSOUP_FALLBACK_MALFORMED_ATTRIBUTE
                                    events)
                                else
                                  (attrValue_checked bytes length j4).bind fun value =>
                                    match value with
                                    | none =>
                                      some (AttrStep.fail
                                        SWIFTSOUP_FALLBACK_MALFORMED_ATTRIBUTE events)
                                    | some j5 =>
                                      some (AttrStep.again j5
                                        (events ++ (if booleanIndex ≥ 0 then
                                          emitBoolean sinks attrStart booleanIndex 0 else [])))
                            else
                              some (AttrStep.again j3
                                (events ++ (if booleanIndex ≥ 0 then
                                  emitBoolean sinks attrStart booleanIndex 1 else [])))

/-- The attribute loop of the decision scanner with checked reads. -/
def attrLoop_checked (bytes : List Byte) (length : Nat) (sinks : Sinks) :
    Nat → Nat → List Event → Option AttrResult
  | 0, j, events =>
    if j < length then some AttrResult.outOfFuel else some (AttrResult.noTagEnd events)
  | n + 1, j, events =>
    if j < length then
      (attrStep_checked bytes length sinks j events).bind fun r =>
        match r with
        | AttrStep.fail reason events1 => some (AttrResult.fail reason events1)
        | AttrStep.ended j1 sawSelfClosing events1 =>
          some (AttrResult.ended j1 sawSelfClosing events1)
        | AttrStep.again j1 events1 => attrLoop_checked bytes length sinks n j1 events1
    else some (AttrResult.noTagEnd events)

/-- The backward loop `while (scan > nameEnd && isWhitespaceTable[bytes[scan]]) scan--`
with a checked read of `bytes[scan]`. -/
def scanBack_checked (bytes : List Byte) (nameEnd : Nat) : Nat → Nat → Option Nat
  | 0, scan => some scan
  | n + 1, scan =>
    if scan > nameEnd then
      (readAt bytes scan).bind fun b =>
        if isWhitespaceTable b = true then scanBack_checked bytes nameEnd n (scan - 1)
        else some scan
    else some scan

/-- The self-closing determination after the attribute loop, with checked
reads in the backward loop and of `bytes[scan]` after it. -/
def selfClosingFlag_checked (bytes : List Byte) (nameEnd j : Nat) (sawSelfClosing : Bool) :
    Option Bool :=
  if sawSelfClosing then some true
  else if j > 0 then
    (scanBack_checked bytes nameEnd (j - 1 - nameEnd) (j - 1)).bind fun scan =>
      (readAt bytes scan).bind fun b => some (decide (b = 0x2F))
  else some false

/-- The loop `for (k = 0; k < tagLen; k++) buf[k] = asciiLowerTable[bytes[nameStart + k]]`
with a checked read of `bytes[nameStart + k]`: the contents of `buf`. -/
def lowerName_checked (bytes : List Byte) (nameStart tagLen : Nat) : Option (List Byte) :=
  (List.range tagLen).mapM (fun k => (readAt bytes (nameStart + k)).bind fun b =>
    some (asciiLowerTable b))

/-- The raw-text branch with checked reads. -/
def rawText_checked (bytes : List Byte) (length : Nat) (tag : List Byte) (tagLen : Nat) (j : Nat)
    (st : ScanState) : Option Step :=
  (skip_raw_text_checked bytes length tag tagLen j).bind fun r =>
    match r with
    | none => some (Step.noResult st.events)
    | some newIndex =>
      if newIndex ≥ 0 then some (Step.next { st with i := newIndex.toNat })
      else some (Step.fail SWIFTSOUP_FALLBACK_RAW_TEXT_UNTERMINATED st.events)

/-- The part of a start tag after the attribute loop, with checked reads. -/
def startTagFinish_checked (bytes : List Byte) (length : Nat) (sinks : Sinks) (tagId : tag_id)
    (nameStart nameEnd j : Nat) (sawSelfClosing : Bool) (st : ScanState) : Option Step :=
  (selfClosingFlag_checked bytes nameEnd j sawSelfClosing).bind fun isSelfClosing =>
    (if tagId = TAG_NONE ∧ sinks.recordSelfClosing = true then
        let tagLen := nameEnd - nameStart
        (lowerName_checked bytes nameStart tagLen).bind fun name =>
          some (st.events ++ [Event.selfClosing nameStart name (tagLen : Int)
            (if isSelfClosing then 1 else 0)])
      else some st.events).bind fun events =>
      let st1 : ScanState := { st with events := events }
      if !isSelfClosing ∧ tagId = TAG_SCRIPT then
        rawText_checked bytes length (cstr "script") 6 j st1
      else if !isSelfClosing ∧ tagId = TAG_STYLE then
        rawText_checked bytes length (cstr "style") 5 j st1
      else if !isSelfClosing ∧ tagId = TAG_TEXTAREA then
        rawText_checked bytes length (cstr "textarea") 8 j st1
      else
        let formatId := formatting_tag_id tagId
        let formatStack :=
          if formatId ≥ 0 ∧ isSelfClosing = false ∧ is_void_tag tagId = false then
            (formatId.toNat % 256) :: st1.formatStack
          else st1.formatStack
        let selectDepth :=
          if tagId = TAG_SELECT ∧ isSelfClosing = false then st1.selectDepth + 1
          else st1.selectDepth
        let openTagDepth :=
          if isSelfClosing = false then st1.openTagDepth + 1 else st1.openTagDepth
        some (Step.next { st1 with
          i := j, formatStack := formatStack, selectDepth := selectDepth,
          openTagDepth := openTagDepth })

/-- The first part of the start-tag branch with checked reads. -/
def startTagPreflight_checked (bytes : List Byte) (length : Nat) (st : ScanState) :
    Option (Except swiftsoup_fallback_reason StartTagHead) :=
  let nameStart := st.i + 1
  (scanTagName_checked bytes length (length - nameStart) nameStart).bind fun name =>
    match name with
    | none => some (Except.error SWIFTSOUP_FALLBACK_NAMESPACED_TAG)
    | some nameEnd =>
      if nameEnd = nameStart then some (Except.error SWIFTSOUP_FALLBACK_MALFORMED_TAG)
      else
        (guardedTest (decide (nameEnd < length)) bytes nameEnd
            (fun b => decide (b.val ≥ 0x80))).bind fun nonAscii =>
          if nonAscii = true then some (Except.error SWIFTSOUP_FALLBACK_NON_ASCII_TAG_NAME)
          else
            (tag_id_for_ascii_lowercase_checked bytes nameStart nameEnd).bind fun tagId =>
              if tagId = TAG_HGROUP then some (Except.error SWIFTSOUP_FALLBACK_TABLE_HEURISTICS)
              else
                match startTagTable tagId st.tableStack with
                | none => some (Except.error SWIFTSOUP_FALLBACK_TABLE_HEURISTICS)
                | some tableStack =>
                  if is_heading_tag tagId = true ∧ st.headingOpen = true then
                    some (Except.error SWIFTSOUP_FALLBACK_FORMATTING_MISMATCH)
                  else
                    let headingOpen := if is_heading_tag tagId then true else st.headingOpen
                    if tagId = TAG_P ∧ st.formatStack ≠ [] then
                      some (Except.error SWIFTSOUP_FALLBACK_FORMATTING_MISMATCH)
                    else if tagId = TAG_HTML ∧ st.sawContentBeforeHtml = true then
                      some (Except.error SWIFTSOUP_FALLBACK_HEAD_BODY_PLACEMENT)
                    else
                      let sawHtmlTag := if tagId = TAG_HTML then true else st.sawHtmlTag
                      match startTagPlacement tagId sawHtmlTag st.sawBodyTag st.inHead
                          st.sawContentBeforeHtml st.openTagDepth with
                      | none => some (Except.error SWIFTSOUP_FALLBACK_HEAD_BODY_PLACEMENT)
                      | some (sawBodyTag, inHead) =>
                        some (Except.ok
                          { tagId := tagId, nameStart := nameStart, nameEnd := nameEnd,
                            st := { st with
                              tableStack := tableStack, headingOpen := headingOpen,
                              sawHtmlTag := sawHtmlTag, sawBodyTag := sawBodyTag,
                              inHead := inHead } })

/-- The start-tag branch of the decision scanner with checked reads. -/
def startTag_checked (bytes : List Byte) (length : Nat) (sinks : Sinks) (st : ScanState) :
    Option Step :=
  (startTagPreflight_checked bytes length st).bind fun pre =>
    match pre with
    | Except.error reason => some (Step.fail reason st.events)
    | Except.ok head =>
      (attrLoop_checked bytes length sinks (length - head.nameEnd) head.nameEnd
          head.st.events).bind fun r =>
        match r with
        | AttrResult.outOfFuel => some (Step.noResult head.st.events)
        | AttrResult.fail reason events => some (Step.fail reason events)
        | AttrResult.noTagEnd events =>
          some (Step.fail SWIFTSOUP_FALLBACK_MALFORMED_TAG events)
        | AttrResult.ended j sawSelfClosing events =>
          startTagFinish_checked bytes length sinks head.tagId head.nameStart head.nameEnd j
            sawSelfClosing { head.st with events := events }

/-- One iteration of the main loop of the decision scanner with checked
reads, entered with `i < length`. -/
def step_checked (bytes : List Byte) (length : Nat) (sinks : Sinks) (st : ScanState) :
    Option Step :=
  (readAt bytes st.i).bind fun b =>
    if b = 0x00 then some (Step.fail SWIFTSOUP_FALLBACK_CONTAINS_NULL st.events)
    else if b ≠ 0x3C then textSpan_checked bytes length st
    else
      let st1 : ScanState := { st with sawTagDelimiter := true }
      if st1.i + 1 ≥ length then some (Step.fail SWIFTSOUP_FALLBACK_MALFORMED_TAG st1.events)
      else
        (readAt bytes (st1.i + 1)).bind fun next =>
          if next = 0x21 then commentOrDeclaration_checked bytes length st1
          else if next = 0x2F then endTag_checked bytes length st1
          else if next = 0x3F then processingInstruction_checked bytes length st1
          else if isNameCharTable next = false then
            some (Step.fail SWIFTSOUP_FALLBACK_MALFORMED_TAG st1.events)
          else startTag_checked bytes length sinks st1

/-- The main loop of the decision scanner with checked reads, followed by the
end-of-input checks; the inner `none` marks an iteration without result (an
`int` sum exceeds `INT_MAX`) or an iteration bound that was too small. -/
def mainLoop_checked (bytes : List Byte) (length : Nat) (sinks : Sinks) :
    Nat → ScanState → Option (Option Outcome)
  | 0, st => if st.i < length then some none else some (some (finish st))
  | n + 1, st =>
    if st.i < length then
      (step_checked bytes length sinks st).bind fun r =>
        match r with
        | Step.fail reason events => some (some ⟨1, reason, events⟩)
        | Step.next st1 => mainLoop_checked bytes length sinks n st1
        | Step.noResult _ => some none
    else some (some (finish st))

/-- The function `swiftsoup_should_fallback_internal` with checked reads:
`none` when a read leaves the buffer, otherwise `some` of the result of
`swiftsoup_should_fallback_internal`. -/
def swiftsoup_should_fallback_internal_checked (bytes : Option (List Byte)) (length : Int)
    (sinks : Sinks) : Option (Option Outcome) :=
  match bytes with
  | none => some (some ⟨1, SWIFTSOUP_FALLBACK_MALFORMED_TAG, []⟩)
  | some buf =>
    if length ≤ 0 then some (some ⟨1, SWIFTSOUP_FALLBACK_MALFORMED_TAG, []⟩)
    else mainLoop_checked buf length.toNat sinks length.toNat ScanState.init

/-- The tag-end loop of the hint-only scanner with a checked read of `bytes[j]`. -/
def hintTagEnd_checked (bytes : List Byte) (length : Nat) :
    Nat → Nat → Nat → Nat → Option (Nat × Bool)
  | 0, j, _, _ => some (j, false)
  | n + 1, j, quote, lastNonWhitespace =>
    if j < length then
      (readAt bytes j).bind fun b =>
        if quote ≠ 0 then
          (if b.val = quote % 256 then
            hintTagEnd_checked bytes length n (j + 1) 0 lastNonWhitespace
           else hintTagEnd_checked bytes length n (j + 1) quote lastNonWhitespace)
        else if b = 0x22 ∨ b = 0x27 then
          hintTagEnd_checked bytes length n (j + 1) b.val lastNonWhitespace
        else if b = 0x3E then some (j, decide (lastNonWhitespace = 0x2F))
        else if isWhitespaceTable b = false then
          hintTagEnd_checked bytes length n (j + 1) quote b.val
        else hintTagEnd_checked bytes length n (j + 1) quote lastNonWhitespace
    else some (j, false)

/-- The attribute loop of the hint-only scanner with checked reads; the
inner `none` marks an iteration bound that was too small. -/
def hintAttrLoop_checked (bytes : List Byte) (length : Nat) (sinks : Sinks) :
    Nat → Nat → List Event → Option (Option (List Event))
  | 0, attrIndex, events => if attrIndex < length then some none else some (some events)
  | n + 1, attrIndex, events =>
    if attrIndex < length then
      (skipWhitespace_checked bytes length attrIndex).bind fun a1 =>
        if a1 ≥ length then some (some events)
        else
          (readAt bytes a1).bind fun b1 =>
            if b1 = 0x3E then some (some events)
            else
              (guardedTest (decide (b1 = 0x2F ∧ a1 + 1 < length)) bytes (a1 + 1)
                  (fun b => b == 0x3E)).bind fun slashGt =>
                if slashGt = true then some (some events)
                else
                  let attrStart := a1
                  (advanceWhile_checked bytes length
                      (fun b => !isWhitespaceTable b && b != 0x3D && b != 0x3E && b != 0x2F)
                      (length - a1) a1).bind fun a2 =>
                    if attrStart = a2 then some (some events)
                    else
                      let attrEnd := a2
                      (if sinks.recordBoolean || sinks.booleanBuf then
                          boolean_attribute_index_checked bytes attrStart attrEnd
                        else some (-1)).bind fun booleanIndex =>
                        (skipWhitespace_checked bytes length a2).bind fun a3 =>
                          (guardedTest (decide (a3 < length)) bytes a3
                              (fun b => b == 0x3D)).bind fun isEq =>
                            if isEq = true then
                              (skipWhitespace_checked bytes length (a3 + 1)).bind fun a4 =>
                                if a4 ≥ length then some (some events)
                                else
                                  (readAt bytes a4).bind fun q =>
                                    (if q = 0x22 ∨ q = 0x27 then
                                        let a := a4 + 1
                                        if a < length then
                                          (memchr_checked bytes a q (length - a)).bind
                                            fun found =>
                                              match found with
                                              | none => some length
                                              | some f => some (f + 1)
                                        else some a
                                      else
                                        advanceWhile_checked bytes length
                                          (fun b => !isWhitespaceTable b && b != 0x3E)
                                          (length - a4) a4).bind fun a5 =>
                                      hintAttrLoop_checked bytes length sinks n a5
                                        (events ++ (if booleanIndex ≥ 0 then
                                          emitBoolean sinks attrStart booleanIndex 0 else []))
                            else
                              hintAttrLoop_checked bytes length sinks n a3
                                (events ++ (if booleanIndex ≥ 0 then
                                  emitBoolean sinks attrStart booleanIndex 1 else []))
    else some (some events)

/-- The processing-instruction search loop of the hint-only scanner with
checked reads of `bytes[j]` and `bytes[j + 1]`. -/
def findPiEnd_checked (bytes : List Byte) (length : Nat) : Nat → Nat → Option SearchEnd
  | 0, _ => some SearchEnd.noResult
  | n + 1, j =>
    if j + 1 < length then
      (guardedTest true bytes j (fun b => b == 0x3F)).bind fun t1 =>
        (guardedTest t1 bytes (j + 1) (fun b => b == 0x3E)).bind fun t2 =>
          if t2 = true then some (SearchEnd.found j)
          else findPiEnd_checked bytes length n (j + 1)
    else if j + 1 ≤ INT_MAX then some SearchEnd.notFound
    else some SearchEnd.noResult

/-- One iteration of the main loop of the hint-only scanner with checked
reads, entered with `i < length`. The name handed to `recordSelfClosing` is
the pointer `bytes + nameStart` with the length `nameEnd - nameStart`; the
scanner does not read through it. -/
def hintStep_checked (bytes : List Byte) (length : Nat) (sinks : Sinks) (i : Nat)
    (events : List Event) : Option HintStep :=
  (readAt bytes i).bind fun b =>
    if b ≠ 0x3C then
      if i + 1 ≥ length then some (HintStep.stop events)
      else
        (memchr_checked bytes (i + 1) 0x3C (length - (i + 1))).bind fun found =>
          match found with
          | none => some (HintStep.stop events)
          | some f => some (HintStep.next f events)
    else if i + 1 ≥ length then some (HintStep.stop events)
    else
      (readAt bytes (i + 1)).bind fun next =>
        if next = 0x21 then
          if ¬ i + 3 < length ∧ INT_MAX < i + 3 then some (HintStep.noResult events)
          else
          (guardedTest (decide (i + 3 < length)) bytes (i + 2) (fun b => b == 0x2D)).bind
            fun t1 =>
              (guardedTest t1 bytes (i + 3) (fun b => b == 0x2D)).bind fun isComment =>
                if isComment = true then
                  (findCommentEnd_checked bytes length (length - (i + 4) + 1) (i + 4)).bind
                    fun found =>
                      match found with
                      | SearchEnd.found j => some (HintStep.next (j + 3) events)
                      | SearchEnd.notFound => some (HintStep.stop events)
                      | SearchEnd.noResult => some (HintStep.noResult events)
                else
                  (seekGt_checked bytes length (i + 2)).bind fun j =>
                    some (hintContinue length j events)
        else if next = 0x2F then
          (seekGt_checked bytes length (i + 2)).bind fun j =>
            some (hintContinue length j events)
        else if next = 0x3F then
          (findPiEnd_checked bytes length (length - (i + 2) + 1) (i + 2)).bind fun found =>
            match found with
            | SearchEnd.found j => some (HintStep.next (j + 2) events)
            | SearchEnd.notFound => some (HintStep.stop events)
            | SearchEnd.noResult => some (HintStep.noResult events)
        else if isNameCharTable next = false then some (HintStep.next (i + 1) events)
        else
          let nameStart := i + 1
          (advanceWhile_checked bytes length isNameCharTable (length - nameStart)
              nameStart).bind fun nameEnd =>
            if nameEnd = nameStart then some (HintStep.next (i + 1) events)
            else
              (hintTagEnd_checked bytes length (length - nameEnd) nameEnd 0 0).bind
                fun tagEnd =>
                  let j := tagEnd.1
                  let isSelfClosing := tagEnd.2
                  let events1 :=
                    if sinks.recordSelfClosing then
                      events ++ [Event.selfClosing nameStart
                        (slice bytes nameStart (nameEnd - nameStart))
                        ((nameEnd - nameStart : Nat) : Int) (if isSelfClosing then 1 else 0)]
                    else events
                  (hintAttrLoop_checked bytes length sinks (length - nameEnd) nameEnd
                      events1).bind fun r =>
                    match r with
                    | none => some (HintStep.noResult events1)
                    | some events2 => some (hintContinue length j events2)

/-- The main loop of the hint-only scanner with checked reads; the inner
`none` marks an iteration without result (an `int` sum exceeds `INT_MAX`) or
an iteration bound that was too small. -/
def hintLoop_checked (bytes : List Byte) (length : Nat) (sinks : Sinks) :
    Nat → Nat → List Event → Option (Option (List Event))
  | 0, i, events => if i < length then some none else some (some events)
  | n + 1, i, events =>
    if i < length then
      (hintStep_checked bytes length sinks i events).bind fun r =>
        match r with
        | HintStep.stop events1 => some (some events1)
        | HintStep.next i1 events1 => hintLoop_checked bytes length sinks n i1 events1
        | HintStep.noResult _ => some none
    else some (some events)

/-- The function `swiftsoup_scan_hints_internal` with checked reads: `none`
when a read leaves the buffer, otherwise `some` of the result of
`swiftsoup_scan_hints_internal`. -/
def swiftsoup_scan_hints_internal_checked (bytes : Option (List Byte)) (length : Int)
    (sinks : Sinks) : Option (Option (List Event)) :=
  match bytes with
  | none => some (some [])
  | some buf =>
    if length ≤ 0 then some (some [])
    else hintLoop_checked buf length.toNat sinks length.toNat 0 []

/-! ## Comparing the hints of the two scanners -/

theorem advanceWhile_ge (bytes : List Byte) (length : Nat) (cond : Byte → Bool) (n j : Nat) :
    j ≤ advanceWhile bytes length cond n j := by
  induction n generalizing j with
  | zero => simp [advanceWhile]
  | succ n ih =>
    unfold advanceWhile
    split
    · exact Nat.le_trans (Nat.le_succ j) (ih (j + 1))
    · exact Nat.le_refl j

theorem advanceWhile_le (bytes : List Byte) (length : Nat) (cond : Byte → Bool) (n j : Nat)
    (h : j ≤ length) : advanceWhile bytes length cond n j ≤ length := by
  induction n generalizing j with
  | zero => simpa [advanceWhile] using h
  | succ n ih =>
    unfold advanceWhile
    split
    · rename_i hc
      exact ih (j + 1) hc.1
    · exact h

theorem memchr_some {bytes : List Byte} {start : Nat} {c : Byte} {n p : Nat}
    (h : memchr bytes start c n = some p) :
    start ≤ p ∧ p < start + n ∧ byteAt bytes p = c ∧
      ∀ k, start ≤ k → k < p → byteAt bytes k ≠ c := by
  induction n generalizing start with
  | zero => simp [memchr] at h
  | succ n ih =>
    unfold memchr at h
    split at h
    · rename_i hc
      injection h with h
      subst h
      exact ⟨Nat.le_refl _, by omega, hc, fun k h1 h2 => by omega⟩
    · rename_i hc
      obtain ⟨h1, h2, h3, h4⟩ := ih h
      refine ⟨by omega, by omega, h3, ?_⟩
      intro k hk1 hk2
      by_cases hks : k = start
      · subst hks
        exact hc
      · exact h4 k (by omega) hk2

theorem memchr_none {bytes : List Byte} {start : Nat} {c : Byte} {n : Nat}
    (h : memchr bytes start c n = none) :
    ∀ k, start ≤ k → k < start + n → byteAt bytes k ≠ c := by
  induction n generalizing start with
  | zero => intro k h1 h2; omega
  | succ n ih =>
    unfold memchr at h
    split at h
    · cases h
    · rename_i hc
      intro k hk1 hk2
      by_cases hks : k = start
      · subst hks
        exact hc
      · exact ih h k (by omega) (by omega)

theorem memchr_isSome_of_mem {bytes : List Byte} {start : Nat} {c : Byte} {n k : Nat}
    (hk1 : start ≤ k) (hk2 : k < start + n) (hc : byteAt bytes k = c) :
    (memchr bytes start c n).isSome = true := by
  cases h : memchr bytes start c n with
  | none => exact absurd hc (memchr_none h k hk1 hk2)
  | some p => rfl

theorem scanTagName_ge {bytes : List Byte} {length n j r : Nat}
    (h : scanTagName bytes length n j = some r) : j ≤ r := by
  induction n generalizing j with
  | zero =>
    simp [scanTagName] at h
    omega
  | succ n ih =>
    unfold scanTagName at h
    split at h
    · split at h
      · cases h
      · exact Nat.le_trans (Nat.le_succ j) (ih h)
    · injection h with h
      omega

theorem findCommentEnd_ge {bytes : List Byte} {length n j r : Nat}
    (h : findCommentEnd bytes length n j = SearchEnd.found r) : j ≤ r ∧ r + 2 < length := by
  induction n generalizing j with
  | zero => simp [findCommentEnd] at h
  | succ n ih =>
    unfold findCommentEnd at h
    split at h
    · rename_i hlt
      split at h
      · injection h with h
        subst h
        exact ⟨Nat.le_refl _, hlt⟩
      · have := ih h
        omega
    · split at h <;> cases h

/-- The comment search has a result when the bound covers the evaluations of
its condition and the look-ahead sum stays representable. -/
theorem findCommentEnd_defined (bytes : List Byte) (length n j : Nat)
    (hn : length - j < n) (hj : j + 2 ≤ INT_MAX) (hl : length ≤ INT_MAX) :
    findCommentEnd bytes length n j ≠ SearchEnd.noResult := by
  induction n generalizing j with
  | zero => omega
  | succ n ih =>
    unfold findCommentEnd
    by_cases c : j + 2 < length
    · rw [if_pos c]
      split
      · intro h; cases h
      · exact ih (j + 1) (by omega) (by omega)
    · rw [if_neg c, if_pos hj]
      intro h; cases h

theorem attrNameScan_ge {bytes : List Byte} {length n j r : Nat}
    (h : attrNameScan bytes length n j = Except.ok r) : j ≤ r := by
  induction n generalizing j with
  | zero =>
    simp [attrNameScan] at h
    omega
  | succ n ih =>
    unfold attrNameScan at h
    simp only at h
    split at h
    · split at h
      · cases h
      · split at h
        · cases h
        · exact Nat.le_trans (Nat.le_succ j) (ih h)
    · injection h with h
      omega

theorem unquotedValueScan_ge {bytes : List Byte} {length n j r : Nat}
    (h : unquotedValueScan bytes length n j = some r) : j ≤ r := by
  induction n generalizing j with
  | zero =>
    simp [unquotedValueScan] at h
    omega
  | succ n ih =>
    unfold unquotedValueScan at h
    simp only at h
    split at h
    · split at h
      · cases h
      · exact Nat.le_trans (Nat.le_succ j) (ih h)
    · injection h with h
      omega

theorem attrValue_ge {bytes : List Byte} {length j r : Nat}
    (h : attrValue bytes length j = some r) : j ≤ r := by
  unfold attrValue at h
  simp only at h
  split at h
  · split at h
    · cases h
    · split at h
      · cases h
      · rename_i stop hm
        split at h
        · cases h
        · injection h with h
          have := (memchr_some hm).1
          omega
  · split at h
    · cases h
    · exact unquotedValueScan_ge h

/-! ## The attribute loop of the decision scanner -/

theorem skipWhitespace_ge (bytes : List Byte) (length j : Nat) :
    j ≤ skipWhitespace bytes length j :=
  advanceWhile_ge bytes length _ _ j

theorem skipWhitespace_le (bytes : List Byte) (length j : Nat) (h : j ≤ length) :
    skipWhitespace bytes length j ≤ length :=
  advanceWhile_le bytes length _ _ j h

theorem seekGt_ge (bytes : List Byte) (length j : Nat) : j ≤ seekGt bytes length j :=
  advanceWhile_ge bytes length _ _ j

theorem attrNameScan_ne_none {bytes : List Byte} {length n j : Nat}
    {r : swiftsoup_fallback_reason} (h : attrNameScan bytes length n j = Except.error r) :
    r ≠ SWIFTSOUP_FALLBACK_NONE := by
  induction n generalizing j with
  | zero => simp [attrNameScan] at h
  | succ n ih =>
    unfold attrNameScan at h
    simp only at h
    split at h
    · split at h
      · injection h with h
        subst h
        decide
      · split at h
        · injection h with h
          subst h
          decide
        · exact ih h
    · cases h

theorem attrNameScan_le {bytes : List Byte} {length n j r : Nat}
    (h : attrNameScan bytes length n j = Except.ok r) (hj : j ≤ length) : r ≤ length := by
  induction n generalizing j with
  | zero =>
    simp [attrNameScan] at h
    omega
  | succ n ih =>
    unfold attrNameScan at h
    simp only at h
    split at h
    · rename_i hc
      split at h
      · cases h
      · split at h
        · cases h
        · exact ih h hc.1
    · injection h with h
      omega

theorem unquotedValueScan_le {bytes : List Byte} {length n j r : Nat}
    (h : unquotedValueScan bytes length n j = some r) (hj : j ≤ length) : r ≤ length := by
  induction n generalizing j with
  | zero =>
    simp [unquotedValueScan] at h
    omega
  | succ n ih =>
    unfold unquotedValueScan at h
    simp only at h
    split at h
    · rename_i hc
      split at h
      · cases h
      · exact ih h hc.1
    · injection h with h
      omega

theorem attrValue_le {bytes : List Byte} {length j r : Nat}
    (h : attrValue bytes length j = some r) (hj : j ≤ length) : r ≤ length := by
  unfold attrValue at h
  simp only at h
  split at h
  · split at h
    · cases h
    · split at h
      · cases h
      · rename_i stop hm
        split at h
        · cases h
        · injection h with h
          have := (memchr_some hm).2.1
          omega
  · split at h
    · cases h
    · exact unquotedValueScan_le h hj

theorem attrStep_good (bytes : List Byte) (length : Nat) (sinks : Sinks) (j : Nat)
    (events : List Event) (hj : j < length) :
    AttrStep.Good length j (attrStep bytes length sinks j events) := by
  unfold attrStep
  simp only
  have h1 := skipWhitespace_ge bytes length j
  split
  · simp [AttrStep.Good]
  · split
    · simp only [AttrStep.Good]
      omega
    · split
      · simp only [AttrStep.Good]
        omega
      · split
        · rename_i r hscan
          exact attrNameScan_ne_none hscan
        · rename_i j2 hscan
          have h2 := attrNameScan_ge hscan
          have h2le := attrNameScan_le hscan (by omega)
          have h3 := skipWhitespace_ge bytes length j2
          have h3le := skipWhitespace_le bytes length j2 h2le
          split
          · simp [AttrStep.Good]
          · split
            · have h4 := skipWhitespace_ge bytes length (skipWhitespace bytes length j2 + 1)
              split
              · simp [AttrStep.Good]
              · split
                · simp [AttrStep.Good]
                · rename_i j5 hval
                  have h5 := attrValue_ge hval
                  have h5le := attrValue_le hval (by omega)
                  simp only [AttrStep.Good]
                  omega
            · simp only [AttrStep.Good]
              omega

theorem attrLoop_ne_outOfFuel (bytes : List Byte) (length : Nat) (sinks : Sinks) (n j : Nat)
    (events : List Event) (hn : length - j ≤ n) :
    attrLoop bytes length sinks n j events ≠ AttrResult.outOfFuel := by
  induction n generalizing j events with
  | zero =>
    unfold attrLoop
    split
    · omega
    · simp
  | succ n ih =>
    unfold attrLoop
    split
    · rename_i hj
      have hs := attrStep_good bytes length sinks j events hj
      split
      · simp
      · simp
      · rename_i j1 ev1 hstep
        rw [hstep] at hs
        exact ih _ _ (by have := hs.1; omega)
    · simp

theorem attrLoop_ended {bytes : List Byte} {length : Nat} {sinks : Sinks} {n j : Nat}
    {events : List Event} {j1 : Nat} {s : Bool} {events1 : List Event}
    (h : attrLoop bytes length sinks n j events = AttrResult.ended j1 s events1) :
    j < j1 ∧ j1 ≤ length := by
  induction n generalizing j events with
  | zero =>
    unfold attrLoop at h
    split at h <;> cases h
  | succ n ih =>
    unfold attrLoop at h
    split at h
    · rename_i hj
      have hs := attrStep_good bytes length sinks j events hj
      split at h
      · cases h
      · rename_i j2 s2 ev2 hstep
        rw [hstep] at hs
        injection h with h1 h2 h3
        subst h1
        exact hs
      · rename_i j2 ev2 hstep
        rw [hstep] at hs
        have := ih h
        have := hs.1
        omega
    · cases h

theorem attrLoop_fail_ne_none {bytes : List Byte} {length : Nat} {sinks : Sinks} {n j : Nat}
    {events : List Event} {r : swiftsoup_fallback_reason} {events1 : List Event}
    (h : attrLoop bytes length sinks n j events = AttrResult.fail r events1) :
    r ≠ SWIFTSOUP_FALLBACK_NONE := by
  induction n generalizing j events with
  | zero =>
    unfold attrLoop at h
    split at h <;> cases h
  | succ n ih =>
    unfold attrLoop at h
    split at h
    · rename_i hj
      have hs := attrStep_good bytes length sinks j events hj
      split at h
      · rename_i r2 ev2 hstep
        rw [hstep] at hs
        injection h with h1 h2
        subst h1
        exact hs
      · cases h
      · exact ih h
    · cases h

/-- The cursor update of the hint-only scanner behind a position inside the
buffer. -/
theorem hintContinue_of_lt {length j : Nat} (events : List Event) (h : j < length) :
    hintContinue length j events = HintStep.next (j + 1) events := by
  unfold hintContinue hintCursor
  rw [if_pos (by omega)]

/-- The cursor update of the hint-only scanner has a result when `j + 1` is
representable. -/
theorem hintContinue_defined (length j : Nat) (events : List Event) (h : j + 1 ≤ INT_MAX) :
    (hintContinue length j events).Defined := by
  unfold hintContinue hintCursor
  by_cases c : j + 1 ≤ length
  · rw [if_pos c]
    trivial
  · rw [if_neg c, if_pos h]
    trivial

theorem hintContinue_events (length j : Nat) (events : List Event) :
    (hintContinue length j events).events = events := by
  unfold hintContinue
  split <;> rfl

theorem hintContinue_good (length j i : Nat) (events : List Event) (hij : i ≤ j)
    (hil : i < length) : HintStep.Good length i (hintContinue length j events) := by
  unfold hintContinue hintCursor
  by_cases c : j + 1 ≤ length
  · rw [if_pos c]
    exact ⟨by omega, c⟩
  · rw [if_neg c]
    by_cases c2 : j + 1 ≤ INT_MAX
    · rw [if_pos c2]
      exact ⟨hil, Nat.le_refl _⟩
    · rw [if_neg c2]
      trivial

/-- What the cursor update of the hint-only scanner gives when it has a
result. -/
theorem hintContinue_next {length j i1 : Nat} {events events1 : List Event}
    (h : hintContinue length j events = HintStep.next i1 events1) :
    events1 = events ∧ (j < length ∧ i1 = j + 1 ∨ length ≤ j ∧ i1 = length) := by
  unfold hintContinue hintCursor at h
  by_cases c : j + 1 ≤ length
  · rw [if_pos c] at h
    injection h with h1 h2
    exact ⟨h2.symm, Or.inl ⟨by omega, h1.symm⟩⟩
  · rw [if_neg c] at h
    by_cases c2 : j + 1 ≤ INT_MAX
    · rw [if_pos c2] at h
      injection h with h1 h2
      exact ⟨h2.symm, Or.inr ⟨by omega, h1.symm⟩⟩
    · rw [if_neg c2] at h
      cases h

theorem hintContinue_ne_stop (length j : Nat) (events events1 : List Event) :
    hintContinue length j events ≠ HintStep.stop events1 := by
  unfold hintContinue
  split <;> (intro h; cases h)

/-- The processing-instruction search has a result when the bound covers the
evaluations of its condition and the look-ahead sum stays representable. -/
theorem findPiEnd_defined (bytes : List Byte) (length n j : Nat)
    (hn : length - j < n) (hj : j + 1 ≤ INT_MAX) (hl : length ≤ INT_MAX) :
    findPiEnd bytes length n j ≠ SearchEnd.noResult := by
  induction n generalizing j with
  | zero => omega
  | succ n ih =>
    unfold findPiEnd
    by_cases c : j + 1 < length
    · rw [if_pos c]
      split
      · intro h; cases h
      · exact ih (j + 1) (by omega) (by omega)
    · rw [if_neg c, if_pos hj]
      intro h; cases h

/-! ## Every main-loop iteration fails properly or makes progress -/

theorem skip_raw_text_loop_gt {bytes : List Byte} {length : Nat} {tag : List Byte}
    {tagLen n j : Nat} {r : Int} (hr : skip_raw_text_loop bytes length tag tagLen n j = some r)
    (h : 0 ≤ r) : j < r.toNat ∧ r.toNat ≤ length := by
  induction n generalizing j with
  | zero => simp [skip_raw_text_loop] at hr
  | succ n ih =>
    unfold skip_raw_text_loop at hr
    simp only at hr
    split at hr
    · split at hr
      · split at hr
        · have hge := advanceWhile_ge bytes length (fun b => b != 0x3E)
            (length - (j + 2 + tagLen)) (j + 2 + tagLen)
          split at hr
          · injection hr with hr
            omega
          · split at hr
            · injection hr with hr
              subst hr
              simp only [Int.toNat_ofNat]
              omega
            · omega
        · have := ih hr
          omega
      · have := ih hr
        omega
    · split at hr
      · injection hr with hr
        omega
      · cases hr

/-- The loop of `skip_raw_text` has a result when the bound covers the
evaluations of its condition and the look-ahead sum stays representable. -/
theorem skip_raw_text_loop_defined (bytes : List Byte) (length : Nat) (tag : List Byte)
    (tagLen n j : Nat) (hn : length - j < n) (hj : j + tagLen + 2 ≤ INT_MAX)
    (hl : length ≤ INT_MAX) :
    skip_raw_text_loop bytes length tag tagLen n j ≠ none := by
  induction n generalizing j with
  | zero => omega
  | succ n ih =>
    unfold skip_raw_text_loop
    simp only
    by_cases c : j + tagLen + 2 < length
    · rw [if_pos c]
      split
      · split
        · split
          · intro h; cases h
          · split <;> (intro h; cases h)
        · exact ih (j + 1) (by omega) (by omega)
      · exact ih (j + 1) (by omega) (by omega)
    · rw [if_neg c, if_pos hj]
      intro h; cases h

theorem rawText_good (bytes : List Byte) (length : Nat) (tag : List Byte) (tagLen j : Nat)
    (st : ScanState) (i : Nat) (hij : i ≤ j) :
    Step.Good length i (rawText bytes length tag tagLen j st) := by
  unfold rawText
  cases hs : skip_raw_text bytes length tag tagLen j with
  | none => trivial
  | some r =>
    simp only
    split
    · rename_i h
      have := skip_raw_text_loop_gt hs h
      simp only [Step.Good]
      omega
    · simp [Step.Good]

theorem rawText_defined (bytes : List Byte) (length : Nat) (tag : List Byte) (tagLen j : Nat)
    (st : ScanState) (hj : j + tagLen + 2 ≤ INT_MAX) (hl : length ≤ INT_MAX) :
    (rawText bytes length tag tagLen j st).Defined := by
  unfold rawText
  cases hs : skip_raw_text bytes length tag tagLen j with
  | none =>
    exact absurd hs (skip_raw_text_loop_defined bytes length tag tagLen _ j (by omega) hj hl)
  | some r =>
    simp only
    split <;> trivial

theorem startTagFinish_good (bytes : List Byte) (length : Nat) (sinks : Sinks) (tagId : tag_id)
    (nameStart nameEnd j : Nat) (s : Bool) (st : ScanState) (i : Nat) (hij : i < j)
    (hj : j ≤ length) :
    Step.Good length i (startTagFinish bytes length sinks tagId nameStart nameEnd j s st) := by
  unfold startTagFinish
  simp only
  split
  · exact rawText_good _ _ _ _ _ _ _ (Nat.le_of_lt hij)
  · split
    · exact rawText_good _ _ _ _ _ _ _ (Nat.le_of_lt hij)
    · split
      · exact rawText_good _ _ _ _ _ _ _ (Nat.le_of_lt hij)
      · exact ⟨hij, hj⟩

theorem startTagPreflight_error {bytes : List Byte} {length : Nat} {st : ScanState}
    {r : swiftsoup_fallback_reason} (h : startTagPreflight bytes length st = Except.error r) :
    r ≠ SWIFTSOUP_FALLBACK_NONE := by
  unfold startTagPreflight at h
  simp only at h
  repeat' split at h
  all_goals (cases h; try decide)

theorem startTagPreflight_ok {bytes : List Byte} {length : Nat} {st : ScanState}
    {head : StartTagHead} (h : startTagPreflight bytes length st = Except.ok head) :
    head.nameStart = st.i + 1 ∧ head.nameStart < head.nameEnd ∧ head.st.i = st.i ∧
      head.st.events = st.events ∧
      scanTagName bytes length (length - (st.i + 1)) (st.i + 1) = some head.nameEnd ∧
      head.tagId = tag_id_for_ascii_lowercase bytes head.nameStart head.nameEnd := by
  unfold startTagPreflight at h
  simp only at h
  split at h
  · cases h
  · rename_i nameEnd hname
    have h1 := scanTagName_ge hname
    repeat' split at h
    all_goals
      cases h
      try (refine ⟨rfl, ?_, rfl, rfl, hname, rfl⟩
           simp only
           omega)

theorem startTagFinish_defined (bytes : List Byte) (length : Nat) (sinks : Sinks)
    (tagId : tag_id) (nameStart nameEnd j : Nat) (s : Bool) (st : ScanState)
    (hj : j ≤ length) (hl : length + 10 ≤ INT_MAX) :
    (startTagFinish bytes length sinks tagId nameStart nameEnd j s st).Defined := by
  unfold startTagFinish
  simp only
  split
  · exact rawText_defined _ _ _ _ _ _ (by omega) (by omega)
  · split
    · exact rawText_defined _ _ _ _ _ _ (by omega) (by omega)
    · split
      · exact rawText_defined _ _ _ _ _ _ (by omega) (by omega)
      · trivial

theorem startTag_defined (bytes : List Byte) (length : Nat) (sinks : Sinks) (st : ScanState)
    (hl : length + 10 ≤ INT_MAX) :
    (startTag bytes length sinks st).Defined := by
  unfold startTag
  split
  · trivial
  · split
    · rename_i hattr
      exact absurd hattr (attrLoop_ne_outOfFuel _ _ _ _ _ _ (Nat.le_refl _))
    · trivial
    · trivial
    · rename_i hattr
      have h2 := attrLoop_ended hattr
      exact startTagFinish_defined _ _ _ _ _ _ _ _ _ h2.2 hl

theorem startTag_good (bytes : List Byte) (length : Nat) (sinks : Sinks) (st : ScanState) :
    Step.Good length st.i (startTag bytes length sinks st) := by
  unfold startTag
  split
  · rename_i r hpre
    exact startTagPreflight_error hpre
  · rename_i head hpre
    have hh := startTagPreflight_ok hpre
    split
    · rename_i hattr
      exact absurd hattr (attrLoop_ne_outOfFuel _ _ _ _ _ _ (Nat.le_refl _))
    · rename_i hattr
      exact attrLoop_fail_ne_none hattr
    · simp [Step.Good]
    · rename_i hattr
      have h2 := attrLoop_ended hattr
      exact startTagFinish_good _ _ _ _ _ _ _ _ _ _ (by omega) h2.2

theorem nextTagIndex_bounds (bytes : List Byte) (length i : Nat) (hi : i < length) :
    i < nextTagIndex bytes length i ∧ nextTagIndex bytes length i ≤ length := by
  unfold nextTagIndex
  simp only
  split
  · rename_i p hp
    split at hp
    · have := memchr_some hp
      omega
    · cases hp
  · omega

theorem textSpan_good (bytes : List Byte) (length : Nat) (st : ScanState) (hi : st.i < length) :
    Step.Good length st.i (textSpan bytes length st) := by
  unfold textSpan
  simp only
  split
  · simp [Step.Good]
  · exact nextTagIndex_bounds bytes length st.i hi

theorem commentOrDeclaration_good (bytes : List Byte) (length : Nat) (st : ScanState) :
    Step.Good length st.i (commentOrDeclaration bytes length st) := by
  unfold commentOrDeclaration
  simp only
  split
  · simp [Step.Good]
  · split
    · trivial
    · split
      · split
        · rename_i j hj
          have := findCommentEnd_ge hj
          simp only [Step.Good]
          omega
        · simp [Step.Good]
        · trivial
      · have := seekGt_ge bytes length (st.i + 2)
        split
        · simp [Step.Good]
        · simp only [Step.Good]
          omega

theorem commentOrDeclaration_defined (bytes : List Byte) (length : Nat) (st : ScanState)
    (hi : st.i + 1 < length) (hl : length + 2 ≤ INT_MAX) :
    (commentOrDeclaration bytes length st).Defined := by
  unfold commentOrDeclaration
  simp only
  split
  · trivial
  · rw [if_neg (by omega)]
    split
    · have hd := findCommentEnd_defined bytes length (length - (st.i + 4) + 1) (st.i + 4)
        (by omega) (by omega) (by omega)
      split
      · trivial
      · trivial
      · rename_i hf
        exact absurd hf hd
    · split <;> trivial

theorem processingInstruction_good (bytes : List Byte) (length : Nat) (st : ScanState) :
    Step.Good length st.i (processingInstruction bytes length st) := by
  unfold processingInstruction
  simp only
  have := seekGt_ge bytes length (st.i + 2)
  split
  · simp [Step.Good]
  · simp only [Step.Good]
    omega

theorem endTag_good (bytes : List Byte) (length : Nat) (st : ScanState) :
    Step.Good length st.i (endTag bytes length st) := by
  unfold endTag
  simp only
  split
  · simp [Step.Good]
  · rename_i nameEnd hname
    have h1 := scanTagName_ge hname
    have h2 := seekGt_ge bytes length nameEnd
    split
    · simp [Step.Good]
    · split
      · simp [Step.Good]
      · split
        · simp [Step.Good]
        · split
          · simp [Step.Good]
          · split
            · simp [Step.Good]
            · simp only [Step.Good]
              omega

theorem step_good (bytes : List Byte) (length : Nat) (sinks : Sinks) (st : ScanState)
    (hi : st.i < length) : Step.Good length st.i (step bytes length sinks st) := by
  unfold step
  simp only
  split
  · simp [Step.Good]
  · split
    · exact textSpan_good bytes length st hi
    · split
      · simp [Step.Good]
      · split
        · exact commentOrDeclaration_good bytes length { st with sawTagDelimiter := true }
        · split
          · exact endTag_good bytes length { st with sawTagDelimiter := true }
          · split
            · exact processingInstruction_good bytes length { st with sawTagDelimiter := true }
            · split
              · simp [Step.Good]
              · exact startTag_good bytes length sinks { st with sawTagDelimiter := true }

/-- An iteration of the main loop of the decision scanner has a result when
the length leaves room for the look-ahead sums. -/
theorem step_defined (bytes : List Byte) (length : Nat) (sinks : Sinks) (st : ScanState)
    (hl : length + 10 ≤ INT_MAX) : (step bytes length sinks st).Defined := by
  unfold step
  simp only
  split
  · trivial
  · split
    · unfold textSpan
      simp only
      split <;> trivial
    · split
      · trivial
      · rename_i hi
        split
        · exact commentOrDeclaration_defined bytes length { st with sawTagDelimiter := true }
            (by simpa using hi) (by omega)
        · split
          · unfold endTag
            simp only
            repeat' split
            all_goals trivial
          · split
            · unfold processingInstruction
              simp only
              split <;> trivial
            · split
              · trivial
              · exact startTag_defined bytes length sinks { st with sawTagDelimiter := true } hl

theorem finish_contract (st : ScanState) : (finish st).Contract := by
  unfold finish Outcome.Contract
  split
  · right; simp [swiftsoup_fallback_reason.code]
  · split
    · right; simp [swiftsoup_fallback_reason.code]
    · split
      · right; simp [swiftsoup_fallback_reason.code]
      · left; simp [swiftsoup_fallback_reason.code]

theorem reason_code_pos {r : swiftsoup_fallback_reason} (h : r ≠ SWIFTSOUP_FALLBACK_NONE) :
    1 ≤ r.code ∧ r.code ≤ 13 := by
  cases r <;> simp [swiftsoup_fallback_reason.code] at h ⊢

theorem mainLoop_total (bytes : List Byte) (length : Nat) (sinks : Sinks) (n : Nat)
    (st : ScanState) (hn : length - st.i ≤ n) (hl : length + 10 ≤ INT_MAX) :
    ∃ out, mainLoop bytes length sinks n st = some out ∧ out.Contract := by
  induction n generalizing st with
  | zero =>
    unfold mainLoop
    rw [if_neg (by omega)]
    exact ⟨_, rfl, finish_contract st⟩
  | succ n ih =>
    unfold mainLoop
    split
    · rename_i hi
      have hg := step_good bytes length sinks st hi
      split
      · rename_i r ev hstep
        rw [hstep] at hg
        exact ⟨_, rfl, Or.inr ⟨rfl, reason_code_pos hg⟩⟩
      · rename_i st1 hstep
        rw [hstep] at hg
        exact ih st1 (by have := hg.1; omega)
      · rename_i hstep
        have hd := step_defined bytes length sinks st hl
        rw [hstep] at hd
        exact hd.elim
    · exact ⟨_, rfl, finish_contract st⟩

/-- Whatever the main loop returns respects the return contract. -/
theorem mainLoop_contract (bytes : List Byte) (length : Nat) (sinks : Sinks) (n : Nat)
    (st : ScanState) (out : Outcome) (h : mainLoop bytes length sinks n st = some out) :
    out.Contract := by
  induction n generalizing st with
  | zero =>
    unfold mainLoop at h
    split at h
    · cases h
    · injection h with h
      subst h
      exact finish_contract st
  | succ n ih =>
    unfold mainLoop at h
    split at h
    · rename_i hi
      have hg := step_good bytes length sinks st hi
      split at h
      · rename_i r ev hstep
        rw [hstep] at hg
        injection h with h
        subst h
        exact Or.inr ⟨rfl, reason_code_pos hg⟩
      · exact ih _ h
      · cases h
    · injection h with h
      subst h
      exact finish_contract st

/-! ## Claims C1 to C4 -/

/-- The two shapes of a result that respects the return contract. -/
theorem contract_shape (out : Outcome) (h : out.Contract) :
    (out.ret = 0 ∧ out.reason = SWIFTSOUP_FALLBACK_NONE ∧ out.reason.code = 0) ∨
    (out.ret = 1 ∧ out.reason ≠ SWIFTSOUP_FALLBACK_NONE ∧
      1 ≤ out.reason.code ∧ out.reason.code ≤ 13) := by
  rcases h with ⟨h1, h2⟩ | ⟨h1, h2, h3⟩
  · left
    refine ⟨h1, ?_, h2⟩
    revert h2
    cases out.reason <;> simp [swiftsoup_fallback_reason.code]
  · right
    refine ⟨h1, ?_, h2, h3⟩
    intro hn
    rw [hn] at h2
    simp [swiftsoup_fallback_reason.code] at h2

/-- Whatever the decision scanner returns respects the return contract. -/
theorem internal_contract (bytes : Option (List Byte)) (length : Int) (sinks : Sinks)
    (out : Outcome) (h : swiftsoup_should_fallback_internal bytes length sinks = some out) :
    out.Contract := by
  unfold swiftsoup_should_fallback_internal at h
  split at h
  · injection h with h
    subst h
    exact Or.inr ⟨rfl, by decide, by decide⟩
  · split at h
    · injection h with h
      subst h
      exact Or.inr ⟨rfl, by decide, by decide⟩
    · exact mainLoop_contract _ _ _ _ _ _ h

/-- The decision scanner returns when the length leaves room for the
look-ahead sums of the source. -/
theorem internal_returns (bytes : Option (List Byte)) (length : Int) (sinks : Sinks)
    (hl : length + 10 ≤ (INT_MAX : Int)) :
    ∃ out, swiftsoup_should_fallback_internal bytes length sinks = some out := by
  unfold swiftsoup_should_fallback_internal
  split
  · exact ⟨_, rfl⟩
  · split
    · exact ⟨_, rfl⟩
    · obtain ⟨out, h1, _⟩ := mainLoop_total _ length.toNat sinks length.toNat ScanState.init
        (by simp [ScanState.init]) (by omega)
      exact ⟨out, h1⟩

/-- C2: on an empty input (null buffer or `length <= 0`) the decision scanner
returns 1 with reason `MALFORMED_TAG` and performs no sink action, in both of
its entry points, and the hint-only scanner performs no sink action and
collects zero pairs. -/
theorem C2_empty_input (bytes : Option (List Byte)) (length : Int) (sinks : Sinks)
    (recordSelfClosing recordBoolean : Bool) (h : bytes = none ∨ length ≤ 0) :
    swiftsoup_should_fallback_internal bytes length sinks
        = some ⟨1, SWIFTSOUP_FALLBACK_MALFORMED_TAG, []⟩ ∧
    swiftsoup_should_fallback bytes length recordSelfClosing recordBoolean
        = some ⟨1, SWIFTSOUP_FALLBACK_MALFORMED_TAG, []⟩ ∧
    swiftsoup_should_fallback_collect bytes length recordSelfClosing
        = some (⟨1, SWIFTSOUP_FALLBACK_MALFORMED_TAG, []⟩, [], 0) ∧
    swiftsoup_scan_hints_internal bytes length sinks = some [] ∧
    swiftsoup_scan_hints bytes length recordSelfClosing recordBoolean = some [] ∧
    swiftsoup_scan_hints_collect bytes length recordSelfClosing = some ([], [], 0) := by
  have h1 : ∀ s : Sinks, swiftsoup_should_fallback_internal bytes length s
      = some ⟨1, SWIFTSOUP_FALLBACK_MALFORMED_TAG, []⟩ := by
    intro s
    unfold swiftsoup_should_fallback_internal
    rcases h with h | h
    · subst h
      rfl
    · cases bytes with
      | none => rfl
      | some buf => simp [h]
  have h2 : ∀ s : Sinks, swiftsoup_scan_hints_internal bytes length s = some [] := by
    intro s
    unfold swiftsoup_scan_hints_internal
    rcases h with h | h
    · subst h
      rfl
    · cases bytes with
      | none => rfl
      | some buf => simp [h]
  refine ⟨h1 _, h1 _, ?_, h2 _, h2 _, ?_⟩
  · unfold swiftsoup_should_fallback_collect
    rw [h1]
    rfl
  · unfold swiftsoup_scan_hints_collect
    rw [h2]
    rfl

/-- C2 at concrete inputs: the null buffer with length 5. -/
theorem C2_empty_input_witness :
    ((none : Option (List Byte)) = none ∨ (5 : Int) ≤ 0) ∧
    swiftsoup_should_fallback_internal none 5 ⟨true, true, false⟩
        = some ⟨1, SWIFTSOUP_FALLBACK_MALFORMED_TAG, []⟩ ∧
    swiftsoup_scan_hints_collect none 5 true = some ([], [], 0) :=
  ⟨Or.inl rfl,
   (C2_empty_input none 5 ⟨true, true, false⟩ true true (Or.inl rfl)).1,
   (C2_empty_input none 5 ⟨true, true, false⟩ true true (Or.inl rfl)).2.2.2.2.2⟩

/-- C3: what `boolean_attribute_index` returns on the names of its own table.
For every index `k` other than 0, 10 and 30 the `k`-th name is mapped to `k`;
the names `allowfullscreen` (0), `formnovalidate` (10) and `typemustmatch`
(30), whose entries in `booleanAttrLengths` are one less than their length,
are mapped to -1, and the 14-byte string `allowfullscree` is mapped to 0. -/
theorem C3_boolean_attribute_index_on_table :
    (∀ k : Fin 31,
      boolean_attribute_index (booleanAttrNames.getD k.val []) 0
          (booleanAttrNames.getD k.val []).length
        = if k.val = 0 ∨ k.val = 10 ∨ k.val = 30 then -1 else (k.val : Int)) ∧
    boolean_attribute_index (cstr "allowfullscreen") 0 15 = -1 ∧
    boolean_attribute_index (cstr "formnovalidate") 0 14 = -1 ∧
    boolean_attribute_index (cstr "typemustmatch") 0 13 = -1 ∧
    boolean_attribute_index (cstr "allowfullscree") 0 14 = 0 := by
  decide!

/-- C4: the decision scanner on `<input n>` and `<input n="yes">` for every
name `n` of the boolean attribute table, with both callbacks installed: it
returns 0 with reason `NONE`; for every index `k` other than 0, 10 and 30 it
reports exactly `[(k, 1)]`, respectively `[(k, 0)]`; for `allowfullscreen`,
`formnovalidate` and `typemustmatch` it reports no boolean hint at all. -/
theorem C4_input_boolean_hints :
    ∀ k : Fin 31,
      (decide_input (cstr "<input " ++ booleanAttrNames.getD k.val [] ++ cstr ">")).map
          (fun out => (out.ret, out.reason, booleanCalls out.events))
        = some (0, SWIFTSOUP_FALLBACK_NONE,
            if k.val = 0 ∨ k.val = 10 ∨ k.val = 30 then [] else [((k.val : Int), 1)]) ∧
      (decide_input (cstr "<input " ++ booleanAttrNames.getD k.val [] ++ cstr "=\"yes\">")).map
          (fun out => (out.ret, out.reason, booleanCalls out.events))
        = some (0, SWIFTSOUP_FALLBACK_NONE,
            if k.val = 0 ∨ k.val = 10 ∨ k.val = 30 then [] else [((k.val : Int), 0)]) := by
  decide!

/-! ## Reading a buffer, character classes -/

theorem byteAt_cons_zero (b : Byte) (bs : List Byte) : byteAt (b :: bs) 0 = b := rfl

theorem byteAt_cons_succ (b : Byte) (bs : List Byte) (k : Nat) :
    byteAt (b :: bs) (k + 1) = byteAt bs k := rfl

theorem byteAt_append_left {as : List Byte} (bs : List Byte) {k : Nat} (h : k < as.length) :
    byteAt (as ++ bs) k = byteAt as k := by
  unfold byteAt
  rw [List.getD_eq_getElem?_getD, List.getD_eq_getElem?_getD, List.getElem?_append_left h]

theorem byteAt_append_right (as bs : List Byte) {k : Nat} (h : as.length ≤ k) :
    byteAt (as ++ bs) k = byteAt bs (k - as.length) := by
  unfold byteAt
  rw [List.getD_eq_getElem?_getD, List.getD_eq_getElem?_getD, List.getElem?_append_right h]

theorem byteAt_mem {bs : List Byte} {k : Nat} (h : k < bs.length) : byteAt bs k ∈ bs := by
  unfold byteAt
  rw [List.getD_eq_getElem?_getD, List.getElem?_eq_getElem h]
  exact List.getElem_mem h

theorem nameChar_not_markup :
    ∀ b : Byte, isNameCharTable b = true →
      b ≠ 0x00 ∧ b ≠ 0x3C ∧ b ≠ 0x21 ∧ b ≠ 0x2F ∧ b ≠ 0x3F ∧ b.val < 0x80 := by
  decide!

theorem nonAscii_not_nameChar :
    ∀ b : Byte, b.val ≥ 0x80 →
      isNameCharTable b = false ∧ b ≠ 0x00 ∧ b ≠ 0x3C ∧ b ≠ 0x21 ∧ b ≠ 0x2F ∧ b ≠ 0x3F := by
  decide!

/-! ## Running the main loop -/

theorem mainLoop_at_end (bytes : List Byte) (length : Nat) (sinks : Sinks) (n : Nat)
    (st : ScanState) (h : length ≤ st.i) :
    mainLoop bytes length sinks n st = some (finish st) := by
  cases n with
  | zero =>
    unfold mainLoop
    rw [if_neg (by omega)]
  | succ n =>
    unfold mainLoop
    rw [if_neg (by omega)]

theorem mainLoop_fail {bytes : List Byte} {length : Nat} {sinks : Sinks} {n : Nat}
    {st : ScanState} {r : swiftsoup_fallback_reason} {events : List Event}
    (hi : st.i < length) (hn : 0 < n) (h : step bytes length sinks st = Step.fail r events) :
    mainLoop bytes length sinks n st = some ⟨1, r, events⟩ := by
  cases n with
  | zero => omega
  | succ n =>
    unfold mainLoop
    rw [if_pos hi, h]

theorem mainLoop_next {bytes : List Byte} {length : Nat} {sinks : Sinks} {n : Nat}
    {st st1 : ScanState} (hi : st.i < length) (hn : 0 < n)
    (h : step bytes length sinks st = Step.next st1) :
    mainLoop bytes length sinks n st = mainLoop bytes length sinks (n - 1) st1 := by
  cases n with
  | zero => omega
  | succ n =>
    conv_lhs => unfold mainLoop
    rw [if_pos hi, h]
    rfl

/-- The decision scanner on a non-empty buffer of exactly `input.length`
bytes is the main loop started from the initial locals. -/
theorem internal_eq_mainLoop (input : List Byte) (sinks : Sinks) (h : input ≠ []) :
    swiftsoup_should_fallback_internal (some input) (input.length : Int) sinks
      = mainLoop input input.length sinks input.length ScanState.init := by
  have hpos : 0 < input.length := List.length_pos.mpr h
  unfold swiftsoup_should_fallback_internal
  simp only [Int.toNat_ofNat]
  rw [if_neg (by omega)]

theorem internal_first_fail {input : List Byte} {sinks : Sinks}
    {r : swiftsoup_fallback_reason} {events : List Event} (h : input ≠ [])
    (hs : step input input.length sinks ScanState.init = Step.fail r events) :
    swiftsoup_should_fallback_internal (some input) (input.length : Int) sinks
      = some ⟨1, r, events⟩ := by
  have hpos : 0 < input.length := List.length_pos.mpr h
  rw [internal_eq_mainLoop input sinks h]
  exact mainLoop_fail (by simpa [ScanState.init] using hpos) hpos hs

/-! ## Null bytes in text -/

theorem nextTagIndex_gt_of_no_lt (bytes : List Byte) (length i k : Nat) (hk : k < length)
    (h : ∀ m, i < m → m ≤ k → byteAt bytes m ≠ 0x3C) :
    k < nextTagIndex bytes length i := by
  unfold nextTagIndex
  simp only
  split
  · rename_i p hp
    split at hp
    · have hm := memchr_some hp
      by_contra hle
      exact h p (by omega) (by omega) hm.2.2.1
    · cases hp
  · exact hk

theorem textSpan_null {bytes : List Byte} {length : Nat} {st : ScanState} {k : Nat}
    (hik : st.i ≤ k) (hk : k < length) (h0 : byteAt bytes k = 0x00)
    (h : ∀ m, st.i < m → m ≤ k → byteAt bytes m ≠ 0x3C) :
    textSpan bytes length st = Step.fail SWIFTSOUP_FALLBACK_CONTAINS_NULL st.events := by
  unfold textSpan
  simp only
  have hnext := nextTagIndex_gt_of_no_lt bytes length st.i k hk h
  rw [if_pos (memchr_isSome_of_mem hik (by omega) h0)]

/-- A main-loop iteration that starts in a text span holding a null byte
fails with `CONTAINS_NULL`. -/
theorem step_null {bytes : List Byte} {length : Nat} {sinks : Sinks} {st : ScanState} {k : Nat}
    (hik : st.i ≤ k) (hk : k < length) (h0 : byteAt bytes k = 0x00)
    (h : ∀ m, st.i ≤ m → m < k → byteAt bytes m ≠ 0x3C) :
    step bytes length sinks st = Step.fail SWIFTSOUP_FALLBACK_CONTAINS_NULL st.events := by
  unfold step
  simp only
  split
  · rfl
  · rename_i hne0
    have hik2 : st.i < k := by
      rcases Nat.lt_or_ge st.i k with hlt | hge
      · exact hlt
      · have : st.i = k := by omega
        rw [this] at hne0
        exact absurd h0 hne0
    rw [if_pos (h st.i (Nat.le_refl _) hik2)]
    apply textSpan_null hik hk h0
    intro m hm1 hm2
    rcases Nat.lt_or_ge m k with hlt | hge
    · exact h m (by omega) hlt
    · have : m = k := by omega
      rw [this, h0]
      decide

/-- C7: for every input in which a 0x00 byte occurs before the first `<`
byte (the input is `pre ++ 0x00 :: rest` with no `<` in `pre`; this covers a
null byte anywhere in an input without `<`), the decision scanner returns 1
with reason `CONTAINS_NULL`, whatever sinks are installed. -/
theorem C7_null_in_leading_text (pre rest : List Byte) (sinks : Sinks)
    (h : (0x3C : Byte) ∉ pre) :
    swiftsoup_should_fallback_internal (some (pre ++ 0x00 :: rest))
        ((pre ++ 0x00 :: rest).length : Int) sinks
      = some ⟨1, SWIFTSOUP_FALLBACK_CONTAINS_NULL, []⟩ := by
  apply internal_first_fail (by simp)
  have hk : pre.length < (pre ++ 0x00 :: rest).length := by simp
  have h0 : byteAt (pre ++ 0x00 :: rest) pre.length = 0x00 := by
    rw [byteAt_append_right pre _ (Nat.le_refl _)]
    simp [byteAt_cons_zero]
  refine @step_null _ _ _ ScanState.init pre.length (Nat.zero_le _) hk h0 ?_
  intro m _ hm
  rw [byteAt_append_left _ hm]
  intro hc
  exact h (hc ▸ byteAt_mem hm)

/-- C7 at a concrete input: `ab\0c<p>`. -/
theorem C7_null_in_leading_text_witness :
    (0x3C : Byte) ∉ ([0x61, 0x62] : List Byte) ∧
    swiftsoup_should_fallback_internal (some ([0x61, 0x62] ++ 0x00 :: [0x63, 0x3C, 0x70, 0x3E]))
        ((([0x61, 0x62] : List Byte) ++ 0x00 :: [0x63, 0x3C, 0x70, 0x3E]).length : Int)
        ⟨true, true, false⟩
      = some ⟨1, SWIFTSOUP_FALLBACK_CONTAINS_NULL, []⟩ :=
  ⟨by decide, C7_null_in_leading_text [0x61, 0x62] [0x63, 0x3C, 0x70, 0x3E] ⟨true, true, false⟩
    (by decide)⟩

/-! ## Inputs without a tag delimiter -/

theorem memchr_eq_none {bytes : List Byte} {start : Nat} {c : Byte} {n : Nat}
    (h : ∀ k, start ≤ k → k < start + n → byteAt bytes k ≠ c) :
    memchr bytes start c n = none := by
  cases hm : memchr bytes start c n with
  | none => rfl
  | some p =>
    have := memchr_some hm
    exact absurd this.2.2.1 (h p this.1 this.2.1)

theorem nextTagIndex_eq_length (bytes : List Byte) (length i : Nat)
    (h : ∀ m, i < m → m < length → byteAt bytes m ≠ 0x3C) :
    nextTagIndex bytes length i = length := by
  unfold nextTagIndex
  simp only
  split
  · rename_i p hp
    split at hp
    · have hm := memchr_some hp
      exact absurd hm.2.2.1 (h p (by omega) (by omega))
    · cases hp
  · rfl

theorem textSpanPlacement_fields (bytes : List Byte) (st : ScanState) (next : Nat) :
    (textSpanPlacement bytes st next).sawTagDelimiter = st.sawTagDelimiter ∧
    (textSpanPlacement bytes st next).events = st.events ∧
    (textSpanPlacement bytes st next).i = st.i ∧
    (textSpanPlacement bytes st next).headingOpen = st.headingOpen ∧
    (textSpanPlacement bytes st next).formatStack = st.formatStack ∧
    (textSpanPlacement bytes st next).tableStack = st.tableStack ∧
    (textSpanPlacement bytes st next).selectDepth = st.selectDepth ∧
    (textSpanPlacement bytes st next).openTagDepth = st.openTagDepth := by
  unfold textSpanPlacement
  simp only
  repeat' split
  all_goals simp

/-- C6, amended: for every non-empty input that contains neither a `<` byte
nor a 0x00 byte, the decision scanner returns 1 with reason
`NO_TAG_DELIMITER` and performs no sink action. -/
theorem C6_no_tag_delimiter (input : List Byte) (sinks : Sinks) (hne : input ≠ [])
    (hlt : (0x3C : Byte) ∉ input) (hnull : (0x00 : Byte) ∉ input) :
    swiftsoup_should_fallback_internal (some input) (input.length : Int) sinks
      = some ⟨1, SWIFTSOUP_FALLBACK_NO_TAG_DELIMITER, []⟩ := by
  have hpos : 0 < input.length := List.length_pos.mpr hne
  have hb : ∀ (c : Byte), c ∉ input → ∀ m, m < input.length → byteAt input m ≠ c := by
    intro c hc m hm heq
    exact hc (heq ▸ byteAt_mem hm)
  rw [internal_eq_mainLoop input sinks hne]
  have hnext : nextTagIndex input input.length 0 = input.length :=
    nextTagIndex_eq_length input input.length 0 (fun m _ hm => hb _ hlt m hm)
  have hstep : step input input.length sinks ScanState.init
      = Step.next { textSpanPlacement input ScanState.init input.length with i := input.length } := by
    unfold step
    simp only
    have h0 : (ScanState.init).i = 0 := rfl
    rw [h0, if_neg (hb _ hnull 0 hpos), if_pos (hb _ hlt 0 hpos)]
    unfold textSpan
    simp only
    rw [h0, hnext, memchr_eq_none (fun k _ hk => hb _ hnull k (by omega))]
    simp
  have hi : (ScanState.init).i < input.length := hpos
  rw [mainLoop_next hi hpos hstep,
    mainLoop_at_end _ _ _ _ _ (show input.length ≤ _ from Nat.le_refl _)]
  have hf := textSpanPlacement_fields input ScanState.init input.length
  unfold finish
  simp only [hf.1, hf.2.1]
  rfl

/-- C6 at a concrete input: `plain text`. -/
theorem C6_no_tag_delimiter_witness :
    cstr "plain text" ≠ [] ∧ (0x3C : Byte) ∉ cstr "plain text" ∧
    (0x00 : Byte) ∉ cstr "plain text" ∧
    swiftsoup_should_fallback_internal (some (cstr "plain text"))
        ((cstr "plain text").length : Int) ⟨true, true, false⟩
      = some ⟨1, SWIFTSOUP_FALLBACK_NO_TAG_DELIMITER, []⟩ :=
  ⟨by decide, by decide, by decide,
   C6_no_tag_delimiter (cstr "plain text") ⟨true, true, false⟩ (by decide) (by decide)
     (by decide)⟩

/-- C6 as stated fails: the one-byte input `\0` is non-empty and contains no
`<`, and the decision scanner returns 1 with reason `CONTAINS_NULL`, not
`NO_TAG_DELIMITER`. -/
theorem C6_counterexample :
    ([0x00] : List Byte) ≠ [] ∧ (0x3C : Byte) ∉ ([0x00] : List Byte) ∧
    decide_input [0x00] = some ⟨1, SWIFTSOUP_FALLBACK_CONTAINS_NULL, []⟩ ∧
    decide_input [0x00] ≠ some ⟨1, SWIFTSOUP_FALLBACK_NO_TAG_DELIMITER, []⟩ := by
  decide!

/-! ## Tag names: namespaces and non-ASCII bytes -/

theorem scanTagName_colon {bytes : List Byte} {length : Nat} {c : Nat} (hc : c < length)
    (h3A : byteAt bytes c = 0x3A) (n j : Nat) (hjc : j ≤ c)
    (hname : ∀ k, j ≤ k → k < c → isNameCharTable (byteAt bytes k) = true) (hn : c - j < n) :
    scanTagName bytes length n j = none := by
  induction n generalizing j with
  | zero => omega
  | succ n ih =>
    unfold scanTagName
    have hj : j < length ∧ isNameCharTable (byteAt bytes j) = true := by
      refine ⟨by omega, ?_⟩
      rcases Nat.lt_or_ge j c with hlt | hge
      · exact hname j (Nat.le_refl _) hlt
      · have : j = c := by omega
        rw [this, h3A]
        decide
    rw [if_pos hj]
    split
    · rfl
    · rename_i hne
      have hlt : j < c := by
        rcases Nat.lt_or_ge j c with hlt | hge
        · exact hlt
        · have : j = c := by omega
          rw [this] at hne
          exact absurd h3A hne
      exact ih (j + 1) (by omega) (fun k hk1 hk2 => hname k (by omega) hk2) (by omega)

theorem scanTagName_run {bytes : List Byte} {length : Nat} {e : Nat} (he : e ≤ length)
    (hstop : e < length → isNameCharTable (byteAt bytes e) = false) (n j : Nat) (hje : j ≤ e)
    (hname : ∀ k, j ≤ k → k < e →
      isNameCharTable (byteAt bytes k) = true ∧ byteAt bytes k ≠ 0x3A)
    (hn : e - j ≤ n) :
    scanTagName bytes length n j = some e := by
  induction n generalizing j with
  | zero =>
    unfold scanTagName
    congr 1
    omega
  | succ n ih =>
    unfold scanTagName
    rcases Nat.lt_or_ge j e with hlt | hge
    · have h1 := hname j (Nat.le_refl _) hlt
      rw [if_pos ⟨by omega, h1.1⟩, if_neg h1.2]
      exact ih (j + 1) (by omega) (fun k hk1 hk2 => hname k (by omega) hk2) (by omega)
    · have hje2 : j = e := by omega
      subst hje2
      have : ¬ (j < length ∧ isNameCharTable (byteAt bytes j) = true) := by
        intro hcon
        have := hstop hcon.1
        rw [hcon.2] at this
        cases this
      rw [if_neg this]

theorem step_startTag {bytes : List Byte} {length : Nat} {sinks : Sinks} {st : ScanState}
    (h1 : byteAt bytes st.i = 0x3C) (h2 : st.i + 1 < length)
    (h3 : isNameCharTable (byteAt bytes (st.i + 1)) = true) :
    step bytes length sinks st
      = startTag bytes length sinks { st with sawTagDelimiter := true } := by
  have hm := nameChar_not_markup _ h3
  unfold step
  simp only
  rw [if_neg (by rw [h1]; decide), if_neg (by simp [h1]), if_neg (by omega),
    if_neg hm.2.2.1, if_neg hm.2.2.2.1, if_neg hm.2.2.2.2.1, if_neg (by simp [h3])]

theorem step_endTag {bytes : List Byte} {length : Nat} {sinks : Sinks} {st : ScanState}
    (h1 : byteAt bytes st.i = 0x3C) (h2 : st.i + 1 < length)
    (h3 : byteAt bytes (st.i + 1) = 0x2F) :
    step bytes length sinks st = endTag bytes length { st with sawTagDelimiter := true } := by
  unfold step
  simp only
  rw [if_neg (by rw [h1]; decide), if_neg (by simp [h1]), if_neg (by omega),
    if_neg (by rw [h3]; decide), if_pos h3]

theorem startTag_namespaced {bytes : List Byte} {length : Nat} {sinks : Sinks} {st : ScanState}
    (h : scanTagName bytes length (length - (st.i + 1)) (st.i + 1) = none) :
    startTag bytes length sinks st = Step.fail SWIFTSOUP_FALLBACK_NAMESPACED_TAG st.events := by
  unfold startTag startTagPreflight
  simp only
  rw [h]

theorem endTag_namespaced {bytes : List Byte} {length : Nat} {st : ScanState}
    (h : scanTagName bytes length (length - (st.i + 2)) (st.i + 2) = none) :
    endTag bytes length st = Step.fail SWIFTSOUP_FALLBACK_NAMESPACED_TAG st.events := by
  unfold endTag
  simp only
  rw [h]

theorem startTag_nonAscii {bytes : List Byte} {length : Nat} {sinks : Sinks} {st : ScanState}
    {e : Nat} (h : scanTagName bytes length (length - (st.i + 1)) (st.i + 1) = some e)
    (h1 : e ≠ st.i + 1) (h2 : e < length) (h3 : (byteAt bytes e).val ≥ 0x80) :
    startTag bytes length sinks st
      = Step.fail SWIFTSOUP_FALLBACK_NON_ASCII_TAG_NAME st.events := by
  unfold startTag startTagPreflight
  simp only
  rw [h]
  simp only
  rw [if_neg h1, if_pos ⟨h2, h3⟩]

/-- C9: for every input that begins with `<` or with `</` followed by a run
of name characters that contains a `:` (whatever follows the run), the
decision scanner returns 1 with reason `NAMESPACED_TAG`. -/
theorem C9_namespaced_tag (name rest : List Byte) (sinks : Sinks)
    (hname : ∀ b ∈ name, isNameCharTable b = true) (hcolon : (0x3A : Byte) ∈ name) :
    swiftsoup_should_fallback_internal (some (0x3C :: (name ++ rest)))
        ((0x3C :: (name ++ rest)).length : Int) sinks
      = some ⟨1, SWIFTSOUP_FALLBACK_NAMESPACED_TAG, []⟩ ∧
    swiftsoup_should_fallback_internal (some (0x3C :: 0x2F :: (name ++ rest)))
        ((0x3C :: 0x2F :: (name ++ rest)).length : Int) sinks
      = some ⟨1, SWIFTSOUP_FALLBACK_NAMESPACED_TAG, []⟩ := by
  obtain ⟨c, hc, hcv⟩ := List.getElem_of_mem hcolon
  have hat : ∀ k, k < name.length → byteAt (name ++ rest) k = byteAt name k :=
    fun k hk => byteAt_append_left rest hk
  have hnc : ∀ k, k < name.length → isNameCharTable (byteAt (name ++ rest) k) = true := by
    intro k hk
    rw [hat k hk]
    exact hname _ (byteAt_mem hk)
  have hcol : byteAt (name ++ rest) c = 0x3A := by
    rw [hat c hc]
    unfold byteAt
    rw [List.getD_eq_getElem?_getD, List.getElem?_eq_getElem hc]
    simpa using hcv
  constructor
  · apply internal_first_fail (by simp)
    have h0 : (ScanState.init).i = 0 := rfl
    rw [step_startTag (by rw [h0]; rfl) (by rw [h0]; simp; omega)
      (by rw [h0]; exact hnc 0 (by omega))]
    apply startTag_namespaced
    simp only [h0]
    apply scanTagName_colon (c := c + 1) (by simp; omega) (by simpa [byteAt_cons_succ] using hcol)
    · omega
    · intro k hk1 hk2
      obtain ⟨k, rfl⟩ : ∃ m, k = m + 1 := ⟨k - 1, by omega⟩
      rw [byteAt_cons_succ]
      exact hnc k (by omega)
    · simp
      omega
  · apply internal_first_fail (by simp)
    have h0 : (ScanState.init).i = 0 := rfl
    rw [step_endTag (by rw [h0]; rfl) (by rw [h0]; simp) (by rw [h0]; rfl)]
    apply endTag_namespaced
    simp only [h0]
    apply scanTagName_colon (c := c + 2) (by simp; omega)
      (by simpa [byteAt_cons_succ] using hcol)
    · omega
    · intro k hk1 hk2
      obtain ⟨k, rfl⟩ : ∃ m, k = m + 2 := ⟨k - 2, by omega⟩
      rw [byteAt_cons_succ, byteAt_cons_succ]
      exact hnc k (by omega)
    · simp
      omega

/-- C9 at a concrete input: the name `x:y` followed by `>`, that is `<x:y>`
and `</x:y>`. -/
theorem C9_namespaced_tag_witness :
    (∀ b ∈ cstr "x:y", isNameCharTable b = true) ∧ (0x3A : Byte) ∈ cstr "x:y" ∧
    swiftsoup_should_fallback_internal (some (0x3C :: (cstr "x:y" ++ cstr ">")))
        ((0x3C :: (cstr "x:y" ++ cstr ">")).length : Int) ⟨true, true, false⟩
      = some ⟨1, SWIFTSOUP_FALLBACK_NAMESPACED_TAG, []⟩ :=
  ⟨by decide!, by decide!,
   (C9_namespaced_tag (cstr "x:y") (cstr ">") ⟨true, true, false⟩ (by decide!) (by decide!)).1⟩

theorem step_malformed_open {bytes : List Byte} {length : Nat} {sinks : Sinks} {st : ScanState}
    (h1 : byteAt bytes st.i = 0x3C) (h2 : st.i + 1 < length)
    (h3 : (byteAt bytes (st.i + 1)).val ≥ 0x80) :
    step bytes length sinks st = Step.fail SWIFTSOUP_FALLBACK_MALFORMED_TAG st.events := by
  have hm := nonAscii_not_nameChar _ h3
  unfold step
  simp only
  rw [if_neg (by rw [h1]; decide), if_neg (by simp [h1]), if_neg (by omega),
    if_neg hm.2.2.2.1, if_neg hm.2.2.2.2.1, if_neg hm.2.2.2.2.2, if_pos hm.1]

/-- C10, amended: for every input of the form `<` N `>` followed by anything,
where N is a non-empty byte sequence made only of name characters other than
`:` and of bytes >= 0x80, with at least one byte >= 0x80, the decision scanner
returns 1; the reason is `NON_ASCII_TAG_NAME` when N begins with a name
character, and `MALFORMED_TAG` when N begins with a byte >= 0x80. -/
theorem C10_non_ascii_tag_name (N rest : List Byte) (sinks : Sinks) (hne : N ≠ [])
    (hall : ∀ b ∈ N, (isNameCharTable b = true ∧ b ≠ 0x3A) ∨ b.val ≥ 0x80)
    (hex : ∃ b ∈ N, b.val ≥ 0x80) :
    swiftsoup_should_fallback_internal (some (0x3C :: (N ++ 0x3E :: rest)))
        ((0x3C :: (N ++ 0x3E :: rest)).length : Int) sinks
      = some ⟨1,
          if (byteAt N 0).val ≥ 0x80 then SWIFTSOUP_FALLBACK_MALFORMED_TAG
          else SWIFTSOUP_FALLBACK_NON_ASCII_TAG_NAME, []⟩ := by
  have hlen : 0 < N.length := List.length_pos.mpr hne
  have hat : ∀ k, k < N.length →
      byteAt (0x3C :: (N ++ 0x3E :: rest)) (k + 1) = byteAt N k := by
    intro k hk
    rw [byteAt_cons_succ, byteAt_append_left _ hk]
  have h0 : (ScanState.init).i = 0 := rfl
  apply internal_first_fail (by simp)
  split
  · rename_i hfirst
    exact step_malformed_open (by rw [h0]; rfl) (by rw [h0]; simp)
      (by rw [h0, hat 0 hlen]; exact hfirst)
  · rename_i hfirst
    have hexi : ∃ e, e < N.length ∧ (byteAt N e).val ≥ 0x80 := by
      obtain ⟨b, hb, hbv⟩ := hex
      obtain ⟨e, he, hev⟩ := List.getElem_of_mem hb
      refine ⟨e, he, ?_⟩
      unfold byteAt
      rw [List.getD_eq_getElem?_getD, List.getElem?_eq_getElem he]
      simpa [hev] using hbv
    obtain ⟨e, ⟨he, hev⟩, hmin⟩ :
        ∃ e, (e < N.length ∧ (byteAt N e).val ≥ 0x80) ∧
          ∀ k, k < e → ¬ (k < N.length ∧ (byteAt N k).val ≥ 0x80) :=
      ⟨Nat.find hexi, Nat.find_spec hexi, fun k hk => Nat.find_min hexi hk⟩
    have he0 : 0 < e := by
      rcases Nat.eq_zero_or_pos e with h | h
      · rw [h] at hev
        exact absurd hev hfirst
      · exact h
    have hrun : ∀ k, k < e →
        isNameCharTable (byteAt N k) = true ∧ byteAt N k ≠ 0x3A := by
      intro k hk
      have hklt : k < N.length := by omega
      rcases hall _ (byteAt_mem hklt) with h | h
      · exact h
      · exact absurd ⟨hklt, h⟩ (hmin k hk)
    have hfirstName : isNameCharTable (byteAt N 0) = true := (hrun 0 he0).1
    rw [step_startTag (by rw [h0]; rfl) (by rw [h0]; simp)
      (by rw [h0, hat 0 hlen]; exact hfirstName)]
    have hscan : scanTagName (0x3C :: (N ++ 0x3E :: rest)) (0x3C :: (N ++ 0x3E :: rest)).length
        ((0x3C :: (N ++ 0x3E :: rest)).length - (0 + 1)) (0 + 1) = some (e + 1) := by
      apply scanTagName_run (by simp; omega)
      · intro _
        rw [hat e he]
        exact (nonAscii_not_nameChar _ hev).1
      · omega
      · intro k hk1 hk2
        obtain ⟨k, rfl⟩ : ∃ m, k = m + 1 := ⟨k - 1, by omega⟩
        rw [hat k (by omega)]
        exact hrun k (by omega)
      · simp
        omega
    exact startTag_nonAscii (e := e + 1) hscan (by simp; omega) (by simp; omega)
      (by rw [hat e he]; exact hev)

/-- C10 at a concrete input: `<a\xC3\xA9>` (the name `a` followed by the two
bytes of a UTF-8 encoded letter), which fails with `NON_ASCII_TAG_NAME`. -/
theorem C10_non_ascii_tag_name_witness :
    ([0x61, 0xC3, 0xA9] : List Byte) ≠ [] ∧
    (∀ b ∈ ([0x61, 0xC3, 0xA9] : List Byte),
      (isNameCharTable b = true ∧ b ≠ 0x3A) ∨ b.val ≥ 0x80) ∧
    (∃ b ∈ ([0x61, 0xC3, 0xA9] : List Byte), b.val ≥ 0x80) ∧
    swiftsoup_should_fallback_internal (some (0x3C :: ([0x61, 0xC3, 0xA9] ++ 0x3E :: [])))
        ((0x3C :: (([0x61, 0xC3, 0xA9] : List Byte) ++ 0x3E :: [])).length : Int)
        ⟨true, true, false⟩
      = some ⟨1, SWIFTSOUP_FALLBACK_NON_ASCII_TAG_NAME, []⟩ :=
  ⟨by decide!, by decide!, by decide!,
   C10_non_ascii_tag_name [0x61, 0xC3, 0xA9] [] ⟨true, true, false⟩ (by decide!) (by decide!)
     (by decide!)⟩

/-- C10 as stated fails: in `<\xC3\xA9>` the name consists of two bytes
>= 0x80, and the decision scanner returns 1 with reason `MALFORMED_TAG`, not
`NON_ASCII_TAG_NAME`. -/
theorem C10_counterexample :
    ([0xC3, 0xA9] : List Byte) ≠ [] ∧
    (∀ b ∈ ([0xC3, 0xA9] : List Byte),
      (isNameCharTable b = true ∧ b ≠ 0x3A) ∨ b.val ≥ 0x80) ∧
    (∃ b ∈ ([0xC3, 0xA9] : List Byte), b.val ≥ 0x80) ∧
    decide_input (0x3C :: ([0xC3, 0xA9] ++ [0x3E]))
      = some ⟨1, SWIFTSOUP_FALLBACK_MALFORMED_TAG, []⟩ ∧
    decide_input (0x3C :: ([0xC3, 0xA9] ++ [0x3E]))
      ≠ some ⟨1, SWIFTSOUP_FALLBACK_NON_ASCII_TAG_NAME, []⟩ := by
  decide!

/-! ## The tag classifier -/

theorem lower_ascii : ∀ b : Byte, (asciiLowerTable b).val < 0x80 → b.val < 0x80 := by
  decide!

theorem slice_length (bytes : List Byte) (start n : Nat) : (slice bytes start n).length = n := by
  simp [slice]

theorem byteAt_slice (bytes : List Byte) (start n k : Nat) (h : k < n) :
    byteAt (slice bytes start n) k = byteAt bytes (start + k) := by
  unfold slice
  conv_lhs => unfold byteAt
  rw [List.getD_eq_getElem?_getD, List.getElem?_map, List.getElem?_range h]
  rfl

theorem lowerSlice_length (bytes : List Byte) (start stop : Nat) :
    (lowerSlice bytes start stop).length = stop - start := by
  simp [lowerSlice, slice_length]

theorem byteAt_lowerSlice (bytes : List Byte) (start stop k : Nat) (h : k < stop - start) :
    byteAt (lowerSlice bytes start stop) k = asciiLowerTable (byteAt bytes (start + k)) := by
  unfold lowerSlice
  conv_lhs => unfold byteAt
  rw [List.getD_eq_getElem?_getD, List.getElem?_map]
  have h2 : k < (slice bytes start (stop - start)).length := by rw [slice_length]; exact h
  rw [List.getElem?_eq_getElem h2]
  simp only [Option.map_some', Option.getD_some]
  congr 1
  have := byteAt_slice bytes start (stop - start) k h
  rw [← this]
  unfold byteAt
  rw [List.getD_eq_getElem?_getD, List.getElem?_eq_getElem h2]
  rfl

theorem list_eq_of_byteAt {as bs : List Byte} (hlen : as.length = bs.length)
    (h : ∀ k, k < as.length → byteAt as k = byteAt bs k) : as = bs := by
  apply List.ext_getElem hlen
  intro k h1 h2
  have := h k h1
  unfold byteAt at this
  rw [List.getD_eq_getElem?_getD, List.getD_eq_getElem?_getD,
    List.getElem?_eq_getElem h1, List.getElem?_eq_getElem h2] at this
  simpa using this

theorem matches_tag_iff (bytes : List Byte) (start stop : Nat) (tag : List Byte) (length : Nat) :
    matches_tag bytes start stop tag length = true ↔
      ((stop : Int) - (start : Int) = (length : Int) ∧
        ∀ i, i < length → (byteAt bytes (start + i)).val < 0x80 ∧
          asciiLowerTable (byteAt bytes (start + i)) = byteAt tag i) := by
  unfold matches_tag
  split
  · rename_i h
    simp [h]
  · rename_i h
    have h : (stop : Int) - (start : Int) = (length : Int) := by simpa using h
    simp only [List.all_eq_true, List.mem_range, Bool.and_eq_true, Bool.not_eq_true',
      decide_eq_false_iff_not, beq_iff_eq, h, true_and]
    constructor
    · intro hh i hi
      have := hh i hi
      exact ⟨by omega, this.2⟩
    · intro hh i hi
      have := hh i hi
      exact ⟨by omega, this.2⟩

/-- For an ASCII tag of the stated length and a range of that length,
`matches_tag` holds exactly when the lowercased range is the tag. -/
theorem matches_tag_lowered (bytes : List Byte) (start : Nat) (tag : List Byte) (len : Nat)
    (htag : tag.length = len) (hascii : ∀ i, i < len → (byteAt tag i).val < 0x80) :
    matches_tag bytes start (start + len) tag len = true ↔
      lowerSlice bytes start (start + len) = tag := by
  rw [matches_tag_iff]
  have hsub : start + len - start = len := by omega
  constructor
  · rintro ⟨_, h⟩
    apply list_eq_of_byteAt
    · rw [lowerSlice_length, htag, hsub]
    · intro k hk
      rw [lowerSlice_length, hsub] at hk
      rw [byteAt_lowerSlice _ _ _ _ (by omega)]
      exact (h k hk).2
  · intro h
    refine ⟨by push_cast; omega, ?_⟩
    intro i hi
    have h1 : asciiLowerTable (byteAt bytes (start + i)) = byteAt tag i := by
      rw [← byteAt_lowerSlice bytes start (start + len) i (by omega), h]
    refine ⟨?_, h1⟩
    apply lower_ascii
    rw [h1]
    exact hascii i hi

/-! ### The classifier in terms of the lowercased name -/

theorem classify_len1 (bytes : List Byte) (start : Nat) :
    tag_id_for_ascii_lowercase bytes start (start + 1)
      = classifyLowered (lowerSlice bytes start (start + 1)) := by
  have hlen : (lowerSlice bytes start (start + 1)).length = 1 := by
    rw [lowerSlice_length]; omega
  have hf : byteAt (lowerSlice bytes start (start + 1)) 0
      = asciiLowerTable (byteAt bytes start) := by
    rw [byteAt_lowerSlice _ _ _ _ (by omega)]; rfl
  have hI : ((start + 1 : Nat) : Int) - (start : Int) = 1 := by push_cast; omega
  unfold tag_id_for_ascii_lowercase classifyLowered
  simp only [hlen, hf, hI]
  rfl

theorem classify_len2 (bytes : List Byte) (start : Nat) :
    tag_id_for_ascii_lowercase bytes start (start + 2)
      = classifyLowered (lowerSlice bytes start (start + 2)) := by
  have hlen : (lowerSlice bytes start (start + 2)).length = 2 := by
    rw [lowerSlice_length]; omega
  have hf : byteAt (lowerSlice bytes start (start + 2)) 0
      = asciiLowerTable (byteAt bytes start) := by
    rw [byteAt_lowerSlice _ _ _ _ (by omega)]; rfl
  have hs : byteAt (lowerSlice bytes start (start + 2)) 1
      = asciiLowerTable (byteAt bytes (start + 1)) := by
    rw [byteAt_lowerSlice _ _ _ _ (by omega)]
  have hI : ((start + 2 : Nat) : Int) - (start : Int) = 2 := by push_cast; omega
  unfold tag_id_for_ascii_lowercase classifyLowered
  simp only [hlen, hf, hs, hI]
  simp only [matches_tag_lowered bytes start (cstr "em") 2 (by decide) (by decide!),
    matches_tag_lowered bytes start (cstr "br") 2 (by decide) (by decide!)]
  rfl

theorem classify_len3 (bytes : List Byte) (start : Nat) :
    tag_id_for_ascii_lowercase bytes start (start + 3)
      = classifyLowered (lowerSlice bytes start (start + 3)) := by
  have hlen : (lowerSlice bytes start (start + 3)).length = 3 := by
    rw [lowerSlice_length]; omega
  have hf : byteAt (lowerSlice bytes start (start + 3)) 0
      = asciiLowerTable (byteAt bytes start) := by
    rw [byteAt_lowerSlice _ _ _ _ (by omega)]; rfl
  have hs : byteAt (lowerSlice bytes start (start + 3)) 1
      = asciiLowerTable (byteAt bytes (start + 1)) := by
    rw [byteAt_lowerSlice _ _ _ _ (by omega)]
  have hI : ((start + 3 : Nat) : Int) - (start : Int) = 3 := by push_cast; omega
  unfold tag_id_for_ascii_lowercase classifyLowered
  simp only [hlen, hf, hs, hI]
  simp only [matches_tag_lowered bytes start (cstr "img") 3 (by decide) (by decide!),
    matches_tag_lowered bytes start (cstr "col") 3 (by decide) (by decide!),
    matches_tag_lowered bytes start (cstr "wbr") 3 (by decide) (by decide!)]
  rfl

theorem classify_len4 (bytes : List Byte) (start : Nat) :
    tag_id_for_ascii_lowercase bytes start (start + 4)
      = classifyLowered (lowerSlice bytes start (start + 4)) := by
  have hlen : (lowerSlice bytes start (start + 4)).length = 4 := by
    rw [lowerSlice_length]; omega
  have hf : byteAt (lowerSlice bytes start (start + 4)) 0
      = asciiLowerTable (byteAt bytes start) := by
    rw [byteAt_lowerSlice _ _ _ _ (by omega)]; rfl
  have hs : byteAt (lowerSlice bytes start (start + 4)) 1
      = asciiLowerTable (byteAt bytes (start + 1)) := by
    rw [byteAt_lowerSlice _ _ _ _ (by omega)]
  have hI : ((start + 4 : Nat) : Int) - (start : Int) = 4 := by push_cast; omega
  unfold tag_id_for_ascii_lowercase classifyLowered
  simp only [hlen, hf, hs, hI]
  simp only [matches_tag_lowered bytes start (cstr "base") 4 (by decide) (by decide!),
    matches_tag_lowered bytes start (cstr "meta") 4 (by decide) (by decide!),
    matches_tag_lowered bytes start (cstr "link") 4 (by decide) (by decide!),
    matches_tag_lowered bytes start (cstr "body") 4 (by decide) (by decide!),
    matches_tag_lowered bytes start (cstr "head") 4 (by decide) (by decide!),
    matches_tag_lowered bytes start (cstr "html") 4 (by decide) (by decide!),
    matches_tag_lowered bytes start (cstr "area") 4 (by decide) (by decide!),
    matches_tag_lowered bytes start (cstr "font") 4 (by decide) (by decide!)]
  rfl

theorem classify_len5 (bytes : List Byte) (start : Nat) :
    tag_id_for_ascii_lowercase bytes start (start + 5)
      = classifyLowered (lowerSlice bytes start (start + 5)) := by
  have hlen : (lowerSlice bytes start (start + 5)).length = 5 := by
    rw [lowerSlice_length]; omega
  have hf : byteAt (lowerSlice bytes start (start + 5)) 0
      = asciiLowerTable (byteAt bytes start) := by
    rw [byteAt_lowerSlice _ _ _ _ (by omega)]; rfl
  have hs : byteAt (lowerSlice bytes start (start + 5)) 1
      = asciiLowerTable (byteAt bytes (start + 1)) := by
    rw [byteAt_lowerSlice _ _ _ _ (by omega)]
  have hI : ((start + 5 : Nat) : Int) - (start : Int) = 5 := by push_cast; omega
  unfold tag_id_for_ascii_lowercase classifyLowered
  simp only [hlen, hf, hs, hI]
  simp only [matches_tag_lowered bytes start (cstr "title") 5 (by decide) (by decide!),
    matches_tag_lowered bytes start (cstr "style") 5 (by decide) (by decide!),
    matches_tag_lowered bytes start (cstr "input") 5 (by decide) (by decide!),
    matches_tag_lowered bytes start (cstr "embed") 5 (by decide) (by decide!),
    matches_tag_lowered bytes start (cstr "table") 5 (by decide) (by decide!),
    matches_tag_lowered bytes start (cstr "tbody") 5 (by decide) (by decide!),
    matches_tag_lowered bytes start (cstr "thead") 5 (by decide) (by decide!),
    matches_tag_lowered bytes start (cstr "tfoot") 5 (by decide) (by decide!),
    matches_tag_lowered bytes start (cstr "track") 5 (by decide) (by decide!),
    matches_tag_lowered bytes start (cstr "param") 5 (by decide) (by decide!)]
  rfl

theorem classify_len6 (bytes : List Byte) (start : Nat) :
    tag_id_for_ascii_lowercase bytes start (start + 6)
      = classifyLowered (lowerSlice bytes start (start + 6)) := by
  have hlen : (lowerSlice bytes start (start + 6)).length = 6 := by
    rw [lowerSlice_length]; omega
  have hf : byteAt (lowerSlice bytes start (start + 6)) 0
      = asciiLowerTable (byteAt bytes start) := by
    rw [byteAt_lowerSlice _ _ _ _ (by omega)]; rfl
  have hs : byteAt (lowerSlice bytes start (start + 6)) 1
      = asciiLowerTable (byteAt bytes (start + 1)) := by
    rw [byteAt_lowerSlice _ _ _ _ (by omega)]
  have hI : ((start + 6 : Nat) : Int) - (start : Int) = 6 := by push_cast; omega
  unfold tag_id_for_ascii_lowercase classifyLowered
  simp only [hlen, hf, hs, hI]
  simp only [matches_tag_lowered bytes start (cstr "script") 6 (by decide) (by decide!),
    matches_tag_lowered bytes start (cstr "select") 6 (by decide) (by decide!),
    matches_tag_lowered bytes start (cstr "source") 6 (by decide) (by decide!),
    matches_tag_lowered bytes start (cstr "strong") 6 (by decide) (by decide!),
    matches_tag_lowered bytes start (cstr "hgroup") 6 (by decide) (by decide!)]
  rfl

theorem classify_len7 (bytes : List Byte) (start : Nat) :
    tag_id_for_ascii_lowercase bytes start (start + 7)
      = classifyLowered (lowerSlice bytes start (start + 7)) := by
  have hlen : (lowerSlice bytes start (start + 7)).length = 7 := by
    rw [lowerSlice_length]; omega
  have hf : byteAt (lowerSlice bytes start (start + 7)) 0
      = asciiLowerTable (byteAt bytes start) := by
    rw [byteAt_lowerSlice _ _ _ _ (by omega)]; rfl
  have hs : byteAt (lowerSlice bytes start (start + 7)) 1
      = asciiLowerTable (byteAt bytes (start + 1)) := by
    rw [byteAt_lowerSlice _ _ _ _ (by omega)]
  have hI : ((start + 7 : Nat) : Int) - (start : Int) = 7 := by push_cast; omega
  unfold tag_id_for_ascii_lowercase classifyLowered
  simp only [hlen, hf, hs, hI]
  simp only [matches_tag_lowered bytes start (cstr "caption") 7 (by decide) (by decide!)]
  rfl

theorem classify_len8 (bytes : List Byte) (start : Nat) :
    tag_id_for_ascii_lowercase bytes start (start + 8)
      = classifyLowered (lowerSlice bytes start (start + 8)) := by
  have hlen : (lowerSlice bytes start (start + 8)).length = 8 := by
    rw [lowerSlice_length]; omega
  have hf : byteAt (lowerSlice bytes start (start + 8)) 0
      = asciiLowerTable (byteAt bytes start) := by
    rw [byteAt_lowerSlice _ _ _ _ (by omega)]; rfl
  have hs : byteAt (lowerSlice bytes start (start + 8)) 1
      = asciiLowerTable (byteAt bytes (start + 1)) := by
    rw [byteAt_lowerSlice _ _ _ _ (by omega)]
  have hI : ((start + 8 : Nat) : Int) - (start : Int) = 8 := by push_cast; omega
  unfold tag_id_for_ascii_lowercase classifyLowered
  simp only [hlen, hf, hs, hI]
  simp only [matches_tag_lowered bytes start (cstr "colgroup") 8 (by decide) (by decide!),
    matches_tag_lowered bytes start (cstr "noscript") 8 (by decide) (by decide!),
    matches_tag_lowered bytes start (cstr "textarea") 8 (by decide) (by decide!)]
  rfl

/-- The classifier only depends on the lowercased name. -/
theorem classify_eq (bytes : List Byte) (start stop : Nat) :
    tag_id_for_ascii_lowercase bytes start stop
      = classifyLowered (lowerSlice bytes start stop) := by
  rcases Nat.lt_or_ge start stop with hlt | hge
  · obtain ⟨m, rfl⟩ : ∃ m, stop = start + m := ⟨stop - start, by omega⟩
    rcases Nat.lt_or_ge 8 m with h8 | h8
    · have hlen : (lowerSlice bytes start (start + m)).length = m := by
        rw [lowerSlice_length]; omega
      have hI : ((start + m : Nat) : Int) - (start : Int) = (m : Int) := by push_cast; omega
      obtain ⟨k, rfl⟩ : ∃ k, m = k + 9 := ⟨m - 9, by omega⟩
      unfold tag_id_for_ascii_lowercase classifyLowered
      simp only [hlen, hI]
      rw [if_neg (by omega)]
      simp only [Int.toNat_ofNat]
    · interval_cases m
      · omega
      · exact classify_len1 bytes start
      · exact classify_len2 bytes start
      · exact classify_len3 bytes start
      · exact classify_len4 bytes start
      · exact classify_len5 bytes start
      · exact classify_len6 bytes start
      · exact classify_len7 bytes start
      · exact classify_len8 bytes start
  · have hlen : (lowerSlice bytes start stop).length = 0 := by
      rw [lowerSlice_length]; omega
    have hI : (stop : Int) - (start : Int) ≤ 0 := by omega
    unfold tag_id_for_ascii_lowercase classifyLowered
    simp only [hlen]
    rw [if_pos hI]

/-! ### The lowered classifier against the table of the specification -/

theorem classifyLowered_table : ∀ p ∈ tagNameTable, classifyLowered p.1 = p.2 := by
  decide!

theorem classifyLowered_len1 :
    ∀ a : Byte, classifyLowered [a] ≠ TAG_NONE → ([a], classifyLowered [a]) ∈ tagNameTable := by
  decide!

theorem classifyLowered_heading :
    ∀ b : Byte, b.val ≥ 0x31 → b.val ≤ 0x36 →
      ([0x68, b], tag_id.ofValue (TAG_H1.value + (b.val - 0x31))) ∈ tagNameTable := by
  decide!

theorem classifyLowered_sound2 (name : List Byte) (T : tag_id) (hlen : name.length = 2)
    (hT : classifyLowered name = T) (hne : T ≠ TAG_NONE) : (name, T) ∈ tagNameTable := by
  obtain ⟨a, b, rfl⟩ := List.length_eq_two.mp hlen
  unfold classifyLowered at hT
  simp only [byteAt_cons_zero, byteAt_cons_succ, List.length_cons, List.length_nil] at hT
  repeat' split at hT
  all_goals subst hT
  all_goals first
    | exact absurd rfl hne
    | (obtain ⟨_, hL⟩ := ‹_ ∧ ([a, b] : List Byte) = _›
       rw [hL]
       decide!)
    | (obtain ⟨ha, hb⟩ := ‹a = _ ∧ b = _›
       subst ha
       subst hb
       decide!)
    | (obtain ⟨ha, hb1, hb2⟩ := ‹a = _ ∧ _ ∧ _›
       subst ha
       exact classifyLowered_heading b hb1 hb2)

theorem classifyLowered_sound3 (name : List Byte) (T : tag_id) (hlen : name.length = 3)
    (hT : classifyLowered name = T) (hne : T ≠ TAG_NONE) : (name, T) ∈ tagNameTable := by
  unfold classifyLowered at hT
  simp only [hlen] at hT
  repeat' split at hT
  all_goals subst hT
  all_goals first
    | exact absurd rfl hne
    | (obtain ⟨_, hL⟩ := ‹_ ∧ name = _›
       rw [hL]
       decide!)

theorem classifyLowered_sound4 (name : List Byte) (T : tag_id) (hlen : name.length = 4)
    (hT : classifyLowered name = T) (hne : T ≠ TAG_NONE) : (name, T) ∈ tagNameTable := by
  unfold classifyLowered at hT
  simp only [hlen] at hT
  repeat' split at hT
  all_goals subst hT
  all_goals first
    | exact absurd rfl hne
    | (obtain ⟨_, hL⟩ := ‹_ ∧ name = _›
       rw [hL]
       decide!)

theorem classifyLowered_sound5 (name : List Byte) (T : tag_id) (hlen : name.length = 5)
    (hT : classifyLowered name = T) (hne : T ≠ TAG_NONE) : (name, T) ∈ tagNameTable := by
  unfold classifyLowered at hT
  simp only [hlen] at hT
  repeat' split at hT
  all_goals subst hT
  all_goals first
    | exact absurd rfl hne
    | (obtain ⟨_, hL⟩ := ‹_ ∧ name = _›
       rw [hL]
       decide!)

theorem classifyLowered_sound6 (name : List Byte) (T : tag_id) (hlen : name.length = 6)
    (hT : classifyLowered name = T) (hne : T ≠ TAG_NONE) : (name, T) ∈ tagNameTable := by
  unfold classifyLowered at hT
  simp only [hlen] at hT
  repeat' split at hT
  all_goals subst hT
  all_goals first
    | exact absurd rfl hne
    | (obtain ⟨_, hL⟩ := ‹_ ∧ name = _›
       rw [hL]
       decide!)

theorem classifyLowered_sound7 (name : List Byte) (T : tag_id) (hlen : name.length = 7)
    (hT : classifyLowered name = T) (hne : T ≠ TAG_NONE) : (name, T) ∈ tagNameTable := by
  unfold classifyLowered at hT
  simp only [hlen] at hT
  repeat' split at hT
  all_goals subst hT
  all_goals first
    | exact absurd rfl hne
    | (obtain ⟨_, hL⟩ := ‹_ ∧ name = _›
       rw [hL]
       decide!)

theorem classifyLowered_sound8 (name : List Byte) (T : tag_id) (hlen : name.length = 8)
    (hT : classifyLowered name = T) (hne : T ≠ TAG_NONE) : (name, T) ∈ tagNameTable := by
  unfold classifyLowered at hT
  simp only [hlen] at hT
  repeat' split at hT
  all_goals subst hT
  all_goals first
    | exact absurd rfl hne
    | (obtain ⟨_, hL⟩ := ‹_ ∧ name = _›
       rw [hL]
       decide!)

theorem classifyLowered_other (name : List Byte) (h0 : name.length = 0 ∨ 8 < name.length) :
    classifyLowered name = TAG_NONE := by
  unfold classifyLowered
  simp only
  split <;> first | rfl | omega

theorem classifyLowered_sound (name : List Byte) (T : tag_id)
    (hT : classifyLowered name = T) (hne : T ≠ TAG_NONE) : (name, T) ∈ tagNameTable := by
  rcases Nat.lt_or_ge 8 name.length with h8 | h8
  · rw [classifyLowered_other name (Or.inr h8)] at hT
    exact absurd hT.symm hne
  · obtain ⟨m, hm⟩ : ∃ m, name.length = m := ⟨_, rfl⟩
    rw [hm] at h8
    interval_cases m
    · rw [classifyLowered_other name (Or.inl hm)] at hT
      exact absurd hT.symm hne
    · obtain ⟨a, rfl⟩ := List.length_eq_one.mp hm
      subst hT
      exact classifyLowered_len1 a hne
    · exact classifyLowered_sound2 name T hm hT hne
    · exact classifyLowered_sound3 name T hm hT hne
    · exact classifyLowered_sound4 name T hm hT hne
    · exact classifyLowered_sound5 name T hm hT hne
    · exact classifyLowered_sound6 name T hm hT hne
    · exact classifyLowered_sound7 name T hm hT hne
    · exact classifyLowered_sound8 name T hm hT hne

/-- Every name of the table is ASCII and has between one and eight bytes,
and no tag or name occurs twice. -/
theorem tagNameTable_facts :
    (∀ p ∈ tagNameTable, 1 ≤ p.1.length ∧ p.1.length ≤ 8 ∧ p.2 ≠ TAG_NONE ∧
      ∀ t ∈ p.1, t.val < 0x80) ∧
    (∀ p ∈ tagNameTable, ∀ q ∈ tagNameTable, p.2 = q.2 → p.1 = q.1) := by
  decide!

theorem lower_nonAscii : ∀ b : Byte, b.val ≥ 0x80 → (asciiLowerTable b).val ≥ 0x80 := by
  decide!

theorem tag_for_eq_classifyLowered (name : List Byte) :
    tag_for name = classifyLowered (name.map asciiLowerTable) := by
  unfold tag_for
  split
  · rename_i p hp
    have hmem := List.mem_of_find?_eq_some hp
    have hpred := List.find?_some hp
    have : p.1 = name.map asciiLowerTable := by simpa using hpred
    rw [← this]
    exact (classifyLowered_table p hmem).symm
  · rename_i hnone
    by_contra hne
    have hmem := classifyLowered_sound _ _ rfl (Ne.symm hne)
    have := List.find?_eq_none.mp hnone _ hmem
    simp at this

/-- C8: the tag classifier equals the reference lookup in the table of the 47
recognized tags. On every byte range it returns the tag of the table whose
lowercase name equals the ASCII-lowercased range (`tag_for`); it returns a
tag `T` of the table exactly when the lowercased range is the name of `T`;
and it returns `TAG_NONE` on every other range, in particular on every range
of length 0 or greater than 8 and on every range containing a byte >= 0x80. -/
theorem C8_tag_classifier (bytes : List Byte) (start stop : Nat) :
    tag_id_for_ascii_lowercase bytes start stop = tag_for (slice bytes start (stop - start)) ∧
    (∀ p ∈ tagNameTable,
      tag_id_for_ascii_lowercase bytes start stop = p.2 ↔
        (slice bytes start (stop - start)).map asciiLowerTable = p.1) ∧
    ((∀ p ∈ tagNameTable, (slice bytes start (stop - start)).map asciiLowerTable ≠ p.1) →
      tag_id_for_ascii_lowercase bytes start stop = TAG_NONE) ∧
    ((stop - start = 0 ∨ 8 < stop - start) →
      tag_id_for_ascii_lowercase bytes start stop = TAG_NONE) ∧
    ((∃ k, start ≤ k ∧ k < stop ∧ (byteAt bytes k).val ≥ 0x80) →
      tag_id_for_ascii_lowercase bytes start stop = TAG_NONE) := by
  have hcode := classify_eq bytes start stop
  have hL : lowerSlice bytes start stop = (slice bytes start (stop - start)).map asciiLowerTable :=
    rfl
  have hnone : (∀ p ∈ tagNameTable, lowerSlice bytes start stop ≠ p.1) →
      tag_id_for_ascii_lowercase bytes start stop = TAG_NONE := by
    intro h
    by_contra hne
    rw [hcode] at hne
    have hmem := classifyLowered_sound _ _ rfl hne
    exact h _ hmem rfl
  refine ⟨?_, ?_, ?_, ?_, ?_⟩
  · rw [hcode, tag_for_eq_classifyLowered]
    rfl
  · intro p hp
    rw [← hL]
    constructor
    · intro h
      have hne : classifyLowered (lowerSlice bytes start stop) ≠ TAG_NONE := by
        rw [← hcode, h]
        exact (tagNameTable_facts.1 p hp).2.2.1
      have hmem := classifyLowered_sound _ _ rfl hne
      have := tagNameTable_facts.2 _ hmem p hp (by rw [← hcode]; exact h)
      exact this
    · intro h
      rw [hcode, h]
      exact classifyLowered_table p hp
  · rw [← hL]
    exact hnone
  · intro h
    apply hnone
    intro p hp heq
    have hlen := congrArg List.length heq
    rw [lowerSlice_length] at hlen
    have := tagNameTable_facts.1 p hp
    omega
  · rintro ⟨k, hk1, hk2, hk3⟩
    apply hnone
    intro p hp heq
    have hb : byteAt (lowerSlice bytes start stop) (k - start)
        = asciiLowerTable (byteAt bytes k) := by
      rw [byteAt_lowerSlice _ _ _ _ (by omega)]
      congr 2
      omega
    have hlt : k - start < p.1.length := by
      rw [← heq, lowerSlice_length]
      omega
    have hmem : byteAt p.1 (k - start) ∈ p.1 := byteAt_mem hlt
    have hascii := (tagNameTable_facts.1 p hp).2.2.2 _ hmem
    rw [← heq, hb] at hascii
    have := lower_nonAscii _ hk3
    omega

/-! ## Reachable loop states and where null bytes are examined -/

theorem reaches_mainLoop {bytes : List Byte} {length : Nat} {sinks : Sinks} {st : ScanState}
    (h : Reaches bytes length sinks st) :
    ∃ n, length - st.i ≤ n ∧
      mainLoop bytes length sinks length ScanState.init = mainLoop bytes length sinks n st := by
  induction h with
  | init => exact ⟨length, by simp [ScanState.init], rfl⟩
  | next hreach hi hstep ih =>
    rename_i st st1
    obtain ⟨n, hn, heq⟩ := ih
    have hg := step_good bytes length sinks st hi
    rw [hstep] at hg
    refine ⟨n - 1, ?_, ?_⟩
    · have := hg.1
      omega
    · rw [heq]
      exact mainLoop_next hi (by omega) hstep

theorem reaches_fail {input : List Byte} {sinks : Sinks} {st : ScanState}
    {r : swiftsoup_fallback_reason} {events : List Event}
    (h : Reaches input input.length sinks st) (hi : st.i < input.length)
    (hstep : step input input.length sinks st = Step.fail r events) :
    swiftsoup_should_fallback_internal (some input) (input.length : Int) sinks
      = some ⟨1, r, events⟩ := by
  have hne : input ≠ [] := by
    intro h0
    rw [h0] at hi
    simp at hi
  rw [internal_eq_mainLoop input sinks hne]
  obtain ⟨n, hn, heq⟩ := reaches_mainLoop h
  rw [heq]
  exact mainLoop_fail hi (by omega) hstep

theorem attrReaches_loop {bytes : List Byte} {length : Nat} {sinks : Sinks} {j0 : Nat}
    {events0 : List Event} {j : Nat} {events : List Event}
    (h : AttrReaches bytes length sinks j0 events0 j events) (n : Nat) (hn : length - j0 ≤ n) :
    ∃ n1, length - j ≤ n1 ∧
      attrLoop bytes length sinks n j0 events0 = attrLoop bytes length sinks n1 j events := by
  induction h with
  | start => exact ⟨n, hn, rfl⟩
  | again hreach hj hstep ih =>
    rename_i j j1 events events1
    obtain ⟨n1, hn1, heq⟩ := ih
    have hg := attrStep_good bytes length sinks j events hj
    rw [hstep] at hg
    obtain ⟨n2, rfl⟩ : ∃ n2, n1 = n2 + 1 := ⟨n1 - 1, by omega⟩
    refine ⟨n2, ?_, ?_⟩
    · have := hg.1
      omega
    · rw [heq]
      conv_lhs => unfold attrLoop
      rw [if_pos hj, hstep]

theorem attrReaches_fail {bytes : List Byte} {length : Nat} {sinks : Sinks} {j0 : Nat}
    {events0 : List Event} {j : Nat} {events : List Event}
    {r : swiftsoup_fallback_reason} {events1 : List Event}
    (h : AttrReaches bytes length sinks j0 events0 j events) (hj : j < length)
    (hstep : attrStep bytes length sinks j events = AttrStep.fail r events1) :
    attrLoop bytes length sinks (length - j0) j0 events0 = AttrResult.fail r events1 := by
  obtain ⟨n1, hn1, heq⟩ := attrReaches_loop h (length - j0) (Nat.le_refl _)
  rw [heq]
  obtain ⟨n2, rfl⟩ : ∃ n2, n1 = n2 + 1 := ⟨n1 - 1, by omega⟩
  unfold attrLoop
  rw [if_pos hj, hstep]

/-- A failing iteration of the attribute loop of a start tag that the main
loop reaches makes the whole scan return 1 with that reason. -/
theorem atAttribute_fail {input : List Byte} {sinks : Sinks} {st : ScanState} {j : Nat}
    {events : List Event} {r : swiftsoup_fallback_reason} {events1 : List Event}
    (hreach : Reaches input input.length sinks st)
    (hat : AtAttribute input input.length sinks st j events)
    (hstep : attrStep input input.length sinks j events = AttrStep.fail r events1) :
    swiftsoup_should_fallback_internal (some input) (input.length : Int) sinks
      = some ⟨1, r, events1⟩ := by
  obtain ⟨h1, h2, h3, head, hpre, hattr, hj⟩ := hat
  apply reaches_fail hreach (by omega)
  rw [step_startTag h1 h2 h3]
  unfold startTag
  rw [hpre]
  simp only
  rw [attrReaches_fail hattr hj hstep]

theorem attrNameScan_error {bytes : List Byte} {length n j : Nat}
    {r : swiftsoup_fallback_reason} (h : attrNameScan bytes length n j = Except.error r) :
    r = SWIFTSOUP_FALLBACK_MALFORMED_ATTRIBUTE ∨
      r = SWIFTSOUP_FALLBACK_NON_ASCII_ATTRIBUTE_NAME := by
  induction n generalizing j with
  | zero => simp [attrNameScan] at h
  | succ n ih =>
    unfold attrNameScan at h
    simp only at h
    split at h
    · split at h
      · injection h with h
        exact Or.inr h.symm
      · split at h
        · injection h with h
          exact Or.inl h.symm
        · exact ih h
    · cases h

theorem attrNameScan_null {bytes : List Byte} {length k : Nat} (hk : k < length)
    (h0 : byteAt bytes k = 0x00) (n j : Nat) (hjk : j ≤ k)
    (hrun : ∀ m, j ≤ m → m < k →
      isWhitespaceTable (byteAt bytes m) = false ∧ byteAt bytes m ≠ 0x3D ∧
      byteAt bytes m ≠ 0x3E ∧ byteAt bytes m ≠ 0x2F)
    (hn : k - j < n) :
    ∃ r, attrNameScan bytes length n j = Except.error r := by
  induction n generalizing j with
  | zero => omega
  | succ n ih =>
    unfold attrNameScan
    simp only
    have hcond : j < length ∧ isWhitespaceTable (byteAt bytes j) = false ∧
        byteAt bytes j ≠ 0x3D ∧ byteAt bytes j ≠ 0x3E ∧ byteAt bytes j ≠ 0x2F := by
      refine ⟨by omega, ?_⟩
      rcases Nat.lt_or_ge j k with hlt | hge
      · exact hrun j (Nat.le_refl _) hlt
      · have : j = k := by omega
        rw [this, h0]
        decide
    rw [if_pos hcond]
    split
    · exact ⟨_, rfl⟩
    · split
      · exact ⟨_, rfl⟩
      · rename_i hnot
        have hlt : j < k := by
          rcases Nat.lt_or_ge j k with hlt | hge
          · exact hlt
          · have : j = k := by omega
            rw [this, h0] at hnot
            simp at hnot
        exact ih (j + 1) (by omega) (fun m hm1 hm2 => hrun m (by omega) hm2) (by omega)

theorem attrStep_nullInName {bytes : List Byte} {length : Nat} (sinks : Sinks) {j : Nat}
    (events : List Event) (h : NullInAttrName bytes length j) :
    ∃ r, attrStep bytes length sinks j events = AttrStep.fail r events ∧
      (r = SWIFTSOUP_FALLBACK_MALFORMED_ATTRIBUTE ∨
        r = SWIFTSOUP_FALLBACK_NON_ASCII_ATTRIBUTE_NAME) := by
  obtain ⟨ha, hgt, hsl, k, hak, hk, h0, hrun⟩ := h
  obtain ⟨r, hr⟩ := attrNameScan_null hk h0 (length - skipWhitespace bytes length j)
    (skipWhitespace bytes length j) hak hrun (by omega)
  refine ⟨r, ?_, attrNameScan_error hr⟩
  unfold attrStep
  simp only
  rw [if_neg (by omega), if_neg hgt, if_neg hsl, hr]

theorem attrValue_null {bytes : List Byte} {length q k : Nat}
    (hq : byteAt bytes q = 0x22 ∨ byteAt bytes q = 0x27) (hqk : q < k) (hk : k < length)
    (h0 : byteAt bytes k = 0x00) (hno : ∀ m, q < m → m < k → byteAt bytes m ≠ byteAt bytes q) :
    attrValue bytes length q = none := by
  unfold attrValue
  simp only
  rw [if_pos hq, if_neg (by omega)]
  split
  · rfl
  · rename_i stop hm
    have hs := memchr_some hm
    have hstop : k < stop := by
      by_contra hle
      rcases Nat.lt_or_ge stop k with hlt | hge
      · exact hno stop (by omega) hlt hs.2.2.1
      · have : stop = k := by omega
        rw [this, h0] at hs
        rcases hq with hq | hq <;> rw [hq] at hs <;> exact absurd hs.2.2.1 (by decide)
    rw [if_pos (memchr_isSome_of_mem (k := k) (by omega) (by omega) h0)]

theorem attrStep_nullInValue {bytes : List Byte} {length : Nat} (sinks : Sinks) {j : Nat}
    (events : List Event) (h : NullInQuotedValue bytes length j) :
    attrStep bytes length sinks j events
      = AttrStep.fail SWIFTSOUP_FALLBACK_MALFORMED_ATTRIBUTE events := by
  obtain ⟨ha, hgt, hsl, j2, hscan, hne, h3, heq, q, hq, hqlt, hquote, k, hqk, hk, h0, hno⟩ := h
  subst hq
  unfold attrStep
  simp only
  rw [if_neg (by omega), if_neg hgt, if_neg hsl, hscan]
  simp only
  rw [if_neg hne, if_pos ⟨h3, heq⟩, if_neg (by omega),
    attrValue_null hquote hqk hk h0 hno]

/-- C5, amended: a null byte is rejected wherever the decision scanner
examines for one. For every input and every point `st` that the main loop
reaches: (a) if a 0x00 byte lies at a position `k` at or after the cursor
with no `<` between the cursor and `k` (a null byte in a text span), the
scanner returns 1 with `CONTAINS_NULL`; (b) if the attribute loop of the
start tag at the cursor arrives at an attribute whose name run contains a
0x00 byte, the scanner returns 1, with `MALFORMED_ATTRIBUTE` or (when a byte
>= 0x80 comes first) `NON_ASCII_ATTRIBUTE_NAME`; (c) if it arrives at an
attribute whose quoted value contains a 0x00 byte before any closing quote,
the scanner returns 1 with `MALFORMED_ATTRIBUTE`. -/
theorem C5_null_where_examined (input : List Byte) (sinks : Sinks) (st : ScanState)
    (hreach : Reaches input input.length sinks st) :
    (∀ k, st.i ≤ k → k < input.length → byteAt input k = 0x00 →
      (∀ m, st.i ≤ m → m < k → byteAt input m ≠ 0x3C) →
      swiftsoup_should_fallback_internal (some input) (input.length : Int) sinks
        = some ⟨1, SWIFTSOUP_FALLBACK_CONTAINS_NULL, st.events⟩) ∧
    (∀ j events, AtAttribute input input.length sinks st j events →
      NullInAttrName input input.length j →
      ∃ r, swiftsoup_should_fallback_internal (some input) (input.length : Int) sinks
          = some ⟨1, r, events⟩ ∧
        (r = SWIFTSOUP_FALLBACK_MALFORMED_ATTRIBUTE ∨
          r = SWIFTSOUP_FALLBACK_NON_ASCII_ATTRIBUTE_NAME)) ∧
    (∀ j events, AtAttribute input input.length sinks st j events →
      NullInQuotedValue input input.length j →
      swiftsoup_should_fallback_internal (some input) (input.length : Int) sinks
        = some ⟨1, SWIFTSOUP_FALLBACK_MALFORMED_ATTRIBUTE, events⟩) := by
  refine ⟨?_, ?_, ?_⟩
  · intro k hik hk h0 hno
    exact reaches_fail hreach (by omega) (step_null hik hk h0 hno)
  · intro j events hat hnull
    obtain ⟨r, hstep, hr⟩ := attrStep_nullInName sinks events hnull
    exact ⟨r, atAttribute_fail hreach hat hstep, hr⟩
  · intro j events hat hnull
    exact atAttribute_fail hreach hat (attrStep_nullInValue sinks events hnull)

/-- C5 at concrete inputs, with both callbacks installed and the main loop at
its start: `x\0` (text), `<p a\0>` (attribute name) and `<p a="\0">` (quoted
attribute value). -/
theorem C5_null_where_examined_witness :
    swiftsoup_should_fallback_internal (some [0x78, 0x00]) 2 ⟨true, true, false⟩
      = some ⟨1, SWIFTSOUP_FALLBACK_CONTAINS_NULL, []⟩ ∧
    (∃ r, swiftsoup_should_fallback_internal (some [0x3C, 0x70, 0x20, 0x61, 0x00, 0x3E]) 6
          ⟨true, true, false⟩ = some ⟨1, r, []⟩ ∧
        (r = SWIFTSOUP_FALLBACK_MALFORMED_ATTRIBUTE ∨
          r = SWIFTSOUP_FALLBACK_NON_ASCII_ATTRIBUTE_NAME)) ∧
    swiftsoup_should_fallback_internal
        (some [0x3C, 0x70, 0x20, 0x61, 0x3D, 0x22, 0x00, 0x22, 0x3E]) 9 ⟨true, true, false⟩
      = some ⟨1, SWIFTSOUP_FALLBACK_MALFORMED_ATTRIBUTE, []⟩ := by
  refine ⟨?_, ?_, ?_⟩
  · refine (C5_null_where_examined [0x78, 0x00] ⟨true, true, false⟩ ScanState.init
      Reaches.init).1 1 (by decide) (by decide) (by decide) ?_
    intro m _ hm
    have : m = 0 := by omega
    subst this
    decide
  · refine (C5_null_where_examined [0x3C, 0x70, 0x20, 0x61, 0x00, 0x3E] ⟨true, true, false⟩
      ScanState.init Reaches.init).2.1 2 [] ?_ ?_
    · refine ⟨by decide, by decide, by decide!,
        ⟨TAG_P, 1, 2, { ScanState.init with sawTagDelimiter := true }⟩, by decide!,
        AttrReaches.start, by decide⟩
    · refine ⟨by decide!, by decide!, by decide!, 4, by decide!, by decide, by decide, ?_⟩
      intro m hm1 hm2
      have h3 : skipWhitespace [0x3C, 0x70, 0x20, 0x61, 0x00, 0x3E]
          ([0x3C, 0x70, 0x20, 0x61, 0x00, 0x3E] : List Byte).length 2 = 3 := by decide!
      rw [h3] at hm1
      have : m = 3 := by omega
      subst this
      decide!
  · refine (C5_null_where_examined [0x3C, 0x70, 0x20, 0x61, 0x3D, 0x22, 0x00, 0x22, 0x3E]
      ⟨true, true, false⟩ ScanState.init Reaches.init).2.2 2 [] ?_ ?_
    · refine ⟨by decide, by decide, by decide!,
        ⟨TAG_P, 1, 2, { ScanState.init with sawTagDelimiter := true }⟩, by decide!,
        AttrReaches.start, by decide⟩
    · refine ⟨by decide!, by decide!, by decide!, 4, by decide!, by decide!, by decide!,
        by decide!, 5, by decide!, by decide, by decide!, 6, by decide, by decide, by decide, ?_⟩
      intro m hm1 hm2
      omega

/-- C5 as stated fails: the input `<!--\0-->` contains a 0x00 byte and the
decision scanner returns 0 with reason `NONE`. -/
theorem C5_counterexample :
    (0x00 : Byte) ∈ (cstr "<!--" ++ [0x00] ++ cstr "-->") ∧
    decide_input (cstr "<!--" ++ [0x00] ++ cstr "-->")
      = some ⟨0, SWIFTSOUP_FALLBACK_NONE, []⟩ := by
  decide!

/-! ## Patterns in the buffer -/

theorem occursAt_append {bytes : List Byte} {p : Nat} {u v : List Byte} :
    OccursAt bytes p (u ++ v) ↔ OccursAt bytes p u ∧ OccursAt bytes (p + u.length) v := by
  unfold OccursAt
  constructor
  · intro h
    constructor
    · intro k hk
      rw [h k (by simp; omega), byteAt_append_left _ hk]
    · intro k hk
      have := h (u.length + k) (by simp; omega)
      rw [byteAt_append_right u v (by omega)] at this
      rw [Nat.add_assoc, this]
      congr 1
      omega
  · rintro ⟨h1, h2⟩ k hk
    rcases Nat.lt_or_ge k u.length with hlt | hge
    · rw [h1 k hlt, byteAt_append_left _ hlt]
    · rw [byteAt_append_right u v hge]
      have := h2 (k - u.length) (by simp at hk; omega)
      rw [← this]
      congr 1
      omega

theorem occursAt_self_append (pre w post : List Byte) :
    OccursAt (pre ++ (w ++ post)) pre.length w := by
  intro k hk
  rw [byteAt_append_right pre _ (by omega), byteAt_append_left _ (by omega)]
  congr 1
  omega

theorem occursAt_zero (w post : List Byte) : OccursAt (w ++ post) 0 w := by
  intro k hk
  rw [Nat.zero_add, byteAt_append_left _ hk]

theorem occursAt_cons {bytes : List Byte} {p : Nat} {b : Byte} {w : List Byte} :
    OccursAt bytes p (b :: w) ↔ byteAt bytes p = b ∧ OccursAt bytes (p + 1) w := by
  have := @occursAt_append bytes p [b] w
  simp only [List.singleton_append, List.length_singleton] at this
  rw [this]
  constructor
  · rintro ⟨h1, h2⟩
    exact ⟨by simpa [byteAt_cons_zero] using h1 0 (by simp), h2⟩
  · rintro ⟨h1, h2⟩
    refine ⟨?_, h2⟩
    intro k hk
    have : k = 0 := by simp at hk; omega
    subst this
    simpa [byteAt_cons_zero] using h1

theorem occursAt_mem {bytes : List Byte} {p : Nat} {w : List Byte} (h : OccursAt bytes p w)
    {k : Nat} (hk : k < w.length) : byteAt bytes (p + k) ∈ w := by
  rw [h k hk]
  exact byteAt_mem hk

theorem lowerSlice_of_occurs {bytes : List Byte} {p : Nat} {w : List Byte}
    (h : OccursAt bytes p w) : lowerSlice bytes p (p + w.length) = w.map asciiLowerTable := by
  apply list_eq_of_byteAt
  · rw [lowerSlice_length, List.length_map]
    omega
  · intro k hk
    rw [lowerSlice_length] at hk
    have hk2 : k < w.length := by omega
    rw [byteAt_lowerSlice _ _ _ _ hk, h k hk2]
    unfold byteAt
    rw [List.getD_eq_getElem?_getD, List.getD_eq_getElem?_getD, List.getElem?_map,
      List.getElem?_eq_getElem hk2]
    rfl

/-- The classifier on a name that stands in the buffer. -/
theorem classify_of_occurs {bytes : List Byte} {p : Nat} {w : List Byte}
    (h : OccursAt bytes p w) :
    tag_id_for_ascii_lowercase bytes p (p + w.length) = classifyLowered (w.map asciiLowerTable) := by
  rw [classify_eq, lowerSlice_of_occurs h]

/-! ## Exact results of the generic loops -/

theorem advanceWhile_eq {bytes : List Byte} {length : Nat} {cond : Byte → Bool} {e : Nat}
    (he : e ≤ length) (hstop : e < length → cond (byteAt bytes e) = false) (n j : Nat)
    (hje : j ≤ e) (hrun : ∀ k, j ≤ k → k < e → cond (byteAt bytes k) = true) (hn : e - j ≤ n) :
    advanceWhile bytes length cond n j = e := by
  induction n generalizing j with
  | zero =>
    unfold advanceWhile
    omega
  | succ n ih =>
    unfold advanceWhile
    rcases Nat.lt_or_ge j e with hlt | hge
    · rw [if_pos ⟨by omega, hrun j (Nat.le_refl _) hlt⟩]
      exact ih (j + 1) (by omega) (fun k hk1 hk2 => hrun k (by omega) hk2) (by omega)
    · have hje2 : j = e := by omega
      subst hje2
      have : ¬ (j < length ∧ cond (byteAt bytes j) = true) := by
        intro hc
        have := hstop hc.1
        rw [hc.2] at this
        cases this
      rw [if_neg this]

theorem advanceWhile_stay {bytes : List Byte} {length : Nat} {cond : Byte → Bool} {j : Nat}
    (h : j < length → cond (byteAt bytes j) = false) (n : Nat) :
    advanceWhile bytes length cond n j = j := by
  cases n with
  | zero => rfl
  | succ n =>
    unfold advanceWhile
    have : ¬ (j < length ∧ cond (byteAt bytes j) = true) := by
      intro hc
      have := h hc.1
      rw [hc.2] at this
      cases this
    rw [if_neg this]

theorem seekGt_at_gt {bytes : List Byte} {length j : Nat} (h : byteAt bytes j = 0x3E) :
    seekGt bytes length j = j := by
  unfold seekGt
  apply advanceWhile_stay
  intro _
  rw [h]
  rfl

theorem skipWhitespace_stay {bytes : List Byte} {length j : Nat}
    (h : isWhitespaceTable (byteAt bytes j) = false) : skipWhitespace bytes length j = j := by
  unfold skipWhitespace
  exact advanceWhile_stay (fun _ => h) _

/-! ## Runs of iterations -/

theorem steps_trans {bytes : List Byte} {length : Nat} {sinks : Sinks} {a b c : ScanState}
    (h1 : Steps bytes length sinks a b) (h2 : Steps bytes length sinks b c) :
    Steps bytes length sinks a c := by
  induction h1 with
  | refl => exact h2
  | head hi hstep _ ih => exact Steps.head hi hstep (ih h2)

theorem steps_one {bytes : List Byte} {length : Nat} {sinks : Sinks} {a b : ScanState}
    (hi : a.i < length) (hstep : step bytes length sinks a = Step.next b) :
    Steps bytes length sinks a b :=
  Steps.head hi hstep (Steps.refl b)

theorem reaches_steps {bytes : List Byte} {length : Nat} {sinks : Sinks} {a b : ScanState}
    (hr : Reaches bytes length sinks a) (h : Steps bytes length sinks a b) :
    Reaches bytes length sinks b := by
  induction h with
  | refl => exact hr
  | head hi hstep _ ih => exact ih (Reaches.next hr hi hstep)

/-- When the main loop reaches the end of a non-empty input, the scan returns
what the end-of-input code computes from the locals. -/
theorem reaches_end {input : List Byte} {sinks : Sinks} {st : ScanState} (hne : input ≠ [])
    (h : Reaches input input.length sinks st) (hend : input.length ≤ st.i) :
    swiftsoup_should_fallback_internal (some input) (input.length : Int) sinks
      = some (finish st) := by
  rw [internal_eq_mainLoop input sinks hne]
  obtain ⟨n, _, heq⟩ := reaches_mainLoop h
  rw [heq]
  exact mainLoop_at_end _ _ _ _ _ hend

/-! ## Tag names in the buffer -/

theorem lower_alnum_nameChar :
    ∀ b : Byte,
      ((97 ≤ (asciiLowerTable b).val ∧ (asciiLowerTable b).val ≤ 122) ∨
        (48 ≤ (asciiLowerTable b).val ∧ (asciiLowerTable b).val ≤ 57)) →
      isNameCharTable b = true ∧ b ≠ 0x3A := by
  decide!

theorem tagNameTable_alnum :
    ∀ p ∈ tagNameTable, ∀ c ∈ p.1,
      (97 ≤ c.val ∧ c.val ≤ 122) ∨ (48 ≤ c.val ∧ c.val ≤ 57) := by
  decide!

/-- A byte sequence whose lowercase form is a name of the tag table consists
of name characters other than `:`. -/
theorem nameChars_of_lower_mem {w : List Byte} {p : List Byte × tag_id}
    (hp : p ∈ tagNameTable) (hw : w.map asciiLowerTable = p.1) :
    ∀ b ∈ w, isNameCharTable b = true ∧ b ≠ 0x3A := by
  intro b hb
  apply lower_alnum_nameChar
  apply tagNameTable_alnum p hp
  rw [← hw]
  exact List.mem_map_of_mem _ hb

/-- The tag-name loop over a name that stands in the buffer and is followed
by the end of the input or by a byte that is not a name character. -/
theorem scanTagName_of_name {bytes : List Byte} {length s : Nat} {w : List Byte}
    (hocc : OccursAt bytes s w) (hw : ∀ b ∈ w, isNameCharTable b = true ∧ b ≠ 0x3A)
    (hlen : s + w.length ≤ length)
    (hafter : s + w.length < length → isNameCharTable (byteAt bytes (s + w.length)) = false) :
    scanTagName bytes length (length - s) s = some (s + w.length) := by
  apply scanTagName_run hlen hafter _ _ (by omega) _ (by omega)
  intro k hk1 hk2
  obtain ⟨m, rfl⟩ : ∃ m, k = s + m := ⟨k - s, by omega⟩
  exact hw _ (occursAt_mem hocc (by omega))

/-! ## End of input -/

/-- C12: the end-of-input post-conditions of the decision scanner. When the
main loop reaches the end of a non-empty input, the result is
`NO_TAG_DELIMITER` if no `<` was seen; otherwise `FORMATTING_MISMATCH` if a
heading is open or the formatting stack is non-empty; otherwise
`TABLE_HEURISTICS` if `selectDepth > 0`; otherwise 0 with reason `NONE`. In
particular `<b>` and `<h1>` fail with `FORMATTING_MISMATCH` and `<select>`
fails with `TABLE_HEURISTICS`. -/
theorem C12_end_of_input :
    (∀ (input : List Byte) (sinks : Sinks) (st : ScanState), input ≠ [] →
      Reaches input input.length sinks st → input.length ≤ st.i →
      swiftsoup_should_fallback_internal (some input) (input.length : Int) sinks
        = some
          (if st.sawTagDelimiter = false then
            ⟨1, SWIFTSOUP_FALLBACK_NO_TAG_DELIMITER, st.events⟩
           else if st.headingOpen = true ∨ st.formatStack ≠ [] then
            ⟨1, SWIFTSOUP_FALLBACK_FORMATTING_MISMATCH, st.events⟩
           else if st.selectDepth > 0 then
            ⟨1, SWIFTSOUP_FALLBACK_TABLE_HEURISTICS, st.events⟩
           else ⟨0, SWIFTSOUP_FALLBACK_NONE, st.events⟩)) ∧
    decide_input (cstr "<b>") = some ⟨1, SWIFTSOUP_FALLBACK_FORMATTING_MISMATCH, []⟩ ∧
    decide_input (cstr "<h1>") = some ⟨1, SWIFTSOUP_FALLBACK_FORMATTING_MISMATCH, []⟩ ∧
    decide_input (cstr "<select>") = some ⟨1, SWIFTSOUP_FALLBACK_TABLE_HEURISTICS, []⟩ := by
  refine ⟨?_, by decide!, by decide!, by decide!⟩
  intro input sinks st hne hreach hend
  rw [reaches_end hne hreach hend]
  congr 1
  unfold finish
  cases h1 : st.sawTagDelimiter
  · simp
  · cases h2 : st.headingOpen
    · cases h3 : st.formatStack
      · simp
      · simp
    · simp

/-- C12 at a concrete input: on `<p>` the main loop reaches the end of the
input after one iteration, with a `<` seen and nothing open, and the scan
returns 0 with reason `NONE`. -/
theorem C12_end_of_input_witness :
    swiftsoup_should_fallback_internal (some (cstr "<p>")) ((cstr "<p>").length : Int)
        ⟨true, true, false⟩
      = some ⟨0, SWIFTSOUP_FALLBACK_NONE, []⟩ := by
  have h := C12_end_of_input.1 (cstr "<p>") ⟨true, true, false⟩
    { ScanState.init with i := 3, sawTagDelimiter := true, openTagDepth := 1 } (by decide!)
    (Reaches.next Reaches.init (by decide!) (by decide!)) (by decide!)
  simpa using h

/-! ## End tags and start tags whose name stands in the buffer -/

theorem voidElementNames_spec :
    ∀ L ∈ voidElementNames, is_void_tag (classifyLowered L) = true ∧
      ∃ p ∈ tagNameTable, p.1 = L := by
  decide!

theorem tableInnerNames_spec :
    ∀ L ∈ tableInnerNames,
      classifyLowered L ≠ TAG_HGROUP ∧ startTagTable (classifyLowered L) [] = none ∧
      ∃ p ∈ tagNameTable, p.1 = L := by
  decide!

theorem formattingElementNames_spec :
    ∀ L ∈ formattingElementNames,
      formatting_tag_id (classifyLowered L) = (formattingElementNames.indexOf L : Int) ∧
      is_void_tag (classifyLowered L) = false ∧
      ∃ p ∈ tagNameTable, p.1 = L := by
  decide!

/-- What the name part of a tag establishes when a name of the tag table, in
any letter case, stands at `s` and is followed by the end of the input or by
a byte that is neither a name character nor `>= 0x80`. -/
theorem tagName_of_occurs {bytes : List Byte} {length s : Nat} {w : List Byte}
    {p : List Byte × tag_id} (hp : p ∈ tagNameTable) (hw : w.map asciiLowerTable = p.1)
    (hocc : OccursAt bytes s w) (hlen : s + w.length ≤ length)
    (hafter : s + w.length < length →
      isNameCharTable (byteAt bytes (s + w.length)) = false ∧
      (byteAt bytes (s + w.length)).val < 0x80) :
    scanTagName bytes length (length - s) s = some (s + w.length) ∧
    s + w.length ≠ s ∧
    ¬ (s + w.length < length ∧ (byteAt bytes (s + w.length)).val ≥ 0x80) ∧
    tag_id_for_ascii_lowercase bytes s (s + w.length) = classifyLowered p.1 := by
  have hpos : 0 < w.length := by
    have h1 := (tagNameTable_facts.1 p hp).1
    rw [← hw, List.length_map] at h1
    omega
  refine ⟨scanTagName_of_name hocc (nameChars_of_lower_mem hp hw) hlen
    (fun h => (hafter h).1), by omega, ?_, ?_⟩
  · rintro ⟨h1, h2⟩
    have := (hafter h1).2
    omega
  · rw [classify_of_occurs hocc, hw]

theorem endTag_void {bytes : List Byte} {length : Nat} {st : ScanState} {e : Nat}
    (hscan : scanTagName bytes length (length - (st.i + 2)) (st.i + 2) = some e)
    (hne : e ≠ st.i + 2) (hascii : ¬ (e < length ∧ (byteAt bytes e).val ≥ 0x80))
    (hvoid : is_void_tag (tag_id_for_ascii_lowercase bytes (st.i + 2) e) = true) :
    endTag bytes length st = Step.fail SWIFTSOUP_FALLBACK_VOID_END_TAG st.events := by
  unfold endTag
  simp only
  rw [hscan]
  simp only
  rw [if_neg hne, if_neg hascii, if_pos hvoid]

/-- The end-tag branch once the name part and the void check are passed. -/
theorem endTag_body {bytes : List Byte} {length : Nat} {st : ScanState} {e : Nat}
    (hscan : scanTagName bytes length (length - (st.i + 2)) (st.i + 2) = some e)
    (hne : e ≠ st.i + 2) (hascii : ¬ (e < length ∧ (byteAt bytes e).val ≥ 0x80))
    (hvoid : is_void_tag (tag_id_for_ascii_lowercase bytes (st.i + 2) e) = false) :
    endTag bytes length st =
      match endTagFormatting (tag_id_for_ascii_lowercase bytes (st.i + 2) e) st.formatStack with
      | none => Step.fail SWIFTSOUP_FALLBACK_FORMATTING_MISMATCH st.events
      | some formatStack =>
        if seekGt bytes length e ≥ length then
          Step.fail SWIFTSOUP_FALLBACK_MALFORMED_TAG st.events
        else
          Step.next { st with
            i := seekGt bytes length e + 1,
            tableStack := endTagTable (tag_id_for_ascii_lowercase bytes (st.i + 2) e) st.tableStack,
            selectDepth :=
              if tag_id_for_ascii_lowercase bytes (st.i + 2) e = TAG_SELECT then
                (if st.selectDepth > 0 then st.selectDepth - 1 else st.selectDepth)
              else st.selectDepth,
            headingOpen :=
              if is_heading_tag (tag_id_for_ascii_lowercase bytes (st.i + 2) e) then false
              else st.headingOpen,
            formatStack := formatStack,
            inHead :=
              if tag_id_for_ascii_lowercase bytes (st.i + 2) e = TAG_HEAD then false
              else st.inHead,
            sawBodyTag :=
              if tag_id_for_ascii_lowercase bytes (st.i + 2) e = TAG_HEAD then st.sawBodyTag
              else if tag_id_for_ascii_lowercase bytes (st.i + 2) e = TAG_BODY then true
              else st.sawBodyTag,
            openTagDepth :=
              if st.openTagDepth > 0 then st.openTagDepth - 1 else st.openTagDepth } := by
  unfold endTag
  simp only
  rw [hscan]
  simp only
  rw [if_neg hne, if_neg hascii, if_neg (by simp [hvoid])]

/-- The cursor stands on `</` followed by the bytes `name`. -/
theorem step_endTag_of_occurs {bytes : List Byte} {length : Nat} (sinks : Sinks)
    {st : ScanState} {name : List Byte} (hocc : OccursAt bytes st.i (0x3C :: 0x2F :: name))
    (hlen : st.i + 2 + name.length ≤ length) (hpos : 0 < name.length) :
    step bytes length sinks st = endTag bytes length { st with sawTagDelimiter := true } ∧
    OccursAt bytes (st.i + 2) name := by
  rw [occursAt_cons, occursAt_cons] at hocc
  exact ⟨step_endTag hocc.1 (by omega) hocc.2.1, hocc.2.2⟩

/-- C16: an end tag of a void element is rejected. Whenever the main loop
reaches a cursor position where `</` and the name of a void element (in any
ASCII letter case) stand, followed by the end of the input or by a byte that
is neither a name character nor >= 0x80, the scan returns 1 with reason
`VOID_END_TAG`; in particular every input that begins with `</V>` does. -/
theorem C16_void_end_tag :
    (∀ (input : List Byte) (sinks : Sinks) (st : ScanState) (name : List Byte),
      Reaches input input.length sinks st →
      OccursAt input st.i (0x3C :: 0x2F :: name) →
      st.i + 2 + name.length ≤ input.length →
      name.map asciiLowerTable ∈ voidElementNames →
      (st.i + 2 + name.length < input.length →
        isNameCharTable (byteAt input (st.i + 2 + name.length)) = false ∧
        (byteAt input (st.i + 2 + name.length)).val < 0x80) →
      swiftsoup_should_fallback_internal (some input) (input.length : Int) sinks
        = some ⟨1, SWIFTSOUP_FALLBACK_VOID_END_TAG, st.events⟩) ∧
    (∀ (name rest : List Byte) (sinks : Sinks),
      name.map asciiLowerTable ∈ voidElementNames →
      swiftsoup_should_fallback_internal (some (0x3C :: 0x2F :: (name ++ 0x3E :: rest)))
          ((0x3C :: 0x2F :: (name ++ 0x3E :: rest)).length : Int) sinks
        = some ⟨1, SWIFTSOUP_FALLBACK_VOID_END_TAG, []⟩) := by
  have main : ∀ (input : List Byte) (sinks : Sinks) (st : ScanState) (name : List Byte),
      Reaches input input.length sinks st →
      OccursAt input st.i (0x3C :: 0x2F :: name) →
      st.i + 2 + name.length ≤ input.length →
      name.map asciiLowerTable ∈ voidElementNames →
      (st.i + 2 + name.length < input.length →
        isNameCharTable (byteAt input (st.i + 2 + name.length)) = false ∧
        (byteAt input (st.i + 2 + name.length)).val < 0x80) →
      swiftsoup_should_fallback_internal (some input) (input.length : Int) sinks
        = some ⟨1, SWIFTSOUP_FALLBACK_VOID_END_TAG, st.events⟩ := by
    intro input sinks st name hreach hocc hlen hvoid hafter
    obtain ⟨hv, p, hp, hpL⟩ := voidElementNames_spec _ hvoid
    have hpos : 0 < name.length := by
      have h1 := (tagNameTable_facts.1 p hp).1
      rw [hpL, List.length_map] at h1
      omega
    obtain ⟨hstep, hocc2⟩ := step_endTag_of_occurs sinks hocc hlen hpos
    obtain ⟨h1, h2, h3, h4⟩ := tagName_of_occurs hp hpL.symm hocc2 hlen hafter
    apply reaches_fail hreach (by omega)
    rw [hstep]
    exact endTag_void h1 h2 h3 (by rw [h4, hpL]; exact hv)
  refine ⟨main, ?_⟩
  intro name rest sinks hvoid
  have h := main (0x3C :: 0x2F :: (name ++ 0x3E :: rest)) sinks ScanState.init name Reaches.init
    (by
      have := occursAt_zero (0x3C :: 0x2F :: name) (0x3E :: rest)
      simpa [ScanState.init] using this)
    (by simp [ScanState.init]; omega) hvoid
    (by
      intro _
      have h0 : (ScanState.init).i = 0 := rfl
      have : byteAt (0x3C :: 0x2F :: (name ++ 0x3E :: rest)) (0 + 2 + name.length) = 0x3E := by
        rw [Nat.zero_add, Nat.add_comm, byteAt_cons_succ, byteAt_cons_succ,
          byteAt_append_right _ _ (Nat.le_refl _)]
        simp [byteAt_cons_zero]
      rw [h0, this]
      decide)
  exact h

/-- C16 at concrete inputs: `</BR>` at the start of `</BR>x`, and `x</br`
where the main loop reaches the end tag after one iteration and the name runs
to the end of the input. -/
theorem C16_void_end_tag_witness :
    swiftsoup_should_fallback_internal (some (cstr "</BR>x")) ((cstr "</BR>x").length : Int)
        ⟨true, true, false⟩
      = some ⟨1, SWIFTSOUP_FALLBACK_VOID_END_TAG, []⟩ ∧
    swiftsoup_should_fallback_internal (some (cstr "x</br")) ((cstr "x</br").length : Int)
        ⟨true, true, false⟩
      = some ⟨1, SWIFTSOUP_FALLBACK_VOID_END_TAG, []⟩ := by
  constructor
  · exact C16_void_end_tag.2 (cstr "BR") (cstr "x") ⟨true, true, false⟩ (by decide!)
  · have h := C16_void_end_tag.1 (cstr "x</br") ⟨true, true, false⟩
      { ScanState.init with i := 1, sawContentBeforeHtml := true } (cstr "br")
      (Reaches.next Reaches.init (by decide!) (by decide!))
      (by
        intro k hk
        have hk5 : k < 4 := hk
        interval_cases k <;> decide!)
      (by decide!) (by decide!) (by decide!)
    exact h

/-- The cursor stands on `<` followed by the bytes `name`, which begin with a
name character. -/
theorem step_startTag_of_occurs {bytes : List Byte} {length : Nat} (sinks : Sinks)
    {st : ScanState} {name : List Byte} (hocc : OccursAt bytes st.i (0x3C :: name))
    (hlen : st.i + 1 + name.length ≤ length) (hpos : 0 < name.length)
    (hname : ∀ b ∈ name, isNameCharTable b = true ∧ b ≠ 0x3A) :
    step bytes length sinks st
      = startTag bytes length sinks { st with sawTagDelimiter := true } ∧
    OccursAt bytes (st.i + 1) name := by
  rw [occursAt_cons] at hocc
  refine ⟨step_startTag hocc.1 (by omega) ?_, hocc.2⟩
  have := occursAt_mem hocc.2 hpos
  exact (hname _ this).1

theorem startTag_table_fail {bytes : List Byte} {length : Nat} {sinks : Sinks}
    {st : ScanState} {e : Nat}
    (hscan : scanTagName bytes length (length - (st.i + 1)) (st.i + 1) = some e)
    (hne : e ≠ st.i + 1) (hascii : ¬ (e < length ∧ (byteAt bytes e).val ≥ 0x80))
    (hg : tag_id_for_ascii_lowercase bytes (st.i + 1) e ≠ TAG_HGROUP)
    (htable : startTagTable (tag_id_for_ascii_lowercase bytes (st.i + 1) e) st.tableStack = none) :
    startTag bytes length sinks st
      = Step.fail SWIFTSOUP_FALLBACK_TABLE_HEURISTICS st.events := by
  unfold startTag startTagPreflight
  simp only
  rw [hscan]
  simp only
  rw [if_neg hne, if_neg hascii, if_neg hg, htable]

/-- C13: a table-structure start tag outside any table is rejected. Whenever
the main loop reaches, with an empty table stack, a cursor position where `<`
and the name of a table-structure tag other than `table` (in any ASCII letter
case) stand, followed by the end of the input or by a byte that is neither a
name character nor >= 0x80, the scan returns 1 with reason
`TABLE_HEURISTICS`; in particular every input that begins with `<T>` does. -/
theorem C13_table_structure_outside_table :
    (∀ (input : List Byte) (sinks : Sinks) (st : ScanState) (name : List Byte),
      Reaches input input.length sinks st →
      st.tableStack = [] →
      OccursAt input st.i (0x3C :: name) →
      st.i + 1 + name.length ≤ input.length →
      name.map asciiLowerTable ∈ tableInnerNames →
      (st.i + 1 + name.length < input.length →
        isNameCharTable (byteAt input (st.i + 1 + name.length)) = false ∧
        (byteAt input (st.i + 1 + name.length)).val < 0x80) →
      swiftsoup_should_fallback_internal (some input) (input.length : Int) sinks
        = some ⟨1, SWIFTSOUP_FALLBACK_TABLE_HEURISTICS, st.events⟩) ∧
    (∀ (name rest : List Byte) (sinks : Sinks),
      name.map asciiLowerTable ∈ tableInnerNames →
      swiftsoup_should_fallback_internal (some (0x3C :: (name ++ 0x3E :: rest)))
          ((0x3C :: (name ++ 0x3E :: rest)).length : Int) sinks
        = some ⟨1, SWIFTSOUP_FALLBACK_TABLE_HEURISTICS, []⟩) := by
  have main : ∀ (input : List Byte) (sinks : Sinks) (st : ScanState) (name : List Byte),
      Reaches input input.length sinks st →
      st.tableStack = [] →
      OccursAt input st.i (0x3C :: name) →
      st.i + 1 + name.length ≤ input.length →
      name.map asciiLowerTable ∈ tableInnerNames →
      (st.i + 1 + name.length < input.length →
        isNameCharTable (byteAt input (st.i + 1 + name.length)) = false ∧
        (byteAt input (st.i + 1 + name.length)).val < 0x80) →
      swiftsoup_should_fallback_internal (some input) (input.length : Int) sinks
        = some ⟨1, SWIFTSOUP_FALLBACK_TABLE_HEURISTICS, st.events⟩ := by
    intro input sinks st name hreach hstack hocc hlen hin hafter
    obtain ⟨hg, ht, p, hp, hpL⟩ := tableInnerNames_spec _ hin
    have hpos : 0 < name.length := by
      have h1 := (tagNameTable_facts.1 p hp).1
      rw [hpL, List.length_map] at h1
      omega
    obtain ⟨hstep, hocc2⟩ := step_startTag_of_occurs sinks hocc hlen hpos
      (nameChars_of_lower_mem hp hpL.symm)
    obtain ⟨h1, h2, h3, h4⟩ := tagName_of_occurs hp hpL.symm hocc2 hlen hafter
    apply reaches_fail hreach (by omega)
    rw [hstep]
    exact startTag_table_fail h1 h2 h3 (by rw [h4, hpL]; exact hg)
      (by rw [h4, hpL]; simpa [hstack] using ht)
  refine ⟨main, ?_⟩
  intro name rest sinks hin
  exact main (0x3C :: (name ++ 0x3E :: rest)) sinks ScanState.init name Reaches.init rfl
    (by
      have := occursAt_zero (0x3C :: name) (0x3E :: rest)
      simpa [ScanState.init] using this)
    (by simp [ScanState.init]; omega) hin
    (by
      intro _
      have h0 : (ScanState.init).i = 0 := rfl
      have : byteAt (0x3C :: (name ++ 0x3E :: rest)) (0 + 1 + name.length) = 0x3E := by
        rw [Nat.zero_add, Nat.add_comm, byteAt_cons_succ,
          byteAt_append_right _ _ (Nat.le_refl _)]
        simp [byteAt_cons_zero]
      rw [h0, this]
      decide)

/-- C13 at concrete inputs: `<tr></tr>`, and `x<TD` where the main loop
reaches the start tag after one iteration with the table stack still empty. -/
theorem C13_table_structure_outside_table_witness :
    swiftsoup_should_fallback_internal (some (cstr "<tr></tr>"))
        ((cstr "<tr></tr>").length : Int) ⟨true, true, false⟩
      = some ⟨1, SWIFTSOUP_FALLBACK_TABLE_HEURISTICS, []⟩ ∧
    swiftsoup_should_fallback_internal (some (cstr "x<TD")) ((cstr "x<TD").length : Int)
        ⟨true, true, false⟩
      = some ⟨1, SWIFTSOUP_FALLBACK_TABLE_HEURISTICS, []⟩ := by
  constructor
  · exact C13_table_structure_outside_table.2 (cstr "tr") (cstr "</tr>") ⟨true, true, false⟩
      (by decide!)
  · exact C13_table_structure_outside_table.1 (cstr "x<TD") ⟨true, true, false⟩
      { ScanState.init with i := 1, sawContentBeforeHtml := true } (cstr "TD")
      (Reaches.next Reaches.init (by decide!) (by decide!)) rfl
      (by
        intro k hk
        have hk5 : k < 3 := hk
        interval_cases k <;> decide!)
      (by decide!) (by decide!) (by decide!)

/-! ## The formatting stack at an end tag -/

theorem formatSearch_none {s : List Nat} {x : Nat} : formatSearch s x = none ↔ x ∉ s := by
  induction s with
  | nil => simp [formatSearch]
  | cons y rest ih =>
    unfold formatSearch
    split
    · rename_i h
      simp [h]
    · rename_i h
      simp only [Option.map_eq_none', ih, List.mem_cons, not_or]
      constructor
      · intro h2
        exact ⟨fun hc => h hc.symm, h2⟩
      · intro h2
        exact h2.2

theorem formatSearch_zero {s : List Nat} {x : Nat} :
    formatSearch s x = some 0 ↔ s.head? = some x := by
  cases s with
  | nil => simp [formatSearch]
  | cons y rest =>
    unfold formatSearch
    split
    · rename_i h
      simp [h]
    · rename_i h
      simp only [List.head?_cons, Option.some.injEq]
      constructor
      · intro h2
        rw [Option.map_eq_some'] at h2
        obtain ⟨d, _, hd⟩ := h2
        omega
      · intro h2
        exact absurd h2 h

/-- The formatting rule of an end tag, on the stack alone: with `x` the stack
id of the formatting tag, the top is popped when it is `x`, the result is a
failure when `x` occurs below a different top, and the stack is unchanged
when `x` does not occur. -/
theorem endTagFormatting_rule (tagId : tag_id) (x : Nat) (s : List Nat)
    (hid : formatting_tag_id tagId = (x : Int)) (hx : x < 256) :
    (s.head? = some x → endTagFormatting tagId s = some s.tail) ∧
    (x ∈ s → s.head? ≠ some x → endTagFormatting tagId s = none) ∧
    (x ∉ s → endTagFormatting tagId s = some s) := by
  have hmod : (formatting_tag_id tagId).toNat % 256 = x := by
    rw [hid, Int.toNat_ofNat]
    exact Nat.mod_eq_of_lt hx
  have hge : formatting_tag_id tagId ≥ 0 := by rw [hid]; exact Int.ofNat_nonneg x
  refine ⟨?_, ?_, ?_⟩
  · intro h
    unfold endTagFormatting
    simp only
    rw [if_pos hge, hmod, formatSearch_zero.mpr h]
  · intro hmem hhead
    unfold endTagFormatting
    simp only
    rw [if_pos hge, hmod]
    cases hs : formatSearch s x with
    | none => exact absurd hmem (formatSearch_none.mp hs)
    | some d =>
      cases d with
      | zero => exact absurd (formatSearch_zero.mp hs) hhead
      | succ d => rfl
  · intro hmem
    unfold endTagFormatting
    simp only
    rw [if_pos hge, hmod, formatSearch_none.mpr hmem]

theorem slice_of_occurs {bytes : List Byte} {p : Nat} {w : List Byte}
    (h : OccursAt bytes p w) : slice bytes p w.length = w := by
  apply list_eq_of_byteAt (slice_length _ _ _)
  intro k hk
  rw [slice_length] at hk
  rw [byteAt_slice _ _ _ _ hk, h k hk]

theorem hintLoop_at_end (bytes : List Byte) (length : Nat) (sinks : Sinks) (n i : Nat)
    (events : List Event) (h : length ≤ i) :
    hintLoop bytes length sinks n i events = some events := by
  cases n with
  | zero =>
    unfold hintLoop
    rw [if_neg (by omega)]
  | succ n =>
    unfold hintLoop
    rw [if_neg (by omega)]

/-- The hint-only scanner on `<n/>` for a non-empty run `n` of name
characters: one self-closing call with the bytes of `n` as they stand in the
input, the length of `n` and the flag 1, and no boolean hint. -/
theorem hints_selfClosed_tag (n : List Byte) (sinks : Sinks) (hne : n ≠ [])
    (hname : ∀ b ∈ n, isNameCharTable b = true) (hsc : sinks.recordSelfClosing = true) :
    swiftsoup_scan_hints_internal (some (0x3C :: (n ++ [0x2F, 0x3E])))
        ((0x3C :: (n ++ [0x2F, 0x3E])).length : Int) sinks
      = some [Event.selfClosing 1 n (n.length : Int) 1] := by
  have hpos : 0 < n.length := List.length_pos.mpr hne
  have hlen : (0x3C :: (n ++ [0x2F, 0x3E])).length = n.length + 3 := by simp
  have hocc : OccursAt (0x3C :: (n ++ [0x2F, 0x3E])) 1 n := by
    intro k hk
    rw [Nat.add_comm, byteAt_cons_succ, byteAt_append_left _ hk]
  have hbs : byteAt (0x3C :: (n ++ [0x2F, 0x3E])) (1 + n.length) = 0x2F := by
    rw [Nat.add_comm, byteAt_cons_succ, byteAt_append_right _ _ (Nat.le_refl _)]
    simp [byteAt_cons_zero]
  have hbg : byteAt (0x3C :: (n ++ [0x2F, 0x3E])) (1 + n.length + 1) = 0x3E := by
    rw [show 1 + n.length + 1 = (n.length + 1) + 1 by omega, byteAt_cons_succ,
      byteAt_append_right _ _ (by omega)]
    simp [byteAt_cons_succ, byteAt_cons_zero]
  have hfirst : isNameCharTable (byteAt (0x3C :: (n ++ [0x2F, 0x3E])) (0 + 1)) = true := by
    have := occursAt_mem hocc hpos
    rw [Nat.add_zero] at this
    exact hname _ this
  have hm := nameChar_not_markup _ hfirst
  have hend : advanceWhile (0x3C :: (n ++ [0x2F, 0x3E])) (n.length + 3) isNameCharTable
      (n.length + 3 - (0 + 1)) (0 + 1) = 1 + n.length := by
    apply advanceWhile_eq (by omega) _ _ _ (by omega) _ (by omega)
    · intro _
      rw [hbs]
      decide
    · intro k hk1 hk2
      obtain ⟨m, rfl⟩ : ∃ m, k = 1 + m := ⟨k - 1, by omega⟩
      exact hname _ (occursAt_mem hocc (by omega))
  have htag : hintTagEnd (0x3C :: (n ++ [0x2F, 0x3E])) (n.length + 3)
      (n.length + 3 - (1 + n.length)) (1 + n.length) 0 0 = (1 + n.length + 1, true) := by
    rw [show n.length + 3 - (1 + n.length) = 1 + 1 by omega]
    unfold hintTagEnd
    rw [if_pos (by omega)]
    simp only
    rw [if_neg (by simp), hbs, if_neg (by decide), if_neg (by decide), if_pos (by decide)]
    unfold hintTagEnd
    rw [if_pos (by omega)]
    simp only
    rw [if_neg (by simp), hbg, if_neg (by decide), if_pos rfl]
    rfl
  have hattr : ∀ events, hintAttrLoop (0x3C :: (n ++ [0x2F, 0x3E])) (n.length + 3) sinks
      (n.length + 3 - (1 + n.length)) (1 + n.length) events = some events := by
    intro events
    rw [show n.length + 3 - (1 + n.length) = 1 + 1 by omega]
    unfold hintAttrLoop
    rw [if_pos (by omega)]
    simp only
    rw [skipWhitespace_stay (by rw [hbs]; decide), if_neg (by omega), hbs,
      if_neg (by decide), if_pos ⟨rfl, by omega, hbg⟩]
  unfold swiftsoup_scan_hints_internal
  simp only [hlen, Int.toNat_ofNat]
  rw [if_neg (by omega)]
  unfold hintLoop
  rw [if_pos (by omega)]
  have hstep : hintStep (0x3C :: (n ++ [0x2F, 0x3E])) (n.length + 3) sinks 0 []
      = HintStep.next (n.length + 3) [Event.selfClosing 1 n (n.length : Int) 1] := by
    have c1 : ¬ (byteAt (0x3C :: (n ++ [0x2F, 0x3E])) 0 ≠ 0x3C) := by
      simp [byteAt_cons_zero]
    have c2 : ¬ (0 + 1 ≥ n.length + 3) := by omega
    have c3 : ¬ (isNameCharTable (byteAt (0x3C :: (n ++ [0x2F, 0x3E])) (0 + 1)) = false) := by
      simp [hfirst]
    have c4 : ¬ (1 + n.length = 0 + 1) := by omega
    have c5 : 1 + n.length + 1 + 1 ≤ n.length + 3 := by omega
    have hs : slice (0x3C :: (n ++ [0x2F, 0x3E])) (0 + 1) (1 + n.length - (0 + 1)) = n := by
      rw [show 1 + n.length - (0 + 1) = n.length by omega]
      exact slice_of_occurs hocc
    have hcast : ((1 + n.length - (0 + 1) : Nat) : Int) = (n.length : Int) := by
      rw [show 1 + n.length - (0 + 1) = n.length by omega]
    unfold hintStep
    simp only
    rw [if_neg c1, if_neg c2, if_neg hm.2.2.1, if_neg hm.2.2.2.1, if_neg hm.2.2.2.2.1,
      if_neg c3, hend, if_neg c4, htag, hattr]
    simp only [hsc, if_true, List.nil_append]
    rw [hintContinue_of_lt _ (by omega), hs, hcast]
    congr 1
    omega
  rw [hstep]
  exact hintLoop_at_end _ _ _ _ _ _ (Nat.le_refl _)

/-- C19, amended: in hint-only mode a start tag produces a self-closing hint
whether or not its name is recognized. For every recognized tag name T,
`swiftsoup_scan_hints` on `<T/>` with both callbacks installed invokes the
self-closing callback exactly once, with the bytes of T, the length of T and
the flag 1, and invokes no boolean callback. -/
theorem C19_hints_recognized_tag :
    ∀ p ∈ tagNameTable,
      swiftsoup_scan_hints (some (cstr "<" ++ p.1 ++ cstr "/>"))
          ((cstr "<" ++ p.1 ++ cstr "/>").length : Int) true true
        = some [Event.selfClosing 1 p.1 (p.1.length : Int) 1] := by
  decide!

theorem C19_hints_recognized_tag_witness :
    (cstr "br", TAG_BR) ∈ tagNameTable ∧
    swiftsoup_scan_hints (some (cstr "<" ++ cstr "br" ++ cstr "/>"))
        ((cstr "<" ++ cstr "br" ++ cstr "/>").length : Int) true true
      = some [Event.selfClosing 1 (cstr "br") ((cstr "br").length : Int) 1] :=
  ⟨by decide!, C19_hints_recognized_tag (cstr "br", TAG_BR) (by decide!)⟩

/-- C19 as stated fails: on `<br/>` the hint-only scanner invokes the
self-closing callback, with the name `br`, the length 2 and the flag 1. -/
theorem C19_counterexample :
    (cstr "br", TAG_BR) ∈ tagNameTable ∧
    (swiftsoup_scan_hints (some (cstr "<br/>")) ((cstr "<br/>").length : Int) true true).map
        selfClosingCalls
      = some [(cstr "br", 2, 1)] ∧
    (swiftsoup_scan_hints (some (cstr "<br/>")) ((cstr "<br/>").length : Int) true true).map
        selfClosingCalls
      ≠ some [] := by
  decide!

/-- C20, amended: for every non-empty run `n` of name characters whose
classification is `TAG_NONE`, hint-only mode on the input `<n/>` invokes the
self-closing callback exactly once, with the bytes of `n` exactly as they
stand in the input (not lowercased) as the name, the length of `n` and the
flag 1, and emits no boolean hint. -/
theorem C20_hints_unrecognized_tag (n : List Byte) (recordBoolean : Bool) (hne : n ≠ [])
    (hname : ∀ b ∈ n, isNameCharTable b = true)
    (_hnone : tag_id_for_ascii_lowercase n 0 n.length = TAG_NONE) :
    swiftsoup_scan_hints (some (0x3C :: (n ++ [0x2F, 0x3E])))
        ((0x3C :: (n ++ [0x2F, 0x3E])).length : Int) true recordBoolean
      = some [Event.selfClosing 1 n (n.length : Int) 1] ∧
    (swiftsoup_scan_hints (some (0x3C :: (n ++ [0x2F, 0x3E])))
        ((0x3C :: (n ++ [0x2F, 0x3E])).length : Int) true recordBoolean).map selfClosingCalls
      = some [(n, (n.length : Int), 1)] ∧
    (swiftsoup_scan_hints (some (0x3C :: (n ++ [0x2F, 0x3E])))
        ((0x3C :: (n ++ [0x2F, 0x3E])).length : Int) true recordBoolean).map booleanCalls
      = some [] := by
  have h : swiftsoup_scan_hints (some (0x3C :: (n ++ [0x2F, 0x3E])))
      ((0x3C :: (n ++ [0x2F, 0x3E])).length : Int) true recordBoolean
        = some [Event.selfClosing 1 n (n.length : Int) 1] := by
    unfold swiftsoup_scan_hints
    exact hints_selfClosed_tag n _ hne hname rfl
  rw [h]
  exact ⟨rfl, rfl, rfl⟩

/-- C20 at a concrete input: `<custom/>` emits the name `custom`, the length
6 and the flag 1. -/
theorem C20_hints_unrecognized_tag_witness :
    cstr "custom" ≠ [] ∧ (∀ b ∈ cstr "custom", isNameCharTable b = true) ∧
    tag_id_for_ascii_lowercase (cstr "custom") 0 (cstr "custom").length = TAG_NONE ∧
    (swiftsoup_scan_hints (some (0x3C :: (cstr "custom" ++ [0x2F, 0x3E])))
        ((0x3C :: (cstr "custom" ++ [0x2F, 0x3E])).length : Int) true true).map selfClosingCalls
      = some [(cstr "custom", 6, 1)] :=
  ⟨by decide!, by decide!, by decide!,
   (C20_hints_unrecognized_tag (cstr "custom") true (by decide!) (by decide!) (by decide!)).2.1⟩

/-- C20 as stated fails: on `<Custom/>` the name `Custom` classifies to
`TAG_NONE`, and the hint-only scanner hands the callback the bytes `Custom`,
not the lowercased `custom`. -/
theorem C20_counterexample :
    cstr "Custom" ≠ [] ∧ (∀ b ∈ cstr "Custom", isNameCharTable b = true) ∧
    tag_id_for_ascii_lowercase (cstr "Custom") 0 (cstr "Custom").length = TAG_NONE ∧
    (swiftsoup_scan_hints (some (cstr "<Custom/>")) ((cstr "<Custom/>").length : Int)
        true true).map selfClosingCalls
      = some [(cstr "Custom", 6, 1)] ∧
    (swiftsoup_scan_hints (some (cstr "<Custom/>")) ((cstr "<Custom/>").length : Int)
        true true).map selfClosingCalls
      ≠ some [((cstr "Custom").map asciiLowerTable, 6, 1)] := by
  decide!

/-! ## The collecting entry points against the callback entry points -/

theorem emitBoolean_swap (r : Bool) (pos : Nat) (index isBoolean : Int) :
    emitBoolean (collectSinks r) pos index isBoolean
      = (emitBoolean (callbackSinks r) pos index isBoolean).map Event.swap := by
  simp [emitBoolean, collectSinks, callbackSinks, Event.swap]

theorem emitBoolean_swap_if (r : Bool) (c : Prop) [Decidable c] (pos : Nat)
    (index isBoolean : Int) :
    (if c then emitBoolean (collectSinks r) pos index isBoolean else [])
      = (if c then emitBoolean (callbackSinks r) pos index isBoolean else []).map Event.swap := by
  split
  · exact emitBoolean_swap r pos index isBoolean
  · rfl

theorem attrStep_swap (bytes : List Byte) (length : Nat) (r : Bool) (j : Nat)
    (events : List Event) :
    attrStep bytes length (collectSinks r) j (events.map Event.swap)
      = (attrStep bytes length (callbackSinks r) j events).swapEvents := by
  unfold attrStep
  simp only [emitBoolean_swap_if, ← List.map_append]
  repeat' split
  all_goals rfl

theorem attrLoop_swap (bytes : List Byte) (length : Nat) (r : Bool) (n j : Nat)
    (events : List Event) :
    attrLoop bytes length (collectSinks r) n j (events.map Event.swap)
      = (attrLoop bytes length (callbackSinks r) n j events).swapEvents := by
  induction n generalizing j events with
  | zero =>
    unfold attrLoop
    split <;> rfl
  | succ n ih =>
    unfold attrLoop
    split
    · rw [attrStep_swap]
      generalize attrStep bytes length (callbackSinks r) j events = res
      cases res with
      | fail reason ev => rfl
      | ended j1 s ev => rfl
      | again j1 ev => exact ih j1 ev
    · rfl

/-! ## Self-closing determination of the decision scanner -/

theorem attrStep_tagEnd (bytes : List Byte) (length : Nat) (sinks : Sinks) (j : Nat)
    (events : List Event) :
    AttrStep.TagEnd bytes (attrStep bytes length sinks j events) := by
  unfold attrStep
  simp only
  split
  · simp [AttrStep.TagEnd]
  · split
    · rename_i h
      simp [AttrStep.TagEnd, h]
    · split
      · rename_i h
        simp [AttrStep.TagEnd, h.1, h.2.2]
      · split
        · simp [AttrStep.TagEnd]
        · split
          · simp [AttrStep.TagEnd]
          · split
            · split
              · simp [AttrStep.TagEnd]
              · split <;> simp [AttrStep.TagEnd]
            · simp [AttrStep.TagEnd]

theorem attrLoop_tagEnd {bytes : List Byte} {length : Nat} {sinks : Sinks} {n j : Nat}
    {events : List Event} {j1 : Nat} {s : Bool} {events1 : List Event}
    (h : attrLoop bytes length sinks n j events = AttrResult.ended j1 s events1) :
    1 ≤ j1 ∧ byteAt bytes (j1 - 1) = 0x3E ∧ (s = true → 2 ≤ j1 ∧ byteAt bytes (j1 - 2) = 0x2F) := by
  induction n generalizing j events with
  | zero =>
    unfold attrLoop at h
    split at h <;> cases h
  | succ n ih =>
    unfold attrLoop at h
    split at h
    · have hs := attrStep_tagEnd bytes length sinks j events
      split at h
      · cases h
      · rename_i j2 s2 ev2 hstep
        rw [hstep] at hs
        injection h with h1 h2 h3
        subst h1
        subst h2
        exact hs
      · exact ih h
    · cases h

theorem scanBack_stay (bytes : List Byte) (nameEnd n scan : Nat)
    (h : isWhitespaceTable (byteAt bytes scan) = false) :
    scanBack bytes nameEnd n scan = scan := by
  cases n with
  | zero => rfl
  | succ n =>
    unfold scanBack
    rw [if_neg]
    intro hc
    rw [h] at hc
    exact absurd hc.2 (by decide)

theorem selfClosingFlag_eq (bytes : List Byte) (nameEnd j : Nat) (s : Bool)
    (hj : 1 ≤ j) (hgt : byteAt bytes (j - 1) = 0x3E) :
    selfClosingFlag bytes nameEnd j s = s := by
  unfold selfClosingFlag
  cases s with
  | true => simp
  | false =>
    have hws : isWhitespaceTable (byteAt bytes (j - 1)) = false := by rw [hgt]; decide
    simp only [Bool.false_eq_true, if_false]
    rw [if_pos (by omega), scanBack_stay bytes nameEnd _ _ hws, hgt]
    decide

/-- C30: in decision mode the self-closing flag of a start tag equals
`sawSelfClosing`. Whenever the attribute loop ends with `sawTagEnd = 1` at the
position `j`, the byte at `j - 1` is `>` (preceded by `/` when the loop took
the `/>` branch), so the backward scan from `j - 1` stops at once on that `>`
and finds no `/`: the flag computed after the loop is `sawSelfClosing`, for
every name end; the flag of the self-closing hint of a tag classified `NONE`
is 1 exactly when `sawSelfClosing` is set. -/
theorem C30_self_closing_flag (bytes : List Byte) (length : Nat) (sinks : Sinks)
    (n j0 : Nat) (events0 : List Event) (j : Nat) (s : Bool) (events : List Event)
    (h : attrLoop bytes length sinks n j0 events0 = AttrResult.ended j s events) :
    1 ≤ j ∧ byteAt bytes (j - 1) = 0x3E ∧
    (s = true → 2 ≤ j ∧ byteAt bytes (j - 2) = 0x2F) ∧
    (∀ nameEnd, scanBack bytes nameEnd (j - 1 - nameEnd) (j - 1) = j - 1) ∧
    (∀ nameEnd, selfClosingFlag bytes nameEnd j s = s) ∧
    (∀ nameStart nameEnd st st1, sinks.recordSelfClosing = true →
      startTagFinish bytes length sinks TAG_NONE nameStart nameEnd j s st = Step.next st1 →
      st1.events = st.events ++ [Event.selfClosing nameStart
        ((List.range (nameEnd - nameStart)).map
          (fun k => asciiLowerTable (byteAt bytes (nameStart + k))))
        ((nameEnd - nameStart : Nat) : Int) (if s then 1 else 0)]) := by
  obtain ⟨h1, h2, h3⟩ := attrLoop_tagEnd h
  have hws : isWhitespaceTable (byteAt bytes (j - 1)) = false := by rw [h2]; decide
  refine ⟨h1, h2, h3, fun nameEnd => scanBack_stay bytes nameEnd _ _ hws,
    fun nameEnd => selfClosingFlag_eq bytes nameEnd j s h1 h2, ?_⟩
  intro nameStart nameEnd st st1 hrec hfin
  unfold startTagFinish at hfin
  simp only [selfClosingFlag_eq bytes nameEnd j s h1 h2, hrec, and_self, if_true,
    reduceCtorEq, and_false, if_false, formatting_tag_id] at hfin
  injection hfin with hfin
  rw [← hfin]

theorem C30_self_closing_flag_witness :
    attrLoop (cstr "<x a=b/>") 8 ⟨true, true, false⟩ 6 2 [] = AttrResult.ended 8 false [] ∧
    selfClosingFlag (cstr "<x a=b/>") 2 8 false = false :=
  ⟨by decide!,
   (C30_self_closing_flag (cstr "<x a=b/>") 8 ⟨true, true, false⟩ 6 2 [] 8 false []
      (by decide!)).2.2.2.2.1 2⟩

/-- C26 fails on the code: in `<x a=b/>` the last non-whitespace byte before
the closing `>` is the `/` that ends the unquoted value `b/`, yet the decision
scanner does not treat the tag as self-closing: the hint carries the flag 0
and `openTagDepth` is incremented; for the formatting tag in `<b a=c/>` the
formatting id is pushed, so the input is rejected with `FORMATTING_MISMATCH`
while `<b/>` is accepted. The hint-only scanner reports the flag 1 on the
same input. -/
theorem C26_unquoted_value_slash :
    byteAt (cstr "<x a=b/>") 6 = 0x2F ∧ byteAt (cstr "<x a=b/>") 7 = 0x3E ∧
    decide_input (cstr "<x a=b/>")
      = some ⟨0, SWIFTSOUP_FALLBACK_NONE, [Event.selfClosing 1 (cstr "x") 1 0]⟩ ∧
    step (cstr "<x a=b/>") 8 ⟨true, true, false⟩ ScanState.init
      = Step.next { ScanState.init with
          i := 8, sawTagDelimiter := true, openTagDepth := 1,
          events := [Event.selfClosing 1 (cstr "x") 1 0] } ∧
    decide_input (cstr "<b a=c/>") = some ⟨1, SWIFTSOUP_FALLBACK_FORMATTING_MISMATCH, []⟩ ∧
    decide_input (cstr "<b/>") = some ⟨0, SWIFTSOUP_FALLBACK_NONE, []⟩ ∧
    swiftsoup_scan_hints (some (cstr "<x a=b/>")) 8 true true
      = some [Event.selfClosing 1 (cstr "x") 1 1] := by
  decide!

/-- C27 fails on the code: after the decision scanner has processed the
prefix `<html><head>` its placement state is `sawHtmlTag = true`,
`inHead = false` and `sawBodyTag = true`: the `<html>` start tag itself runs
through the placement code and, not being head-allowed, sets `sawBodyTag`,
so the `<head>` start tag no longer reaches the assignment `inHead = 1`. -/
theorem C27_head_tracking :
    step (cstr "<html><head>") 12 ⟨true, true, false⟩ ScanState.init
      = Step.next { ScanState.init with
          i := 6, sawTagDelimiter := true, sawHtmlTag := true, sawBodyTag := true,
          openTagDepth := 1 } ∧
    step (cstr "<html><head>") 12 ⟨true, true, false⟩
        { ScanState.init with
          i := 6, sawTagDelimiter := true, sawHtmlTag := true, sawBodyTag := true,
          openTagDepth := 1 }
      = Step.next { ScanState.init with
          i := 12, sawTagDelimiter := true, sawHtmlTag := true, sawBodyTag := true,
          inHead := false, openTagDepth := 2 } ∧
    startTagPlacement TAG_HTML true false false false 0 = some (true, false) ∧
    startTagPlacement TAG_HEAD true true false false 1 = some (true, false) := by
  decide!

/-! ## The events added by the loops -/

theorem bucketIndices_le : ∀ x ∈ booleanAttrBucketIndices, x ≤ 30 := by
  decide!

theorem bucketIndices_getD_le (k : Nat) : booleanAttrBucketIndices.getD k 0 ≤ 30 := by
  by_cases h : k < booleanAttrBucketIndices.length
  · rw [List.getD_eq_getElem _ _ h]
    exact bucketIndices_le _ (List.getElem_mem h)
  · rw [List.getD_eq_default _ _ (by omega)]
    omega

theorem boolean_attribute_bucket_range (bytes : List Byte) (start length startOffset n idx : Nat) :
    -1 ≤ boolean_attribute_bucket bytes start length startOffset n idx ∧
    boolean_attribute_bucket bytes start length startOffset n idx ≤ 30 := by
  induction n generalizing idx with
  | zero =>
    rw [boolean_attribute_bucket]
    omega
  | succ n ih =>
    rw [boolean_attribute_bucket]
    split
    · exact ih _
    · split
      · omega
      · have := bucketIndices_getD_le (startOffset + idx)
        omega
      · exact ih _

theorem boolean_attribute_index_range (bytes : List Byte) (start stop : Nat) :
    -1 ≤ boolean_attribute_index bytes start stop ∧ boolean_attribute_index bytes start stop ≤ 30 := by
  unfold boolean_attribute_index
  simp only
  split
  · omega
  · split
    · omega
    · split
      · omega
      · exact boolean_attribute_bucket_range _ _ _ _ _ _

theorem isBooleanHint_mono {bytes : List Byte} {lo hi lo1 hi1 : Nat} {e : Event}
    (h : Event.IsBooleanHint bytes lo hi e) (h1 : lo1 ≤ lo) (h2 : hi ≤ hi1) :
    Event.IsBooleanHint bytes lo1 hi1 e := by
  cases e with
  | selfClosing pos name len flag => exact h
  | boolean pos index isBoolean =>
    obtain ⟨a, b, c⟩ := h
    exact ⟨by omega, by omega, c⟩
  | append pos index isBoolean =>
    obtain ⟨a, b, c⟩ := h
    exact ⟨by omega, by omega, c⟩

theorem isBooleanHint_range {bytes : List Byte} {lo hi : Nat} {e : Event}
    (h : Event.IsBooleanHint bytes lo hi e) : Event.BooleanInRange e := by
  cases e with
  | selfClosing pos name len flag => trivial
  | boolean pos index isBoolean =>
    obtain ⟨_, _, c, ⟨stop, hs⟩, f⟩ := h
    have := (boolean_attribute_index_range bytes pos stop).2
    exact ⟨c, by omega, f⟩
  | append pos index isBoolean =>
    obtain ⟨_, _, c, ⟨stop, hs⟩, f⟩ := h
    have := (boolean_attribute_index_range bytes pos stop).2
    exact ⟨c, by omega, f⟩

theorem isBooleanHint_not_selfClosing {bytes : List Byte} {lo hi : Nat} {e : Event}
    (h : Event.IsBooleanHint bytes lo hi e) : e.isSelfClosing = false := by
  cases e with
  | selfClosing pos name len flag => exact absurd h (by simp [Event.IsBooleanHint])
  | boolean pos index isBoolean => rfl
  | append pos index isBoolean => rfl

/-- The events of one boolean-hint delivery. -/
theorem emitBoolean_hints (bytes : List Byte) (sinks : Sinks) (lo hi pos stop : Nat)
    (isBoolean : Int) (h1 : lo ≤ pos) (h2 : pos < hi)
    (h3 : 0 ≤ boolean_attribute_index bytes pos stop) (h4 : isBoolean = 0 ∨ isBoolean = 1) :
    ∀ e ∈ emitBoolean sinks pos (boolean_attribute_index bytes pos stop) isBoolean,
      Event.IsBooleanHint bytes lo hi e := by
  intro e he
  unfold emitBoolean at he
  rw [List.mem_append] at he
  rcases he with he | he
  · split at he
    · rw [List.mem_singleton] at he
      subst he
      exact ⟨h1, h2, h3, ⟨stop, rfl⟩, h4⟩
    · cases he
  · split at he
    · rw [List.mem_singleton] at he
      subst he
      exact ⟨h1, h2, h3, ⟨stop, rfl⟩, h4⟩
    · cases he

theorem emitBoolean_if_hints (bytes : List Byte) (sinks : Sinks) (lo hi pos stop : Nat)
    (isBoolean : Int) (h1 : lo ≤ pos) (h2 : pos < hi) (h4 : isBoolean = 0 ∨ isBoolean = 1) :
    ∀ e ∈ (if boolean_attribute_index bytes pos stop ≥ 0 then
            emitBoolean sinks pos (boolean_attribute_index bytes pos stop) isBoolean else []),
      Event.IsBooleanHint bytes lo hi e := by
  intro e he
  split at he
  · rename_i h3
    exact emitBoolean_hints bytes sinks lo hi pos stop isBoolean h1 h2 h3 h4 e he
  · cases he

/-- An iteration of the attribute loop adds only boolean hints, made for an
attribute name inside the range it advances over. -/
theorem attrStep_events (bytes : List Byte) (length : Nat) (sinks : Sinks) (j : Nat)
    (events : List Event) (_hj : j < length) :
    ∃ added, (attrStep bytes length sinks j events).events = events ++ added ∧
      ∀ e ∈ added, Event.IsBooleanHint bytes j length e := by
  unfold attrStep
  simp only
  have h1 := skipWhitespace_ge bytes length j
  split
  · exact ⟨[], by simp [AttrStep.events], by simp⟩
  · split
    · exact ⟨[], by simp [AttrStep.events], by simp⟩
    · split
      · exact ⟨[], by simp [AttrStep.events], by simp⟩
      · split
        · exact ⟨[], by simp [AttrStep.events], by simp⟩
        · split
          · exact ⟨[], by simp [AttrStep.events], by simp⟩
          · split
            · split
              · exact ⟨[], by simp [AttrStep.events], by simp⟩
              · split
                · exact ⟨[], by simp [AttrStep.events], by simp⟩
                · exact ⟨_, rfl, emitBoolean_if_hints bytes sinks j length _ _ 0 h1
                    (by omega) (Or.inl rfl)⟩
            · exact ⟨_, rfl, emitBoolean_if_hints bytes sinks j length _ _ 1 h1
                (by omega) (Or.inr rfl)⟩

/-- The attribute loop adds only boolean hints. -/
theorem attrLoop_events (bytes : List Byte) (length : Nat) (sinks : Sinks) (n j : Nat)
    (events : List Event) (hn : length - j ≤ n) :
    ∃ added, (attrLoop bytes length sinks n j events).events = events ++ added ∧
      ∀ e ∈ added, Event.IsBooleanHint bytes j length e := by
  induction n generalizing j events with
  | zero =>
    unfold attrLoop
    rw [if_neg (by omega)]
    exact ⟨[], by simp [AttrResult.events], by simp⟩
  | succ n ih =>
    unfold attrLoop
    split
    · rename_i hj
      obtain ⟨added, hadd, hall⟩ := attrStep_events bytes length sinks j events hj
      have hg := attrStep_good bytes length sinks j events hj
      split
      · rename_i r ev hstep
        rw [hstep] at hadd
        exact ⟨added, hadd, hall⟩
      · rename_i j1 s ev hstep
        rw [hstep] at hadd
        exact ⟨added, hadd, hall⟩
      · rename_i j1 ev hstep
        rw [hstep] at hadd hg
        obtain ⟨added2, hadd2, hall2⟩ := ih j1 ev (by have := hg.1; omega)
        refine ⟨added ++ added2, ?_, ?_⟩
        · rw [hadd2]
          simp only [AttrStep.events] at hadd
          rw [hadd, List.append_assoc]
        · intro e he
          rw [List.mem_append] at he
          rcases he with he | he
          · exact hall e he
          · exact isBooleanHint_mono (hall2 e he) (by have := hg.1; omega) (Nat.le_refl _)
    · exact ⟨[], by simp [AttrResult.events], by simp⟩

/-- What a successful tag-name loop establishes. -/
theorem scanTagName_spec {bytes : List Byte} {length n j e : Nat}
    (h : scanTagName bytes length n j = some e) (hn : length - j ≤ n) (hj : j ≤ length) :
    e ≤ length ∧
    (∀ k, j ≤ k → k < e → isNameCharTable (byteAt bytes k) = true ∧ byteAt bytes k ≠ 0x3A) ∧
    (e < length → isNameCharTable (byteAt bytes e) = false) := by
  induction n generalizing j with
  | zero =>
    unfold scanTagName at h
    injection h with h
    subst h
    have : j = length := by omega
    subst this
    exact ⟨Nat.le_refl _, fun k h1 h2 => by omega, fun h => by omega⟩
  | succ n ih =>
    unfold scanTagName at h
    split at h
    · rename_i hc
      split at h
      · cases h
      · rename_i hcolon
        obtain ⟨h1, h2, h3⟩ := ih h (by omega) (by omega)
        refine ⟨h1, ?_, h3⟩
        intro k hk1 hk2
        by_cases hk : k = j
        · subst hk
          exact ⟨hc.2, hcolon⟩
        · exact h2 k (by omega) hk2
    · rename_i hc
      injection h with h
      subst h
      refine ⟨hj, fun k h1 h2 => by omega, ?_⟩
      intro hlt
      by_contra hne
      exact hc ⟨hlt, by simpa using hne⟩

theorem textSpan_events (bytes : List Byte) (length : Nat) (st : ScanState) :
    (textSpan bytes length st).events = st.events := by
  unfold textSpan
  simp only
  split
  · rfl
  · simp only [Step.events]
    unfold textSpanPlacement
    simp only
    repeat' split
    all_goals rfl

theorem commentOrDeclaration_events (bytes : List Byte) (length : Nat) (st : ScanState) :
    (commentOrDeclaration bytes length st).events = st.events := by
  unfold commentOrDeclaration
  simp only
  repeat' split
  all_goals rfl

theorem processingInstruction_events (bytes : List Byte) (length : Nat) (st : ScanState) :
    (processingInstruction bytes length st).events = st.events := by
  unfold processingInstruction
  simp only
  repeat' split
  all_goals rfl

theorem endTag_events (bytes : List Byte) (length : Nat) (st : ScanState) :
    (endTag bytes length st).events = st.events := by
  unfold endTag
  simp only
  repeat' split
  all_goals rfl

theorem rawText_events (bytes : List Byte) (length : Nat) (tag : List Byte) (tagLen j : Nat)
    (st : ScanState) : (rawText bytes length tag tagLen j st).events = st.events := by
  unfold rawText
  repeat' split
  all_goals rfl

/-- The self-closing hint of a start tag of the decision scanner, as a list:
one call when the tag is classified `NONE` and the callback is installed. -/
theorem startTagFinish_events (bytes : List Byte) (length : Nat) (sinks : Sinks) (tagId : tag_id)
    (nameStart nameEnd j : Nat) (s : Bool) (st : ScanState) :
    (startTagFinish bytes length sinks tagId nameStart nameEnd j s st).events
      = st.events ++
        (if tagId = TAG_NONE ∧ sinks.recordSelfClosing = true then
          [Event.selfClosing nameStart (lowerSlice bytes nameStart nameEnd)
            ((nameEnd - nameStart : Nat) : Int)
            (if selfClosingFlag bytes nameEnd j s then 1 else 0)]
         else []) := by
  have hname : (List.range (nameEnd - nameStart)).map
      (fun k => asciiLowerTable (byteAt bytes (nameStart + k)))
        = lowerSlice bytes nameStart nameEnd := by
    simp [lowerSlice, slice, List.map_map, Function.comp_def]
  have hif : ∀ (c : Prop) [Decidable c] (x : Event),
      (if c then st.events ++ [x] else st.events) = st.events ++ (if c then [x] else []) := by
    intro c _ x
    split <;> simp
  unfold startTagFinish
  simp only [hname]
  split
  · rw [rawText_events]
    exact hif _ _
  · split
    · rw [rawText_events]
      exact hif _ _
    · split
      · rw [rawText_events]
        exact hif _ _
      · exact hif _ _

/-- The self-closing hint that `startTagFinish` makes for the tag found by the
preflight is a hint for a tag name classified `NONE`. -/
theorem selfClosingHint_ok {bytes : List Byte} {length : Nat} {st : ScanState}
    {head : StartTagHead} (hlt : byteAt bytes st.i = 0x3C) (hi : st.i + 1 < length)
    (hpre : startTagPreflight bytes length st = Except.ok head) (hnone : head.tagId = TAG_NONE)
    (flag : Bool) :
    SelfClosingHintOk bytes length
      (Event.selfClosing head.nameStart (lowerSlice bytes head.nameStart head.nameEnd)
        ((head.nameEnd - head.nameStart : Nat) : Int) (if flag then 1 else 0)) := by
  obtain ⟨h1, h2, _, _, hscan, hid⟩ := startTagPreflight_ok hpre
  obtain ⟨hle, hrun, hmax⟩ := scanTagName_spec hscan (Nat.le_refl _) (by omega)
  have hlen : (lowerSlice bytes head.nameStart head.nameEnd).length
      = head.nameEnd - head.nameStart := lowerSlice_length _ _ _
  have hend : head.nameStart + (lowerSlice bytes head.nameStart head.nameEnd).length
      = head.nameEnd := by omega
  simp only [SelfClosingHintOk, hend]
  refine ⟨by omega, ?_, by rw [hlen], by omega, hle, ?_, hmax, trivial, ?_, ?_, ?_⟩
  · rw [h1]
    exact hlt
  · intro k hk
    exact (hrun (head.nameStart + k) (by omega) (by omega)).1
  · rw [← hid]
    exact hnone
  · intro p hp hc
    have h3 := classify_eq bytes head.nameStart head.nameEnd
    rw [← hid, hnone, hc, classifyLowered_table p hp] at h3
    exact (tagNameTable_facts.1 p hp).2.2.1 h3.symm
  · cases flag
    · exact Or.inl rfl
    · exact Or.inr rfl

/-- The events of a start tag of the decision scanner: boolean hints for its
attributes, then at most one self-closing hint. -/
theorem startTag_events (bytes : List Byte) (length : Nat) (sinks : Sinks) (st : ScanState)
    (hlt : byteAt bytes st.i = 0x3C) (hi : st.i + 1 < length) :
    ∃ bs sc, (startTag bytes length sinks st).events = st.events ++ bs ++ sc ∧
      (∀ e ∈ bs, Event.IsBooleanHint bytes st.i length e) ∧ sc.length ≤ 1 ∧
      ∀ e ∈ sc, e.isSelfClosing = true ∧ SelfClosingHintOk bytes length e ∧
        sinks.recordSelfClosing = true := by
  unfold startTag
  split
  · exact ⟨[], [], by simp [Step.events], by simp, by simp, by simp⟩
  · rename_i head hpre
    obtain ⟨h1, h2, _, hev, _, _⟩ := startTagPreflight_ok hpre
    obtain ⟨added, hadd, hall⟩ :=
      attrLoop_events bytes length sinks (length - head.nameEnd) head.nameEnd head.st.events
        (Nat.le_refl _)
    have hall2 : ∀ e ∈ added, Event.IsBooleanHint bytes st.i length e :=
      fun e he => isBooleanHint_mono (hall e he) (by omega) (Nat.le_refl _)
    split
    · rename_i hloop
      exact absurd hloop (attrLoop_ne_outOfFuel bytes length sinks _ _ _ (Nat.le_refl _))
    · rename_i r ev hloop
      rw [hloop, hev] at hadd
      exact ⟨added, [], by simpa [Step.events, AttrResult.events] using hadd, hall2, by simp,
        by simp⟩
    · rename_i ev hloop
      rw [hloop, hev] at hadd
      exact ⟨added, [], by simpa [Step.events, AttrResult.events] using hadd, hall2, by simp,
        by simp⟩
    · rename_i j s ev hloop
      rw [hloop, hev] at hadd
      simp only [AttrResult.events] at hadd
      rw [startTagFinish_events]
      simp only
      rw [hadd]
      refine ⟨added, _, rfl, hall2, ?_, ?_⟩
      · split <;> simp
      · intro e he
        split at he
        · rename_i hc
          rw [List.mem_singleton] at he
          subst he
          exact ⟨rfl, selfClosingHint_ok hlt hi hpre hc.1 _, hc.2⟩
        · cases he

/-- The events of one main-loop iteration of the decision scanner: the events
so far, then boolean hints made for attribute names behind the cursor, then at
most one self-closing hint, which is a hint for a tag name classified `NONE`. -/
theorem step_events (bytes : List Byte) (length : Nat) (sinks : Sinks) (st : ScanState) :
    ∃ bs sc, (step bytes length sinks st).events = st.events ++ bs ++ sc ∧
      (∀ e ∈ bs, Event.IsBooleanHint bytes st.i length e) ∧ sc.length ≤ 1 ∧
      ∀ e ∈ sc, e.isSelfClosing = true ∧ SelfClosingHintOk bytes length e ∧
        sinks.recordSelfClosing = true := by
  have hnil : ∀ s : Step, s.events = st.events →
      ∃ bs sc, s.events = st.events ++ bs ++ sc ∧
        (∀ e ∈ bs, Event.IsBooleanHint bytes st.i length e) ∧ sc.length ≤ 1 ∧
        ∀ e ∈ sc, e.isSelfClosing = true ∧ SelfClosingHintOk bytes length e ∧
          sinks.recordSelfClosing = true :=
    fun s hs => ⟨[], [], by simpa using hs, by simp, by simp, by simp⟩
  unfold step
  split
  · exact hnil _ rfl
  · split
    · exact hnil _ (textSpan_events _ _ _)
    · rename_i hlt
      simp only
      split
      · exact hnil _ rfl
      · rename_i hi
        split
        · exact hnil _ (commentOrDeclaration_events _ _ _)
        · split
          · exact hnil _ (endTag_events _ _ _)
          · split
            · exact hnil _ (processingInstruction_events _ _ _)
            · split
              · exact hnil _ rfl
              · exact startTag_events bytes length sinks { st with sawTagDelimiter := true }
                  (by simpa using hlt) (by simp only; omega)

/-- A property of events that holds of every boolean hint and of every
self-closing hint for a tag classified `NONE` holds of every event of a run of
the main loop of the decision scanner. -/
theorem mainLoop_events_all (bytes : List Byte) (length : Nat) (sinks : Sinks)
    (Q : Event → Prop)
    (hb : ∀ lo hi e, Event.IsBooleanHint bytes lo hi e → Q e)
    (hs : ∀ e, e.isSelfClosing = true → SelfClosingHintOk bytes length e → Q e)
    (n : Nat) (st : ScanState) (out : Outcome) (hst : ∀ e ∈ st.events, Q e)
    (h : mainLoop bytes length sinks n st = some out) : ∀ e ∈ out.events, Q e := by
  have hstep : ∀ st : ScanState, (∀ e ∈ st.events, Q e) →
      ∀ e ∈ (step bytes length sinks st).events, Q e := by
    intro st hst e he
    obtain ⟨bs, sc, heq, hbs, _, hsc⟩ := step_events bytes length sinks st
    rw [heq, List.mem_append, List.mem_append] at he
    rcases he with (he | he) | he
    · exact hst e he
    · exact hb _ _ e (hbs e he)
    · exact hs e (hsc e he).1 (hsc e he).2.1
  have hfin : ∀ st : ScanState, (finish st).events = st.events := by
    intro st
    unfold finish
    repeat' split
    all_goals rfl
  induction n generalizing st with
  | zero =>
    unfold mainLoop at h
    split at h
    · cases h
    · injection h with h
      rw [← h, hfin]
      exact hst
  | succ n ih =>
    unfold mainLoop at h
    split at h
    · have hs1 := hstep st hst
      split at h
      · rename_i r ev hstep1
        rw [hstep1] at hs1
        injection h with h
        rw [← h]
        exact hs1
      · rename_i st1 hstep1
        rw [hstep1] at hs1
        exact ih st1 hs1 h
      · cases h
    · injection h with h
      rw [← h, hfin]
      exact hst

theorem internal_events_all (bytes : Option (List Byte)) (length : Int) (sinks : Sinks)
    (Q : Event → Prop)
    (hb : ∀ buf lo hi e, bytes = some buf → Event.IsBooleanHint buf lo hi e → Q e)
    (hs : ∀ buf e, bytes = some buf → e.isSelfClosing = true →
      SelfClosingHintOk buf length.toNat e → Q e)
    (out : Outcome) (h : swiftsoup_should_fallback_internal bytes length sinks = some out) :
    ∀ e ∈ out.events, Q e := by
  unfold swiftsoup_should_fallback_internal at h
  split at h
  · injection h with h
    rw [← h]
    simp
  · rename_i buf
    split at h
    · injection h with h
      rw [← h]
      simp
    · exact mainLoop_events_all buf length.toNat sinks Q (fun lo hi e => hb buf lo hi e rfl)
        (fun e => hs buf e rfl) _ _ out (by simp [ScanState.init]) h

/-! ## The loops of the hint-only scanner -/

theorem findPiEnd_bounds {bytes : List Byte} {length n j r : Nat}
    (h : findPiEnd bytes length n j = SearchEnd.found r) : j ≤ r ∧ r + 1 < length := by
  induction n generalizing j with
  | zero => simp [findPiEnd] at h
  | succ n ih =>
    unfold findPiEnd at h
    split at h
    · split at h
      · injection h with h
        omega
      · have := ih h
        omega
    · split at h <;> cases h

theorem hintTagEnd_ge (bytes : List Byte) (length n j quote last : Nat) :
    j ≤ (hintTagEnd bytes length n j quote last).1 := by
  induction n generalizing j quote last with
  | zero => simp [hintTagEnd]
  | succ n ih =>
    unfold hintTagEnd
    simp only
    split
    · split
      · split
        · have := ih (j + 1) 0 last
          omega
        · have := ih (j + 1) quote last
          omega
      · split
        · have := ih (j + 1) (byteAt bytes j).val last
          omega
        · split
          · simp
          · split
            · have := ih (j + 1) quote (byteAt bytes j).val
              omega
            · have := ih (j + 1) quote last
              omega
    · simp

theorem hintTagEnd_le (bytes : List Byte) (length n j quote last : Nat) (hj : j ≤ length) :
    (hintTagEnd bytes length n j quote last).1 ≤ length := by
  induction n generalizing j quote last with
  | zero => simpa [hintTagEnd] using hj
  | succ n ih =>
    unfold hintTagEnd
    simp only
    split
    · rename_i hlt
      repeat' split
      all_goals first | exact ih _ _ _ (by omega) | exact hj
    · exact hj

theorem hintBoolean_hints (bytes : List Byte) (sinks : Sinks) (c : Bool) (lo hi pos stop : Nat)
    (isBoolean : Int) (h1 : lo ≤ pos) (h2 : pos < hi) (h4 : isBoolean = 0 ∨ isBoolean = 1) :
    ∀ e ∈ (if (if c = true then boolean_attribute_index bytes pos stop else -1) ≥ 0 then
            emitBoolean sinks pos (if c = true then boolean_attribute_index bytes pos stop else -1)
              isBoolean
           else []),
      Event.IsBooleanHint bytes lo hi e := by
  cases c with
  | true =>
    simp only [if_true]
    exact emitBoolean_if_hints bytes sinks lo hi pos stop isBoolean h1 h2 h4
  | false =>
    intro e he
    simp at he

/-- The attribute loop of the hint-only scanner ends within its bound and adds
only boolean hints. -/
theorem hintAttrLoop_events (bytes : List Byte) (length : Nat) (sinks : Sinks) (n a : Nat)
    (events : List Event) (hn : length - a ≤ n) :
    ∃ added, hintAttrLoop bytes length sinks n a events = some (events ++ added) ∧
      ∀ e ∈ added, Event.IsBooleanHint bytes a length e := by
  induction n generalizing a events with
  | zero =>
    unfold hintAttrLoop
    rw [if_neg (by omega)]
    exact ⟨[], by simp, by simp⟩
  | succ n ih =>
    unfold hintAttrLoop
    split
    · lift_lets
      extract_lets a1 attrStart a2 attrEnd booleanIndex a3 a4 q aq a5
      have h1 : a ≤ a1 := skipWhitespace_ge bytes length a
      have h2 : a1 ≤ a2 := advanceWhile_ge bytes length _ _ a1
      have h3 : a2 ≤ a3 := skipWhitespace_ge bytes length a2
      have h4 : a3 + 1 ≤ a4 := skipWhitespace_ge bytes length (a3 + 1)
      have hstart : attrStart = a1 := rfl
      split
      · exact ⟨[], by simp, by simp⟩
      · split
        · exact ⟨[], by simp, by simp⟩
        · split
          · exact ⟨[], by simp, by simp⟩
          · split
            · exact ⟨[], by simp, by simp⟩
            · rename_i hlt _ _ hne
              have hb0 : ∀ e ∈ (if booleanIndex ≥ 0 then emitBoolean sinks attrStart booleanIndex 0
                  else []), Event.IsBooleanHint bytes a length e :=
                hintBoolean_hints bytes sinks (sinks.recordBoolean || sinks.booleanBuf) a length
                  attrStart attrEnd 0 (by omega) (by omega) (Or.inl rfl)
              have hb1 : ∀ e ∈ (if booleanIndex ≥ 0 then emitBoolean sinks attrStart booleanIndex 1
                  else []), Event.IsBooleanHint bytes a length e :=
                hintBoolean_hints bytes sinks (sinks.recordBoolean || sinks.booleanBuf) a length
                  attrStart attrEnd 1 (by omega) (by omega) (Or.inr rfl)
              split
              · split
                · exact ⟨[], by simp, by simp⟩
                · have h5 : a4 ≤ a5 := by
                    show a4 ≤ (if byteAt bytes a4 = 0x22 ∨ byteAt bytes a4 = 0x27 then
                      (if aq < length then
                        (match memchr bytes aq q (length - aq) with
                          | none => length
                          | some found => found + 1)
                       else aq)
                      else advanceWhile bytes length (fun b => !isWhitespaceTable b && b != 0x3E)
                        (length - a4) a4)
                    have haq : aq = a4 + 1 := rfl
                    split
                    · split
                      · split
                        · omega
                        · rename_i found hfound
                          have := (memchr_some hfound).1
                          exact Nat.le_trans (show a4 ≤ found by omega) (Nat.le_succ found)
                      · omega
                    · exact advanceWhile_ge bytes length _ _ a4
                  obtain ⟨added2, hadd2, hall2⟩ := ih a5 (events ++ (if booleanIndex ≥ 0 then
                    emitBoolean sinks attrStart booleanIndex 0 else [])) (by omega)
                  refine ⟨(if booleanIndex ≥ 0 then emitBoolean sinks attrStart booleanIndex 0 else [])
                    ++ added2, ?_, ?_⟩
                  · rw [hadd2, List.append_assoc]
                  · intro e he
                    rw [List.mem_append] at he
                    rcases he with he | he
                    · exact hb0 e he
                    · exact isBooleanHint_mono (hall2 e he) (by omega) (Nat.le_refl _)
              · obtain ⟨added2, hadd2, hall2⟩ := ih a3 (events ++ (if booleanIndex ≥ 0 then
                  emitBoolean sinks attrStart booleanIndex 1 else [])) (by omega)
                refine ⟨(if booleanIndex ≥ 0 then emitBoolean sinks attrStart booleanIndex 1 else [])
                  ++ added2, ?_, ?_⟩
                · rw [hadd2, List.append_assoc]
                · intro e he
                  rw [List.mem_append] at he
                  rcases he with he | he
                  · exact hb1 e he
                  · exact isBooleanHint_mono (hall2 e he) (by omega) (Nat.le_refl _)
    · exact ⟨[], by simp, by simp⟩

/-- Every iteration of the main loop of the hint-only scanner that does not
`break` leaves the cursor strictly greater and at most `length`. -/
theorem hintStep_good (bytes : List Byte) (length : Nat) (sinks : Sinks) (i : Nat)
    (events : List Event) :
    HintStep.Good length i (hintStep bytes length sinks i events) := by
  unfold hintStep
  split
  · split
    · trivial
    · split
      · trivial
      · rename_i found hfound
        have := memchr_some hfound
        simp only [HintStep.Good]
        omega
  · split
    · trivial
    · lift_lets
      extract_lets next jd nameStart nameEnd tagEnd j isSelfClosing events1
      have hjd : i + 2 ≤ jd := seekGt_ge bytes length (i + 2)
      have hns : nameStart = i + 1 := rfl
      have hne : nameStart ≤ nameEnd := advanceWhile_ge bytes length _ _ nameStart
      have hj : nameEnd ≤ j := hintTagEnd_ge bytes length _ nameEnd 0 0
      split
      · split
        · split
          · rename_i r hr
            have := findCommentEnd_ge hr
            simp only [HintStep.Good]
            omega
          · trivial
          · trivial
        · split
          · trivial
          · exact hintContinue_good _ _ _ _ (by omega) (by omega)
      · split
        · exact hintContinue_good _ _ _ _ (by omega) (by omega)
        · split
          · split
            · rename_i r hr
              have := findPiEnd_bounds hr
              simp only [HintStep.Good]
              omega
            · trivial
            · trivial
          · split
            · simp only [HintStep.Good]
              omega
            · split
              · simp only [HintStep.Good]
                omega
              · rename_i hne2
                obtain ⟨added, hadd, _⟩ := hintAttrLoop_events bytes length sinks
                  (length - nameEnd) nameEnd events1 (Nat.le_refl _)
                rw [hadd]
                exact hintContinue_good _ _ _ _ (by omega) (by omega)

/-- An iteration of the main loop of the hint-only scanner has a result when
the length leaves room for the look-ahead sums. -/
theorem hintStep_defined (bytes : List Byte) (length : Nat) (sinks : Sinks) (i : Nat)
    (events : List Event) (hl : length + 2 ≤ INT_MAX) :
    (hintStep bytes length sinks i events).Defined := by
  unfold hintStep
  split
  · split
    · trivial
    · split <;> trivial
  · split
    · trivial
    · rename_i hi
      lift_lets
      extract_lets next jd nameStart nameEnd tagEnd j isSelfClosing events1
      have hjd : jd ≤ length := advanceWhile_le bytes length _ _ _ (by omega)
      have hne : nameEnd ≤ length := advanceWhile_le bytes length _ _ _ (by omega)
      split
      · split
        · have hd := findCommentEnd_defined bytes length (length - (i + 4) + 1) (i + 4)
            (by omega) (by omega) (by omega)
          split
          · trivial
          · trivial
          · rename_i hf
            exact absurd hf hd
        · rw [if_neg (by omega)]
          exact hintContinue_defined _ _ _ (by omega)
      · split
        · exact hintContinue_defined _ _ _ (by omega)
        · split
          · have hd := findPiEnd_defined bytes length (length - (i + 2) + 1) (i + 2)
              (by omega) (by omega) (by omega)
            split
            · trivial
            · trivial
            · rename_i hf
              exact absurd hf hd
          · split
            · trivial
            · split
              · trivial
              · obtain ⟨added, hadd, _⟩ := hintAttrLoop_events bytes length sinks
                  (length - nameEnd) nameEnd events1 (Nat.le_refl _)
                rw [hadd]
                have hj : j ≤ length := hintTagEnd_le bytes length _ nameEnd 0 0 hne
                exact hintContinue_defined _ _ _ (by omega)

/-- The events of one main-loop iteration of the hint-only scanner: the events
so far, then at most one self-closing hint, made for the tag name behind the
`<` at the cursor, then boolean hints made for attribute names behind it. -/
theorem hintStep_events (bytes : List Byte) (length : Nat) (sinks : Sinks) (i : Nat)
    (events : List Event) :
    ∃ sc bs, (hintStep bytes length sinks i events).events = events ++ sc ++ bs ∧
      sc.length ≤ 1 ∧
      (∀ e ∈ sc, ∃ name len flag, e = Event.selfClosing (i + 1) name len flag ∧
        (flag = 0 ∨ flag = 1) ∧ sinks.recordSelfClosing = true) ∧
      ∀ e ∈ bs, Event.IsBooleanHint bytes (i + 2) length e := by
  have hnil : ∀ s : HintStep, s.events = events →
      ∃ sc bs, s.events = events ++ sc ++ bs ∧ sc.length ≤ 1 ∧
        (∀ e ∈ sc, ∃ name len flag, e = Event.selfClosing (i + 1) name len flag ∧
          (flag = 0 ∨ flag = 1) ∧ sinks.recordSelfClosing = true) ∧
        ∀ e ∈ bs, Event.IsBooleanHint bytes (i + 2) length e :=
    fun s hs => ⟨[], [], by simpa using hs, by simp, by simp, by simp⟩
  unfold hintStep
  split
  · split
    · exact hnil _ rfl
    · split <;> exact hnil _ rfl
  · split
    · exact hnil _ rfl
    · lift_lets
      extract_lets next jd nameStart nameEnd tagEnd j isSelfClosing events1
      have hns : nameStart = i + 1 := rfl
      have hne : nameStart ≤ nameEnd := advanceWhile_ge bytes length _ _ nameStart
      split
      · split
        · split <;> exact hnil _ rfl
        · split
          · exact hnil _ rfl
          · exact hnil _ (hintContinue_events _ _ _)
      · split
        · exact hnil _ (hintContinue_events _ _ _)
        · split
          · split <;> exact hnil _ rfl
          · split
            · exact hnil _ rfl
            · split
              · exact hnil _ rfl
              · rename_i hne2
                obtain ⟨added, hadd, hall⟩ := hintAttrLoop_events bytes length sinks
                  (length - nameEnd) nameEnd events1 (Nat.le_refl _)
                rw [hadd]
                simp only [hintContinue_events]
                have hall2 : ∀ e ∈ added, Event.IsBooleanHint bytes (i + 2) length e :=
                  fun e he => isBooleanHint_mono (hall e he) (by omega) (Nat.le_refl _)
                by_cases hsc : sinks.recordSelfClosing = true
                · refine ⟨[Event.selfClosing nameStart (slice bytes nameStart (nameEnd - nameStart))
                    ((nameEnd - nameStart : Nat) : Int) (if isSelfClosing then 1 else 0)],
                    added, ?_, by simp, ?_, hall2⟩
                  · show (if sinks.recordSelfClosing = true then _ else events) ++ added = _
                    rw [if_pos hsc]
                  · intro e he
                    rw [List.mem_singleton] at he
                    refine ⟨_, _, _, he, ?_, hsc⟩
                    cases isSelfClosing
                    · exact Or.inl rfl
                    · exact Or.inr rfl
                · refine ⟨[], added, ?_, by simp, by simp, hall2⟩
                  show (if sinks.recordSelfClosing = true then _ else events) ++ added = _
                  rw [if_neg hsc]
                  simp

/-- A property of events that holds of every boolean hint and of every
self-closing call holds of every event of a run of the main loop of the
hint-only scanner. -/
theorem hintLoop_events_all (bytes : List Byte) (length : Nat) (sinks : Sinks)
    (Q : Event → Prop)
    (hb : ∀ lo hi e, Event.IsBooleanHint bytes lo hi e → Q e)
    (hs : ∀ pos name len flag, (flag = 0 ∨ flag = 1) → Q (Event.selfClosing pos name len flag))
    (n i : Nat) (events out : List Event) (hev : ∀ e ∈ events, Q e)
    (h : hintLoop bytes length sinks n i events = some out) : ∀ e ∈ out, Q e := by
  have hstep : ∀ i events, (∀ e ∈ events, Q e) →
      ∀ e ∈ (hintStep bytes length sinks i events).events, Q e := by
    intro i events hev e he
    obtain ⟨sc, bs, heq, _, hsc, hbs⟩ := hintStep_events bytes length sinks i events
    rw [heq, List.mem_append, List.mem_append] at he
    rcases he with (he | he) | he
    · exact hev e he
    · obtain ⟨name, len, flag, rfl, hf, _⟩ := hsc e he
      exact hs _ _ _ _ hf
    · exact hb _ _ e (hbs e he)
  induction n generalizing i events with
  | zero =>
    unfold hintLoop at h
    split at h
    · cases h
    · injection h with h
      subst h
      exact hev
  | succ n ih =>
    unfold hintLoop at h
    split at h
    · have he := hstep i events hev
      split at h
      · rename_i ev hstep1
        rw [hstep1] at he
        injection h with h
        subst h
        exact he
      · rename_i i1 ev hstep1
        rw [hstep1] at he
        exact ih i1 ev he h
      · cases h
    · injection h with h
      subst h
      exact hev

/-- The main loop of the hint-only scanner ends within `length - i`
iterations when the length leaves room for the look-ahead sums. -/
theorem hintLoop_total (bytes : List Byte) (length : Nat) (sinks : Sinks)
    (n i : Nat) (events : List Event) (hn : length - i ≤ n) (hl : length + 2 ≤ INT_MAX) :
    ∃ out, hintLoop bytes length sinks n i events = some out := by
  induction n generalizing i events with
  | zero =>
    unfold hintLoop
    rw [if_neg (by omega)]
    exact ⟨events, rfl⟩
  | succ n ih =>
    unfold hintLoop
    split
    · rename_i hi
      have hg := hintStep_good bytes length sinks i events
      have hd := hintStep_defined bytes length sinks i events hl
      split
      · exact ⟨_, rfl⟩
      · rename_i i1 ev hstep1
        rw [hstep1] at hg
        exact ih i1 ev (by have := hg.1; omega)
      · rename_i hstep1
        rw [hstep1] at hd
        exact hd.elim
    · exact ⟨events, rfl⟩

theorem hints_internal_events_all (bytes : Option (List Byte)) (length : Int) (sinks : Sinks)
    (Q : Event → Prop)
    (hb : ∀ buf lo hi e, Event.IsBooleanHint buf lo hi e → Q e)
    (hs : ∀ pos name len flag, (flag = 0 ∨ flag = 1) → Q (Event.selfClosing pos name len flag))
    (out : List Event) (h : swiftsoup_scan_hints_internal bytes length sinks = some out) :
    ∀ e ∈ out, Q e := by
  unfold swiftsoup_scan_hints_internal at h
  split at h
  · injection h with h
    subst h
    simp
  · rename_i buf
    split at h
    · injection h with h
      subst h
      simp
    · exact hintLoop_events_all buf length.toNat sinks Q (hb buf) hs _ _ _ out (by simp) h

/-- The hint-only scanner returns when the length leaves room for the
look-ahead sums of the source. -/
theorem hints_internal_returns (bytes : Option (List Byte)) (length : Int) (sinks : Sinks)
    (hl : length + 2 ≤ (INT_MAX : Int)) :
    ∃ out, swiftsoup_scan_hints_internal bytes length sinks = some out := by
  unfold swiftsoup_scan_hints_internal
  split
  · exact ⟨[], rfl⟩
  · rename_i buf
    split
    · exact ⟨[], rfl⟩
    · exact hintLoop_total buf length.toNat sinks _ _ _ (by omega) (by omega)

theorem booleanCalls_range {events : List Event} (h : ∀ e ∈ events, Event.BooleanInRange e) :
    ∀ p ∈ booleanCalls events, 0 ≤ p.1 ∧ p.1 ≤ 30 ∧ (p.2 = 0 ∨ p.2 = 1) := by
  intro p hp
  unfold booleanCalls at hp
  rw [List.mem_filterMap] at hp
  obtain ⟨e, he, hep⟩ := hp
  have := h e he
  cases e with
  | selfClosing pos name len flag => cases hep
  | boolean pos index isBoolean =>
    injection hep with hep
    subst hep
    exact this
  | append pos index isBoolean => cases hep

theorem collectedPairs_range {events : List Event} (h : ∀ e ∈ events, Event.BooleanInRange e) :
    ∀ p ∈ collectedPairs events, 0 ≤ p.1 ∧ p.1 ≤ 30 ∧ (p.2 = 0 ∨ p.2 = 1) := by
  intro p hp
  unfold collectedPairs at hp
  rw [List.mem_filterMap] at hp
  obtain ⟨e, he, hep⟩ := hp
  have := h e he
  cases e with
  | selfClosing pos name len flag => cases hep
  | boolean pos index isBoolean => cases hep
  | append pos index isBoolean =>
    injection hep with hep
    subst hep
    exact this

theorem internal_boolean_range (bytes : Option (List Byte)) (length : Int) (sinks : Sinks)
    (out : Outcome) (h : swiftsoup_should_fallback_internal bytes length sinks = some out) :
    ∀ e ∈ out.events, Event.BooleanInRange e :=
  internal_events_all bytes length sinks Event.BooleanInRange
    (fun _ _ _ _ _ he => isBooleanHint_range he)
    (fun _ e _ _ _ => by cases e <;> trivial) out h

theorem hints_internal_boolean_range (bytes : Option (List Byte)) (length : Int) (sinks : Sinks)
    (out : List Event) (h : swiftsoup_scan_hints_internal bytes length sinks = some out) :
    ∀ e ∈ out, Event.BooleanInRange e :=
  hints_internal_events_all bytes length sinks Event.BooleanInRange
    (fun _ _ _ _ he => isBooleanHint_range he) (fun _ _ _ _ _ => trivial) out h

/-- What a collecting entry point hands back when it returns: the outcome of
the scan and the result of `boolean_occurrences_finish` on its events. -/
theorem collect_some {α : Type} {scan : Option α} {events : α → List Event} {a : α}
    {data : List Int} {count : Int}
    (h : scan.bind (fun x => (boolean_occurrences_finish (events x)).map (fun r => (x, r)))
      = some (a, data, count)) :
    scan = some a ∧ boolean_occurrences_finish (events a) = some (data, count) := by
  cases hs : scan with
  | none => rw [hs] at h; cases h
  | some x =>
    rw [hs] at h
    simp only [Option.some_bind] at h
    cases hf : boolean_occurrences_finish (events x) with
    | none => rw [hf] at h; cases h
    | some r =>
      rw [hf] at h
      simp only [Option.map_some'] at h
      injection h with h
      injection h with h1 h2
      subst h1
      exact ⟨rfl, by rw [hf, h2]⟩

/-- C24: every boolean hint of the four entry points has an index in `0..30`
and a flag equal to 0 or 1, on every input (a null buffer and any `length`
included), and `boolean_attribute_index` returns a value in `-1..30`.
Whenever one of the two callback entry points returns, every `recordBoolean`
call it made is in range, and whenever one of the two collecting entry points
returns, every pair it appended is in range; the two callback entry points
return when the length leaves room for the look-ahead sums of the source
(`length + 10 <= INT_MAX` for the decision scanner, `length + 2 <= INT_MAX`
for the hint-only scanner). -/
theorem C24_boolean_hint_range :
    (∀ (bytes : List Byte) (start stop : Nat),
      -1 ≤ boolean_attribute_index bytes start stop ∧
      boolean_attribute_index bytes start stop ≤ 30) ∧
    (∀ (bytes : Option (List Byte)) (length : Int) (recordSelfClosing recordBoolean : Bool)
      (out : Outcome),
      swiftsoup_should_fallback bytes length recordSelfClosing recordBoolean = some out →
        ∀ p ∈ booleanCalls out.events, 0 ≤ p.1 ∧ p.1 ≤ 30 ∧ (p.2 = 0 ∨ p.2 = 1)) ∧
    (∀ (bytes : Option (List Byte)) (length : Int) (recordSelfClosing : Bool) (out : Outcome)
      (data : List Int) (count : Int),
      swiftsoup_should_fallback_collect bytes length recordSelfClosing
          = some (out, data, count) →
        ∀ p ∈ collectedPairs out.events, 0 ≤ p.1 ∧ p.1 ≤ 30 ∧ (p.2 = 0 ∨ p.2 = 1)) ∧
    (∀ (bytes : Option (List Byte)) (length : Int) (recordSelfClosing recordBoolean : Bool)
      (events : List Event),
      swiftsoup_scan_hints bytes length recordSelfClosing recordBoolean = some events →
        ∀ p ∈ booleanCalls events, 0 ≤ p.1 ∧ p.1 ≤ 30 ∧ (p.2 = 0 ∨ p.2 = 1)) ∧
    (∀ (bytes : Option (List Byte)) (length : Int) (recordSelfClosing : Bool)
      (events : List Event) (data : List Int) (count : Int),
      swiftsoup_scan_hints_collect bytes length recordSelfClosing
          = some (events, data, count) →
        ∀ p ∈ collectedPairs events, 0 ≤ p.1 ∧ p.1 ≤ 30 ∧ (p.2 = 0 ∨ p.2 = 1)) ∧
    (∀ (bytes : Option (List Byte)) (length : Int) (recordSelfClosing recordBoolean : Bool),
      length + 10 ≤ (INT_MAX : Int) →
        ∃ out, swiftsoup_should_fallback bytes length recordSelfClosing recordBoolean
          = some out) ∧
    (∀ (bytes : Option (List Byte)) (length : Int) (recordSelfClosing recordBoolean : Bool),
      length + 2 ≤ (INT_MAX : Int) →
        ∃ events, swiftsoup_scan_hints bytes length recordSelfClosing recordBoolean
          = some events) := by
  refine ⟨boolean_attribute_index_range, ?_, ?_, ?_, ?_, ?_, ?_⟩
  · intro bytes length rs rb out h
    exact booleanCalls_range (internal_boolean_range bytes length ⟨rs, rb, false⟩ out h)
  · intro bytes length rs out data count h
    unfold swiftsoup_should_fallback_collect at h
    exact collectedPairs_range
      (internal_boolean_range bytes length ⟨rs, false, true⟩ out (collect_some h).1)
  · intro bytes length rs rb events h
    exact booleanCalls_range
      (hints_internal_boolean_range bytes length ⟨rs, rb, false⟩ events h)
  · intro bytes length rs events data count h
    unfold swiftsoup_scan_hints_collect at h
    exact collectedPairs_range
      (hints_internal_boolean_range bytes length ⟨rs, false, true⟩ events (collect_some h).1)
  · intro bytes length rs rb hl
    exact internal_returns bytes length ⟨rs, rb, false⟩ hl
  · intro bytes length rs rb hl
    exact hints_internal_returns bytes length ⟨rs, rb, false⟩ hl

theorem C24_boolean_hint_range_witness :
    (∀ p ∈ booleanCalls [Event.boolean 8 11 1, Event.selfClosing 1 (cstr "custom") 6 0],
      0 ≤ p.1 ∧ p.1 ≤ 30 ∧ (p.2 = 0 ∨ p.2 = 1)) ∧
    (∃ out, swiftsoup_should_fallback (some (cstr "<custom hidden>")) 15 true true = some out) ∧
    (∃ events, swiftsoup_scan_hints (some (cstr "<custom hidden>")) 15 true true
      = some events) :=
  ⟨C24_boolean_hint_range.2.1 (some (cstr "<custom hidden>")) 15 true true
      ⟨0, SWIFTSOUP_FALLBACK_NONE,
        [Event.boolean 8 11 1, Event.selfClosing 1 (cstr "custom") 6 0]⟩ (by decide!),
   C24_boolean_hint_range.2.2.2.2.2.1 (some (cstr "<custom hidden>")) 15 true true
     (by decide),
   C24_boolean_hint_range.2.2.2.2.2.2 (some (cstr "<custom hidden>")) 15 true true
     (by decide)⟩

/-- C18: in decision mode the self-closing callback is invoked only for start
tags whose name classifies to `NONE`. Every self-closing hint emitted by a
call of `swiftsoup_should_fallback` was made for a maximal run of name
characters that stands behind a `<` of the buffer: it carries the
ASCII-lowercased bytes of that run and their number, the classifier maps the
run to `TAG_NONE`, and the name is none of the 47 recognized tag names. The
call returns when the length leaves room for the look-ahead sums of the
source (`length + 10 <= INT_MAX`). -/
theorem C18_self_closing_only_for_none (buf : List Byte) (length : Int)
    (recordSelfClosing recordBoolean : Bool) :
    (∀ out, swiftsoup_should_fallback (some buf) length recordSelfClosing recordBoolean
        = some out →
      ∀ e ∈ out.events, SelfClosingHintOk buf length.toNat e) ∧
    (length + 10 ≤ (INT_MAX : Int) →
      ∃ out, swiftsoup_should_fallback (some buf) length recordSelfClosing recordBoolean
        = some out) := by
  refine ⟨fun out h => internal_events_all (some buf) length _
    (SelfClosingHintOk buf length.toNat) ?_ ?_ out h,
    fun hl => internal_returns (some buf) length ⟨recordSelfClosing, recordBoolean, false⟩ hl⟩
  · intro b lo hi e _ he
    cases e with
    | selfClosing pos name len flag => exact absurd he (by simp [Event.IsBooleanHint])
    | boolean pos index isBoolean => trivial
    | append pos index isBoolean => trivial
  · intro b e hb _ he
    injection hb with hb
    subst hb
    exact he

theorem C18_self_closing_only_for_none_witness :
    (∀ e ∈ [Event.boolean 8 11 1, Event.selfClosing 1 (cstr "custom") 6 0],
      SelfClosingHintOk (cstr "<custom hidden>") 15 e) ∧
    (∃ out, swiftsoup_should_fallback (some (cstr "<custom hidden>")) 15 true true = some out) :=
  ⟨(C18_self_closing_only_for_none (cstr "<custom hidden>") 15 true true).1
      ⟨0, SWIFTSOUP_FALLBACK_NONE,
        [Event.boolean 8 11 1, Event.selfClosing 1 (cstr "custom") 6 0]⟩ (by decide!),
   (C18_self_closing_only_for_none (cstr "<custom hidden>") 15 true true).2 (by decide)⟩

/-- C22, amended: within one start tag the hint-only scanner invokes the
self-closing callback before the boolean callbacks of that tag, and the
decision scanner invokes it after them. The events that an iteration of the
main loop of the hint-only scanner adds are at most one self-closing hint,
made for the name behind the `<` at the cursor, followed by boolean hints; the
events that an iteration of the main loop of the decision scanner adds are
boolean hints followed by at most one self-closing hint. -/
theorem C22_hint_order_within_tag :
    (∀ (bytes : List Byte) (length : Nat) (sinks : Sinks) (i : Nat) (events : List Event),
      ∃ sc bs, (hintStep bytes length sinks i events).events = events ++ sc ++ bs ∧
        sc.length ≤ 1 ∧
        (∀ e ∈ sc, ∃ name len flag, e = Event.selfClosing (i + 1) name len flag) ∧
        (∀ e ∈ bs, e.isSelfClosing = false ∧ Event.IsBooleanHint bytes (i + 2) length e)) ∧
    (∀ (bytes : List Byte) (length : Nat) (sinks : Sinks) (st : ScanState),
      ∃ bs sc, (step bytes length sinks st).events = st.events ++ bs ++ sc ∧
        (∀ e ∈ bs, e.isSelfClosing = false ∧ Event.IsBooleanHint bytes st.i length e) ∧
        sc.length ≤ 1 ∧ ∀ e ∈ sc, e.isSelfClosing = true) := by
  constructor
  · intro bytes length sinks i events
    obtain ⟨sc, bs, heq, hlen, hsc, hbs⟩ := hintStep_events bytes length sinks i events
    refine ⟨sc, bs, heq, hlen, ?_, fun e he => ⟨isBooleanHint_not_selfClosing (hbs e he), hbs e he⟩⟩
    intro e he
    obtain ⟨name, len, flag, h, _⟩ := hsc e he
    exact ⟨name, len, flag, h⟩
  · intro bytes length sinks st
    obtain ⟨bs, sc, heq, hbs, hlen, hsc⟩ := step_events bytes length sinks st
    exact ⟨bs, sc, heq, fun e he => ⟨isBooleanHint_not_selfClosing (hbs e he), hbs e he⟩, hlen,
      fun e he => (hsc e he).1⟩

/-- C22 as stated fails in decision mode: on `<custom hidden>` the boolean
callback for the attribute `hidden` is invoked before the self-closing
callback for the tag `custom`; the hint-only scanner invokes them in the other
order. -/
theorem C22_counterexample :
    decide_input (cstr "<custom hidden>")
      = some ⟨0, SWIFTSOUP_FALLBACK_NONE,
          [Event.boolean 8 11 1, Event.selfClosing 1 (cstr "custom") 6 0]⟩ ∧
    swiftsoup_scan_hints (some (cstr "<custom hidden>")) 15 true true
      = some [Event.selfClosing 1 (cstr "custom") 6 0, Event.boolean 8 11 1] := by
  decide!

/-! ## The raw-text skipper against its reference definition -/

theorem skip_raw_text_name_le (bytes : List Byte) (j : Nat) (tag : List Byte) (n k : Nat) :
    skip_raw_text_name bytes j tag n k ≤ k + n := by
  induction n generalizing k with
  | zero => simp [skip_raw_text_name]
  | succ n ih =>
    unfold skip_raw_text_name
    simp only
    split
    · omega
    · have := ih (k + 1)
      omega

/-- The name loop of `skip_raw_text` runs to the end exactly when every byte
is ASCII and equals the name byte after lowercasing. -/
theorem skip_raw_text_name_full (bytes : List Byte) (j : Nat) (tag : List Byte) (n k : Nat) :
    skip_raw_text_name bytes j tag n k = k + n ↔
      ∀ m, k ≤ m → m < k + n →
        (byteAt bytes (j + 2 + m)).val < 0x80 ∧
        asciiLowerTable (byteAt bytes (j + 2 + m)) = byteAt tag m := by
  induction n generalizing k with
  | zero =>
    simp only [skip_raw_text_name, Nat.add_zero, true_iff]
    intro m h1 h2
    omega
  | succ n ih =>
    unfold skip_raw_text_name
    simp only
    split
    · rename_i hc
      constructor
      · intro h
        omega
      · intro h
        have := h k (Nat.le_refl _) (by omega)
        rcases hc with hc | hc
        · omega
        · exact absurd this.2 hc
    · rename_i hc
      rw [not_or] at hc
      rw [show k + (n + 1) = (k + 1) + n by omega, ih (k + 1)]
      constructor
      · intro h m h1 h2
        by_cases hm : m = k
        · subst hm
          exact ⟨by omega, by simpa using hc.2⟩
        · exact h m (by omega) h2
      · intro h m h1 h2
        exact h m (by omega) h2

/-- The end-tag test of the reference definition is the test made by the loop
of `skip_raw_text`, for a lowercase ASCII name. -/
theorem rawEndAt_iff (bytes : List Byte) (length : Nat) (tag : List Byte) (p : Nat)
    (htag : ∀ t ∈ tag, t.val < 0x80 ∧ asciiLowerTable t = t) :
    rawEndAt bytes length tag p = true ↔
      (p + tag.length + 2 < length ∧ (byteAt bytes p = 0x3C ∧ byteAt bytes (p + 1) = 0x2F) ∧
        skip_raw_text_name bytes p tag tag.length 0 = tag.length) := by
  have hk : ∀ k, k < tag.length → (byteAt tag k).val < 0x80 ∧
      asciiLowerTable (byteAt tag k) = byteAt tag k := by
    intro k hk
    exact htag _ (byteAt_mem hk)
  have hfull := skip_raw_text_name_full bytes p tag tag.length 0
  rw [Nat.zero_add] at hfull
  rw [hfull]
  unfold rawEndAt
  simp only [Bool.and_eq_true, decide_eq_true_eq, beq_iff_eq, List.all_eq_true, List.mem_range]
  constructor
  · rintro ⟨⟨⟨h1, h2⟩, h3⟩, h4⟩
    refine ⟨h1, ⟨h2, h3⟩, ?_⟩
    intro m _ hm
    have h5 := h4 m hm
    rw [(hk m hm).2] at h5
    refine ⟨?_, h5⟩
    apply lower_ascii
    rw [h5]
    exact (hk m hm).1
  · rintro ⟨h1, ⟨h2, h3⟩, h4⟩
    refine ⟨⟨⟨h1, h2⟩, h3⟩, ?_⟩
    intro m hm
    rw [(hk m hm).2]
    exact (h4 m (Nat.zero_le _) hm).2

/-- The search for the closing `>` as a first-index search. -/
theorem advanceWhile_find (bytes : List Byte) (length : Nat) (c : Byte) (n j : Nat)
    (hn : length - j = n) :
    (List.range' j n).find? (fun e => byteAt bytes e == c)
      = if advanceWhile bytes length (fun b => b != c) n j < length then
          some (advanceWhile bytes length (fun b => b != c) n j)
        else none := by
  induction n generalizing j with
  | zero =>
    simp only [List.range'_zero, List.find?_nil, advanceWhile]
    rw [if_neg (by omega)]
  | succ n ih =>
    have hj : j < length := by omega
    rw [List.range'_succ, List.find?_cons]
    by_cases hc : byteAt bytes j = c
    · have h1 : advanceWhile bytes length (fun b => b != c) (n + 1) j = j :=
        advanceWhile_stay (fun _ => by simp [hc]) _
      rw [h1, if_pos hj]
      simp [hc]
    · have hb : (byteAt bytes j == c) = false := by simpa using hc
      have h1 : advanceWhile bytes length (fun b => b != c) (n + 1) j
          = advanceWhile bytes length (fun b => b != c) n (j + 1) := by
        rw [advanceWhile, if_pos ⟨hj, by simpa using hc⟩]
      rw [h1, hb]
      exact ih (j + 1) (by omega)

theorem find_rawEndAt_none (bytes : List Byte) (length : Nat) (tag : List Byte) (j n : Nat)
    (h : ¬ (j + tag.length + 2 < length)) :
    (List.range' j n).find? (rawEndAt bytes length tag) = none := by
  rw [List.find?_eq_none]
  intro p hp
  rw [List.mem_range'_1] at hp
  unfold rawEndAt
  have : ¬ (p + tag.length + 2 < length) := by omega
  simp [this]

/-- The loop of `skip_raw_text` computes the reference definition, when an
end tag is found or when the look-ahead sum stays representable. -/
theorem skip_raw_text_loop_ref (bytes : List Byte) (length : Nat) (tag : List Byte)
    (htag : ∀ t ∈ tag, t.val < 0x80 ∧ asciiLowerTable t = t) (n j : Nat)
    (hn : length - j + 1 = n)
    (hb : (List.range' j (length - j)).find? (rawEndAt bytes length tag) ≠ none ∨
      (j + tag.length + 2 ≤ INT_MAX ∧ length ≤ INT_MAX)) :
    skip_raw_text_loop bytes length tag tag.length n j
      = some (skip_raw_text_ref bytes length tag j) := by
  induction n generalizing j with
  | zero => omega
  | succ n ih =>
    unfold skip_raw_text_loop
    by_cases hroom : j + tag.length + 2 < length
    · rw [if_pos hroom]
      obtain ⟨m, hm⟩ : ∃ m, length - j = m + 1 := ⟨length - j - 1, by omega⟩
      have hiff := rawEndAt_iff bytes length tag j htag
      by_cases hmt : rawEndAt bytes length tag j = true
      · obtain ⟨_, h2, h3⟩ := hiff.mp hmt
        rw [if_pos h2, if_pos h3]
        unfold skip_raw_text_ref
        rw [hm, List.range'_succ, List.find?_cons, hmt]
        simp only
        rw [show j + 2 + tag.length = j + 2 + tag.length from rfl,
          advanceWhile_find bytes length 0x3E (length - (j + 2 + tag.length)) (j + 2 + tag.length)
            rfl]
        generalize advanceWhile bytes length (fun b => b != 0x3E)
          (length - (j + 2 + tag.length)) (j + 2 + tag.length) = stop
        by_cases hs : stop < length
        · rw [if_neg (by omega), if_pos (by omega), if_pos hs]
        · rw [if_pos (by omega), if_neg hs]
      · have hm2 : rawEndAt bytes length tag j = false := by simpa using hmt
        have hfind : (List.range' j (length - j)).find? (rawEndAt bytes length tag)
            = (List.range' (j + 1) (length - (j + 1))).find? (rawEndAt bytes length tag) := by
          rw [hm, List.range'_succ, List.find?_cons, hm2, show length - (j + 1) = m by omega]
        have hstep : skip_raw_text_ref bytes length tag j
            = skip_raw_text_ref bytes length tag (j + 1) := by
          unfold skip_raw_text_ref
          rw [hfind]
        have hrec := ih (j + 1) (by omega) (by
          rcases hb with hb | hb
          · left
            rw [← hfind]
            exact hb
          · right
            exact ⟨by omega, hb.2⟩)
        rw [hstep, ← hrec]
        by_cases h2 : byteAt bytes j = 0x3C ∧ byteAt bytes (j + 1) = 0x2F
        · rw [if_pos h2]
          by_cases h3 : skip_raw_text_name bytes j tag tag.length 0 = tag.length
          · exact absurd (hiff.mpr ⟨hroom, h2, h3⟩) hmt
          · rw [if_neg h3]
        · rw [if_neg h2]
    · rw [if_neg hroom]
      have hnone := find_rawEndAt_none bytes length tag j (length - j) hroom
      rcases hb with hb | hb
      · exact absurd hnone hb
      · rw [if_pos hb.1]
        unfold skip_raw_text_ref
        rw [hnone]

/-- Where the look-ahead sum of the first evaluation of the loop condition is
not representable, `skip_raw_text` has no result, and the reference definition
gives the sentinel. -/
theorem skip_raw_text_overflow (bytes : List Byte) (length : Nat) (tag : List Byte)
    (start : Nat) (hl : length ≤ INT_MAX) (ho : INT_MAX < start + tag.length + 2) :
    skip_raw_text bytes length tag tag.length start = none ∧
    skip_raw_text_ref bytes length tag start = -1 := by
  constructor
  · unfold skip_raw_text
    rw [skip_raw_text_loop, if_neg (by omega), if_neg (by omega)]
  · unfold skip_raw_text_ref
    rw [find_rawEndAt_none bytes length tag start _ (by omega)]

theorem skip_raw_text_ref_result (bytes : List Byte) (length : Nat) (tag : List Byte)
    (start : Nat) :
    skip_raw_text_ref bytes length tag start = -1 ∨
      ∃ p e : Nat, skip_raw_text_ref bytes length tag start = ((e + 1 : Nat) : Int) ∧
        start ≤ p ∧ rawEndAt bytes length tag p = true ∧
        (∀ p1, start ≤ p1 → p1 < p → rawEndAt bytes length tag p1 = false) ∧
        p + 2 + tag.length ≤ e ∧ e < length ∧ byteAt bytes e = 0x3E ∧
        (∀ e1, p + 2 + tag.length ≤ e1 → e1 < e → byteAt bytes e1 ≠ 0x3E) := by
  unfold skip_raw_text_ref
  split
  · exact Or.inl rfl
  · rename_i p hp
    split
    · exact Or.inl rfl
    · rename_i e he
      refine Or.inr ⟨p, e, rfl, ?_⟩
      rw [List.find?_range'_eq_some] at hp he
      obtain ⟨hp1, hp2, hp3⟩ := hp
      obtain ⟨he1, he2, he3⟩ := he
      rw [List.mem_range'_1] at hp2 he2
      refine ⟨hp2.1, hp1, ?_, he2.1, by omega, by simpa using he1, ?_⟩
      · intro p1 h1 h2
        have := hp3 p1 h1 h2
        simpa using this
      · intro e1 h1 h2
        have := he3 e1 h1 h2
        simpa using this

/-- C28 holds of the code only where the `int` sum of the loop condition is
representable. For a lowercase ASCII name `T` of length `L`, an `int` length
and `start <= length`: when `start + L + 2 <= INT_MAX`,
`skip_raw_text(bytes, length, T, L, start)` equals the reference definition
(with `p` the smallest index at or after `start` that has room and holds `</`
followed by `T` under ASCII-case-insensitive comparison, and `e` the smallest
index at or after `p + 2 + L` holding `>`, the result is `e + 1` when both
exist and `-1` otherwise; a result other than `-1` is greater than `start`, at
most `length`, and stands just behind a `>`); when `start + L + 2` exceeds
`INT_MAX`, the sum `j + tagLen + 2` of the first evaluation of the loop
condition overflows and the function has no result, where the reference
definition gives `-1`. -/
theorem C28_skip_raw_text_reference (bytes : List Byte) (length : Nat) (tag : List Byte)
    (start : Nat) (htag : ∀ t ∈ tag, t.val < 0x80 ∧ asciiLowerTable t = t)
    (hl : length ≤ INT_MAX) :
    (start + tag.length + 2 ≤ INT_MAX →
      skip_raw_text bytes length tag tag.length start
        = some (skip_raw_text_ref bytes length tag start) ∧
      (skip_raw_text_ref bytes length tag start = -1 ∨
        ∃ p e : Nat, skip_raw_text_ref bytes length tag start = ((e + 1 : Nat) : Int) ∧
          start ≤ p ∧ rawEndAt bytes length tag p = true ∧
          (∀ p1, start ≤ p1 → p1 < p → rawEndAt bytes length tag p1 = false) ∧
          p + 2 + tag.length ≤ e ∧ e < length ∧ byteAt bytes e = 0x3E ∧
          (∀ e1, p + 2 + tag.length ≤ e1 → e1 < e → byteAt bytes e1 ≠ 0x3E) ∧
          start < e + 1 ∧ e + 1 ≤ length ∧ byteAt bytes (e + 1 - 1) = 0x3E)) ∧
    (INT_MAX < start + tag.length + 2 →
      skip_raw_text bytes length tag tag.length start = none ∧
      skip_raw_text_ref bytes length tag start = -1) := by
  refine ⟨fun hb => ⟨?_, ?_⟩, fun ho => skip_raw_text_overflow bytes length tag start hl ho⟩
  · unfold skip_raw_text
    exact skip_raw_text_loop_ref bytes length tag htag _ _ rfl (Or.inr ⟨hb, hl⟩)
  · rcases skip_raw_text_ref_result bytes length tag start with
      h1 | ⟨p, e, h1, h2, h3, h4, h5, h6, h7, h8⟩
    · exact Or.inl h1
    · exact Or.inr ⟨p, e, h1, h2, h3, h4, h5, h6, h7, h8, by omega, by omega, by simpa using h7⟩

theorem C28_skip_raw_text_reference_witness :
    (skip_raw_text (cstr "a</SCRIPT >b") 12 (cstr "script") (cstr "script").length 0
      = some (skip_raw_text_ref (cstr "a</SCRIPT >b") 12 (cstr "script") 0) ∧
     skip_raw_text_ref (cstr "a</SCRIPT >b") 12 (cstr "script") 0 = 11) ∧
    (skip_raw_text (List.replicate INT_MAX 0x20) INT_MAX (cstr "script")
        (cstr "script").length INT_MAX = none ∧
     skip_raw_text_ref (List.replicate INT_MAX 0x20) INT_MAX (cstr "script") INT_MAX = -1) :=
  ⟨⟨((C28_skip_raw_text_reference (cstr "a</SCRIPT >b") 12 (cstr "script") 0 (by decide!)
      (by decide)).1 (by decide)).1, by decide!⟩,
   (C28_skip_raw_text_reference (List.replicate INT_MAX 0x20) INT_MAX (cstr "script") INT_MAX
      (by decide!) (Nat.le_refl _)).2 (by decide)⟩

/-- C23 fails on the code in hint-only mode: on the 33-byte input
`<a b" c="d> <i hidden="x" hidden>` the hint-only scanner ends the first tag
at the first `>` (its tag-end loop takes the `"` after `b` for an opening
quote), but the attribute loop of that tag treats `"d> <i hidden="` as the
quoted value of `c` and runs on into the second tag, where it reports the
attribute `hidden` at offset 26; the second tag then reports its attributes at
the offsets 15 and 26. The boolean callback is invoked for the offsets
26, 15, 26, which are not increasing. The decision scanner rejects the
input. -/
theorem C23_hint_only_order :
    swiftsoup_scan_hints (some (cstr "<a b\" c=\"d> <i hidden=\"x\" hidden>")) 33 true true
      = some [Event.selfClosing 1 (cstr "a") 1 0, Event.boolean 26 11 1,
          Event.selfClosing 13 (cstr "i") 1 0, Event.boolean 15 11 0, Event.boolean 26 11 1] ∧
    (swiftsoup_scan_hints (some (cstr "<a b\" c=\"d> <i hidden=\"x\" hidden>")) 33 true true).map
        booleanPositions = some [26, 15, 26] ∧
    (swiftsoup_scan_hints (some (cstr "<a b\" c=\"d> <i hidden=\"x\" hidden>")) 33 true true).map
        booleanCalls = some [(11, 1), (11, 0), (11, 1)] ∧
    ¬ List.Pairwise (fun a b => a < b) [26, 15, 26] ∧
    (cstr "<a b\" c=\"d> <i hidden=\"x\" hidden>").length = 33 ∧
    (decide_input (cstr "<a b\" c=\"d> <i hidden=\"x\" hidden>")).map (fun out => out.ret)
      = some 1 := by
  decide!

/-! ## Start tags without attributes -/

theorem attrLoop_at_gt {bytes : List Byte} {length : Nat} {sinks : Sinks} {e : Nat} (n : Nat)
    (events : List Event) (he : e < length) (hgt : byteAt bytes e = 0x3E) :
    attrLoop bytes length sinks (n + 1) e events = AttrResult.ended (e + 1) false events := by
  have hs : attrStep bytes length sinks e events = AttrStep.ended (e + 1) false events := by
    unfold attrStep
    simp only
    rw [skipWhitespace_stay (by rw [hgt]; decide), if_neg (by omega), if_pos hgt]
  rw [attrLoop, if_pos he, hs]

/-- A start tag whose name is directly followed by `>`. -/
theorem startTag_plain {bytes : List Byte} {length : Nat} {sinks : Sinks} {st : ScanState}
    {head : StartTagHead} (hpre : startTagPreflight bytes length st = Except.ok head)
    (he : head.nameEnd < length) (hgt : byteAt bytes head.nameEnd = 0x3E) :
    startTag bytes length sinks st
      = startTagFinish bytes length sinks head.tagId head.nameStart head.nameEnd
          (head.nameEnd + 1) false head.st := by
  unfold startTag
  rw [hpre]
  simp only
  rw [show length - head.nameEnd = (length - head.nameEnd - 1) + 1 by omega,
    attrLoop_at_gt _ _ he hgt]

/-- The end of a start tag that is not self-closing, for a recognized tag
other than the raw-text tags. -/
theorem startTagFinish_plain (bytes : List Byte) (length : Nat) (sinks : Sinks) (tagId : tag_id)
    (nameStart nameEnd j : Nat) (st : ScanState) (hj : 1 ≤ j) (hgt : byteAt bytes (j - 1) = 0x3E)
    (hnone : tagId ≠ TAG_NONE) (h1 : tagId ≠ TAG_SCRIPT) (h2 : tagId ≠ TAG_STYLE)
    (h3 : tagId ≠ TAG_TEXTAREA) :
    startTagFinish bytes length sinks tagId nameStart nameEnd j false st
      = Step.next { st with
          i := j,
          formatStack :=
            if formatting_tag_id tagId ≥ 0 ∧ is_void_tag tagId = false then
              ((formatting_tag_id tagId).toNat % 256) :: st.formatStack
            else st.formatStack,
          selectDepth := if tagId = TAG_SELECT then st.selectDepth + 1 else st.selectDepth,
          openTagDepth := st.openTagDepth + 1 } := by
  unfold startTagFinish
  simp only [selfClosingFlag_eq bytes nameEnd j false hj hgt, hnone, h1, h2, h3, false_and,
    and_false, if_false, Bool.false_eq_true, and_true, true_and, if_true]

/-- The preflight of a start tag, given the outcome of each of its checks. -/
theorem startTagPreflight_of {bytes : List Byte} {length : Nat} {st : ScanState} {e : Nat}
    {tagId : tag_id} {tableStack : List TableState} {sb ih : Bool}
    (hscan : scanTagName bytes length (length - (st.i + 1)) (st.i + 1) = some e)
    (hne : e ≠ st.i + 1) (hascii : ¬ (e < length ∧ (byteAt bytes e).val ≥ 0x80))
    (htag : tag_id_for_ascii_lowercase bytes (st.i + 1) e = tagId)
    (hg : tagId ≠ TAG_HGROUP) (ht : startTagTable tagId st.tableStack = some tableStack)
    (hh : ¬ (is_heading_tag tagId = true ∧ st.headingOpen = true))
    (hp : ¬ (tagId = TAG_P ∧ st.formatStack ≠ []))
    (hhtml : ¬ (tagId = TAG_HTML ∧ st.sawContentBeforeHtml = true))
    (hpl : startTagPlacement tagId (if tagId = TAG_HTML then true else st.sawHtmlTag)
      st.sawBodyTag st.inHead st.sawContentBeforeHtml st.openTagDepth = some (sb, ih)) :
    startTagPreflight bytes length st
      = Except.ok
          { tagId := tagId, nameStart := st.i + 1, nameEnd := e,
            st := { st with
              tableStack := tableStack,
              headingOpen := if is_heading_tag tagId then true else st.headingOpen,
              sawHtmlTag := if tagId = TAG_HTML then true else st.sawHtmlTag,
              sawBodyTag := sb, inHead := ih } } := by
  unfold startTagPreflight
  simp only
  rw [hscan]
  simp only
  rw [if_neg hne, if_neg hascii, htag, if_neg hg, ht]
  simp only
  rw [if_neg hh, if_neg hp, if_neg hhtml, hpl]

/-- The position and classification of a tag name that stands in the buffer
and is followed by `>`. -/
theorem tagName_before_gt {bytes : List Byte} {length s : Nat} {w : List Byte}
    {p : List Byte × tag_id} (hp : p ∈ tagNameTable) (hw : w.map asciiLowerTable = p.1)
    (hocc : OccursAt bytes s (w ++ [0x3E])) (hlen : s + w.length + 1 ≤ length) :
    scanTagName bytes length (length - s) s = some (s + w.length) ∧
    s + w.length ≠ s ∧
    ¬ (s + w.length < length ∧ (byteAt bytes (s + w.length)).val ≥ 0x80) ∧
    tag_id_for_ascii_lowercase bytes s (s + w.length) = p.2 ∧
    byteAt bytes (s + w.length) = 0x3E := by
  rw [occursAt_append] at hocc
  have hgt : byteAt bytes (s + w.length) = 0x3E := by
    have := hocc.2 0 (by simp)
    simpa [byteAt_cons_zero] using this
  obtain ⟨h1, h2, h3, h4⟩ := tagName_of_occurs hp hw hocc.1 (show s + w.length ≤ length by omega)
    (fun _ => by rw [hgt]; decide)
  rw [classifyLowered_table p hp] at h4
  exact ⟨h1, h2, h3, h4, hgt⟩

/-- The main-loop iteration on a start tag `<w>` of a recognized tag other
than the raw-text tags, whose preflight checks pass. -/
theorem step_plain_startTag {bytes : List Byte} {length : Nat} (sinks : Sinks) {st : ScanState}
    {w : List Byte} {p : List Byte × tag_id} {tableStack : List TableState} {sb ih : Bool}
    (hp : p ∈ tagNameTable) (hw : w.map asciiLowerTable = p.1)
    (hocc : OccursAt bytes st.i (0x3C :: (w ++ [0x3E]))) (hlen : st.i + w.length + 2 ≤ length)
    (hg : p.2 ≠ TAG_HGROUP) (ht : startTagTable p.2 st.tableStack = some tableStack)
    (hh : ¬ (is_heading_tag p.2 = true ∧ st.headingOpen = true))
    (hpp : ¬ (p.2 = TAG_P ∧ st.formatStack ≠ []))
    (hhtml : ¬ (p.2 = TAG_HTML ∧ st.sawContentBeforeHtml = true))
    (hpl : startTagPlacement p.2 (if p.2 = TAG_HTML then true else st.sawHtmlTag)
      st.sawBodyTag st.inHead st.sawContentBeforeHtml st.openTagDepth = some (sb, ih))
    (h1 : p.2 ≠ TAG_SCRIPT) (h2 : p.2 ≠ TAG_STYLE) (h3 : p.2 ≠ TAG_TEXTAREA) :
    step bytes length sinks st
      = Step.next { st with
          sawTagDelimiter := true,
          i := st.i + w.length + 2,
          tableStack := tableStack,
          headingOpen := if is_heading_tag p.2 then true else st.headingOpen,
          sawHtmlTag := if p.2 = TAG_HTML then true else st.sawHtmlTag,
          sawBodyTag := sb, inHead := ih,
          formatStack :=
            if formatting_tag_id p.2 ≥ 0 ∧ is_void_tag p.2 = false then
              ((formatting_tag_id p.2).toNat % 256) :: st.formatStack
            else st.formatStack,
          selectDepth := if p.2 = TAG_SELECT then st.selectDepth + 1 else st.selectDepth,
          openTagDepth := st.openTagDepth + 1 } := by
  have hfacts := tagNameTable_facts.1 p hp
  have hpos : 0 < w.length := by
    have := hfacts.1
    rw [← hw, List.length_map] at this
    omega
  have hocc1 : OccursAt bytes st.i (0x3C :: w) := by
    rw [occursAt_cons] at hocc ⊢
    exact ⟨hocc.1, (occursAt_append.mp hocc.2).1⟩
  obtain ⟨hstep, _⟩ := step_startTag_of_occurs sinks hocc1
    (show st.i + 1 + w.length ≤ length by omega) hpos
    (nameChars_of_lower_mem hp hw)
  rw [occursAt_cons] at hocc
  obtain ⟨hs1, hs2, hs3, hs4, hs5⟩ := tagName_before_gt hp hw hocc.2
    (show st.i + 1 + w.length + 1 ≤ length by omega)
  have hpre := @startTagPreflight_of bytes length { st with sawTagDelimiter := true }
    (st.i + 1 + w.length) p.2 tableStack sb ih hs1 hs2 hs3 hs4 hg ht hh hpp hhtml hpl
  rw [hstep, startTag_plain hpre (by simp only; omega) hs5]
  simp only
  rw [startTagFinish_plain bytes length sinks p.2 _ _ _ _ (by omega)
    (by rw [Nat.add_sub_cancel]; exact hs5) hfacts.2.2.1 h1 h2 h3]
  simp only [Nat.add_assoc, Nat.add_comm 1 w.length]

/-- The main-loop iteration on an end tag `</w>` of a recognized, non-void
tag whose formatting check passes. -/
theorem step_plain_endTag {bytes : List Byte} {length : Nat} (sinks : Sinks) {st : ScanState}
    {w : List Byte} {p : List Byte × tag_id} {formatStack : List Nat}
    (hp : p ∈ tagNameTable) (hw : w.map asciiLowerTable = p.1)
    (hocc : OccursAt bytes st.i (0x3C :: 0x2F :: (w ++ [0x3E])))
    (hlen : st.i + w.length + 3 ≤ length)
    (hvoid : is_void_tag p.2 = false)
    (hf : endTagFormatting p.2 st.formatStack = some formatStack) :
    step bytes length sinks st
      = Step.next { st with
          sawTagDelimiter := true,
          i := st.i + w.length + 3,
          tableStack := endTagTable p.2 st.tableStack,
          selectDepth :=
            if p.2 = TAG_SELECT then (if st.selectDepth > 0 then st.selectDepth - 1 else st.selectDepth)
            else st.selectDepth,
          headingOpen := if is_heading_tag p.2 then false else st.headingOpen,
          formatStack := formatStack,
          inHead := if p.2 = TAG_HEAD then false else st.inHead,
          sawBodyTag :=
            if p.2 = TAG_HEAD then st.sawBodyTag
            else if p.2 = TAG_BODY then true else st.sawBodyTag,
          openTagDepth := if st.openTagDepth > 0 then st.openTagDepth - 1 else st.openTagDepth } := by
  have hfacts := tagNameTable_facts.1 p hp
  have hpos : 0 < w.length := by
    have := hfacts.1
    rw [← hw, List.length_map] at this
    omega
  have hocc1 : OccursAt bytes st.i (0x3C :: 0x2F :: w) := by
    rw [occursAt_cons, occursAt_cons] at hocc ⊢
    exact ⟨hocc.1, hocc.2.1, (occursAt_append.mp hocc.2.2).1⟩
  obtain ⟨hstep, _⟩ := step_endTag_of_occurs sinks hocc1
    (show st.i + 2 + w.length ≤ length by omega) hpos
  rw [occursAt_cons, occursAt_cons] at hocc
  have hocc2 : OccursAt bytes (st.i + 2) (w ++ [0x3E]) := hocc.2.2
  obtain ⟨hs1, hs2, hs3, hs4, hs5⟩ := tagName_before_gt hp hw hocc2
    (show st.i + 2 + w.length + 1 ≤ length by omega)
  have hbody := @endTag_body _ _ { st with sawTagDelimiter := true } _ hs1 hs2 hs3
    (by rw [hs4]; exact hvoid)
  rw [hstep, hbody]
  simp only [hs4]
  rw [hf]
  simp only
  rw [seekGt_at_gt hs5, if_neg (by omega)]
  simp only [Nat.add_assoc, Nat.add_comm 2 w.length]

/-! ## Properly nested formatting tags -/

theorem formattingElementNames_plain :
    ∀ p ∈ tagNameTable, p.1 ∈ formattingElementNames →
      p.2 ≠ TAG_HGROUP ∧ startTagTable p.2 [] = some [] ∧ is_heading_tag p.2 = false ∧
      p.2 ≠ TAG_P ∧ p.2 ≠ TAG_HTML ∧ p.2 ≠ TAG_BODY ∧ p.2 ≠ TAG_HEAD ∧ p.2 ≠ TAG_SCRIPT ∧
      p.2 ≠ TAG_STYLE ∧ p.2 ≠ TAG_TEXTAREA ∧ p.2 ≠ TAG_SELECT ∧ is_void_tag p.2 = false ∧
      formatting_tag_id p.2 = (formattingElementNames.indexOf p.1 : Int) ∧
      formattingElementNames.indexOf p.1 < 256 ∧ endTagTable p.2 [] = [] := by
  decide!

theorem startTagPlacement_noHtml (tagId : tag_id) (sb ih c : Bool) (d : Nat)
    (h : tagId ≠ TAG_BODY) : startTagPlacement tagId false sb ih c d = some (sb, ih) := by
  unfold startTagPlacement
  simp [h]

/-- The decision scanner runs through a properly nested sequence of
formatting tags that stands at the cursor, outside any table and before any
`<html>` tag, and comes out behind it with its stacks and counters unchanged. -/
theorem nested_steps {w : List Byte} (hw : Nested w) :
    ∀ (bytes : List Byte) (length : Nat) (sinks : Sinks) (st : ScanState),
      OccursAt bytes st.i w → st.i + w.length ≤ length → st.tableStack = [] →
      st.sawHtmlTag = false →
      Steps bytes length sinks st
        { st with i := st.i + w.length, sawTagDelimiter := st.sawTagDelimiter || !w.isEmpty } := by
  induction hw with
  | empty =>
    intro bytes length sinks st _ _ _ _
    simp only [List.length_nil, List.isEmpty_nil, Bool.not_true, Bool.or_false, Nat.add_zero]
    exact Steps.refl st
  | @node o c w1 w2 ho hc _ _ ih1 ih2 =>
    intro bytes length sinks st hocc hlen htab hhtml
    obtain ⟨_, _, p, hp, hpL⟩ := formattingElementNames_spec _ ho
    have hin : p.1 ∈ formattingElementNames := by rw [hpL]; exact ho
    obtain ⟨f1, f2, f3, f4, f5, f6, f7, f8, f9, f10, f11, f12, f13, f14, f15⟩ :=
      formattingElementNames_plain p hp hin
    have hlen0 : (0x3C :: (o ++ 0x3E :: (w1 ++ 0x3C :: 0x2F :: (c ++ 0x3E :: w2)))).length
        = o.length + w1.length + c.length + w2.length + 5 := by
      simp only [List.length_cons, List.length_append]
      omega
    rw [hlen0] at hlen
    -- the pieces of the input
    have hsplit : (0x3C :: (o ++ 0x3E :: (w1 ++ 0x3C :: 0x2F :: (c ++ 0x3E :: w2))) : List Byte)
        = (0x3C :: (o ++ [0x3E])) ++ (w1 ++ ((0x3C :: 0x2F :: (c ++ [0x3E])) ++ w2)) := by
      simp
    rw [hsplit, occursAt_append, occursAt_append, occursAt_append] at hocc
    obtain ⟨hopen, b2, b3, b4⟩ := hocc
    have hl1 : (0x3C :: (o ++ [0x3E]) : List Byte).length = o.length + 2 := by simp
    have hl2 : (0x3C :: 0x2F :: (c ++ [0x3E]) : List Byte).length = c.length + 3 := by simp
    rw [hl1] at b2 b3 b4
    rw [hl2] at b4
    have hstep1 := step_plain_startTag sinks hp hpL.symm hopen
      (show st.i + o.length + 2 ≤ length by omega) f1
      (by rw [htab]; exact f2) (by simp [f3]) (by simp [f4]) (by simp [f5])
      (by rw [if_neg f5, hhtml]; exact startTagPlacement_noHtml _ _ _ _ _ f6) f8 f9 f10
    rw [f3, if_neg f5, if_neg f11, if_pos (And.intro (by rw [f13]; omega) f12), f13] at hstep1
    simp only [Int.toNat_ofNat, Nat.mod_eq_of_lt f14, Bool.false_eq_true, if_false] at hstep1
    -- the sequence between the tags
    have hs1 := ih1 bytes length sinks
      { st with
        sawTagDelimiter := true, i := st.i + o.length + 2,
        formatStack := formattingElementNames.indexOf p.1 :: st.formatStack,
        openTagDepth := st.openTagDepth + 1 }
      b2 (by simp only; omega) htab hhtml
    -- the end tag
    have hrule := (endTagFormatting_rule p.2 (formattingElementNames.indexOf p.1)
      (formattingElementNames.indexOf p.1 :: st.formatStack) f13 f14).1 rfl
    have hstep2 := @step_plain_endTag bytes length sinks
      { st with
        sawTagDelimiter := true, i := st.i + o.length + 2 + w1.length,
        formatStack := formattingElementNames.indexOf p.1 :: st.formatStack,
        openTagDepth := st.openTagDepth + 1 }
      c p st.formatStack hp (by rw [hc]; exact hpL.symm) b3 (by simp only; omega) f12
      (by simpa using hrule)
    simp only [f3, if_neg f11, if_neg f7, if_neg f6, htab, f15, Bool.false_eq_true, if_false,
      Nat.add_sub_cancel, if_pos (Nat.succ_pos _)] at hstep2
    -- the sequence behind the end tag
    have hs2 := ih2 bytes length sinks
      { st with
        sawTagDelimiter := true, i := st.i + o.length + 2 + w1.length + c.length + 3 }
      b4 (by simp only; omega) htab hhtml
    have hi : st.i + (0x3C :: (o ++ 0x3E :: (w1 ++ 0x3C :: 0x2F :: (c ++ 0x3E :: w2)))).length
        = st.i + o.length + 2 + w1.length + c.length + 3 + w2.length := by
      rw [hlen0]
      omega
    rw [hi]
    simp only [List.isEmpty_cons, Bool.not_false, Bool.or_true]
    simp only [Bool.true_or, htab] at hs1 hs2 hstep1 hstep2 ⊢
    exact steps_trans (steps_one (by omega) hstep1)
      (steps_trans hs1 (steps_trans (steps_one (by simp only; omega) hstep2) hs2))

theorem nestedB_succ (n : Nat) : nestedB (n + 1) = cstr "<b>" ++ nestedB n ++ cstr "</b>" := by
  unfold nestedB
  rw [List.replicate_succ, List.replicate_succ', List.flatten_cons, List.flatten_append]
  simp

theorem nestedB_nested (n : Nat) : Nested (nestedB n) := by
  induction n with
  | zero => exact Nested.empty
  | succ n ih =>
    have h : nestedB (n + 1)
        = 0x3C :: ([0x62] ++ 0x3E :: (nestedB n ++ 0x3C :: 0x2F :: ([0x62] ++ 0x3E :: []))) := by
      rw [nestedB_succ, show cstr "<b>" = [0x3C, 0x62, 0x3E] by decide,
        show cstr "</b>" = [0x3C, 0x2F, 0x62, 0x3E] by decide]
      simp
    rw [h]
    exact Nested.node (by decide) rfl ih Nested.empty

/-- C29: every properly nested sequence of formatting tags is accepted at any
depth. For every non-empty input generated by `W ::= empty | <X> W </X> W`,
with X a formatting element name in any ASCII letter case, the decision
scanner returns 0 with reason `NONE` and emits no hint; in particular `<b>`
repeated `n` times followed by `</b>` repeated `n` times is accepted for every
`n >= 1`. -/
theorem C29_nested_formatting :
    (∀ (w : List Byte) (sinks : Sinks), Nested w → w ≠ [] →
      swiftsoup_should_fallback_internal (some w) (w.length : Int) sinks
        = some ⟨0, SWIFTSOUP_FALLBACK_NONE, []⟩) ∧
    (∀ n : Nat, 1 ≤ n →
      decide_input (nestedB n) = some ⟨0, SWIFTSOUP_FALLBACK_NONE, []⟩) := by
  have main : ∀ (w : List Byte) (sinks : Sinks), Nested w → w ≠ [] →
      swiftsoup_should_fallback_internal (some w) (w.length : Int) sinks
        = some ⟨0, SWIFTSOUP_FALLBACK_NONE, []⟩ := by
    intro w sinks hw hne
    have hocc : OccursAt w ScanState.init.i w := by
      have := occursAt_zero w []
      rwa [List.append_nil] at this
    have hsteps := nested_steps hw w w.length sinks ScanState.init hocc
      (by simp [ScanState.init]) rfl rfl
    have hreach := reaches_steps Reaches.init hsteps
    rw [reaches_end hne hreach (by simp [ScanState.init])]
    have hemp : w.isEmpty = false := by
      cases w with
      | nil => exact absurd rfl hne
      | cons a t => rfl
    simp [finish, ScanState.init, hemp]
  refine ⟨main, ?_⟩
  intro n hn
  have hne : nestedB n ≠ [] := by
    obtain ⟨m, rfl⟩ : ∃ m, n = m + 1 := ⟨n - 1, by omega⟩
    rw [nestedB_succ]
    simp [show cstr "<b>" = [0x3C, 0x62, 0x3E] by decide]
  exact main _ _ (nestedB_nested n) hne

theorem C29_nested_formatting_witness :
    decide_input (nestedB 9) = some ⟨0, SWIFTSOUP_FALLBACK_NONE, []⟩ ∧
    (nestedB 9).length = 63 ∧
    swiftsoup_should_fallback_internal
        (some (0x3C :: ([0x42] ++ 0x3E :: ([] ++ 0x3C :: 0x2F :: ([0x62] ++ 0x3E :: [])))))
        ((0x3C :: ([0x42] ++ 0x3E :: ([] ++ 0x3C :: 0x2F :: ([0x62] ++ 0x3E :: [])))).length : Int)
        ⟨true, true, false⟩
      = some ⟨0, SWIFTSOUP_FALLBACK_NONE, []⟩ :=
  ⟨C29_nested_formatting.2 9 (by decide), by decide!,
   C29_nested_formatting.1 _ _ (Nested.node (by decide) (by decide) Nested.empty Nested.empty)
     (by simp)⟩

/-! ## Well-formed tables -/

theorem nextTagIndex_at (bytes : List Byte) (length i q : Nat) (hiq : i < q) (hq : q < length)
    (hlt : byteAt bytes q = 0x3C) (hno : ∀ m, i < m → m < q → byteAt bytes m ≠ 0x3C) :
    nextTagIndex bytes length i = q := by
  unfold nextTagIndex
  simp only
  rw [if_pos (by omega)]
  cases h : memchr bytes (i + 1) 0x3C (length - (i + 1)) with
  | none =>
    exact absurd hlt (memchr_none h q (by omega) (by omega))
  | some p =>
    obtain ⟨h1, h2, h3, h4⟩ := memchr_some h
    simp only
    by_cases hpq : p < q
    · exact absurd h3 (hno p (by omega) hpq)
    · by_cases hqp : q < p
      · exact absurd hlt (h4 q (by omega) hqp)
      · omega

theorem textSpanPlacement_noHtml (bytes : List Byte) (st : ScanState) (next : Nat)
    (h : st.sawHtmlTag = false) :
    ∃ c, textSpanPlacement bytes st next = { st with sawContentBeforeHtml := c } := by
  unfold textSpanPlacement
  rw [h]
  simp only [Bool.not_false, Bool.true_or, if_true, Bool.false_and, Bool.false_eq_true,
    if_false]
  split
  · exact ⟨true, rfl⟩
  · refine ⟨st.sawContentBeforeHtml, ?_⟩
    cases st
    simp_all

/-- The main-loop iteration on a text `t` that is followed by a `<`. -/
theorem step_text {bytes : List Byte} {length : Nat} (sinks : Sinks) {st : ScanState}
    {t : List Byte} (hne : t ≠ []) (ht : ∀ b ∈ t, b ≠ 0x3C ∧ b ≠ 0x00)
    (hocc : OccursAt bytes st.i (t ++ [0x3C])) (hlen : st.i + t.length + 1 ≤ length)
    (hhtml : st.sawHtmlTag = false) :
    ∃ c, step bytes length sinks st
      = Step.next { st with sawContentBeforeHtml := c, i := st.i + t.length } := by
  have hpos : 0 < t.length := List.length_pos.mpr hne
  rw [occursAt_append] at hocc
  have hin : ∀ k, k < t.length → byteAt bytes (st.i + k) ≠ 0x3C ∧ byteAt bytes (st.i + k) ≠ 0x00 :=
    fun k hk => ht _ (occursAt_mem hocc.1 hk)
  have hq : byteAt bytes (st.i + t.length) = 0x3C := by
    have := hocc.2 0 (by simp)
    simpa [byteAt_cons_zero] using this
  have hnext : nextTagIndex bytes length st.i = st.i + t.length := by
    apply nextTagIndex_at bytes length st.i _ (by omega) (by omega) hq
    intro m h1 h2
    obtain ⟨k, rfl⟩ : ∃ k, m = st.i + k := ⟨m - st.i, by omega⟩
    exact (hin k (by omega)).1
  have h0 := hin 0 hpos
  rw [Nat.add_zero] at h0
  obtain ⟨c, hc⟩ := textSpanPlacement_noHtml bytes st (st.i + t.length) hhtml
  refine ⟨c, ?_⟩
  unfold step
  rw [if_neg h0.2, if_pos h0.1]
  unfold textSpan
  simp only
  rw [hnext, memchr_eq_none (by
    intro k h1 h2
    obtain ⟨m, rfl⟩ : ∃ m, k = st.i + m := ⟨k - st.i, by omega⟩
    exact (hin m (by omega)).2), hc]
  rfl

theorem tableGenTags_facts :
    ∀ p ∈ tableGenTags, p ∈ tagNameTable ∧ p.1.map asciiLowerTable = p.1 ∧
      p.2 ≠ TAG_HGROUP ∧ is_heading_tag p.2 = false ∧ p.2 ≠ TAG_P ∧ p.2 ≠ TAG_HTML ∧
      p.2 ≠ TAG_BODY ∧ p.2 ≠ TAG_HEAD ∧ p.2 ≠ TAG_SCRIPT ∧ p.2 ≠ TAG_STYLE ∧
      p.2 ≠ TAG_TEXTAREA ∧ p.2 ≠ TAG_SELECT ∧ is_void_tag p.2 = false ∧
      formatting_tag_id p.2 = -1 := by
  decide!

/-- The main-loop iteration on one of the start tags `<table>`, `<tr>`,
`<td>` whose table check passes, before any `<html>` tag. -/
theorem step_table_open {bytes : List Byte} {length : Nat} (sinks : Sinks) {st : ScanState}
    {p : List Byte × tag_id} {tableStack : List TableState} (hp : p ∈ tableGenTags)
    (hocc : OccursAt bytes st.i (0x3C :: (p.1 ++ [0x3E]))) (hlen : st.i + p.1.length + 2 ≤ length)
    (hhtml : st.sawHtmlTag = false) (ht : startTagTable p.2 st.tableStack = some tableStack) :
    step bytes length sinks st
      = Step.next { st with
          sawTagDelimiter := true, i := st.i + p.1.length + 2, tableStack := tableStack,
          openTagDepth := st.openTagDepth + 1 } := by
  obtain ⟨f0, fw, f1, f3, f4, f5, f6, f7, f8, f9, f10, f11, f12, f13⟩ := tableGenTags_facts p hp
  have hstep := step_plain_startTag sinks f0 fw hocc hlen f1 ht (by simp [f3]) (by simp [f4])
    (by simp [f5]) (by rw [if_neg f5, hhtml]; exact startTagPlacement_noHtml _ _ _ _ _ f6)
    f8 f9 f10
  simp only [f3, f5, f11, f13, Bool.false_eq_true, if_false, ge_iff_le, Int.reduceNeg,
    Int.reduceLE, false_and] at hstep
  exact hstep

/-- The main-loop iteration on one of the end tags `</table>`, `</tr>`,
`</td>`. -/
theorem step_table_close {bytes : List Byte} {length : Nat} (sinks : Sinks) {st : ScanState}
    {p : List Byte × tag_id} (hp : p ∈ tableGenTags)
    (hocc : OccursAt bytes st.i (0x3C :: 0x2F :: (p.1 ++ [0x3E])))
    (hlen : st.i + p.1.length + 3 ≤ length) :
    step bytes length sinks st
      = Step.next { st with
          sawTagDelimiter := true, i := st.i + p.1.length + 3,
          tableStack := endTagTable p.2 st.tableStack,
          openTagDepth := if st.openTagDepth > 0 then st.openTagDepth - 1 else st.openTagDepth } := by
  obtain ⟨f0, fw, f1, f3, f4, f5, f6, f7, f8, f9, f10, f11, f12, f13⟩ := tableGenTags_facts p hp
  have hf : endTagFormatting p.2 st.formatStack = some st.formatStack := by
    unfold endTagFormatting
    simp [f13]
  have hstep := step_plain_endTag sinks f0 fw hocc hlen f12 hf
  simp only [f3, f6, f7, f11, Bool.false_eq_true, if_false] at hstep
  exact hstep

theorem tableGen_words :
    cstr "<table>" = 0x3C :: (cstr "table" ++ [0x3E]) ∧
    cstr "</table>" = 0x3C :: 0x2F :: (cstr "table" ++ [0x3E]) ∧
    cstr "<tr>" = 0x3C :: (cstr "tr" ++ [0x3E]) ∧
    cstr "</tr>" = 0x3C :: 0x2F :: (cstr "tr" ++ [0x3E]) ∧
    cstr "<td>" = 0x3C :: (cstr "td" ++ [0x3E]) ∧
    cstr "</td>" = 0x3C :: 0x2F :: (cstr "td" ++ [0x3E]) ∧
    (cstr "table").length = 5 ∧ (cstr "tr").length = 2 ∧ (cstr "td").length = 2 ∧
    (cstr "table", TAG_TABLE) ∈ tableGenTags ∧ (cstr "tr", TAG_TR) ∈ tableGenTags ∧
    (cstr "td", TAG_TD) ∈ tableGenTags := by
  decide

theorem tableGen_lengths :
    (cstr "<table>").length = 7 ∧ (cstr "</table>").length = 8 ∧
    (cstr "<tr>").length = 4 ∧ (cstr "</tr>").length = 5 ∧
    (cstr "<td>").length = 4 ∧ (cstr "</td>").length = 5 := by
  decide

/-- The decision scanner runs through a word of the table grammar that stands
at the cursor, before any `<html>` tag and with the table stack that belongs
to the class of the word, and comes out behind it with its stacks and
counters unchanged. -/
theorem tableGen_steps {k : TableKind} {w : List Byte} (hw : TableGen k w) :
    ∀ (bytes : List Byte) (length : Nat) (sinks : Sinks) (st : ScanState),
      OccursAt bytes st.i w → st.i + w.length ≤ length → st.sawHtmlTag = false →
      k.Context st.tableStack → (k ≠ TableKind.table → st.sawTagDelimiter = true) →
      ∃ c, Steps bytes length sinks st
        { st with i := st.i + w.length, sawTagDelimiter := true, sawContentBeforeHtml := c } := by
  obtain ⟨e1, e2, e3, e4, e5, e6, l1, l2, l3, m1, m2, m3⟩ := tableGen_words
  obtain ⟨L1, L2, L3, L4, L5, L6⟩ := tableGen_lengths
  induction hw with
  | @table rs _ ih =>
    intro bytes length sinks st hocc hlen hhtml hctx _
    rw [occursAt_append, occursAt_append, L1] at hocc
    obtain ⟨b1, b2, b3⟩ := hocc
    rw [e1] at b1
    rw [e2] at b3
    simp only [List.length_append, L1, L2] at hlen ⊢
    have ht : startTagTable TAG_TABLE st.tableStack = some (⟨0, 0, 0, 0⟩ :: st.tableStack) := by
      rcases hctx with h | ⟨rest, h⟩ <;> rw [h] <;> rfl
    have hstep1 := step_table_open sinks m1 b1
      (show st.i + (cstr "table").length + 2 ≤ length by rw [l1]; omega) hhtml ht
    simp only [l1] at hstep1
    obtain ⟨c, hs1⟩ := ih bytes length sinks
      { st with
        sawTagDelimiter := true, i := st.i + 7,
        tableStack := ⟨0, 0, 0, 0⟩ :: st.tableStack, openTagDepth := st.openTagDepth + 1 }
      b2 (by simp only; omega) hhtml ⟨st.tableStack, rfl⟩ (fun _ => rfl)
    have hstep2 := @step_table_close bytes length sinks
      { st with
        sawTagDelimiter := true, i := st.i + 7 + rs.length, sawContentBeforeHtml := c,
        tableStack := ⟨0, 0, 0, 0⟩ :: st.tableStack, openTagDepth := st.openTagDepth + 1 }
      _ m1 b3 (by simp only [l1]; omega)
    simp only [l1, endTagTable, is_table_structure_tag, if_true, Nat.add_sub_cancel,
      if_pos (Nat.succ_pos _)] at hstep2
    refine ⟨c, ?_⟩
    have hi : st.i + (7 + (rs.length + 8)) = st.i + 7 + rs.length + 5 + 3 := by omega
    rw [hi]
    exact steps_trans (steps_one (by omega) hstep1)
      (steps_trans hs1 (steps_one (by simp only; omega) hstep2))
  | rowsNil =>
    intro bytes length sinks st _ _ _ _ hdel
    refine ⟨st.sawContentBeforeHtml, ?_⟩
    have h := hdel (by decide)
    cases st
    simp only at h
    subst h
    simp only [List.length_nil, Nat.add_zero]
    exact Steps.refl _
  | @rowsCons cs rs _ _ ih1 ih2 =>
    intro bytes length sinks st hocc hlen hhtml hctx _
    obtain ⟨rest, hts⟩ := hctx
    rw [occursAt_append, occursAt_append, occursAt_append, L3, L4] at hocc
    obtain ⟨b1, b2, b3, b4⟩ := hocc
    rw [e3] at b1
    rw [e4] at b3
    simp only [List.length_append, L3, L4] at hlen ⊢
    have ht : startTagTable TAG_TR st.tableStack = some (⟨0, 0, 1, 0⟩ :: rest) := by
      rw [hts]
      rfl
    have hstep1 := step_table_open sinks m2 b1
      (show st.i + (cstr "tr").length + 2 ≤ length by rw [l2]; omega) hhtml ht
    simp only [l2] at hstep1
    obtain ⟨c1, hs1⟩ := ih1 bytes length sinks
      { st with
        sawTagDelimiter := true, i := st.i + 4,
        tableStack := ⟨0, 0, 1, 0⟩ :: rest, openTagDepth := st.openTagDepth + 1 }
      b2 (by simp only; omega) hhtml ⟨rest, rfl⟩ (fun _ => rfl)
    have hstep2 := @step_table_close bytes length sinks
      { st with
        sawTagDelimiter := true, i := st.i + 4 + cs.length, sawContentBeforeHtml := c1,
        tableStack := ⟨0, 0, 1, 0⟩ :: rest, openTagDepth := st.openTagDepth + 1 }
      _ m2 b3 (by simp only [l2]; omega)
    have hend : endTagTable TAG_TR (⟨0, 0, 1, 0⟩ :: rest) = ⟨0, 0, 0, 0⟩ :: rest := rfl
    simp only [l2, hend, Nat.add_sub_cancel, if_pos (Nat.succ_pos _)] at hstep2
    obtain ⟨c2, hs2⟩ := ih2 bytes length sinks
      { st with
        sawTagDelimiter := true, i := st.i + 4 + cs.length + 2 + 3, sawContentBeforeHtml := c1,
        tableStack := ⟨0, 0, 0, 0⟩ :: rest }
      b4 (by simp only; omega) hhtml ⟨rest, rfl⟩ (fun _ => rfl)
    refine ⟨c2, ?_⟩
    have hi : st.i + (4 + (cs.length + (5 + rs.length)))
        = st.i + 4 + cs.length + 2 + 3 + rs.length := by omega
    rw [hi]
    simp only [hts] at hstep1 hs1 hstep2 hs2 ⊢
    exact steps_trans (steps_one (by omega) hstep1)
      (steps_trans hs1 (steps_trans (steps_one (by simp only; omega) hstep2) hs2))
  | cellsNil =>
    intro bytes length sinks st _ _ _ _ hdel
    refine ⟨st.sawContentBeforeHtml, ?_⟩
    have h := hdel (by decide)
    cases st
    simp only at h
    subst h
    simp only [List.length_nil, Nat.add_zero]
    exact Steps.refl _
  | @cellEmpty cs _ ih =>
    intro bytes length sinks st hocc hlen hhtml hctx _
    obtain ⟨rest, hts⟩ := hctx
    rw [occursAt_append, occursAt_append, L5, L6] at hocc
    obtain ⟨b1, b3, b4⟩ := hocc
    rw [e5] at b1
    rw [e6] at b3
    simp only [List.length_append, L5, L6] at hlen ⊢
    have ht : startTagTable TAG_TD st.tableStack = some (⟨0, 0, 1, 1⟩ :: rest) := by
      rw [hts]
      rfl
    have hstep1 := step_table_open sinks m3 b1
      (show st.i + (cstr "td").length + 2 ≤ length by rw [l3]; omega) hhtml ht
    simp only [l3] at hstep1
    have hstep2 := @step_table_close bytes length sinks
      { st with
        sawTagDelimiter := true, i := st.i + 4,
        tableStack := ⟨0, 0, 1, 1⟩ :: rest, openTagDepth := st.openTagDepth + 1 }
      _ m3 b3 (by simp only [l3]; omega)
    have hend : endTagTable TAG_TD (⟨0, 0, 1, 1⟩ :: rest) = ⟨0, 0, 1, 0⟩ :: rest := rfl
    simp only [l3, hend, Nat.add_sub_cancel, if_pos (Nat.succ_pos _)] at hstep2
    obtain ⟨c2, hs2⟩ := ih bytes length sinks
      { st with
        sawTagDelimiter := true, i := st.i + 4 + 2 + 3, tableStack := ⟨0, 0, 1, 0⟩ :: rest }
      b4 (by simp only; omega) hhtml ⟨rest, rfl⟩ (fun _ => rfl)
    refine ⟨c2, ?_⟩
    have hi : st.i + (4 + (5 + cs.length)) = st.i + 4 + 2 + 3 + cs.length := by omega
    rw [hi]
    simp only [hts] at hstep1 hstep2 hs2 ⊢
    exact steps_trans (steps_one (by omega) hstep1)
      (steps_trans (steps_one (by simp only; omega) hstep2) hs2)
  | @cellText t cs hne ht _ ih =>
    intro bytes length sinks st hocc hlen hhtml hctx _
    obtain ⟨rest, hts⟩ := hctx
    rw [occursAt_append, occursAt_append, occursAt_append, L5, L6] at hocc
    obtain ⟨b1, b2, b3, b4⟩ := hocc
    rw [e5] at b1
    rw [e6] at b3
    simp only [List.length_append, L5, L6] at hlen ⊢
    have htt : startTagTable TAG_TD st.tableStack = some (⟨0, 0, 1, 1⟩ :: rest) := by
      rw [hts]
      rfl
    have hstep1 := step_table_open sinks m3 b1
      (show st.i + (cstr "td").length + 2 ≤ length by rw [l3]; omega) hhtml htt
    simp only [l3] at hstep1
    have btext : OccursAt bytes (st.i + 4) (t ++ [0x3C]) := by
      rw [occursAt_append]
      refine ⟨b2, ?_⟩
      rw [occursAt_cons] at b3 ⊢
      exact ⟨b3.1, fun k hk => by simp at hk⟩
    obtain ⟨c1, hstepT⟩ := @step_text bytes length sinks
      { st with
        sawTagDelimiter := true, i := st.i + 4,
        tableStack := ⟨0, 0, 1, 1⟩ :: rest, openTagDepth := st.openTagDepth + 1 }
      t hne ht btext (by simp only; omega) hhtml
    have hstep2 := @step_table_close bytes length sinks
      { st with
        sawTagDelimiter := true, i := st.i + 4 + t.length, sawContentBeforeHtml := c1,
        tableStack := ⟨0, 0, 1, 1⟩ :: rest, openTagDepth := st.openTagDepth + 1 }
      _ m3 b3 (by simp only [l3]; omega)
    have hend : endTagTable TAG_TD (⟨0, 0, 1, 1⟩ :: rest) = ⟨0, 0, 1, 0⟩ :: rest := rfl
    simp only [l3, hend, Nat.add_sub_cancel, if_pos (Nat.succ_pos _)] at hstep2
    obtain ⟨c2, hs2⟩ := ih bytes length sinks
      { st with
        sawTagDelimiter := true, i := st.i + 4 + t.length + 2 + 3, sawContentBeforeHtml := c1,
        tableStack := ⟨0, 0, 1, 0⟩ :: rest }
      b4 (by simp only; omega) hhtml ⟨rest, rfl⟩ (fun _ => rfl)
    refine ⟨c2, ?_⟩
    have hi : st.i + (4 + (t.length + (5 + cs.length)))
        = st.i + 4 + t.length + 2 + 3 + cs.length := by omega
    rw [hi]
    have hpos : 0 < t.length := List.length_pos.mpr hne
    simp only [hts] at hstep1 hstepT hstep2 hs2 ⊢
    exact steps_trans (steps_one (by omega) hstep1)
      (steps_trans (steps_one (by simp only; omega) hstepT)
        (steps_trans (steps_one (by simp only; omega) hstep2) hs2))
  | @cellTable tb cs _ _ ih1 ih2 =>
    intro bytes length sinks st hocc hlen hhtml hctx _
    obtain ⟨rest, hts⟩ := hctx
    rw [occursAt_append, occursAt_append, occursAt_append, L5, L6] at hocc
    obtain ⟨b1, b2, b3, b4⟩ := hocc
    rw [e5] at b1
    rw [e6] at b3
    simp only [List.length_append, L5, L6] at hlen ⊢
    have htt : startTagTable TAG_TD st.tableStack = some (⟨0, 0, 1, 1⟩ :: rest) := by
      rw [hts]
      rfl
    have hstep1 := step_table_open sinks m3 b1
      (show st.i + (cstr "td").length + 2 ≤ length by rw [l3]; omega) hhtml htt
    simp only [l3] at hstep1
    obtain ⟨c1, hs1⟩ := ih1 bytes length sinks
      { st with
        sawTagDelimiter := true, i := st.i + 4,
        tableStack := ⟨0, 0, 1, 1⟩ :: rest, openTagDepth := st.openTagDepth + 1 }
      b2 (by simp only; omega) hhtml (Or.inr ⟨rest, rfl⟩) (fun h => absurd rfl h)
    have hstep2 := @step_table_close bytes length sinks
      { st with
        sawTagDelimiter := true, i := st.i + 4 + tb.length, sawContentBeforeHtml := c1,
        tableStack := ⟨0, 0, 1, 1⟩ :: rest, openTagDepth := st.openTagDepth + 1 }
      _ m3 b3 (by simp only [l3]; omega)
    have hend : endTagTable TAG_TD (⟨0, 0, 1, 1⟩ :: rest) = ⟨0, 0, 1, 0⟩ :: rest := rfl
    simp only [l3, hend, Nat.add_sub_cancel, if_pos (Nat.succ_pos _)] at hstep2
    obtain ⟨c2, hs2⟩ := ih2 bytes length sinks
      { st with
        sawTagDelimiter := true, i := st.i + 4 + tb.length + 2 + 3, sawContentBeforeHtml := c1,
        tableStack := ⟨0, 0, 1, 0⟩ :: rest }
      b4 (by simp only; omega) hhtml ⟨rest, rfl⟩ (fun _ => rfl)
    refine ⟨c2, ?_⟩
    have hi : st.i + (4 + (tb.length + (5 + cs.length)))
        = st.i + 4 + tb.length + 2 + 3 + cs.length := by omega
    rw [hi]
    simp only [hts] at hstep1 hs1 hstep2 hs2 ⊢
    exact steps_trans (steps_one (by omega) hstep1)
      (steps_trans hs1 (steps_trans (steps_one (by simp only; omega) hstep2) hs2))

/-- C14: every well-formed table is accepted by the decision scanner. For
every input generated by `Table ::= <table> Row* </table>`,
`Row ::= <tr> Cell* </tr>`, `Cell ::= <td> (Text | Table)? </td>`, with `Text`
a non-empty run of bytes containing neither `<` nor 0x00, the scanner returns
0 with reason `NONE` and emits no hint, whatever sinks are installed. -/
theorem C14_well_formed_table (w : List Byte) (sinks : Sinks)
    (hw : TableGen TableKind.table w) :
    swiftsoup_should_fallback_internal (some w) (w.length : Int) sinks
      = some ⟨0, SWIFTSOUP_FALLBACK_NONE, []⟩ := by
  have hne : w ≠ [] := by
    cases hw
    simp [show cstr "<table>" = 0x3C :: (cstr "table" ++ [0x3E]) by decide]
  have hocc : OccursAt w ScanState.init.i w := by
    have := occursAt_zero w []
    rwa [List.append_nil] at this
  obtain ⟨c, hsteps⟩ := tableGen_steps hw w w.length sinks ScanState.init hocc
    (by simp [ScanState.init]) rfl (Or.inl rfl) (fun h => absurd rfl h)
  have hreach := reaches_steps Reaches.init hsteps
  rw [reaches_end hne hreach (by simp [ScanState.init])]
  simp [finish, ScanState.init]

theorem C14_well_formed_table_witness :
    cstr "<table>" ++ ((cstr "<tr>" ++ ((cstr "<td>" ++ (cstr "x" ++ (cstr "</td>" ++ [])))
        ++ (cstr "</tr>" ++ []))) ++ cstr "</table>")
      = cstr "<table><tr><td>x</td></tr></table>" ∧
    swiftsoup_should_fallback_internal
        (some (cstr "<table>" ++ ((cstr "<tr>" ++ ((cstr "<td>" ++ (cstr "x" ++ (cstr "</td>" ++ [])))
          ++ (cstr "</tr>" ++ []))) ++ cstr "</table>")))
        ((cstr "<table>" ++ ((cstr "<tr>" ++ ((cstr "<td>" ++ (cstr "x" ++ (cstr "</td>" ++ [])))
          ++ (cstr "</tr>" ++ []))) ++ cstr "</table>")).length : Int)
        ⟨true, true, false⟩
      = some ⟨0, SWIFTSOUP_FALLBACK_NONE, []⟩ :=
  ⟨by decide!,
   C14_well_formed_table _ _
     (TableGen.table (TableGen.rowsCons
       (TableGen.cellText (by decide!) (by decide!) TableGen.cellsNil) TableGen.rowsNil))⟩

/-! ## Raw-text elements -/

theorem rawTextNames_tags : ∀ T ∈ rawTextNames, ∃ p ∈ rawTextTags, p.1 = T := by
  decide!

theorem rawTextTags_facts :
    ∀ p ∈ rawTextTags, p ∈ tagNameTable ∧ p.1.map asciiLowerTable = p.1 ∧
      (∀ t ∈ p.1, (t.val < 0x80 ∧ asciiLowerTable t = t) ∧ t ≠ 0x3C) ∧
      p.2 ≠ TAG_HGROUP ∧ startTagTable p.2 [] = some [] ∧ is_heading_tag p.2 = false ∧
      p.2 ≠ TAG_P ∧ p.2 ≠ TAG_HTML ∧ p.2 ≠ TAG_BODY ∧ p.2 ≠ TAG_NONE := by
  decide!

/-- The end of a start tag of a raw-text element that is not self-closing is
the raw-text skipper, called with the name of the element. -/
theorem startTagFinish_raw (bytes : List Byte) (length : Nat) (sinks : Sinks)
    (p : List Byte × tag_id) (hp : p ∈ rawTextTags) (nameStart nameEnd j : Nat) (st : ScanState)
    (hj : 1 ≤ j) (hgt : byteAt bytes (j - 1) = 0x3E) :
    startTagFinish bytes length sinks p.2 nameStart nameEnd j false st
      = rawText bytes length p.1 p.1.length j st := by
  have hflag := selfClosingFlag_eq bytes nameEnd j false hj hgt
  simp only [rawTextTags, List.mem_cons, List.mem_singleton, List.not_mem_nil, or_false] at hp
  rcases hp with rfl | rfl | rfl
  · unfold startTagFinish
    simp only [hflag]
    rfl
  · unfold startTagFinish
    simp only [hflag]
    rfl
  · unfold startTagFinish
    simp only [hflag]
    rfl

/-- The main-loop iteration on a start tag `<T>` of a raw-text element,
outside any table and before any `<html>` tag. -/
theorem step_raw_startTag {bytes : List Byte} {length : Nat} (sinks : Sinks) {st : ScanState}
    {p : List Byte × tag_id} (hp : p ∈ rawTextTags)
    (hocc : OccursAt bytes st.i (0x3C :: (p.1 ++ [0x3E]))) (hlen : st.i + p.1.length + 2 ≤ length)
    (htab : st.tableStack = []) (hhtml : st.sawHtmlTag = false) :
    step bytes length sinks st
      = rawText bytes length p.1 p.1.length (st.i + p.1.length + 2)
          { st with sawTagDelimiter := true } := by
  obtain ⟨f0, fw, _, f1, f2, f3, f4, f5, f6, f7⟩ := rawTextTags_facts p hp
  have hfacts := tagNameTable_facts.1 p f0
  have hpos : 0 < p.1.length := by
    have := hfacts.1
    omega
  have hocc1 : OccursAt bytes st.i (0x3C :: p.1) := by
    rw [occursAt_cons] at hocc ⊢
    exact ⟨hocc.1, (occursAt_append.mp hocc.2).1⟩
  obtain ⟨hstep, _⟩ := step_startTag_of_occurs sinks hocc1
    (show st.i + 1 + p.1.length ≤ length by omega) hpos (nameChars_of_lower_mem f0 fw)
  rw [occursAt_cons] at hocc
  obtain ⟨hs1, hs2, hs3, hs4, hs5⟩ := tagName_before_gt f0 fw hocc.2
    (show st.i + 1 + p.1.length + 1 ≤ length by omega)
  have hpre := @startTagPreflight_of bytes length { st with sawTagDelimiter := true }
    (st.i + 1 + p.1.length) p.2 [] st.sawBodyTag st.inHead hs1 hs2 hs3 hs4 f1
    (by simp only [htab]; exact f2) (by simp [f3]) (by simp [f4]) (by simp [f5])
    (by simp only [if_neg f5, hhtml]; exact startTagPlacement_noHtml _ _ _ _ _ f6)
  rw [hstep, startTag_plain hpre (by simp only; omega) hs5]
  simp only
  rw [startTagFinish_raw bytes length sinks p hp _ _ _ _ (by omega)
    (by rw [Nat.add_sub_cancel]; exact hs5)]
  have hj : st.i + 1 + p.1.length + 1 = st.i + p.1.length + 2 := by omega
  rw [hj]
  simp only [f3, if_neg f5, Bool.false_eq_true, if_false]
  rw [htab]

/-- The raw-text skipper on a buffer that ends with `</T>`: when the bytes
from `j` up to that end tag hold no `</T` of their own, the skipper returns
the length of the buffer. -/
theorem skip_raw_text_to_end {bytes : List Byte} {length j : Nat} {T C : List Byte}
    (hT : ∀ t ∈ T, (t.val < 0x80 ∧ asciiLowerTable t = t) ∧ t ≠ 0x3C)
    (hC : ¬ ContainsRawEnd C T) (hoccC : OccursAt bytes j C)
    (hoccE : OccursAt bytes (j + C.length) (0x3C :: 0x2F :: (T ++ [0x3E])))
    (hlen : length = j + C.length + T.length + 3) :
    skip_raw_text bytes length T T.length j = some (length : Int) := by
  have htag : ∀ t ∈ T, t.val < 0x80 ∧ asciiLowerTable t = t := fun t ht => (hT t ht).1
  rw [occursAt_cons, occursAt_cons, occursAt_append, occursAt_cons] at hoccE
  obtain ⟨q1, q2, q3, q4, _⟩ := hoccE
  -- the end tag is found at the end of the content
  have hfound : (List.range' j (length - j)).find? (rawEndAt bytes length T)
      = some (j + C.length) := by
    rw [List.find?_range'_eq_some]
    refine ⟨?_, by rw [List.mem_range'_1]; omega, ?_⟩
    · unfold rawEndAt
      simp only [Bool.and_eq_true, decide_eq_true_eq, beq_iff_eq, List.all_eq_true,
        List.mem_range]
      refine ⟨⟨⟨by omega, q1⟩, q2⟩, ?_⟩
      intro m hm
      have := q3 m hm
      rw [show j + C.length + 2 + m = j + C.length + 1 + 1 + m by omega, this]
    · intro p hp1 hp2
      rw [Bool.not_eq_true']
      by_contra hne
      have hm : rawEndAt bytes length T p = true := by simpa using hne
      obtain ⟨_, ⟨r1, r2⟩, r3⟩ := (rawEndAt_iff bytes length T p htag).mp hm
      have r4 := (skip_raw_text_name_full bytes p T T.length 0).mp (by rw [Nat.zero_add]; exact r3)
      obtain ⟨k, rfl⟩ : ∃ k, p = j + k := ⟨p - j, by omega⟩
      by_cases hin : k + 2 + T.length ≤ C.length
      · apply hC
        refine ⟨k, hin, ?_, ?_, ?_⟩
        · rw [← hoccC k (by omega)]
          exact r1
        · rw [← hoccC (k + 1) (by omega), ← Nat.add_assoc]
          exact r2
        · intro m hm
          rw [← hoccC (k + 2 + m) (by omega), (htag _ (byteAt_mem hm)).2]
          have := (r4 m (Nat.zero_le _) (by omega)).2
          rw [show j + (k + 2 + m) = j + k + 2 + m by omega]
          exact this
      · by_cases h1 : k + 1 = C.length
        · rw [show j + k + 1 = j + C.length by omega, q1] at r2
          exact absurd r2 (by decide)
        · have hm : C.length - k - 2 < T.length := by omega
          have h5 := (r4 (C.length - k - 2) (Nat.zero_le _) (by omega)).2
          rw [show j + k + 2 + (C.length - k - 2) = j + C.length by omega, q1] at h5
          have h6 := (hT _ (byteAt_mem hm)).2
          rw [← h5] at h6
          exact h6 (by decide)
  have hgt : (List.range' (j + C.length + 2 + T.length)
      (length - (j + C.length + 2 + T.length))).find? (fun e => byteAt bytes e == 0x3E)
      = some (j + C.length + 2 + T.length) := by
    rw [List.find?_range'_eq_some]
    refine ⟨?_, by rw [List.mem_range'_1]; omega, fun p h1 h2 => by omega⟩
    rw [show j + C.length + 2 + T.length = j + C.length + 1 + 1 + T.length by omega]
    simpa using q4
  have hskip : skip_raw_text bytes length T T.length j
      = some (skip_raw_text_ref bytes length T j) := by
    unfold skip_raw_text
    exact skip_raw_text_loop_ref bytes length T htag _ _ rfl
      (Or.inl (by rw [hfound]; exact Option.some_ne_none _))
  rw [hskip]
  unfold skip_raw_text_ref
  rw [hfound]
  simp only
  rw [hgt]
  simp only
  rw [hlen, show j + C.length + 2 + T.length + 1 = j + C.length + T.length + 3 by omega]

/-- C15: raw-text content is opaque to the decision scanner. For every T in
`script`, `style`, `textarea` and every byte string C (which may contain `<`,
`>`, quotes, other tags and 0x00 bytes) that does not contain `</` followed by
the name of T under ASCII-case-insensitive comparison, the input `<T>` C
`</T>` returns 0 with reason `NONE` and emits no hint, whatever sinks are
installed. -/
theorem C15_raw_text_opaque (T C : List Byte) (sinks : Sinks) (hT : T ∈ rawTextNames)
    (hC : ¬ ContainsRawEnd C T) :
    swiftsoup_should_fallback_internal
        (some (0x3C :: (T ++ [0x3E]) ++ (C ++ 0x3C :: 0x2F :: (T ++ [0x3E]))))
        ((0x3C :: (T ++ [0x3E]) ++ (C ++ 0x3C :: 0x2F :: (T ++ [0x3E]))).length : Int) sinks
      = some ⟨0, SWIFTSOUP_FALLBACK_NONE, []⟩ := by
  obtain ⟨p, hp, rfl⟩ := rawTextNames_tags T hT
  obtain ⟨_, _, f3, _⟩ := rawTextTags_facts p hp
  generalize hb : (0x3C :: (p.1 ++ [0x3E]) ++ (C ++ 0x3C :: 0x2F :: (p.1 ++ [0x3E])) : List Byte)
    = bytes
  have hlen : bytes.length = p.1.length + 2 + C.length + p.1.length + 3 := by
    rw [← hb]
    simp only [List.length_append, List.length_cons, List.length_nil]
    omega
  have hne : bytes ≠ [] := by
    rw [← hb]
    simp
  have hocc := occursAt_zero (0x3C :: (p.1 ++ [0x3E]))
    (C ++ 0x3C :: 0x2F :: (p.1 ++ [0x3E]))
  have hocc2 := occursAt_self_append (0x3C :: (p.1 ++ [0x3E])) C
    (0x3C :: 0x2F :: (p.1 ++ [0x3E]))
  have hocc3 := occursAt_self_append ((0x3C :: (p.1 ++ [0x3E])) ++ C)
    (0x3C :: 0x2F :: (p.1 ++ [0x3E])) []
  rw [List.append_nil, List.append_assoc] at hocc3
  rw [hb] at hocc hocc2 hocc3
  have hl1 : (0x3C :: (p.1 ++ [0x3E]) : List Byte).length = p.1.length + 2 := by simp
  have hl2 : ((0x3C :: (p.1 ++ [0x3E]) : List Byte) ++ C).length = p.1.length + 2 + C.length := by
    simp only [List.length_append, List.length_cons, List.length_nil]
  rw [hl1] at hocc2
  rw [hl2] at hocc3
  have hstep := @step_raw_startTag bytes bytes.length sinks ScanState.init p hp hocc
    (by simp only [ScanState.init]; omega) rfl rfl
  have hskip := @skip_raw_text_to_end bytes bytes.length (p.1.length + 2) p.1 C f3 hC hocc2 hocc3
    (by omega)
  have h0 : ScanState.init.i + p.1.length + 2 = p.1.length + 2 := by simp [ScanState.init]
  rw [h0] at hstep
  unfold rawText at hstep
  simp only [hskip] at hstep
  rw [if_pos (by omega)] at hstep
  have hreach : Reaches bytes bytes.length sinks
      { ScanState.init with sawTagDelimiter := true, i := ((bytes.length : Nat) : Int).toNat } :=
    Reaches.next Reaches.init (by simp only [ScanState.init]; omega) hstep
  rw [reaches_end hne hreach (by simp)]
  simp [finish, ScanState.init]

theorem C15_raw_text_opaque_witness :
    (0x3C :: (cstr "script" ++ [0x3E]) ++
        (cstr "var a='</p>';" ++ 0x3C :: 0x2F :: (cstr "script" ++ [0x3E])) : List Byte)
      = cstr "<script>var a='</p>';</script>" ∧
    swiftsoup_should_fallback_internal
        (some (0x3C :: (cstr "script" ++ [0x3E]) ++
          (cstr "var a='</p>';" ++ 0x3C :: 0x2F :: (cstr "script" ++ [0x3E]))))
        ((0x3C :: (cstr "script" ++ [0x3E]) ++
          (cstr "var a='</p>';" ++ 0x3C :: 0x2F :: (cstr "script" ++ [0x3E]))).length : Int)
        ⟨true, true, false⟩
      = some ⟨0, SWIFTSOUP_FALLBACK_NONE, []⟩ :=
  ⟨by decide!,
   C15_raw_text_opaque (cstr "script") (cstr "var a='</p>';") ⟨true, true, false⟩ (by decide!)
     (by
       rintro ⟨k, h1, h2, h3, _⟩
       have hk : k < 6 := by
         have : (cstr "var a='</p>';").length = 13 := by decide
         have : (cstr "script").length = 6 := by decide
         omega
       interval_cases k <;> revert h2 h3 <;> decide!)⟩

/-! ## Collected and callback delivery -/

theorem textSpan_swap (bytes : List Byte) (length : Nat) (st : ScanState) :
    textSpan bytes length st.swapEvents = (textSpan bytes length st).swapEvents := by
  unfold textSpan
  simp only [ScanState.swapEvents]
  split
  · rfl
  · unfold textSpanPlacement
    simp only
    repeat' split
    all_goals rfl

theorem commentOrDeclaration_swap (bytes : List Byte) (length : Nat) (st : ScanState) :
    commentOrDeclaration bytes length st.swapEvents
      = (commentOrDeclaration bytes length st).swapEvents := by
  unfold commentOrDeclaration
  simp only [ScanState.swapEvents]
  repeat' split
  all_goals rfl

theorem processingInstruction_swap (bytes : List Byte) (length : Nat) (st : ScanState) :
    processingInstruction bytes length st.swapEvents
      = (processingInstruction bytes length st).swapEvents := by
  unfold processingInstruction
  simp only [ScanState.swapEvents]
  repeat' split
  all_goals rfl

theorem endTag_swap (bytes : List Byte) (length : Nat) (st : ScanState) :
    endTag bytes length st.swapEvents = (endTag bytes length st).swapEvents := by
  unfold endTag
  simp only [ScanState.swapEvents]
  repeat' split
  all_goals rfl

theorem rawText_swap (bytes : List Byte) (length : Nat) (tag : List Byte) (tagLen j : Nat)
    (st : ScanState) :
    rawText bytes length tag tagLen j st.swapEvents
      = (rawText bytes length tag tagLen j st).swapEvents := by
  unfold rawText
  simp only [ScanState.swapEvents]
  cases skip_raw_text bytes length tag tagLen j with
  | none => rfl
  | some newIndex =>
    simp only
    split <;> rfl

theorem startTagFinish_swap (bytes : List Byte) (length : Nat) (r : Bool) (tagId : tag_id)
    (nameStart nameEnd j : Nat) (s : Bool) (st : ScanState) :
    startTagFinish bytes length (collectSinks r) tagId nameStart nameEnd j s st.swapEvents
      = (startTagFinish bytes length (callbackSinks r) tagId nameStart nameEnd j s st).swapEvents := by
  have hev : ∀ (c : Prop) [Decidable c] (x : Event), x.swap = x →
      (if c then st.events.map Event.swap ++ [x] else st.events.map Event.swap)
        = (if c then st.events ++ [x] else st.events).map Event.swap := by
    intro c _ x hx
    split
    · rw [List.map_append, List.map_singleton, hx]
    · rfl
  unfold startTagFinish
  simp only [ScanState.swapEvents, collectSinks, callbackSinks]
  rw [hev _ _ rfl]
  split
  · rw [← rawText_swap]
    rfl
  · split
    · rw [← rawText_swap]
      rfl
    · split
      · rw [← rawText_swap]
        rfl
      · rfl

/-- The preflight of a start tag neither reads nor changes the events. -/
theorem startTagPreflight_events (bytes : List Byte) (length : Nat) (st : ScanState)
    (ev : List Event) :
    startTagPreflight bytes length { st with events := ev }
      = (startTagPreflight bytes length st).map
          (fun head => { head with st := { head.st with events := ev } }) := by
  unfold startTagPreflight
  simp only
  cases scanTagName bytes length (length - (st.i + 1)) (st.i + 1) with
  | none => rfl
  | some nameEnd =>
    simp only
    by_cases h1 : nameEnd = st.i + 1
    · rw [if_pos h1, if_pos h1]
      rfl
    · rw [if_neg h1, if_neg h1]
      by_cases h2 : nameEnd < length ∧ (byteAt bytes nameEnd).val ≥ 0x80
      · rw [if_pos h2, if_pos h2]
        rfl
      · rw [if_neg h2, if_neg h2]
        generalize tag_id_for_ascii_lowercase bytes (st.i + 1) nameEnd = tagId
        by_cases h3 : tagId = TAG_HGROUP
        · rw [if_pos h3, if_pos h3]
          rfl
        · rw [if_neg h3, if_neg h3]
          cases startTagTable tagId st.tableStack with
          | none => rfl
          | some ts =>
            simp only
            by_cases h4 : is_heading_tag tagId = true ∧ st.headingOpen = true
            · rw [if_pos h4, if_pos h4]
              rfl
            · rw [if_neg h4, if_neg h4]
              by_cases h5 : tagId = TAG_P ∧ st.formatStack ≠ []
              · rw [if_pos h5, if_pos h5]
                rfl
              · rw [if_neg h5, if_neg h5]
                by_cases h6 : tagId = TAG_HTML ∧ st.sawContentBeforeHtml = true
                · rw [if_pos h6, if_pos h6]
                  rfl
                · rw [if_neg h6, if_neg h6]
                  cases startTagPlacement tagId (if tagId = TAG_HTML then true else st.sawHtmlTag)
                      st.sawBodyTag st.inHead st.sawContentBeforeHtml st.openTagDepth with
                  | none => rfl
                  | some pr => rfl

theorem startTag_swap (bytes : List Byte) (length : Nat) (r : Bool) (st : ScanState) :
    startTag bytes length (collectSinks r) st.swapEvents
      = (startTag bytes length (callbackSinks r) st).swapEvents := by
  unfold startTag
  have hsw : st.swapEvents = { st with events := st.events.map Event.swap } := rfl
  rw [hsw, startTagPreflight_events]
  cases hpre : startTagPreflight bytes length st with
  | error reason => rfl
  | ok head =>
    have hev := (startTagPreflight_ok hpre).2.2.2.1
    simp only [Except.map]
    rw [← hev, attrLoop_swap bytes length r (length - head.nameEnd) head.nameEnd head.st.events]
    cases attrLoop bytes length (callbackSinks r) (length - head.nameEnd) head.nameEnd
        head.st.events with
    | fail reason events => rfl
    | ended j s events =>
      exact startTagFinish_swap bytes length r head.tagId head.nameStart head.nameEnd j s
        { head.st with events := events }
    | noTagEnd events => rfl
    | outOfFuel => rfl

theorem step_swap (bytes : List Byte) (length : Nat) (r : Bool) (st : ScanState) :
    step bytes length (collectSinks r) st.swapEvents
      = (step bytes length (callbackSinks r) st).swapEvents := by
  unfold step
  have hi : st.swapEvents.i = st.i := rfl
  simp only [hi]
  split
  · rfl
  · split
    · exact textSpan_swap bytes length st
    · split
      · rfl
      · split
        · exact commentOrDeclaration_swap bytes length { st with sawTagDelimiter := true }
        · split
          · exact endTag_swap bytes length { st with sawTagDelimiter := true }
          · split
            · exact processingInstruction_swap bytes length { st with sawTagDelimiter := true }
            · split
              · rfl
              · exact startTag_swap bytes length r { st with sawTagDelimiter := true }

theorem finish_swap (st : ScanState) : finish st.swapEvents = (finish st).swapEvents := by
  unfold finish
  simp only [ScanState.swapEvents]
  repeat' split
  all_goals rfl

theorem mainLoop_swap (bytes : List Byte) (length : Nat) (r : Bool) (n : Nat) (st : ScanState) :
    mainLoop bytes length (collectSinks r) n st.swapEvents
      = (mainLoop bytes length (callbackSinks r) n st).map Outcome.swapEvents := by
  have hi : st.swapEvents.i = st.i := rfl
  induction n generalizing st with
  | zero =>
    unfold mainLoop
    simp only [show st.swapEvents.i = st.i from rfl]
    split
    · rfl
    · rw [finish_swap]
      rfl
  | succ n ih =>
    unfold mainLoop
    simp only [show st.swapEvents.i = st.i from rfl]
    split
    · rw [step_swap]
      cases step bytes length (callbackSinks r) st with
      | fail reason events => rfl
      | next st1 => exact ih st1 rfl
      | noResult events => rfl
    · rw [finish_swap]
      rfl

theorem internal_swap (bytes : Option (List Byte)) (length : Int) (r : Bool) :
    swiftsoup_should_fallback_internal bytes length (collectSinks r)
      = (swiftsoup_should_fallback_internal bytes length (callbackSinks r)).map
          Outcome.swapEvents := by
  unfold swiftsoup_should_fallback_internal
  split
  · rfl
  · split
    · rfl
    · exact mainLoop_swap _ _ r _ ScanState.init

theorem hintAttrLoop_swap (bytes : List Byte) (length : Nat) (r : Bool) (n a : Nat)
    (events : List Event) :
    hintAttrLoop bytes length (collectSinks r) n a (events.map Event.swap)
      = (hintAttrLoop bytes length (callbackSinks r) n a events).map (List.map Event.swap) := by
  induction n generalizing a events with
  | zero =>
    unfold hintAttrLoop
    split <;> rfl
  | succ n ih =>
    conv => lhs; unfold hintAttrLoop
    conv => rhs; arg 2; unfold hintAttrLoop
    by_cases h : a < length
    · rw [if_pos h, if_pos h]
      lift_lets
      extract_lets a1 attrStart a2 attrEnd bI1 a3 a4 q aq a5 bI2
      have hbI : bI1 = bI2 := rfl
      rw [hbI]
      have he0 : List.map Event.swap events ++
          (if bI2 ≥ 0 then emitBoolean (collectSinks r) attrStart bI2 0 else [])
          = (events ++ (if bI2 ≥ 0 then
              emitBoolean (callbackSinks r) attrStart bI2 0 else [])).map Event.swap := by
        rw [List.map_append, emitBoolean_swap_if]
      have he1 : List.map Event.swap events ++
          (if bI2 ≥ 0 then emitBoolean (collectSinks r) attrStart bI2 1 else [])
          = (events ++ (if bI2 ≥ 0 then
              emitBoolean (callbackSinks r) attrStart bI2 1 else [])).map Event.swap := by
        rw [List.map_append, emitBoolean_swap_if]
      split
      · rfl
      · split
        · rfl
        · split
          · rfl
          · split
            · rfl
            · split
              · split
                · rfl
                · rw [he0]
                  exact ih a5 _
              · rw [he1]
                exact ih a3 _
    · rw [if_neg h, if_neg h]
      rfl

theorem hintContinue_swap (length j : Nat) (events : List Event) :
    hintContinue length j (events.map Event.swap)
      = (hintContinue length j events).swapEvents := by
  unfold hintContinue
  cases hintCursor length j <;> rfl

theorem hintStep_swap (bytes : List Byte) (length : Nat) (r : Bool) (i : Nat)
    (events : List Event) :
    hintStep bytes length (collectSinks r) i (events.map Event.swap)
      = (hintStep bytes length (callbackSinks r) i events).swapEvents := by
  conv => lhs; unfold hintStep
  conv => rhs; arg 1; unfold hintStep
  by_cases h1 : byteAt bytes i ≠ 0x3C
  · rw [if_pos h1, if_pos h1]
    repeat' split
    all_goals rfl
  · rw [if_neg h1, if_neg h1]
    by_cases h2 : i + 1 ≥ length
    · rw [if_pos h2, if_pos h2]
      rfl
    · rw [if_neg h2, if_neg h2]
      lift_lets
      extract_lets next j nameStart nameEnd tagEnd j1 isSelfClosing ev1 ev2
      have hev : ev1 = ev2.map Event.swap := by
        show (if r = true then _ else _) = List.map Event.swap (if r = true then _ else _)
        split
        · rw [List.map_append]
          rfl
        · rfl
      by_cases c1 : next = 0x21
      · rw [if_pos c1, if_pos c1]
        repeat' split
        all_goals first | rfl | exact hintContinue_swap _ _ _
      · rw [if_neg c1, if_neg c1]
        by_cases c2 : next = 0x2F
        · rw [if_pos c2, if_pos c2]
          exact hintContinue_swap _ _ _
        · rw [if_neg c2, if_neg c2]
          by_cases c3 : next = 0x3F
          · rw [if_pos c3, if_pos c3]
            repeat' split
            all_goals rfl
          · rw [if_neg c3, if_neg c3]
            by_cases c4 : isNameCharTable next = false
            · rw [if_pos c4, if_pos c4]
              rfl
            · rw [if_neg c4, if_neg c4]
              by_cases c5 : nameEnd = nameStart
              · rw [if_pos c5, if_pos c5]
                rfl
              · rw [if_neg c5, if_neg c5, hev, hintAttrLoop_swap]
                cases hintAttrLoop bytes length (callbackSinks r) (length - nameEnd) nameEnd ev2 with
                | none => rfl
                | some events2 => exact hintContinue_swap _ _ _

theorem hintLoop_swap (bytes : List Byte) (length : Nat) (r : Bool) (n i : Nat)
    (events : List Event) :
    hintLoop bytes length (collectSinks r) n i (events.map Event.swap)
      = (hintLoop bytes length (callbackSinks r) n i events).map (List.map Event.swap) := by
  induction n generalizing i events with
  | zero =>
    unfold hintLoop
    split <;> rfl
  | succ n ih =>
    unfold hintLoop
    split
    · rw [hintStep_swap]
      cases hintStep bytes length (callbackSinks r) i events with
      | stop events1 => rfl
      | next i1 events1 => exact ih i1 events1
      | noResult events1 => rfl
    · rfl

theorem hints_internal_swap (bytes : Option (List Byte)) (length : Int) (r : Bool) :
    swiftsoup_scan_hints_internal bytes length (collectSinks r)
      = (swiftsoup_scan_hints_internal bytes length (callbackSinks r)).map
          (List.map Event.swap) := by
  unfold swiftsoup_scan_hints_internal
  split
  · rfl
  · split
    · rfl
    · exact hintLoop_swap _ _ r _ 0 []

theorem collectedPairs_swap (events : List Event) :
    collectedPairs (events.map Event.swap) = booleanCalls events := by
  induction events with
  | nil => rfl
  | cons e rest ih =>
    unfold collectedPairs booleanCalls at ih ⊢
    cases e <;> simp [List.filterMap_cons, Event.swap, ih]

theorem selfClosingCalls_swap (events : List Event) :
    selfClosingCalls (events.map Event.swap) = selfClosingCalls events := by
  induction events with
  | nil => rfl
  | cons e rest ih =>
    unfold selfClosingCalls at ih ⊢
    cases e <;> simp [List.filterMap_cons, Event.swap, ih]

theorem flatPairs_length (pairs : List (Int × Int)) :
    (flatPairs pairs).length = 2 * pairs.length := by
  induction pairs with
  | nil => rfl
  | cons p rest ih =>
    have : flatPairs (p :: rest) = p.1 :: p.2 :: flatPairs rest := rfl
    rw [this, List.length_cons, List.length_cons, ih, List.length_cons]
    omega

/-- The invariant of the pair buffer: the count is twice the number of pairs
stored, the capacity is zero (nothing stored yet) or `64 * 2 ^ m` with
`m <= 24`, and the count is within the capacity. -/
theorem boolean_occurrences_append_spec (buf : boolean_occurrences_buf) (index isBoolean : Int)
    (c : Nat) (hc : buf.count = 2 * (c : Int))
    (hcap : (buf.capacity = 0 ∧ c = 0) ∨
      ∃ m : Nat, m ≤ 24 ∧ buf.capacity = ((2 ^ (m + 6) : Nat) : Int) ∧ 2 * c ≤ 2 ^ (m + 6)) :
    (c < 536870912 → ∃ buf1, boolean_occurrences_append buf index isBoolean = some buf1 ∧
      buf1.data = buf.data ++ [index, isBoolean] ∧ buf1.count = 2 * ((c + 1 : Nat) : Int) ∧
      ∃ m : Nat, m ≤ 24 ∧ buf1.capacity = ((2 ^ (m + 6) : Nat) : Int) ∧
        2 * (c + 1) ≤ 2 ^ (m + 6)) ∧
    (536870912 ≤ c → boolean_occurrences_append buf index isBoolean = none) := by
  have hI : (INT_MAX : Int) = 2147483647 := rfl
  rcases hcap with ⟨h0, rfl⟩ | ⟨m, hm, hcapm, hle⟩
  · refine ⟨fun _ => ?_, fun h => by omega⟩
    unfold boolean_occurrences_append
    rw [if_pos (by rw [hc, h0]; decide), if_neg (by rw [h0]; decide)]
    refine ⟨_, rfl, rfl, ?_, 0, by omega, ?_, by norm_num⟩
    · simp only [hc]
      rfl
    · simp only [h0]
      rfl
  · have hpow : (2 : Nat) ^ (m + 6) ≤ 2 ^ 30 := Nat.pow_le_pow_right (by decide) (by omega)
    have hpos : 0 < (2 : Nat) ^ (m + 6) := Nat.pow_pos (by decide)
    have heven : (2 : Nat) ^ (m + 6) = 2 * 2 ^ (m + 5) := by
      rw [show m + 6 = (m + 5) + 1 by omega, Nat.pow_succ]
      omega
    have h30 : (2 : Nat) ^ 30 = 1073741824 := by norm_num
    constructor
    · intro hlt
      unfold boolean_occurrences_append
      by_cases hfull : buf.count + 2 > buf.capacity
      · rw [if_pos hfull]
        have hceq : 2 * c = 2 ^ (m + 6) := by
          rw [hc, hcapm] at hfull
          omega
        have hm24 : m < 24 := by
          by_contra hge
          have : m = 24 := by omega
          subst this
          norm_num at hceq
          omega
        have hpow2 : (2 : Nat) ^ (m + 1 + 6) ≤ 2 ^ 30 :=
          Nat.pow_le_pow_right (by decide) (by omega)
        have hdouble : (2 : Nat) ^ (m + 1 + 6) = 2 * 2 ^ (m + 6) := by
          rw [show m + 1 + 6 = (m + 6) + 1 by omega, Nat.pow_succ]
          omega
        rw [if_neg (by
          rw [hcapm, hI]
          intro h
          have := h.2
          omega)]
        refine ⟨_, rfl, rfl, ?_, m + 1, by omega, ?_, by omega⟩
        · simp only [hc]
          push_cast
          ring
        · simp only
          rw [if_neg (by rw [hcapm]; omega), hcapm, hdouble]
          push_cast
          ring
      · rw [if_neg hfull]
        refine ⟨_, rfl, rfl, ?_, m, hm, hcapm, ?_⟩
        · simp only [hc]
          push_cast
          ring
        · rw [hc, hcapm] at hfull
          omega
    · intro hge
      have hm24 : m = 24 := by
        by_contra hne
        have : (2 : Nat) ^ (m + 6) ≤ 2 ^ 29 := Nat.pow_le_pow_right (by decide) (by omega)
        have : (2 : Nat) ^ 29 = 536870912 := by norm_num
        omega
      subst hm24
      have hcap2 : buf.capacity = 1073741824 := by
        rw [hcapm]
        norm_num
      have hc2 : c = 536870912 := by
        norm_num at hle
        omega
      unfold boolean_occurrences_append
      rw [if_pos (by rw [hc, hcap2, hc2]; decide), if_pos (by rw [hcap2, hI]; decide)]

/-- The appends of a scan on a buffer that satisfies the invariant: every pair
is stored while the buffer holds fewer than `2 ^ 29` pairs, and the append to
a buffer of `2 ^ 29` pairs has no result. -/
theorem boolean_occurrences_fill_spec (pairs : List (Int × Int)) :
    ∀ (buf : boolean_occurrences_buf) (c : Nat), buf.count = 2 * (c : Int) →
      ((buf.capacity = 0 ∧ c = 0) ∨
        ∃ m : Nat, m ≤ 24 ∧ buf.capacity = ((2 ^ (m + 6) : Nat) : Int) ∧ 2 * c ≤ 2 ^ (m + 6)) →
      (c + pairs.length ≤ 536870912 →
        ∃ buf1, boolean_occurrences_fill pairs buf = some buf1 ∧
          buf1.data = buf.data ++ flatPairs pairs ∧
          buf1.count = 2 * ((c + pairs.length : Nat) : Int)) ∧
      (c ≤ 536870912 → 536870912 < c + pairs.length →
        boolean_occurrences_fill pairs buf = none) := by
  induction pairs with
  | nil =>
    intro buf c hc _
    refine ⟨fun _ => ⟨buf, rfl, ?_, ?_⟩, fun h1 h2 => ?_⟩
    · exact (List.append_nil _).symm
    · rw [hc]
      rfl
    · simp only [List.length_nil] at h2
      omega
  | cons p rest ih =>
    intro buf c hc hcap
    obtain ⟨ha, hb⟩ := boolean_occurrences_append_spec buf p.1 p.2 c hc hcap
    have hflat : flatPairs (p :: rest) = [p.1, p.2] ++ flatPairs rest := rfl
    constructor
    · intro hle
      simp only [List.length_cons] at hle
      obtain ⟨buf1, h1, h2, h3, h4⟩ := ha (by omega)
      obtain ⟨hr, _⟩ := ih buf1 (c + 1) h3 (Or.inr h4)
      obtain ⟨buf2, g1, g2, g3⟩ := hr (by omega)
      refine ⟨buf2, ?_, ?_, ?_⟩
      · unfold boolean_occurrences_fill
        rw [h1]
        exact g1
      · rw [g2, h2, hflat, List.append_assoc]
      · rw [g3, List.length_cons]
        congr 2
        omega
    · intro hle hgt
      simp only [List.length_cons] at hgt
      unfold boolean_occurrences_fill
      by_cases hfull : 536870912 ≤ c
      · rw [hb hfull]
        rfl
      · obtain ⟨buf1, h1, h2, h3, h4⟩ := ha (by omega)
        rw [h1]
        exact (ih buf1 (c + 1) h3 (Or.inr h4)).2 (by omega) (by omega)

/-- What `boolean_occurrences_finish` hands back: the flat array of the pairs
appended during the scan and their number, when there are at most `2 ^ 29`
pairs; beyond that number the doubling of the capacity exceeds `INT_MAX` and
there is no result. -/
theorem boolean_occurrences_finish_eq (events : List Event) :
    ((collectedPairs events).length ≤ 536870912 →
      boolean_occurrences_finish events
        = some (flatPairs (collectedPairs events), ((collectedPairs events).length : Int))) ∧
    (536870912 < (collectedPairs events).length → boolean_occurrences_finish events = none) := by
  obtain ⟨ha, hb⟩ := boolean_occurrences_fill_spec (collectedPairs events)
    boolean_occurrences_init 0 rfl (Or.inl ⟨rfl, rfl⟩)
  constructor
  · intro hle
    obtain ⟨buf1, h1, h2, h3⟩ := ha (by omega)
    unfold boolean_occurrences_finish
    rw [h1, Option.map_some', h2, h3]
    congr 2
    rw [Nat.zero_add]
    omega
  · intro hgt
    unfold boolean_occurrences_finish
    rw [hb (by omega) (by omega)]
    rfl

/-- C17 holds of the code only while the pair buffer can grow. For every input
and both values of the self-closing sink: whenever `swiftsoup_should_fallback`
with a `recordBoolean` callback returns, with `N` calls of `recordBoolean`,
and `N <= 2 ^ 29`, `swiftsoup_should_fallback_collect` returns the same
verdict and reason and makes the same self-closing calls, the array it hands
back holds, flattened, exactly the sequence of `(index, isBoolean)` arguments
of those calls in the same order (`2 * N` integers), and the count it hands
back is `N`, also when the verdict is 1; when `N > 2 ^ 29` the doubling
`buf->capacity * 2` of the `int32_t` capacity exceeds `INT_MAX` and
`swiftsoup_should_fallback_collect` has no result. Likewise for
`swiftsoup_scan_hints_collect` and `swiftsoup_scan_hints`. The callback
variants return when the length leaves room for the look-ahead sums
(`length + 10 <= INT_MAX` for the decision scanner, `length + 2 <= INT_MAX`
for the hint-only scanner). -/
theorem C17_collect_agrees (bytes : Option (List Byte)) (length : Int)
    (recordSelfClosing : Bool) :
    (∀ out, swiftsoup_should_fallback bytes length recordSelfClosing true = some out →
      ((booleanCalls out.events).length ≤ 536870912 →
        ∃ out2, swiftsoup_should_fallback_collect bytes length recordSelfClosing
            = some (out2, flatPairs (booleanCalls out.events),
                ((booleanCalls out.events).length : Int)) ∧
          out2.ret = out.ret ∧ out2.reason = out.reason ∧
          selfClosingCalls out2.events = selfClosingCalls out.events ∧
          (flatPairs (booleanCalls out.events)).length = 2 * (booleanCalls out.events).length) ∧
      (536870912 < (booleanCalls out.events).length →
        swiftsoup_should_fallback_collect bytes length recordSelfClosing = none)) ∧
    (∀ events, swiftsoup_scan_hints bytes length recordSelfClosing true = some events →
      ((booleanCalls events).length ≤ 536870912 →
        ∃ events2, swiftsoup_scan_hints_collect bytes length recordSelfClosing
            = some (events2, flatPairs (booleanCalls events),
                ((booleanCalls events).length : Int)) ∧
          selfClosingCalls events2 = selfClosingCalls events ∧
          (flatPairs (booleanCalls events)).length = 2 * (booleanCalls events).length) ∧
      (536870912 < (booleanCalls events).length →
        swiftsoup_scan_hints_collect bytes length recordSelfClosing = none)) ∧
    (length + 10 ≤ (INT_MAX : Int) →
      ∃ out, swiftsoup_should_fallback bytes length recordSelfClosing true = some out) ∧
    (length + 2 ≤ (INT_MAX : Int) →
      ∃ events, swiftsoup_scan_hints bytes length recordSelfClosing true = some events) := by
  have hc : Sinks.mk recordSelfClosing false true = collectSinks recordSelfClosing := rfl
  refine ⟨fun out h => ?_, fun events h => ?_,
    fun hl => internal_returns bytes length (callbackSinks recordSelfClosing) hl,
    fun hl => hints_internal_returns bytes length (callbackSinks recordSelfClosing) hl⟩
  · have hs := internal_swap bytes length recordSelfClosing
    rw [show swiftsoup_should_fallback_internal bytes length (callbackSinks recordSelfClosing)
      = some out from h] at hs
    have he : out.swapEvents.events = out.events.map Event.swap := rfl
    obtain ⟨ha, hb⟩ := boolean_occurrences_finish_eq out.swapEvents.events
    rw [he, collectedPairs_swap] at ha hb
    constructor
    · intro hle
      refine ⟨out.swapEvents, ?_, rfl, rfl, selfClosingCalls_swap out.events, flatPairs_length _⟩
      unfold swiftsoup_should_fallback_collect
      rw [hc, hs]
      simp only [Option.map_some', Option.some_bind, he, ha hle]
    · intro hgt
      unfold swiftsoup_should_fallback_collect
      rw [hc, hs]
      simp only [Option.map_some', Option.some_bind, he, hb hgt, Option.map_none']
  · have hs := hints_internal_swap bytes length recordSelfClosing
    rw [show swiftsoup_scan_hints_internal bytes length (callbackSinks recordSelfClosing)
      = some events from h] at hs
    obtain ⟨ha, hb⟩ := boolean_occurrences_finish_eq (events.map Event.swap)
    rw [collectedPairs_swap] at ha hb
    constructor
    · intro hle
      refine ⟨events.map Event.swap, ?_, selfClosingCalls_swap events, flatPairs_length _⟩
      unfold swiftsoup_scan_hints_collect
      rw [hc, hs]
      simp only [Option.map_some', Option.some_bind, ha hle]
    · intro hgt
      unfold swiftsoup_scan_hints_collect
      rw [hc, hs]
      simp only [Option.map_some', Option.some_bind, hb hgt, Option.map_none']

theorem C17_collect_agrees_witness :
    (∃ out2, swiftsoup_should_fallback_collect (some (cstr "<custom hidden>")) 15 true
        = some (out2,
            flatPairs (booleanCalls [Event.boolean 8 11 1, Event.selfClosing 1 (cstr "custom") 6 0]),
            ((booleanCalls
              [Event.boolean 8 11 1, Event.selfClosing 1 (cstr "custom") 6 0]).length : Int)) ∧
      out2.ret = 0 ∧ out2.reason = SWIFTSOUP_FALLBACK_NONE ∧
      selfClosingCalls out2.events
        = selfClosingCalls [Event.boolean 8 11 1, Event.selfClosing 1 (cstr "custom") 6 0] ∧
      (flatPairs (booleanCalls
          [Event.boolean 8 11 1, Event.selfClosing 1 (cstr "custom") 6 0])).length
        = 2 * (booleanCalls
          [Event.boolean 8 11 1, Event.selfClosing 1 (cstr "custom") 6 0]).length) ∧
    (∃ events2, swiftsoup_scan_hints_collect (some (cstr "<custom hidden>")) 15 true
        = some (events2,
            flatPairs (booleanCalls [Event.selfClosing 1 (cstr "custom") 6 0, Event.boolean 8 11 1]),
            ((booleanCalls
              [Event.selfClosing 1 (cstr "custom") 6 0, Event.boolean 8 11 1]).length : Int)) ∧
      selfClosingCalls events2
        = selfClosingCalls [Event.selfClosing 1 (cstr "custom") 6 0, Event.boolean 8 11 1] ∧
      (flatPairs (booleanCalls
          [Event.selfClosing 1 (cstr "custom") 6 0, Event.boolean 8 11 1])).length
        = 2 * (booleanCalls
          [Event.selfClosing 1 (cstr "custom") 6 0, Event.boolean 8 11 1]).length) ∧
    (∃ out, swiftsoup_should_fallback (some (cstr "<custom hidden>")) 15 true true = some out) ∧
    (∃ events, swiftsoup_scan_hints (some (cstr "<custom hidden>")) 15 true true
      = some events) :=
  ⟨((C17_collect_agrees (some (cstr "<custom hidden>")) 15 true).1
      ⟨0, SWIFTSOUP_FALLBACK_NONE,
        [Event.boolean 8 11 1, Event.selfClosing 1 (cstr "custom") 6 0]⟩ (by decide!)).1
      (by decide),
   ((C17_collect_agrees (some (cstr "<custom hidden>")) 15 true).2.1
      [Event.selfClosing 1 (cstr "custom") 6 0, Event.boolean 8 11 1] (by decide!)).1
      (by decide),
   (C17_collect_agrees (some (cstr "<custom hidden>")) 15 true).2.2.1 (by decide),
   (C17_collect_agrees (some (cstr "<custom hidden>")) 15 true).2.2.2 (by decide)⟩

/-! ## The placement flags at iteration boundaries -/

/-- When the placement block of a start tag fails. -/
theorem startTagPlacement_eq_none (tagId : tag_id) (sh sb ih c : Bool) (d : Nat) :
    startTagPlacement tagId sh sb ih c d = none ↔
      tagId = TAG_BODY ∧ sh = false ∧ (c = true ∨ 0 < d) := by
  unfold startTagPlacement
  cases sh <;> cases sb <;> cases ih <;> cases c <;> by_cases hb : tagId = TAG_BODY <;>
    by_cases hh : tagId = TAG_HEAD <;> by_cases hd : 0 < d <;>
    cases hal : is_head_allowed_tag tagId <;> simp [hb, hh, hd, hal]

/-- The placement block of a start tag keeps the invariant of the flags. -/
theorem startTagPlacement_invariant {tagId : tag_id} {sh0 sb c : Bool} {d : Nat} {sb1 ih1 : Bool}
    (hinv : sh0 = true → sb = true)
    (h : startTagPlacement tagId (if tagId = TAG_HTML then true else sh0) sb false c d
      = some (sb1, ih1)) :
    ih1 = false ∧ ((if tagId = TAG_HTML then true else sh0) = true → sb1 = true) := by
  have hhtml : is_head_allowed_tag TAG_HTML = false := rfl
  unfold startTagPlacement at h
  by_cases ht : tagId = TAG_HTML
  · subst ht
    cases sb <;> simp [hhtml] at h <;> simp_all
  · simp only [if_neg ht] at h ⊢
    cases sh0
    · by_cases hb : tagId = TAG_BODY <;> cases sb <;> cases c <;> by_cases hd : 0 < d <;>
        simp [hb, hd] at h <;> simp_all
    · have hsb := hinv rfl
      subst hsb
      by_cases hb : tagId = TAG_BODY <;> simp [hb] at h <;> simp_all

theorem textSpanPlacement_invariant (bytes : List Byte) (st : ScanState) (next : Nat)
    (h1 : st.inHead = false) (h2 : st.sawHtmlTag = true → st.sawBodyTag = true) :
    (textSpanPlacement bytes st next).inHead = false ∧
    ((textSpanPlacement bytes st next).sawHtmlTag = true →
      (textSpanPlacement bytes st next).sawBodyTag = true) := by
  unfold textSpanPlacement
  simp only
  repeat' split
  all_goals simp_all

/-- The placement flags after the preflight of a start tag, in terms of the
placement block. -/
theorem startTagPreflight_flags {bytes : List Byte} {length : Nat} {st : ScanState}
    {head : StartTagHead} (h : startTagPreflight bytes length st = Except.ok head) :
    head.st.sawHtmlTag = (if head.tagId = TAG_HTML then true else st.sawHtmlTag) ∧
    startTagPlacement head.tagId (if head.tagId = TAG_HTML then true else st.sawHtmlTag)
      st.sawBodyTag st.inHead st.sawContentBeforeHtml st.openTagDepth
        = some (head.st.sawBodyTag, head.st.inHead) := by
  unfold startTagPreflight at h
  simp only at h
  split at h
  · cases h
  · split at h
    · cases h
    · split at h
      · cases h
      · split at h
        · cases h
        · split at h
          · cases h
          · split at h
            · cases h
            · split at h
              · cases h
              · split at h
                · cases h
                · split at h
                  · cases h
                  · rename_i hpl
                    injection h with h
                    subst h
                    exact ⟨rfl, hpl⟩

/-- The raw-text branch leaves the placement flags alone. -/
theorem rawText_flags {bytes : List Byte} {length : Nat} {tag : List Byte} {tagLen j : Nat}
    {st st1 : ScanState} (h : rawText bytes length tag tagLen j st = Step.next st1) :
    st1.sawHtmlTag = st.sawHtmlTag ∧ st1.sawBodyTag = st.sawBodyTag ∧ st1.inHead = st.inHead ∧
      st1.sawContentBeforeHtml = st.sawContentBeforeHtml := by
  unfold rawText at h
  cases hs : skip_raw_text bytes length tag tagLen j with
  | none =>
    rw [hs] at h
    cases h
  | some newIndex =>
    rw [hs] at h
    simp only at h
    split at h
    · injection h with h
      subst h
      exact ⟨rfl, rfl, rfl, rfl⟩
    · cases h

/-- The part of a start tag after the attribute loop leaves the placement
flags alone. -/
theorem startTagFinish_flags {bytes : List Byte} {length : Nat} {sinks : Sinks} {tagId : tag_id}
    {nameStart nameEnd j : Nat} {s : Bool} {st st1 : ScanState}
    (h : startTagFinish bytes length sinks tagId nameStart nameEnd j s st = Step.next st1) :
    st1.sawHtmlTag = st.sawHtmlTag ∧ st1.sawBodyTag = st.sawBodyTag ∧ st1.inHead = st.inHead ∧
      st1.sawContentBeforeHtml = st.sawContentBeforeHtml := by
  unfold startTagFinish at h
  simp only at h
  split at h
  · (have f := rawText_flags h; exact f)
  · split at h
    · (have f := rawText_flags h; exact f)
    · split at h
      · (have f := rawText_flags h; exact f)
      · injection h with h
        subst h
        exact ⟨rfl, rfl, rfl, rfl⟩

/-- An end tag clears `inHead` or keeps it, and sets `sawBodyTag` or keeps it. -/
theorem endTag_flags {bytes : List Byte} {length : Nat} {st st1 : ScanState}
    (h : endTag bytes length st = Step.next st1) :
    st1.sawHtmlTag = st.sawHtmlTag ∧ (st1.inHead = false ∨ st1.inHead = st.inHead) ∧
      (st1.sawBodyTag = true ∨ st1.sawBodyTag = st.sawBodyTag) ∧
      st1.sawContentBeforeHtml = st.sawContentBeforeHtml := by
  unfold endTag at h
  simp only at h
  split at h
  · cases h
  · split at h
    · cases h
    · split at h
      · cases h
      · split at h
        · cases h
        · split at h
          · cases h
          · split at h
            · cases h
            · injection h with h
              subst h
              refine ⟨rfl, ?_, ?_, rfl⟩
              · simp only
                split
                · exact Or.inl rfl
                · exact Or.inr rfl
              · simp only
                split
                · exact Or.inr rfl
                · split
                  · exact Or.inl rfl
                  · exact Or.inr rfl

/-- Comments, declarations and processing instructions only move the cursor. -/
theorem commentOrDeclaration_next {bytes : List Byte} {length : Nat} {st st1 : ScanState}
    (h : commentOrDeclaration bytes length st = Step.next st1) :
    ∃ k, st1 = { st with i := k } := by
  unfold commentOrDeclaration at h
  simp only at h
  split at h
  · cases h
  · split at h
    · cases h
    · split at h
      · cases hf : findCommentEnd bytes length (length - (st.i + 4) + 1) (st.i + 4) with
        | found j =>
          rw [hf] at h
          injection h with h
          exact ⟨_, h.symm⟩
        | notFound =>
          rw [hf] at h
          cases h
        | noResult =>
          rw [hf] at h
          cases h
      · split at h
        · cases h
        · injection h with h
          exact ⟨_, h.symm⟩

theorem processingInstruction_next {bytes : List Byte} {length : Nat} {st st1 : ScanState}
    (h : processingInstruction bytes length st = Step.next st1) :
    ∃ k, st1 = { st with i := k } := by
  unfold processingInstruction at h
  simp only at h
  split at h
  · cases h
  · injection h with h
    exact ⟨_, h.symm⟩

/-- An iteration of the main loop keeps the invariant of the placement flags. -/
theorem step_placement_invariant {bytes : List Byte} {length : Nat} {sinks : Sinks}
    {st st1 : ScanState} (h1 : st.inHead = false)
    (h2 : st.sawHtmlTag = true → st.sawBodyTag = true)
    (h : step bytes length sinks st = Step.next st1) :
    st1.inHead = false ∧ (st1.sawHtmlTag = true → st1.sawBodyTag = true) := by
  unfold step at h
  simp only at h
  split at h
  · cases h
  · split at h
    · unfold textSpan at h
      simp only at h
      split at h
      · cases h
      · injection h with h
        subst h
        exact textSpanPlacement_invariant bytes st _ h1 h2
    · split at h
      · cases h
      · split at h
        · obtain ⟨k, rfl⟩ := commentOrDeclaration_next h
          exact ⟨h1, h2⟩
        · split at h
          · obtain ⟨f1, f2, f3, _⟩ := endTag_flags h
            simp only at f1 f2 f3
            constructor
            · rcases f2 with f2 | f2
              · exact f2
              · rw [f2, h1]
            · intro hs
              rcases f3 with f3 | f3
              · exact f3
              · rw [f3]
                exact h2 (f1 ▸ hs)
          · split at h
            · obtain ⟨k, rfl⟩ := processingInstruction_next h
              exact ⟨h1, h2⟩
            · split at h
              · cases h
              · unfold startTag at h
                split at h
                · cases h
                · rename_i head hpre
                  obtain ⟨hsh, hpl⟩ := startTagPreflight_flags hpre
                  simp only at hpl hsh
                  rw [h1] at hpl
                  have hinv := startTagPlacement_invariant h2 hpl
                  split at h
                  · cases h
                  · cases h
                  · cases h
                  · obtain ⟨f1, f2, f3, _⟩ := startTagFinish_flags h
                    simp only at f1 f2 f3
                    rw [f1, f2, f3, hsh]
                    exact hinv

/-- The placement flags at every iteration boundary of the main loop. -/
theorem reaches_placement_invariant {bytes : List Byte} {length : Nat} {sinks : Sinks}
    {st : ScanState} (h : Reaches bytes length sinks st) :
    st.inHead = false ∧ (st.sawHtmlTag = true → st.sawBodyTag = true) := by
  induction h with
  | init => exact ⟨rfl, fun h => by cases h⟩
  | next _ _ hstep ih => exact step_placement_invariant ih.1 ih.2 hstep

/-! ## The verdict does not depend on `inHead` and `sawBodyTag` -/

theorem textSpanPlacement_withPlacement (bytes : List Byte) (st : ScanState) (next : Nat)
    (a b : Bool) :
    (textSpanPlacement bytes (st.withPlacement a b) next).withPlacement false false
      = (textSpanPlacement bytes st next).withPlacement false false := by
  cases st with
  | mk i sd sh sb ih c ho od sel fs ts ev =>
    simp only [textSpanPlacement, ScanState.withPlacement]
    generalize (List.range (next - i)).any (fun k => !isWhitespaceTable (byteAt bytes (i + k))) = w
    cases sh <;> cases sb <;> cases ih <;> cases a <;> cases b <;> cases w <;> rfl

theorem textSpan_withPlacement (bytes : List Byte) (length : Nat) (st : ScanState) (a b : Bool) :
    (textSpan bytes length (st.withPlacement a b)).clearPlacement
      = (textSpan bytes length st).clearPlacement := by
  unfold textSpan
  have hi : (st.withPlacement a b).i = st.i := rfl
  have he : (st.withPlacement a b).events = st.events := rfl
  simp only [hi, he]
  split
  · rfl
  · simp only [Step.clearPlacement]
    have h := textSpanPlacement_withPlacement bytes st (nextTagIndex bytes length st.i) a b
    have h2 := congrArg (fun s : ScanState => { s with i := nextTagIndex bytes length st.i }) h
    exact congrArg Step.next h2

theorem commentOrDeclaration_withPlacement (bytes : List Byte) (length : Nat) (st : ScanState)
    (a b : Bool) :
    (commentOrDeclaration bytes length (st.withPlacement a b)).clearPlacement
      = (commentOrDeclaration bytes length st).clearPlacement := by
  unfold commentOrDeclaration
  simp only [ScanState.withPlacement]
  repeat' split
  all_goals rfl

theorem processingInstruction_withPlacement (bytes : List Byte) (length : Nat) (st : ScanState)
    (a b : Bool) :
    (processingInstruction bytes length (st.withPlacement a b)).clearPlacement
      = (processingInstruction bytes length st).clearPlacement := by
  unfold processingInstruction
  simp only [ScanState.withPlacement]
  repeat' split
  all_goals rfl

theorem endTag_withPlacement (bytes : List Byte) (length : Nat) (st : ScanState) (a b : Bool) :
    (endTag bytes length (st.withPlacement a b)).clearPlacement
      = (endTag bytes length st).clearPlacement := by
  unfold endTag
  simp only [ScanState.withPlacement]
  split
  · rfl
  · split
    · rfl
    · split
      · rfl
      · split
        · rfl
        · split
          · rfl
          · split
            · rfl
            · rfl

theorem rawText_withPlacement (bytes : List Byte) (length : Nat) (tag : List Byte) (tagLen j : Nat)
    (st : ScanState) (a b : Bool) :
    (rawText bytes length tag tagLen j (st.withPlacement a b)).clearPlacement
      = (rawText bytes length tag tagLen j st).clearPlacement := by
  unfold rawText
  simp only [ScanState.withPlacement]
  cases skip_raw_text bytes length tag tagLen j with
  | none => rfl
  | some newIndex =>
    simp only
    split <;> rfl

theorem startTagFinish_withPlacement (bytes : List Byte) (length : Nat) (sinks : Sinks)
    (tagId : tag_id) (nameStart nameEnd j : Nat) (s : Bool) (st : ScanState) (a b : Bool) :
    (startTagFinish bytes length sinks tagId nameStart nameEnd j s
        (st.withPlacement a b)).clearPlacement
      = (startTagFinish bytes length sinks tagId nameStart nameEnd j s st).clearPlacement := by
  unfold startTagFinish
  simp only
  split
  · exact rawText_withPlacement bytes length _ _ j { st with events := _ } a b
  · split
    · exact rawText_withPlacement bytes length _ _ j { st with events := _ } a b
    · split
      · exact rawText_withPlacement bytes length _ _ j { st with events := _ } a b
      · rfl

/-- The preflight of a start tag fails in the same way, or passes with the
same classification and the same locals up to the placement flags, whatever
the values of `sawBodyTag` and `inHead` are. -/
theorem startTagPreflight_withPlacement (bytes : List Byte) (length : Nat) (st : ScanState)
    (a b : Bool) :
    (startTagPreflight bytes length (st.withPlacement a b)).map
        (fun head => { head with st := head.st.withPlacement false false })
      = (startTagPreflight bytes length st).map
        (fun head => { head with st := head.st.withPlacement false false }) := by
  unfold startTagPreflight
  simp only [ScanState.withPlacement]
  cases scanTagName bytes length (length - (st.i + 1)) (st.i + 1) with
  | none => rfl
  | some nameEnd =>
    simp only
    by_cases h1 : nameEnd = st.i + 1
    · rw [if_pos h1, if_pos h1]
    · rw [if_neg h1, if_neg h1]
      by_cases h2 : nameEnd < length ∧ (byteAt bytes nameEnd).val ≥ 0x80
      · rw [if_pos h2, if_pos h2]
      · rw [if_neg h2, if_neg h2]
        generalize tag_id_for_ascii_lowercase bytes (st.i + 1) nameEnd = tagId
        by_cases h3 : tagId = TAG_HGROUP
        · rw [if_pos h3, if_pos h3]
        · rw [if_neg h3, if_neg h3]
          cases startTagTable tagId st.tableStack with
          | none => rfl
          | some ts =>
            simp only
            by_cases h4 : is_heading_tag tagId = true ∧ st.headingOpen = true
            · rw [if_pos h4, if_pos h4]
            · rw [if_neg h4, if_neg h4]
              by_cases h5 : tagId = TAG_P ∧ st.formatStack ≠ []
              · rw [if_pos h5, if_pos h5]
              · rw [if_neg h5, if_neg h5]
                by_cases h6 : tagId = TAG_HTML ∧ st.sawContentBeforeHtml = true
                · rw [if_pos h6, if_pos h6]
                · rw [if_neg h6, if_neg h6]
                  have hn1 := startTagPlacement_eq_none tagId
                    (if tagId = TAG_HTML then true else st.sawHtmlTag) a b
                    st.sawContentBeforeHtml st.openTagDepth
                  have hn2 := startTagPlacement_eq_none tagId
                    (if tagId = TAG_HTML then true else st.sawHtmlTag) st.sawBodyTag st.inHead
                    st.sawContentBeforeHtml st.openTagDepth
                  cases hp1 : startTagPlacement tagId
                      (if tagId = TAG_HTML then true else st.sawHtmlTag) a b
                      st.sawContentBeforeHtml st.openTagDepth with
                  | none =>
                    rw [hn2.mpr (hn1.mp hp1)]
                  | some p1 =>
                    cases hp2 : startTagPlacement tagId
                        (if tagId = TAG_HTML then true else st.sawHtmlTag) st.sawBodyTag st.inHead
                        st.sawContentBeforeHtml st.openTagDepth with
                    | none =>
                      rw [hn1.mpr (hn2.mp hp2)] at hp1
                      cases hp1
                    | some p2 => rfl

theorem startTag_withPlacement (bytes : List Byte) (length : Nat) (sinks : Sinks)
    (st : ScanState) (a b : Bool) :
    (startTag bytes length sinks (st.withPlacement a b)).clearPlacement
      = (startTag bytes length sinks st).clearPlacement := by
  have hpre := startTagPreflight_withPlacement bytes length st a b
  unfold startTag
  cases h1 : startTagPreflight bytes length (st.withPlacement a b) with
  | error r1 =>
    cases h2 : startTagPreflight bytes length st with
    | error r2 =>
      rw [h1, h2] at hpre
      simp only [Except.map] at hpre
      injection hpre with hr
      subst hr
      rfl
    | ok head2 =>
      rw [h1, h2] at hpre
      simp only [Except.map] at hpre
      cases hpre
  | ok head1 =>
    cases h2 : startTagPreflight bytes length st with
    | error r2 =>
      rw [h1, h2] at hpre
      simp only [Except.map] at hpre
      cases hpre
    | ok head2 =>
      rw [h1, h2] at hpre
      simp only [Except.map] at hpre
      injection hpre with hhead
      injection hhead with ht hs he hst
      have hev : head1.st.events = head2.st.events := by
        have h := congrArg (fun s : ScanState => s.events) hst
        exact h
      simp only
      rw [ht, hs, he, hev]
      cases attrLoop bytes length sinks (length - head2.nameEnd) head2.nameEnd
          head2.st.events with
      | fail reason events => rfl
      | noTagEnd events => rfl
      | outOfFuel => rfl
      | ended j s events =>
        simp only
        have e1 := startTagFinish_withPlacement bytes length sinks head2.tagId head2.nameStart
          head2.nameEnd j s { head1.st with events := events } false false
        have e2 := startTagFinish_withPlacement bytes length sinks head2.tagId head2.nameStart
          head2.nameEnd j s { head2.st with events := events } false false
        have e3 : ({ head1.st with events := events } : ScanState).withPlacement false false
            = ({ head2.st with events := events } : ScanState).withPlacement false false := by
          have h := congrArg (fun s : ScanState => { s with events := events }) hst
          exact h
        rw [← e1, ← e2, e3]

theorem step_withPlacement (bytes : List Byte) (length : Nat) (sinks : Sinks) (st : ScanState)
    (a b : Bool) :
    (step bytes length sinks (st.withPlacement a b)).clearPlacement
      = (step bytes length sinks st).clearPlacement := by
  unfold step
  have hi : (st.withPlacement a b).i = st.i := rfl
  simp only [hi]
  split
  · rfl
  · split
    · exact textSpan_withPlacement bytes length st a b
    · split
      · rfl
      · split
        · exact commentOrDeclaration_withPlacement bytes length
            { st with sawTagDelimiter := true } a b
        · split
          · exact endTag_withPlacement bytes length { st with sawTagDelimiter := true } a b
          · split
            · exact processingInstruction_withPlacement bytes length
                { st with sawTagDelimiter := true } a b
            · split
              · rfl
              · exact startTag_withPlacement bytes length sinks
                  { st with sawTagDelimiter := true } a b

/-- The outcome of the main loop from given locals does not depend on the
values of `sawBodyTag` and `inHead` among them. -/
theorem mainLoop_withPlacement (bytes : List Byte) (length : Nat) (sinks : Sinks) (n : Nat)
    (st : ScanState) (a b : Bool) :
    mainLoop bytes length sinks n (st.withPlacement a b) = mainLoop bytes length sinks n st := by
  have hi : ∀ (s : ScanState) (x y : Bool), (s.withPlacement x y).i = s.i := fun _ _ _ => rfl
  have hf : ∀ (s : ScanState) (x y : Bool), finish (s.withPlacement x y) = finish s :=
    fun _ _ _ => rfl
  induction n generalizing st a b with
  | zero =>
    unfold mainLoop
    rw [hi, hf]
  | succ n ih =>
    unfold mainLoop
    rw [hi, hf]
    split
    · have hs := step_withPlacement bytes length sinks st a b
      cases h1 : step bytes length sinks (st.withPlacement a b) with
      | fail r1 ev1 =>
        cases h2 : step bytes length sinks st with
        | fail r2 ev2 =>
          rw [h1, h2] at hs
          simp only [Step.clearPlacement] at hs
          injection hs with hr he
          subst hr
          subst he
          rfl
        | next s2 =>
          rw [h1, h2] at hs
          cases hs
        | noResult ev2 =>
          rw [h1, h2] at hs
          cases hs
      | next s1 =>
        cases h2 : step bytes length sinks st with
        | fail r2 ev2 =>
          rw [h1, h2] at hs
          cases hs
        | next s2 =>
          rw [h1, h2] at hs
          simp only [Step.clearPlacement] at hs
          injection hs with hs
          simp only
          rw [← ih s1 false false, ← ih s2 false false, hs]
        | noResult ev2 =>
          rw [h1, h2] at hs
          cases hs
      | noResult ev1 =>
        cases h2 : step bytes length sinks st with
        | fail r2 ev2 =>
          rw [h1, h2] at hs
          cases hs
        | next s2 =>
          rw [h1, h2] at hs
          cases hs
        | noResult ev2 => rfl
    · rfl

/-! ## Where `HEAD_BODY_PLACEMENT` is raised -/

theorem attrNameScan_not_placement {bytes : List Byte} {length : Nat} {n j : Nat}
    {r : swiftsoup_fallback_reason} (h : attrNameScan bytes length n j = Except.error r) :
    r ≠ SWIFTSOUP_FALLBACK_HEAD_BODY_PLACEMENT := by
  induction n generalizing j with
  | zero =>
    unfold attrNameScan at h
    cases h
  | succ n ih =>
    unfold attrNameScan at h
    simp only at h
    split at h
    · split at h
      · cases h
        decide
      · split at h
        · cases h
          decide
        · exact ih h
    · cases h

theorem attrStep_not_placement {bytes : List Byte} {length : Nat} {sinks : Sinks} {j : Nat}
    {events : List Event} {r : swiftsoup_fallback_reason} {events1 : List Event}
    (h : attrStep bytes length sinks j events = AttrStep.fail r events1) :
    r ≠ SWIFTSOUP_FALLBACK_HEAD_BODY_PLACEMENT := by
  unfold attrStep at h
  simp only at h
  split at h
  · cases h
    decide
  · split at h
    · cases h
    · split at h
      · cases h
      · split at h
        · rename_i r2 hscan
          injection h with h1 h2
          subst h1
          exact attrNameScan_not_placement hscan
        · split at h
          · cases h
            decide
          · split at h
            · split at h
              · cases h
                decide
              · split at h
                · cases h
                  decide
                · cases h
            · cases h

theorem attrLoop_not_placement {bytes : List Byte} {length : Nat} {sinks : Sinks} {n j : Nat}
    {events : List Event} {r : swiftsoup_fallback_reason} {events1 : List Event}
    (h : attrLoop bytes length sinks n j events = AttrResult.fail r events1) :
    r ≠ SWIFTSOUP_FALLBACK_HEAD_BODY_PLACEMENT := by
  induction n generalizing j events with
  | zero =>
    unfold attrLoop at h
    split at h <;> cases h
  | succ n ih =>
    unfold attrLoop at h
    split at h
    · split at h
      · rename_i r2 ev2 hstep
        injection h with h1 h2
        subst h1
        exact attrStep_not_placement hstep
      · cases h
      · exact ih h
    · cases h

theorem rawText_not_placement {bytes : List Byte} {length : Nat} {tag : List Byte}
    {tagLen j : Nat} {st : ScanState} {r : swiftsoup_fallback_reason} {events1 : List Event}
    (h : rawText bytes length tag tagLen j st = Step.fail r events1) :
    r ≠ SWIFTSOUP_FALLBACK_HEAD_BODY_PLACEMENT := by
  unfold rawText at h
  cases hs : skip_raw_text bytes length tag tagLen j with
  | none =>
    rw [hs] at h
    cases h
  | some newIndex =>
    rw [hs] at h
    simp only at h
    split at h
    · cases h
    · cases h
      decide

theorem startTagFinish_not_placement {bytes : List Byte} {length : Nat} {sinks : Sinks}
    {tagId : tag_id} {nameStart nameEnd j : Nat} {s : Bool} {st : ScanState}
    {r : swiftsoup_fallback_reason} {events1 : List Event}
    (h : startTagFinish bytes length sinks tagId nameStart nameEnd j s st = Step.fail r events1) :
    r ≠ SWIFTSOUP_FALLBACK_HEAD_BODY_PLACEMENT := by
  unfold startTagFinish at h
  simp only at h
  split at h
  · exact rawText_not_placement h
  · split at h
    · exact rawText_not_placement h
    · split at h
      · exact rawText_not_placement h
      · cases h

theorem textSpan_not_placement {bytes : List Byte} {length : Nat} {st : ScanState}
    {r : swiftsoup_fallback_reason} {events1 : List Event}
    (h : textSpan bytes length st = Step.fail r events1) :
    r ≠ SWIFTSOUP_FALLBACK_HEAD_BODY_PLACEMENT := by
  unfold textSpan at h
  simp only at h
  split at h
  · cases h
    decide
  · cases h

theorem commentOrDeclaration_not_placement {bytes : List Byte} {length : Nat} {st : ScanState}
    {r : swiftsoup_fallback_reason} {events1 : List Event}
    (h : commentOrDeclaration bytes length st = Step.fail r events1) :
    r ≠ SWIFTSOUP_FALLBACK_HEAD_BODY_PLACEMENT := by
  unfold commentOrDeclaration at h
  simp only at h
  split at h
  · cases h
    decide
  · split at h
    · cases h
    · split at h
      · cases hf : findCommentEnd bytes length (length - (st.i + 4) + 1) (st.i + 4) with
        | found j =>
          rw [hf] at h
          cases h
        | notFound =>
          rw [hf] at h
          cases h
          decide
        | noResult =>
          rw [hf] at h
          cases h
      · split at h
        · cases h
          decide
        · cases h

theorem processingInstruction_not_placement {bytes : List Byte} {length : Nat} {st : ScanState}
    {r : swiftsoup_fallback_reason} {events1 : List Event}
    (h : processingInstruction bytes length st = Step.fail r events1) :
    r ≠ SWIFTSOUP_FALLBACK_HEAD_BODY_PLACEMENT := by
  unfold processingInstruction at h
  simp only at h
  split at h
  · cases h
    decide
  · cases h

theorem endTag_not_placement {bytes : List Byte} {length : Nat} {st : ScanState}
    {r : swiftsoup_fallback_reason} {events1 : List Event}
    (h : endTag bytes length st = Step.fail r events1) :
    r ≠ SWIFTSOUP_FALLBACK_HEAD_BODY_PLACEMENT := by
  unfold endTag at h
  simp only at h
  split at h
  · cases h
    decide
  · split at h
    · cases h
      decide
    · split at h
      · cases h
        decide
      · split at h
        · cases h
          decide
        · split at h
          · cases h
            decide
          · split at h
            · cases h
              decide
            · cases h

/-- The preflight of a start tag fails with `HEAD_BODY_PLACEMENT` exactly
when the checks before the placement block pass and the tag is `html` with
`sawContentBeforeHtml` set, or `body` with `sawHtmlTag` clear and
`sawContentBeforeHtml` set or `openTagDepth > 0`. -/
theorem startTagPreflight_placement (bytes : List Byte) (length : Nat) (st : ScanState) :
    startTagPreflight bytes length st = Except.error SWIFTSOUP_FALLBACK_HEAD_BODY_PLACEMENT ↔
      ∃ tagId,
        (∃ nameEnd,
          scanTagName bytes length (length - (st.i + 1)) (st.i + 1) = some nameEnd ∧
          nameEnd ≠ st.i + 1 ∧
          ¬ (nameEnd < length ∧ (byteAt bytes nameEnd).val ≥ 0x80) ∧
          tag_id_for_ascii_lowercase bytes (st.i + 1) nameEnd = tagId ∧
          tagId ≠ TAG_HGROUP ∧
          (startTagTable tagId st.tableStack).isSome = true ∧
          ¬ (is_heading_tag tagId = true ∧ st.headingOpen = true) ∧
          ¬ (tagId = TAG_P ∧ st.formatStack ≠ [])) ∧
        (tagId = TAG_HTML ∧ st.sawContentBeforeHtml = true ∨
          tagId = TAG_BODY ∧ st.sawHtmlTag = false ∧
            (st.sawContentBeforeHtml = true ∨ 0 < st.openTagDepth)) := by
  constructor
  · intro h
    unfold startTagPreflight at h
    simp only at h
    split at h
    · cases h
    · rename_i nameEnd hscan
      split at h
      · cases h
      · rename_i hne
        split at h
        · cases h
        · rename_i hascii
          split at h
          · cases h
          · rename_i hg
            split at h
            · cases h
            · rename_i ts ht
              split at h
              · cases h
              · rename_i hh
                split at h
                · cases h
                · rename_i hp
                  have hsome : (startTagTable (tag_id_for_ascii_lowercase bytes (st.i + 1) nameEnd)
                      st.tableStack).isSome = true := by
                    rw [ht]
                    rfl
                  split at h
                  · rename_i h6
                    exact ⟨_, ⟨nameEnd, hscan, hne, hascii, rfl, hg, hsome, hh, hp⟩, Or.inl h6⟩
                  · rename_i h6
                    split at h
                    · rename_i hpl
                      have hb := (startTagPlacement_eq_none _ _ _ _ _ _).mp hpl
                      refine ⟨_, ⟨nameEnd, hscan, hne, hascii, rfl, hg, hsome, hh, hp⟩,
                        Or.inr ⟨hb.1, ?_, hb.2.2⟩⟩
                      have h7 := hb.2.1
                      rw [hb.1] at h7
                      exact h7
                    · cases h
  · rintro ⟨tagId, ⟨nameEnd, hscan, hne, hascii, htag, hg, ht, hh, hp⟩, hc⟩
    obtain ⟨ts, hts⟩ := Option.isSome_iff_exists.mp ht
    unfold startTagPreflight
    simp only
    rw [hscan]
    simp only
    rw [if_neg hne, if_neg hascii, htag, if_neg hg, hts]
    simp only
    rw [if_neg hh, if_neg hp]
    by_cases h6 : tagId = TAG_HTML ∧ st.sawContentBeforeHtml = true
    · rw [if_pos h6]
    · rw [if_neg h6]
      rcases hc with hc | hc
      · exact absurd hc h6
      · have hnh : tagId ≠ TAG_HTML := by
          rw [hc.1]
          decide
        have hpl := (startTagPlacement_eq_none tagId (if tagId = TAG_HTML then true
          else st.sawHtmlTag) st.sawBodyTag st.inHead st.sawContentBeforeHtml
          st.openTagDepth).mpr ⟨hc.1, by rw [if_neg hnh]; exact hc.2.1, hc.2.2⟩
        rw [hpl]

/-- An iteration of the main loop fails with `HEAD_BODY_PLACEMENT` exactly
when its start-tag branch gets to the placement block with the tag `html`
and `sawContentBeforeHtml` set, or with the tag `body`, `sawHtmlTag` clear,
and `sawContentBeforeHtml` set or `openTagDepth > 0`. -/
theorem step_placement_fail (bytes : List Byte) (length : Nat) (sinks : Sinks) (st : ScanState) :
    (∃ events, step bytes length sinks st
        = Step.fail SWIFTSOUP_FALLBACK_HEAD_BODY_PLACEMENT events) ↔
      ∃ tagId, AtPlacementCheck bytes length st tagId ∧
        (tagId = TAG_HTML ∧ st.sawContentBeforeHtml = true ∨
          tagId = TAG_BODY ∧ st.sawHtmlTag = false ∧
            (st.sawContentBeforeHtml = true ∨ 0 < st.openTagDepth)) := by
  constructor
  · rintro ⟨ev, h⟩
    unfold step at h
    simp only at h
    split at h
    · cases h
    · split at h
      · exact absurd rfl (textSpan_not_placement h)
      · rename_i hlt
        split at h
        · cases h
        · rename_i hi
          split at h
          · exact absurd rfl (commentOrDeclaration_not_placement h)
          · split at h
            · exact absurd rfl (endTag_not_placement h)
            · split at h
              · exact absurd rfl (processingInstruction_not_placement h)
              · split at h
                · cases h
                · rename_i hname
                  unfold startTag at h
                  split at h
                  · rename_i r hpre
                    injection h with hr _
                    subst hr
                    obtain ⟨tagId, hearly, hc⟩ :=
                      (startTagPreflight_placement bytes length _).mp hpre
                    refine ⟨tagId, ⟨?_, ?_, ?_, hearly⟩, hc⟩
                    · exact Classical.not_not.mp hlt
                    · omega
                    · simpa using hname
                  · split at h
                    · cases h
                    · rename_i hloop
                      injection h with hr _
                      subst hr
                      exact absurd rfl (attrLoop_not_placement hloop)
                    · cases h
                    · exact absurd rfl (startTagFinish_not_placement h)
  · rintro ⟨tagId, ⟨hlt, hi, hname, hearly⟩, hc⟩
    rw [step_startTag hlt hi hname]
    have hpre := (startTagPreflight_placement bytes length
      { st with sawTagDelimiter := true }).mpr ⟨tagId, hearly, hc⟩
    unfold startTag
    rw [hpre]
    exact ⟨_, rfl⟩

/-- C31 fails on the code in its "exactly when": on `x<table><html>` the
main loop reaches the `<html>` start tag at offset 8 with
`sawContentBeforeHtml` set, and on `<table><body>` it reaches the `<body>`
start tag at offset 7 with `sawHtmlTag` clear and `openTagDepth = 1`, yet
neither iteration raises `HEAD_BODY_PLACEMENT`: the table heuristics of the
same start tag are checked first and raise `TABLE_HEURISTICS`. -/
theorem C31_counterexample :
    step (cstr "x<table><html>") 14 ⟨true, true, false⟩ ScanState.init
      = Step.next { ScanState.init with i := 1, sawContentBeforeHtml := true } ∧
    step (cstr "x<table><html>") 14 ⟨true, true, false⟩
        { ScanState.init with i := 1, sawContentBeforeHtml := true }
      = Step.next { ScanState.init with
          i := 8, sawTagDelimiter := true, sawContentBeforeHtml := true, openTagDepth := 1,
          tableStack := [⟨0, 0, 0, 0⟩] } ∧
    tag_id_for_ascii_lowercase (cstr "x<table><html>") 9 13 = TAG_HTML ∧
    step (cstr "x<table><html>") 14 ⟨true, true, false⟩
        { ScanState.init with
          i := 8, sawTagDelimiter := true, sawContentBeforeHtml := true, openTagDepth := 1,
          tableStack := [⟨0, 0, 0, 0⟩] }
      = Step.fail SWIFTSOUP_FALLBACK_TABLE_HEURISTICS [] ∧
    decide_input (cstr "x<table><html>")
      = some ⟨1, SWIFTSOUP_FALLBACK_TABLE_HEURISTICS, []⟩ ∧
    step (cstr "<table><body>") 13 ⟨true, true, false⟩ ScanState.init
      = Step.next { ScanState.init with
          i := 7, sawTagDelimiter := true, openTagDepth := 1, tableStack := [⟨0, 0, 0, 0⟩] } ∧
    tag_id_for_ascii_lowercase (cstr "<table><body>") 8 12 = TAG_BODY ∧
    step (cstr "<table><body>") 13 ⟨true, true, false⟩
        { ScanState.init with
          i := 7, sawTagDelimiter := true, openTagDepth := 1, tableStack := [⟨0, 0, 0, 0⟩] }
      = Step.fail SWIFTSOUP_FALLBACK_TABLE_HEURISTICS [] ∧
    decide_input (cstr "<table><body>")
      = some ⟨1, SWIFTSOUP_FALLBACK_TABLE_HEURISTICS, []⟩ := by
  decide!

/-- C31, amended: at every main-loop iteration boundary of the decision
scanner `inHead` is false and `sawHtmlTag` implies `sawBodyTag` (an `<html>`
start tag met with `sawBodyTag` clear takes the branch "not head-allowed, so
`sawBodyTag = 1`" of the placement block); an iteration raises
`HEAD_BODY_PLACEMENT` exactly when its start-tag branch gets as far as the
placement block (the tag-name, `hgroup`, table, heading and paragraph checks
of that start tag pass) and the tag is `html` with `sawContentBeforeHtml`
set, or `body` with `sawHtmlTag` clear and `sawContentBeforeHtml` set or
`openTagDepth > 0`; and the outcome of the main loop from any locals is the
same whatever the values of `sawBodyTag` and `inHead` among them. -/
theorem C31_placement_machine (bytes : List Byte) (length : Nat) (sinks : Sinks) :
    (∀ st, Reaches bytes length sinks st →
      st.inHead = false ∧ (st.sawHtmlTag = true → st.sawBodyTag = true)) ∧
    (∀ (c : Bool) (d : Nat), startTagPlacement TAG_HTML true false false c d = some (true, false)) ∧
    (∀ st, Reaches bytes length sinks st → st.i < length →
      ((∃ events, step bytes length sinks st
          = Step.fail SWIFTSOUP_FALLBACK_HEAD_BODY_PLACEMENT events) ↔
        ∃ tagId, AtPlacementCheck bytes length st tagId ∧
          (tagId = TAG_HTML ∧ st.sawContentBeforeHtml = true ∨
            tagId = TAG_BODY ∧ st.sawHtmlTag = false ∧
              (st.sawContentBeforeHtml = true ∨ 0 < st.openTagDepth)))) ∧
    (∀ (st : ScanState) (sawBodyTag inHead : Bool) (n : Nat),
      mainLoop bytes length sinks n (st.withPlacement sawBodyTag inHead)
        = mainLoop bytes length sinks n st) := by
  refine ⟨fun st h => reaches_placement_invariant h, ?_, ?_, ?_⟩
  · intro c d
    rfl
  · intro st _ _
    exact step_placement_fail bytes length sinks st
  · intro st a b n
    exact mainLoop_withPlacement bytes length sinks n st a b

theorem C31_placement_machine_witness :
    Reaches (cstr "x<html>") 7 ⟨true, true, false⟩
      { ScanState.init with i := 1, sawContentBeforeHtml := true } ∧
    AtPlacementCheck (cstr "x<html>") 7
      { ScanState.init with i := 1, sawContentBeforeHtml := true } TAG_HTML ∧
    ∃ events, step (cstr "x<html>") 7 ⟨true, true, false⟩
        { ScanState.init with i := 1, sawContentBeforeHtml := true }
      = Step.fail SWIFTSOUP_FALLBACK_HEAD_BODY_PLACEMENT events := by
  have hr : Reaches (cstr "x<html>") 7 ⟨true, true, false⟩
      { ScanState.init with i := 1, sawContentBeforeHtml := true } :=
    Reaches.next Reaches.init (by decide) (by decide!)
  have ha : AtPlacementCheck (cstr "x<html>") 7
      { ScanState.init with i := 1, sawContentBeforeHtml := true } TAG_HTML :=
    ⟨by decide!, by decide, by decide!, 6, by decide!, by decide, by decide!, by decide!,
      by decide, by decide!, by decide!, by decide!⟩
  exact ⟨hr, ha,
    ((C31_placement_machine (cstr "x<html>") 7 ⟨true, true, false⟩).2.2.1 _ hr
      (by decide)).mpr ⟨TAG_HTML, ha, Or.inl ⟨rfl, rfl⟩⟩⟩

/-! ## The checked embedding agrees with the first one -/

theorem readAt_eq {bytes : List Byte} {k : Nat} (h : k < bytes.length) :
    readAt bytes k = some (byteAt bytes k) := by
  unfold readAt byteAt
  rw [List.getD_eq_getElem?_getD, List.getElem?_eq_getElem h]
  rfl

theorem tableAt_eq {table : List Nat} {k : Nat} (h : k < table.length) :
    tableAt table k = some (table.getD k 0) := by
  unfold tableAt
  rw [List.getD_eq_getElem?_getD, List.getElem?_eq_getElem h]
  rfl

theorem tableAt_names_eq {k : Nat} (h : k < booleanAttrNames.length) :
    tableAt booleanAttrNames k = some (booleanAttrNames.getD k []) := by
  unfold tableAt
  rw [List.getD_eq_getElem?_getD, List.getElem?_eq_getElem h]
  rfl

theorem readAt_terminated {target : List Byte} {j : Nat} (h : j < target.length) :
    readAt (target ++ [0]) j = some (byteAt target j) := by
  rw [readAt_eq (by simp; omega)]
  unfold byteAt
  rw [List.getD_append _ _ _ _ h]

/-- The sizes of the tables of the boolean dictionary and the ranges of
their entries. -/
theorem booleanTables_bounds :
    booleanAttrLengthLookup.length = 32 ∧
    booleanAttrBucketStart.length = 128 ∧
    booleanAttrBucketCount.length = 128 ∧
    booleanAttrBucketIndices.length = 32 ∧
    booleanAttrLengths.length = 31 ∧
    booleanAttrNames.length = 31 ∧
    (∀ f, f < 128 → booleanAttrBucketStart.getD f 0 + booleanAttrBucketCount.getD f 0 ≤ 31) ∧
    (∀ k, k < 31 → booleanAttrBucketIndices.getD k 0 < 31) ∧
    (∀ i, i < 31 → booleanAttrLengths.getD i 0 ≤ (booleanAttrNames.getD i []).length) := by
  decide!

theorem boolean_attribute_compare_checked_eq {bytes : List Byte} {start : Nat}
    {target : List Byte} (n j : Nat) (hb : start + j + n ≤ bytes.length)
    (ht : j + n ≤ target.length) :
    boolean_attribute_compare_checked bytes start target n j
      = some (boolean_attribute_compare bytes start target n j) := by
  induction n generalizing j with
  | zero => rfl
  | succ n ih =>
    unfold boolean_attribute_compare_checked boolean_attribute_compare
    rw [readAt_eq (by omega), readAt_terminated (by omega)]
    simp only [Option.some_bind]
    split
    · rfl
    · split
      · rfl
      · exact ih (j + 1) (by omega) (by omega)

theorem boolean_attribute_bucket_checked_eq {bytes : List Byte} {start length startOffset : Nat}
    (n idx : Nat) (hb : start + length ≤ bytes.length) (hi : startOffset + idx + n ≤ 31) :
    boolean_attribute_bucket_checked bytes start length startOffset n idx
      = some (boolean_attribute_bucket bytes start length startOffset n idx) := by
  obtain ⟨_, _, _, h4, h5, h6, _, h8, h9⟩ := booleanTables_bounds
  induction n generalizing idx with
  | zero => rfl
  | succ n ih =>
    have he := h8 (startOffset + idx) (by omega)
    rw [boolean_attribute_bucket_checked, boolean_attribute_bucket]
    rw [tableAt_eq (by omega), Option.some_bind, tableAt_eq (by omega), Option.some_bind]
    split
    · exact ih (idx + 1) (by omega)
    · rename_i hlen
      have hlen2 : booleanAttrLengths.getD (booleanAttrBucketIndices.getD (startOffset + idx) 0) 0
          = length := Classical.not_not.mp hlen
      have hnm := h9 _ he
      rw [tableAt_names_eq (by omega), Option.some_bind,
        boolean_attribute_compare_checked_eq length 0 (by omega) (by omega), Option.some_bind]
      cases hm : boolean_attribute_compare bytes start
          (booleanAttrNames.getD (booleanAttrBucketIndices.getD (startOffset + idx) 0) []) length 0 with
      | none => rfl
      | some b =>
        cases b with
        | true => rfl
        | false => exact ih (idx + 1) (by omega)

theorem boolean_attribute_index_checked_eq {bytes : List Byte} {start stop : Nat}
    (hb : stop ≤ bytes.length) :
    boolean_attribute_index_checked bytes start stop
      = some (boolean_attribute_index bytes start stop) := by
  obtain ⟨h1, h2, h3, _, _, _, h7, _, _⟩ := booleanTables_bounds
  unfold boolean_attribute_index_checked boolean_attribute_index
  simp only
  by_cases hl : (stop : Int) - (start : Int) ≤ 0 ∨ (stop : Int) - (start : Int) ≥ 32
  · rw [if_pos hl, if_pos (by rcases hl with h | h; exact Or.inl h; exact Or.inr (Or.inl h))]
  · rw [if_neg hl, tableAt_eq (by omega), Option.some_bind]
    by_cases hk : booleanAttrLengthLookup.getD ((stop : Int) - (start : Int)).toNat 0 = 0
    · rw [if_pos hk, if_pos (Or.inr (Or.inr hk))]
    · rw [if_neg hk, if_neg (by
        rintro (h | h | h)
        · exact hl (Or.inl h)
        · exact hl (Or.inr h)
        · exact hk h)]
      rw [readAt_eq (by omega), Option.some_bind]
      split
      · rfl
      · split
        · rfl
        · rename_i hlow
          have hf := h7 (asciiLowerTable (byteAt bytes start)).val (by omega)
          rw [tableAt_eq (by omega), Option.some_bind, tableAt_eq (by omega), Option.some_bind]
          exact boolean_attribute_bucket_checked_eq _ 0 (by omega) (by omega)

theorem advanceWhile_checked_eq {bytes : List Byte} {length : Nat} (cond : Byte → Bool)
    (n j : Nat) (hlen : length ≤ bytes.length) :
    advanceWhile_checked bytes length cond n j = some (advanceWhile bytes length cond n j) := by
  induction n generalizing j with
  | zero => rfl
  | succ n ih =>
    unfold advanceWhile_checked advanceWhile
    by_cases hj : j < length
    · rw [if_pos hj, readAt_eq (by omega), Option.some_bind]
      by_cases hc : cond (byteAt bytes j) = true
      · rw [if_pos hc, if_pos ⟨hj, hc⟩]
        exact ih (j + 1)
      · rw [if_neg hc, if_neg (fun h => hc h.2)]
    · rw [if_neg hj, if_neg (fun h => hj h.1)]

theorem memchr_checked_eq {bytes : List Byte} {start : Nat} (c : Byte) {n : Nat}
    (h : start + n ≤ bytes.length) :
    memchr_checked bytes start c n = some (memchr bytes start c n) := by
  unfold memchr_checked
  rw [if_pos h]

theorem matches_tag_loop_checked_eq {bytes : List Byte} {start : Nat} {tag : List Byte}
    (n i : Nat) (hb : start + i + n ≤ bytes.length) :
    matches_tag_loop_checked bytes start tag n i
      = some ((List.range' i n).all (fun i =>
          let b := byteAt bytes (start + i)
          !(decide (b.val ≥ 0x80)) && (asciiLowerTable b == byteAt tag i))) := by
  induction n generalizing i with
  | zero => rfl
  | succ n ih =>
    unfold matches_tag_loop_checked
    rw [readAt_eq (by omega), Option.some_bind, List.range'_succ, List.all_cons]
    split
    · rename_i h
      simp [h]
    · rename_i h
      split
      · rename_i h2
        simp [h2]
      · rename_i h2
        rw [ih (i + 1) (by omega)]
        have h3 : asciiLowerTable (byteAt bytes (start + i)) = byteAt tag i :=
          Classical.not_not.mp h2
        simp [h, h3]

theorem matches_tag_checked_eq {bytes : List Byte} {start stop : Nat} (tag : List Byte)
    (length : Nat) (hb : stop ≤ bytes.length) :
    matches_tag_checked bytes start stop tag length
      = some (matches_tag bytes start stop tag length) := by
  unfold matches_tag_checked matches_tag
  split
  · rfl
  · rename_i h
    rw [matches_tag_loop_checked_eq length 0 (by omega), List.range_eq_range']

theorem tagCase_checked_eq {bytes : List Byte} {start stop : Nat} (first c : Byte)
    (tag : List Byte) (n : Nat) (t r : tag_id) (hb : stop ≤ bytes.length) :
    tagCase_checked bytes start stop first c tag n t (some r)
      = some (if first = c ∧ matches_tag bytes start stop tag n = true then t else r) := by
  unfold tagCase_checked
  rw [matches_tag_checked_eq tag n hb, Option.some_bind]
  by_cases h1 : first = c
  · rw [if_pos h1]
    by_cases h2 : matches_tag bytes start stop tag n = true
    · rw [if_pos h2, if_pos ⟨h1, h2⟩]
    · rw [if_neg h2, if_neg (fun h => h2 h.2)]
  · rw [if_neg h1, if_neg (fun h => h1 h.1)]

theorem some_ite {α : Type} (c : Prop) [Decidable c] (a b : α) :
    (if c then some a else some b) = some (if c then a else b) := by
  split <;> rfl

theorem classify_checked_len1 {bytes : List Byte} {start : Nat} (hb : start + 1 ≤ bytes.length) :
    tag_id_for_ascii_lowercase_checked bytes start (start + 1)
      = some (tag_id_for_ascii_lowercase bytes start (start + 1)) := by
  have hI : ((start + 1 : Nat) : Int) - (start : Int) = 1 := by push_cast; omega
  unfold tag_id_for_ascii_lowercase_checked tag_id_for_ascii_lowercase
  simp only [hI, readAt_eq (show start < bytes.length by omega), Option.some_bind]
  rfl

theorem classify_checked_len2 {bytes : List Byte} {start : Nat} (hb : start + 2 ≤ bytes.length) :
    tag_id_for_ascii_lowercase_checked bytes start (start + 2)
      = some (tag_id_for_ascii_lowercase bytes start (start + 2)) := by
  have hI : ((start + 2 : Nat) : Int) - (start : Int) = 2 := by push_cast; omega
  unfold tag_id_for_ascii_lowercase_checked tag_id_for_ascii_lowercase
  simp only [hI, readAt_eq (show start < bytes.length by omega),
    readAt_eq (show start + 1 < bytes.length by omega), Option.some_bind, some_ite,
    tagCase_checked_eq _ _ _ _ _ _ hb]
  show some _ = some _
  refine congrArg some ?_
  generalize asciiLowerTable (byteAt bytes start) = f
  generalize asciiLowerTable (byteAt bytes (start + 1)) = s
  generalize matches_tag bytes start (start + 2) (cstr "em") 2 = m1
  generalize matches_tag bytes start (start + 2) (cstr "br") 2 = m2
  change _ = (if f = 101 ∧ m1 = true then TAG_EM else _)
  by_cases ht : f = 116
  · subst ht
    simp
  · by_cases hh : f = 104
    · subst hh
      simp
    · simp [ht, hh]

theorem classify_checked_len3 {bytes : List Byte} {start : Nat} (hb : start + 3 ≤ bytes.length) :
    tag_id_for_ascii_lowercase_checked bytes start (start + 3)
      = some (tag_id_for_ascii_lowercase bytes start (start + 3)) := by
  have hI : ((start + 3 : Nat) : Int) - (start : Int) = 3 := by push_cast; omega
  unfold tag_id_for_ascii_lowercase_checked tag_id_for_ascii_lowercase
  simp only [hI, readAt_eq (show start < bytes.length by omega), Option.some_bind,
    tagCase_checked_eq _ _ _ _ _ _ hb]
  rfl

theorem classify_checked_len4 {bytes : List Byte} {start : Nat} (hb : start + 4 ≤ bytes.length) :
    tag_id_for_ascii_lowercase_checked bytes start (start + 4)
      = some (tag_id_for_ascii_lowercase bytes start (start + 4)) := by
  have hI : ((start + 4 : Nat) : Int) - (start : Int) = 4 := by push_cast; omega
  unfold tag_id_for_ascii_lowercase_checked tag_id_for_ascii_lowercase
  simp only [hI, readAt_eq (show start < bytes.length by omega), Option.some_bind,
    tagCase_checked_eq _ _ _ _ _ _ hb]
  rfl

theorem classify_checked_len5 {bytes : List Byte} {start : Nat} (hb : start + 5 ≤ bytes.length) :
    tag_id_for_ascii_lowercase_checked bytes start (start + 5)
      = some (tag_id_for_ascii_lowercase bytes start (start + 5)) := by
  have hI : ((start + 5 : Nat) : Int) - (start : Int) = 5 := by push_cast; omega
  unfold tag_id_for_ascii_lowercase_checked tag_id_for_ascii_lowercase
  simp only [hI, readAt_eq (show start < bytes.length by omega), Option.some_bind,
    tagCase_checked_eq _ _ _ _ _ _ hb]
  rfl

theorem classify_checked_len6 {bytes : List Byte} {start : Nat} (hb : start + 6 ≤ bytes.length) :
    tag_id_for_ascii_lowercase_checked bytes start (start + 6)
      = some (tag_id_for_ascii_lowercase bytes start (start + 6)) := by
  have hI : ((start + 6 : Nat) : Int) - (start : Int) = 6 := by push_cast; omega
  unfold tag_id_for_ascii_lowercase_checked tag_id_for_ascii_lowercase
  simp only [hI, readAt_eq (show start < bytes.length by omega), Option.some_bind,
    tagCase_checked_eq _ _ _ _ _ _ hb]
  rfl

theorem classify_checked_len7 {bytes : List Byte} {start : Nat} (hb : start + 7 ≤ bytes.length) :
    tag_id_for_ascii_lowercase_checked bytes start (start + 7)
      = some (tag_id_for_ascii_lowercase bytes start (start + 7)) := by
  have hI : ((start + 7 : Nat) : Int) - (start : Int) = 7 := by push_cast; omega
  unfold tag_id_for_ascii_lowercase_checked tag_id_for_ascii_lowercase
  simp only [hI, readAt_eq (show start < bytes.length by omega), Option.some_bind,
    tagCase_checked_eq _ _ _ _ _ _ hb]
  rfl

theorem classify_checked_len8 {bytes : List Byte} {start : Nat} (hb : start + 8 ≤ bytes.length) :
    tag_id_for_ascii_lowercase_checked bytes start (start + 8)
      = some (tag_id_for_ascii_lowercase bytes start (start + 8)) := by
  have hI : ((start + 8 : Nat) : Int) - (start : Int) = 8 := by push_cast; omega
  unfold tag_id_for_ascii_lowercase_checked tag_id_for_ascii_lowercase
  simp only [hI, readAt_eq (show start < bytes.length by omega), Option.some_bind,
    tagCase_checked_eq _ _ _ _ _ _ hb]
  rfl

theorem tag_id_for_ascii_lowercase_checked_eq {bytes : List Byte} {start stop : Nat}
    (hb : stop ≤ bytes.length) :
    tag_id_for_ascii_lowercase_checked bytes start stop
      = some (tag_id_for_ascii_lowercase bytes start stop) := by
  rcases Nat.lt_or_ge start stop with hlt | hge
  · obtain ⟨m, rfl⟩ : ∃ m, stop = start + m := ⟨stop - start, by omega⟩
    rcases Nat.lt_or_ge 8 m with h8 | h8
    · have hI : ((start + m : Nat) : Int) - (start : Int) = (m : Int) := by push_cast; omega
      obtain ⟨k, rfl⟩ : ∃ k, m = k + 9 := ⟨m - 9, by omega⟩
      unfold tag_id_for_ascii_lowercase_checked tag_id_for_ascii_lowercase
      simp only [hI]
      rw [if_neg (by omega), if_neg (by omega), readAt_eq (by omega), Option.some_bind]
      simp only [Int.toNat_ofNat]
    · interval_cases m
      · omega
      · exact classify_checked_len1 hb
      · exact classify_checked_len2 hb
      · exact classify_checked_len3 hb
      · exact classify_checked_len4 hb
      · exact classify_checked_len5 hb
      · exact classify_checked_len6 hb
      · exact classify_checked_len7 hb
      · exact classify_checked_len8 hb
  · have hI : (stop : Int) - (start : Int) ≤ 0 := by omega
    unfold tag_id_for_ascii_lowercase_checked tag_id_for_ascii_lowercase
    simp only
    rw [if_pos hI, if_pos hI]

theorem guardedTest_eq {guard : Bool} {bytes : List Byte} {k : Nat} (test : Byte → Bool)
    (h : guard = true → k < bytes.length) :
    guardedTest guard bytes k test = some (guard && test (byteAt bytes k)) := by
  unfold guardedTest
  cases guard
  · rfl
  · rw [if_pos rfl, readAt_eq (h rfl), Option.some_bind]
    rfl

theorem skip_raw_text_name_checked_eq {bytes : List Byte} {j : Nat} {tag : List Byte}
    (n k : Nat) (hb : j + 2 + k + n ≤ bytes.length) :
    skip_raw_text_name_checked bytes j tag n k = some (skip_raw_text_name bytes j tag n k) := by
  induction n generalizing k with
  | zero => rfl
  | succ n ih =>
    unfold skip_raw_text_name_checked skip_raw_text_name
    rw [readAt_eq (by omega), Option.some_bind]
    simp only
    by_cases hc : (byteAt bytes (j + 2 + k)).val ≥ 0x80 ∨
        asciiLowerTable (byteAt bytes (j + 2 + k)) ≠ byteAt tag k
    · rw [if_pos hc, if_pos hc]
    · rw [if_neg hc, if_neg hc]
      exact ih (k + 1) (by omega)

theorem skip_raw_text_loop_checked_eq {bytes : List Byte} {length : Nat} {tag : List Byte}
    {tagLen : Nat} (n j : Nat) (hlen : length ≤ bytes.length) :
    skip_raw_text_loop_checked bytes length tag tagLen n j
      = some (skip_raw_text_loop bytes length tag tagLen n j) := by
  induction n generalizing j with
  | zero => rfl
  | succ n ih =>
    rw [skip_raw_text_loop_checked, skip_raw_text_loop]
    by_cases hg : j + tagLen + 2 < length
    · rw [if_pos hg, if_pos hg, guardedTest_eq _ (fun _ => by omega), Option.some_bind,
        guardedTest_eq _ (fun _ => by omega), Option.some_bind]
      by_cases hc : byteAt bytes j = 0x3C ∧ byteAt bytes (j + 1) = 0x2F
      · rw [if_pos (by simp [hc.1, hc.2]), if_pos hc,
          skip_raw_text_name_checked_eq tagLen 0 (by omega), Option.some_bind]
        by_cases hk : skip_raw_text_name bytes j tag tagLen 0 = tagLen
        · rw [if_pos hk, if_pos hk]
          simp only
          rw [advanceWhile_checked_eq _ _ _ hlen, Option.some_bind]
          split
          · rfl
          · split <;> rfl
        · rw [if_neg hk, if_neg hk]
          exact ih (j + 1)
      · rw [if_neg (by simpa using hc), if_neg hc]
        exact ih (j + 1)
    · rw [if_neg hg, if_neg hg]
      split <;> rfl

theorem skip_raw_text_checked_eq {bytes : List Byte} {length : Nat} (tag : List Byte)
    (tagLen start : Nat) (hlen : length ≤ bytes.length) :
    skip_raw_text_checked bytes length tag tagLen start
      = some (skip_raw_text bytes length tag tagLen start) :=
  skip_raw_text_loop_checked_eq _ _ hlen

theorem nextTagIndex_checked_eq {bytes : List Byte} {length : Nat} (i : Nat)
    (hlen : length ≤ bytes.length) :
    nextTagIndex_checked bytes length i = some (nextTagIndex bytes length i) := by
  unfold nextTagIndex_checked nextTagIndex
  simp only
  by_cases h : i + 1 < length
  · rw [if_pos h, if_pos h, memchr_checked_eq _ (by omega), Option.some_bind]
    cases memchr bytes (i + 1) 0x3C (length - (i + 1)) <;> rfl
  · rw [if_neg h, if_neg h]
    rfl

theorem sawNonWhitespace_checked_eq {bytes : List Byte} {next : Nat} (n j : Nat)
    (hn : j + n = next) (hb : next ≤ bytes.length) :
    sawNonWhitespace_checked bytes next n j
      = some ((List.range n).any (fun k => !isWhitespaceTable (byteAt bytes (j + k)))) := by
  induction n generalizing j with
  | zero => rfl
  | succ n ih =>
    unfold sawNonWhitespace_checked
    rw [if_pos (by omega), readAt_eq (by omega), Option.some_bind, List.range_succ_eq_map,
      List.any_cons, List.any_map]
    by_cases hc : (!isWhitespaceTable (byteAt bytes j)) = true
    · rw [if_pos hc]
      simp [hc]
    · rw [if_neg hc, ih (j + 1) (by omega)]
      have hc2 : (!isWhitespaceTable (byteAt bytes j)) = false := by simpa using hc
      simp only [Nat.add_zero, hc2, Bool.false_or, Function.comp_def]
      congr 2
      funext k
      rw [Nat.add_assoc, Nat.add_comm 1 k]

theorem textSpanPlacement_checked_eq {bytes : List Byte} (st : ScanState) {next : Nat}
    (hi : st.i ≤ next) (hb : next ≤ bytes.length) :
    textSpanPlacement_checked bytes st next = some (textSpanPlacement bytes st next) := by
  unfold textSpanPlacement_checked textSpanPlacement
  simp only
  split
  · rw [sawNonWhitespace_checked_eq (next - st.i) st.i (by omega) hb, Option.some_bind]
    repeat' split
    all_goals rfl
  · rfl

theorem textSpan_checked_eq {bytes : List Byte} {length : Nat} (st : ScanState)
    (hi : st.i < length) (hlen : length ≤ bytes.length) :
    textSpan_checked bytes length st = some (textSpan bytes length st) := by
  have hb := nextTagIndex_bounds bytes length st.i hi
  unfold textSpan_checked textSpan
  simp only
  rw [nextTagIndex_checked_eq _ hlen, Option.some_bind, memchr_checked_eq _ (by omega),
    Option.some_bind]
  split
  · rfl
  · rw [textSpanPlacement_checked_eq st (by omega) (by omega), Option.some_bind]

theorem ite_of_iff {α : Type} {p q : Prop} [Decidable p] [Decidable q] (h : p ↔ q) (a b : α) :
    (if p then a else b) = if q then a else b := by
  by_cases hq : q
  · rw [if_pos hq, if_pos (h.mpr hq)]
  · rw [if_neg hq, if_neg (fun hp => hq (h.mp hp))]

theorem findCommentEnd_checked_eq {bytes : List Byte} {length : Nat} (n j : Nat)
    (hlen : length ≤ bytes.length) :
    findCommentEnd_checked bytes length n j = some (findCommentEnd bytes length n j) := by
  induction n generalizing j with
  | zero => rfl
  | succ n ih =>
    unfold findCommentEnd_checked findCommentEnd
    by_cases hg : j + 2 < length
    · rw [if_pos hg, if_pos hg, guardedTest_eq _ (fun _ => by omega), Option.some_bind,
        guardedTest_eq _ (fun _ => by omega), Option.some_bind,
        guardedTest_eq _ (fun _ => by omega), Option.some_bind]
      rw [ite_of_iff (q := byteAt bytes j = 0x2D ∧ byteAt bytes (j + 1) = 0x2D ∧
        byteAt bytes (j + 2) = 0x3E) (by simp [and_assoc])]
      split
      · rfl
      · exact ih (j + 1)
    · rw [if_neg hg, if_neg hg]
      split <;> rfl

theorem seekGt_checked_eq {bytes : List Byte} {length : Nat} (j : Nat)
    (hlen : length ≤ bytes.length) :
    seekGt_checked bytes length j = some (seekGt bytes length j) :=
  advanceWhile_checked_eq _ _ _ hlen

theorem skipWhitespace_checked_eq {bytes : List Byte} {length : Nat} (j : Nat)
    (hlen : length ≤ bytes.length) :
    skipWhitespace_checked bytes length j = some (skipWhitespace bytes length j) :=
  advanceWhile_checked_eq _ _ _ hlen

theorem commentOrDeclaration_checked_eq {bytes : List Byte} {length : Nat} (st : ScanState)
    (hlen : length ≤ bytes.length) :
    commentOrDeclaration_checked bytes length st
      = some (commentOrDeclaration bytes length st) := by
  unfold commentOrDeclaration_checked commentOrDeclaration
  simp only
  by_cases ho : ¬ st.i + 4 < length ∧ INT_MAX < st.i + 4
  · rw [if_pos ho, if_neg (fun h => ho.1 h.1), if_pos ho]
  · rw [if_neg ho, guardedTest_eq _ (fun h => by simp at h; omega), Option.some_bind,
      guardedTest_eq _ (fun h => by simp at h; omega), Option.some_bind,
      guardedTest_eq _ (fun h => by simp at h; omega), Option.some_bind]
    rw [ite_of_iff (q := st.i + 4 < length ∧ byteAt bytes (st.i + 2) = 0x2D ∧
      byteAt bytes (st.i + 3) = 0x2D ∧ byteAt bytes (st.i + 4) = 0x2D) (by simp [and_assoc])]
    by_cases hd : st.i + 4 < length ∧ byteAt bytes (st.i + 2) = 0x2D ∧
        byteAt bytes (st.i + 3) = 0x2D ∧ byteAt bytes (st.i + 4) = 0x2D
    · rw [if_pos hd, if_pos hd]
    · rw [if_neg hd, if_neg hd, if_neg ho,
        guardedTest_eq _ (fun h => by simp at h; omega), Option.some_bind,
        guardedTest_eq _ (fun h => by simp at h; omega), Option.some_bind]
      rw [ite_of_iff (q := st.i + 3 < length ∧ byteAt bytes (st.i + 2) = 0x2D ∧
        byteAt bytes (st.i + 3) = 0x2D) (by simp [and_assoc])]
      by_cases hc : st.i + 3 < length ∧ byteAt bytes (st.i + 2) = 0x2D ∧
          byteAt bytes (st.i + 3) = 0x2D
      · rw [if_pos hc, if_pos hc, findCommentEnd_checked_eq _ _ hlen, Option.some_bind]
        cases findCommentEnd bytes length (length - (st.i + 4) + 1) (st.i + 4) <;> rfl
      · rw [if_neg hc, if_neg hc, seekGt_checked_eq _ hlen, Option.some_bind]
        split <;> rfl

theorem scanTagName_checked_eq {bytes : List Byte} {length : Nat} (n j : Nat)
    (hlen : length ≤ bytes.length) :
    scanTagName_checked bytes length n j = some (scanTagName bytes length n j) := by
  induction n generalizing j with
  | zero => rfl
  | succ n ih =>
    unfold scanTagName_checked scanTagName
    by_cases hj : j < length
    · rw [if_pos hj, readAt_eq (by omega), Option.some_bind]
      by_cases hc : isNameCharTable (byteAt bytes j) = true
      · rw [if_pos hc, if_pos (show j < length ∧ isNameCharTable (byteAt bytes j) = true
          from ⟨hj, hc⟩)]
        by_cases h3 : byteAt bytes j = 0x3A
        · rw [if_pos h3, if_pos h3]
        · rw [if_neg h3, if_neg h3]
          exact ih (j + 1)
      · rw [if_neg hc, if_neg (fun h => hc h.2)]
    · rw [if_neg hj, if_neg (fun h => hj h.1)]

theorem scanTagName_le {bytes : List Byte} {length n j r : Nat}
    (h : scanTagName bytes length n j = some r) (hj : j ≤ length) : r ≤ length := by
  induction n generalizing j with
  | zero =>
    unfold scanTagName at h
    injection h with h
    omega
  | succ n ih =>
    unfold scanTagName at h
    split at h
    · rename_i hc
      split at h
      · cases h
      · exact ih h (by omega)
    · injection h with h
      omega

theorem processingInstruction_checked_eq {bytes : List Byte} {length : Nat} (st : ScanState)
    (hlen : length ≤ bytes.length) :
    processingInstruction_checked bytes length st
      = some (processingInstruction bytes length st) := by
  unfold processingInstruction_checked processingInstruction
  simp only
  rw [seekGt_checked_eq _ hlen, Option.some_bind]
  split <;> rfl

theorem endTag_checked_eq {bytes : List Byte} {length : Nat} (st : ScanState)
    (hi : st.i + 1 < length) (hlen : length ≤ bytes.length) :
    endTag_checked bytes length st = some (endTag bytes length st) := by
  unfold endTag_checked endTag
  simp only
  rw [scanTagName_checked_eq _ _ hlen, Option.some_bind]
  cases hscan : scanTagName bytes length (length - (st.i + 2)) (st.i + 2) with
  | none => rfl
  | some nameEnd =>
    have hle := scanTagName_le hscan (by omega)
    simp only
    split
    · rfl
    · rw [guardedTest_eq _ (fun h => by simp at h; omega), Option.some_bind]
      rw [ite_of_iff (q := nameEnd < length ∧ (byteAt bytes nameEnd).val ≥ 0x80) (by simp)]
      split
      · rfl
      · rw [tag_id_for_ascii_lowercase_checked_eq (by omega), Option.some_bind]
        split
        · rfl
        · cases endTagFormatting (tag_id_for_ascii_lowercase bytes (st.i + 2) nameEnd)
              st.formatStack with
          | none => rfl
          | some formatStack =>
            simp only
            rw [seekGt_checked_eq _ hlen, Option.some_bind]
            split <;> rfl

theorem attrNameScan_checked_eq {bytes : List Byte} {length : Nat} (n j : Nat)
    (hlen : length ≤ bytes.length) :
    attrNameScan_checked bytes length n j = some (attrNameScan bytes length n j) := by
  induction n generalizing j with
  | zero => rfl
  | succ n ih =>
    unfold attrNameScan_checked attrNameScan
    simp only
    by_cases hj : j < length
    · rw [if_pos hj, readAt_eq (by omega), Option.some_bind]
      by_cases hc : isWhitespaceTable (byteAt bytes j) = false ∧ byteAt bytes j ≠ 0x3D ∧
          byteAt bytes j ≠ 0x3E ∧ byteAt bytes j ≠ 0x2F
      · rw [if_pos hc, if_pos (show j < length ∧ isWhitespaceTable (byteAt bytes j) = false ∧
          byteAt bytes j ≠ 0x3D ∧ byteAt bytes j ≠ 0x3E ∧ byteAt bytes j ≠ 0x2F from ⟨hj, hc⟩)]
        by_cases h1 : (byteAt bytes j).val ≥ 0x80
        · rw [if_pos h1, if_pos h1]
        · rw [if_neg h1, if_neg h1]
          by_cases h2 : byteAt bytes j = 0x22 ∨ byteAt bytes j = 0x27 ∨ byteAt bytes j = 0x00 ∨
              byteAt bytes j = 0x3C ∨ byteAt bytes j = 0x3E
          · rw [if_pos h2, if_pos h2]
          · rw [if_neg h2, if_neg h2]
            exact ih (j + 1)
      · rw [if_neg hc, if_neg (fun h => hc h.2)]
    · rw [if_neg hj, if_neg (fun h => hj h.1)]

theorem unquotedValueScan_checked_eq {bytes : List Byte} {length : Nat} (n j : Nat)
    (hlen : length ≤ bytes.length) :
    unquotedValueScan_checked bytes length n j = some (unquotedValueScan bytes length n j) := by
  induction n generalizing j with
  | zero => rfl
  | succ n ih =>
    unfold unquotedValueScan_checked unquotedValueScan
    simp only
    by_cases hj : j < length
    · rw [if_pos hj, readAt_eq (by omega), Option.some_bind]
      by_cases hc : isWhitespaceTable (byteAt bytes j) = false ∧ byteAt bytes j ≠ 0x3E
      · rw [if_pos hc, if_pos (show j < length ∧ isWhitespaceTable (byteAt bytes j) = false ∧
          byteAt bytes j ≠ 0x3E from ⟨hj, hc⟩)]
        by_cases h2 : byteAt bytes j = 0x3C ∨ byteAt bytes j = 0x22 ∨ byteAt bytes j = 0x27
        · rw [if_pos h2, if_pos h2]
        · rw [if_neg h2, if_neg h2]
          exact ih (j + 1)
      · rw [if_neg hc, if_neg (fun h => hc h.2)]
    · rw [if_neg hj, if_neg (fun h => hj h.1)]

theorem attrValue_checked_eq {bytes : List Byte} {length : Nat} {j : Nat} (hj : j < length)
    (hlen : length ≤ bytes.length) :
    attrValue_checked bytes length j = some (attrValue bytes length j) := by
  unfold attrValue_checked attrValue
  simp only
  rw [readAt_eq (by omega), Option.some_bind]
  by_cases hq : byteAt bytes j = 0x22 ∨ byteAt bytes j = 0x27
  · rw [if_pos hq, if_pos hq]
    by_cases h1 : j + 1 ≥ length
    · rw [if_pos h1, if_pos h1]
    · rw [if_neg h1, if_neg h1, memchr_checked_eq _ (by omega), Option.some_bind]
      cases hm : memchr bytes (j + 1) (byteAt bytes j) (length - (j + 1)) with
      | none => rfl
      | some stop =>
        have hs := memchr_some hm
        simp only
        rw [memchr_checked_eq _ (by omega), Option.some_bind]
        split <;> rfl
  · rw [if_neg hq, if_neg hq]
    by_cases h2 : byteAt bytes j = 0x3C ∨ byteAt bytes j = 0x3D
    · rw [if_pos h2, if_pos h2]
    · rw [if_neg h2, if_neg h2]
      exact unquotedValueScan_checked_eq _ _ hlen

theorem attrStep_checked_eq {bytes : List Byte} {length : Nat} (sinks : Sinks) {j : Nat}
    (events : List Event) (hj : j < length) (hlen : length ≤ bytes.length) :
    attrStep_checked bytes length sinks j events = some (attrStep bytes length sinks j events) := by
  have h1 := skipWhitespace_le bytes length j (by omega)
  unfold attrStep_checked attrStep
  simp only
  rw [skipWhitespace_checked_eq _ hlen, Option.some_bind]
  by_cases hge : skipWhitespace bytes length j ≥ length
  · rw [if_pos hge, if_pos hge]
  · rw [if_neg hge, if_neg hge, readAt_eq (by omega), Option.some_bind]
    by_cases hgt : byteAt bytes (skipWhitespace bytes length j) = 0x3E
    · rw [if_pos hgt, if_pos hgt]
    · rw [if_neg hgt, if_neg hgt, guardedTest_eq _ (fun h => by simp at h; omega),
        Option.some_bind]
      rw [ite_of_iff (q := byteAt bytes (skipWhitespace bytes length j) = 0x2F ∧
        skipWhitespace bytes length j + 1 < length ∧
        byteAt bytes (skipWhitespace bytes length j + 1) = 0x3E) (by simp [and_assoc])]
      by_cases hsl : byteAt bytes (skipWhitespace bytes length j) = 0x2F ∧
          skipWhitespace bytes length j + 1 < length ∧
          byteAt bytes (skipWhitespace bytes length j + 1) = 0x3E
      · rw [if_pos hsl, if_pos hsl]
      · rw [if_neg hsl, if_neg hsl, attrNameScan_checked_eq _ _ hlen, Option.some_bind]
        cases hscan : attrNameScan bytes length (length - skipWhitespace bytes length j)
            (skipWhitespace bytes length j) with
        | error reason => rfl
        | ok j2 =>
          have h2le := attrNameScan_le hscan (by omega)
          have h3le := skipWhitespace_le bytes length j2 h2le
          simp only
          by_cases hemp : skipWhitespace bytes length j = j2
          · rw [if_pos hemp, if_pos hemp]
          · rw [if_neg hemp, if_neg hemp, boolean_attribute_index_checked_eq (by omega),
              Option.some_bind, skipWhitespace_checked_eq _ hlen, Option.some_bind,
              guardedTest_eq _ (fun h => by simp at h; omega), Option.some_bind]
            rw [ite_of_iff (q := skipWhitespace bytes length j2 < length ∧
              byteAt bytes (skipWhitespace bytes length j2) = 0x3D) (by simp)]
            by_cases heq : skipWhitespace bytes length j2 < length ∧
                byteAt bytes (skipWhitespace bytes length j2) = 0x3D
            · rw [if_pos heq, if_pos heq, skipWhitespace_checked_eq _ hlen, Option.some_bind]
              by_cases h4 : skipWhitespace bytes length (skipWhitespace bytes length j2 + 1)
                  ≥ length
              · rw [if_pos h4, if_pos h4]
              · rw [if_neg h4, if_neg h4, attrValue_checked_eq (by omega) hlen,
                  Option.some_bind]
                cases attrValue bytes length
                  (skipWhitespace bytes length (skipWhitespace bytes length j2 + 1)) <;> rfl
            · rw [if_neg heq, if_neg heq]

theorem attrLoop_checked_eq {bytes : List Byte} {length : Nat} (sinks : Sinks) (n j : Nat)
    (events : List Event) (hlen : length ≤ bytes.length) :
    attrLoop_checked bytes length sinks n j events
      = some (attrLoop bytes length sinks n j events) := by
  induction n generalizing j events with
  | zero =>
    unfold attrLoop_checked attrLoop
    split <;> rfl
  | succ n ih =>
    unfold attrLoop_checked attrLoop
    by_cases hj : j < length
    · rw [if_pos hj, if_pos hj, attrStep_checked_eq sinks events hj hlen, Option.some_bind]
      cases attrStep bytes length sinks j events with
      | fail reason events1 => rfl
      | ended j1 s events1 => rfl
      | again j1 events1 => exact ih j1 events1
    · rw [if_neg hj, if_neg hj]

theorem scanBack_le (bytes : List Byte) (nameEnd n scan : Nat) :
    scanBack bytes nameEnd n scan ≤ scan := by
  induction n generalizing scan with
  | zero =>
    unfold scanBack
    exact Nat.le_refl _
  | succ n ih =>
    unfold scanBack
    split
    · exact Nat.le_trans (ih (scan - 1)) (Nat.sub_le _ _)
    · exact Nat.le_refl _

theorem scanBack_checked_eq {bytes : List Byte} {nameEnd : Nat} (n scan : Nat)
    (hb : scan < bytes.length) :
    scanBack_checked bytes nameEnd n scan = some (scanBack bytes nameEnd n scan) := by
  induction n generalizing scan with
  | zero => rfl
  | succ n ih =>
    unfold scanBack_checked scanBack
    by_cases hs : scan > nameEnd
    · rw [if_pos hs, readAt_eq hb, Option.some_bind]
      by_cases hw : isWhitespaceTable (byteAt bytes scan) = true
      · rw [if_pos hw, if_pos ⟨hs, hw⟩]
        exact ih (scan - 1) (by omega)
      · rw [if_neg hw, if_neg (fun h => hw h.2)]
    · rw [if_neg hs, if_neg (fun h => hs h.1)]

theorem selfClosingFlag_checked_eq {bytes : List Byte} {nameEnd j : Nat} (s : Bool)
    (hj : j ≤ bytes.length) :
    selfClosingFlag_checked bytes nameEnd j s = some (selfClosingFlag bytes nameEnd j s) := by
  unfold selfClosingFlag_checked selfClosingFlag
  simp only
  split
  · rfl
  · split
    · have hle := scanBack_le bytes nameEnd (j - 1 - nameEnd) (j - 1)
      rw [scanBack_checked_eq _ _ (by omega), Option.some_bind, readAt_eq (by omega),
        Option.some_bind]
    · rfl

theorem mapM_option_eq {α β : Type} (f : α → Option β) (g : α → β) (l : List α)
    (h : ∀ a ∈ l, f a = some (g a)) : l.mapM f = some (l.map g) := by
  induction l with
  | nil => rfl
  | cons a l ih =>
    rw [List.mapM_cons, h a (List.mem_cons_self _ _), ih (fun b hb => h b (List.mem_cons_of_mem _ hb))]
    rfl

theorem lowerName_checked_eq {bytes : List Byte} {nameStart tagLen : Nat}
    (hb : nameStart + tagLen ≤ bytes.length) :
    lowerName_checked bytes nameStart tagLen
      = some ((List.range tagLen).map
          (fun k => asciiLowerTable (byteAt bytes (nameStart + k)))) := by
  unfold lowerName_checked
  apply mapM_option_eq
  intro k hk
  rw [List.mem_range] at hk
  rw [readAt_eq (by omega), Option.some_bind]

theorem rawText_checked_eq {bytes : List Byte} {length : Nat} (tag : List Byte)
    (tagLen j : Nat) (st : ScanState) (hlen : length ≤ bytes.length) :
    rawText_checked bytes length tag tagLen j st = some (rawText bytes length tag tagLen j st) := by
  unfold rawText_checked rawText
  rw [skip_raw_text_checked_eq _ _ _ hlen, Option.some_bind]
  cases skip_raw_text bytes length tag tagLen j with
  | none => rfl
  | some newIndex =>
    simp only
    split <;> rfl

theorem startTagFinish_checked_eq {bytes : List Byte} {length : Nat} (sinks : Sinks)
    (tagId : tag_id) (nameStart : Nat) {nameEnd j : Nat} (s : Bool) (st : ScanState)
    (hs : nameStart ≤ nameEnd) (hn : nameEnd ≤ length) (hj : j ≤ length)
    (hlen : length ≤ bytes.length) :
    startTagFinish_checked bytes length sinks tagId nameStart nameEnd j s st
      = some (startTagFinish bytes length sinks tagId nameStart nameEnd j s st) := by
  unfold startTagFinish_checked startTagFinish
  simp only
  rw [selfClosingFlag_checked_eq s (by omega), Option.some_bind]
  have hev : (if tagId = TAG_NONE ∧ sinks.recordSelfClosing = true then
        (lowerName_checked bytes nameStart (nameEnd - nameStart)).bind fun name =>
          some (st.events ++ [Event.selfClosing nameStart name ((nameEnd - nameStart : Nat) : Int)
            (if selfClosingFlag bytes nameEnd j s = true then 1 else 0)])
      else some st.events)
      = some (if tagId = TAG_NONE ∧ sinks.recordSelfClosing = true then
          st.events ++ [Event.selfClosing nameStart
            ((List.range (nameEnd - nameStart)).map
              (fun k => asciiLowerTable (byteAt bytes (nameStart + k))))
            ((nameEnd - nameStart : Nat) : Int)
            (if selfClosingFlag bytes nameEnd j s = true then 1 else 0)]
        else st.events) := by
    split
    · rw [lowerName_checked_eq (by omega), Option.some_bind]
    · rfl
  rw [hev, Option.some_bind]
  split
  · exact rawText_checked_eq _ _ _ _ hlen
  · split
    · exact rawText_checked_eq _ _ _ _ hlen
    · split
      · exact rawText_checked_eq _ _ _ _ hlen
      · rfl

theorem startTagPreflight_checked_eq {bytes : List Byte} {length : Nat} (st : ScanState)
    (hi : st.i < length) (hlen : length ≤ bytes.length) :
    startTagPreflight_checked bytes length st = some (startTagPreflight bytes length st) := by
  unfold startTagPreflight_checked startTagPreflight
  simp only
  rw [scanTagName_checked_eq _ _ hlen, Option.some_bind]
  cases hscan : scanTagName bytes length (length - (st.i + 1)) (st.i + 1) with
  | none => rfl
  | some nameEnd =>
    have hle := scanTagName_le hscan (by omega)
    simp only
    by_cases h1 : nameEnd = st.i + 1
    · rw [if_pos h1, if_pos h1]
    · rw [if_neg h1, if_neg h1, guardedTest_eq _ (fun h => by simp at h; omega),
        Option.some_bind]
      rw [ite_of_iff (q := nameEnd < length ∧ (byteAt bytes nameEnd).val ≥ 0x80) (by simp)]
      by_cases h2 : nameEnd < length ∧ (byteAt bytes nameEnd).val ≥ 0x80
      · rw [if_pos h2, if_pos h2]
      · rw [if_neg h2, if_neg h2, tag_id_for_ascii_lowercase_checked_eq (by omega),
          Option.some_bind]
        generalize tag_id_for_ascii_lowercase bytes (st.i + 1) nameEnd = tagId
        by_cases h3 : tagId = TAG_HGROUP
        · rw [if_pos h3, if_pos h3]
        · rw [if_neg h3, if_neg h3]
          cases startTagTable tagId st.tableStack with
          | none => rfl
          | some ts =>
            simp only
            by_cases h4 : is_heading_tag tagId = true ∧ st.headingOpen = true
            · rw [if_pos h4, if_pos h4]
            · rw [if_neg h4, if_neg h4]
              by_cases h5 : tagId = TAG_P ∧ st.formatStack ≠ []
              · rw [if_pos h5, if_pos h5]
              · rw [if_neg h5, if_neg h5]
                by_cases h6 : tagId = TAG_HTML ∧ st.sawContentBeforeHtml = true
                · rw [if_pos h6, if_pos h6]
                · rw [if_neg h6, if_neg h6]
                  cases startTagPlacement tagId (if tagId = TAG_HTML then true else st.sawHtmlTag)
                      st.sawBodyTag st.inHead st.sawContentBeforeHtml st.openTagDepth with
                  | none => rfl
                  | some pr => rfl

theorem startTag_checked_eq {bytes : List Byte} {length : Nat} (sinks : Sinks) (st : ScanState)
    (hi : st.i < length) (hlen : length ≤ bytes.length) :
    startTag_checked bytes length sinks st = some (startTag bytes length sinks st) := by
  unfold startTag_checked startTag
  rw [startTagPreflight_checked_eq st hi hlen, Option.some_bind]
  cases hpre : startTagPreflight bytes length st with
  | error reason => rfl
  | ok head =>
    obtain ⟨h1, h2, _, _, hscan, _⟩ := startTagPreflight_ok hpre
    have hle := scanTagName_le hscan (by omega)
    simp only
    rw [attrLoop_checked_eq sinks _ _ _ hlen, Option.some_bind]
    cases hloop : attrLoop bytes length sinks (length - head.nameEnd) head.nameEnd
        head.st.events with
    | fail reason events => rfl
    | noTagEnd events => rfl
    | outOfFuel => rfl
    | ended j s events =>
      have hj := (attrLoop_ended hloop).2
      exact startTagFinish_checked_eq sinks head.tagId head.nameStart s _ (by omega) hle hj hlen

theorem step_checked_eq {bytes : List Byte} {length : Nat} (sinks : Sinks) (st : ScanState)
    (hi : st.i < length) (hlen : length ≤ bytes.length) :
    step_checked bytes length sinks st = some (step bytes length sinks st) := by
  unfold step_checked step
  simp only
  rw [readAt_eq (by omega), Option.some_bind]
  by_cases h0 : byteAt bytes st.i = 0x00
  · rw [if_pos h0, if_pos h0]
  · rw [if_neg h0, if_neg h0]
    by_cases h1 : byteAt bytes st.i ≠ 0x3C
    · rw [if_pos h1, if_pos h1]
      exact textSpan_checked_eq st hi hlen
    · rw [if_neg h1, if_neg h1]
      by_cases h2 : st.i + 1 ≥ length
      · rw [if_pos h2, if_pos h2]
      · rw [if_neg h2, if_neg h2, readAt_eq (by omega), Option.some_bind]
        by_cases h3 : byteAt bytes (st.i + 1) = 0x21
        · rw [if_pos h3, if_pos h3]
          exact commentOrDeclaration_checked_eq _ hlen
        · rw [if_neg h3, if_neg h3]
          by_cases h4 : byteAt bytes (st.i + 1) = 0x2F
          · rw [if_pos h4, if_pos h4]
            exact endTag_checked_eq _ (by simp only; omega) hlen
          · rw [if_neg h4, if_neg h4]
            by_cases h5 : byteAt bytes (st.i + 1) = 0x3F
            · rw [if_pos h5, if_pos h5]
              exact processingInstruction_checked_eq _ hlen
            · rw [if_neg h5, if_neg h5]
              by_cases h6 : isNameCharTable (byteAt bytes (st.i + 1)) = false
              · rw [if_pos h6, if_pos h6]
              · rw [if_neg h6, if_neg h6]
                exact startTag_checked_eq sinks _ hi hlen

theorem mainLoop_checked_eq {bytes : List Byte} {length : Nat} (sinks : Sinks) (n : Nat)
    (st : ScanState) (hlen : length ≤ bytes.length) :
    mainLoop_checked bytes length sinks n st = some (mainLoop bytes length sinks n st) := by
  induction n generalizing st with
  | zero =>
    unfold mainLoop_checked mainLoop
    split <;> rfl
  | succ n ih =>
    unfold mainLoop_checked mainLoop
    by_cases hi : st.i < length
    · rw [if_pos hi, if_pos hi, step_checked_eq sinks st hi hlen, Option.some_bind]
      cases step bytes length sinks st with
      | fail reason events => rfl
      | next st1 => exact ih st1
      | noResult events => rfl
    · rw [if_neg hi, if_neg hi]

/-- The decision scanner with checked reads never reads outside a buffer of
at least `length` bytes, and returns what the first embedding returns. -/
theorem internal_checked_eq (bytes : List Byte) (length : Int) (sinks : Sinks)
    (hlen : length ≤ (bytes.length : Int)) :
    swiftsoup_should_fallback_internal_checked (some bytes) length sinks
      = some (swiftsoup_should_fallback_internal (some bytes) length sinks) := by
  unfold swiftsoup_should_fallback_internal_checked swiftsoup_should_fallback_internal
  simp only
  split
  · rfl
  · exact mainLoop_checked_eq sinks _ _ (by omega)

theorem hintTagEnd_checked_eq {bytes : List Byte} {length : Nat} (n j quote lnw : Nat)
    (hlen : length ≤ bytes.length) :
    hintTagEnd_checked bytes length n j quote lnw
      = some (hintTagEnd bytes length n j quote lnw) := by
  induction n generalizing j quote lnw with
  | zero => rfl
  | succ n ih =>
    unfold hintTagEnd_checked hintTagEnd
    by_cases hj : j < length
    · rw [if_pos hj, if_pos hj, readAt_eq (by omega), Option.some_bind]
      simp only
      repeat' split
      all_goals first | rfl | exact ih _ _ _
    · rw [if_neg hj, if_neg hj]

theorem findPiEnd_checked_eq {bytes : List Byte} {length : Nat} (n j : Nat)
    (hlen : length ≤ bytes.length) :
    findPiEnd_checked bytes length n j = some (findPiEnd bytes length n j) := by
  induction n generalizing j with
  | zero => rfl
  | succ n ih =>
    unfold findPiEnd_checked findPiEnd
    by_cases hg : j + 1 < length
    · rw [if_pos hg, if_pos hg, guardedTest_eq _ (fun _ => by omega), Option.some_bind,
        guardedTest_eq _ (fun _ => by omega), Option.some_bind]
      rw [ite_of_iff (q := byteAt bytes j = 0x3F ∧ byteAt bytes (j + 1) = 0x3E) (by simp)]
      split
      · rfl
      · exact ih (j + 1)
    · rw [if_neg hg, if_neg hg]
      split <;> rfl

theorem hintAttrLoop_checked_eq {bytes : List Byte} {length : Nat} (sinks : Sinks) (n a : Nat)
    (events : List Event) (hlen : length ≤ bytes.length) :
    hintAttrLoop_checked bytes length sinks n a events
      = some (hintAttrLoop bytes length sinks n a events) := by
  induction n generalizing a events with
  | zero =>
    unfold hintAttrLoop_checked hintAttrLoop
    split <;> rfl
  | succ n ih =>
    conv => lhs; unfold hintAttrLoop_checked
    conv => rhs; arg 1; unfold hintAttrLoop
    by_cases ha : a < length
    · rw [if_pos ha, if_pos ha]
      lift_lets
      extract_lets a1 attrStart a2 attrEnd booleanIndex a3 a4 q aq a5
      have hA1 : skipWhitespace bytes length a = a1 := rfl
      have h1le : a1 ≤ length := skipWhitespace_le bytes length a (by omega)
      rw [skipWhitespace_checked_eq _ hlen, Option.some_bind, hA1]
      simp only [attrStart]
      by_cases hge : a1 ≥ length
      · rw [if_pos hge, if_pos hge]
      · rw [if_neg hge, if_neg hge, readAt_eq (by omega), Option.some_bind]
        by_cases hgt : byteAt bytes a1 = 0x3E
        · rw [if_pos hgt, if_pos hgt]
        · rw [if_neg hgt, if_neg hgt, guardedTest_eq _ (fun h => by simp at h; omega),
            Option.some_bind]
          rw [ite_of_iff (q := byteAt bytes a1 = 0x2F ∧ a1 + 1 < length ∧
            byteAt bytes (a1 + 1) = 0x3E) (by simp [and_assoc])]
          by_cases hsl : byteAt bytes a1 = 0x2F ∧ a1 + 1 < length ∧
              byteAt bytes (a1 + 1) = 0x3E
          · rw [if_pos hsl, if_pos hsl]
          · rw [if_neg hsl, if_neg hsl, advanceWhile_checked_eq _ _ _ hlen, Option.some_bind]
            have hA2 : advanceWhile bytes length
                (fun b => !isWhitespaceTable b && b != 0x3D && b != 0x3E && b != 0x2F)
                (length - a1) a1 = a2 := rfl
            have h2le : a2 ≤ length := advanceWhile_le _ _ _ _ _ h1le
            rw [hA2]
            by_cases hemp : a1 = a2
            · rw [if_pos hemp, if_pos hemp]
            · rw [if_neg hemp, if_neg hemp]
              have hbI : (if (sinks.recordBoolean || sinks.booleanBuf) = true then
                    boolean_attribute_index_checked bytes a1 a2
                  else some (-1)) = some booleanIndex := by
                by_cases hs : (sinks.recordBoolean || sinks.booleanBuf) = true
                · rw [if_pos hs, boolean_attribute_index_checked_eq (by omega)]
                  simp only [booleanIndex, attrStart, attrEnd]
                  rw [if_pos hs]
                · rw [if_neg hs]
                  simp only [booleanIndex]
                  rw [if_neg hs]
              have hA3 : skipWhitespace bytes length a2 = a3 := rfl
              have h3le : a3 ≤ length := skipWhitespace_le bytes length a2 h2le
              rw [hbI, Option.some_bind, skipWhitespace_checked_eq _ hlen, Option.some_bind, hA3,
                guardedTest_eq _ (fun h => by simp at h; omega), Option.some_bind]
              rw [ite_of_iff (q := a3 < length ∧ byteAt bytes a3 = 0x3D) (by simp)]
              by_cases heq : a3 < length ∧ byteAt bytes a3 = 0x3D
              · have hA4 : skipWhitespace bytes length (a3 + 1) = a4 := rfl
                have h4le : a4 ≤ length := skipWhitespace_le bytes length (a3 + 1) (by omega)
                rw [if_pos heq, if_pos heq, skipWhitespace_checked_eq _ hlen, Option.some_bind,
                  hA4]
                by_cases h4 : a4 ≥ length
                · rw [if_pos h4, if_pos h4]
                · rw [if_neg h4, if_neg h4, readAt_eq (by omega), Option.some_bind]
                  by_cases hq : byteAt bytes a4 = 0x22 ∨ byteAt bytes a4 = 0x27
                  · rw [if_pos hq]
                    by_cases hl : a4 + 1 < length
                    · rw [if_pos hl, memchr_checked_eq _ (by omega), Option.some_bind]
                      cases hm : memchr bytes (a4 + 1) (byteAt bytes a4) (length - (a4 + 1)) with
                      | none =>
                        have h5 : a5 = length := by
                          simp only [a5, aq, q]
                          rw [if_pos hq, if_pos hl, hm]
                        rw [h5]
                        exact ih length _
                      | some f =>
                        have h5 : a5 = f + 1 := by
                          simp only [a5, aq, q]
                          rw [if_pos hq, if_pos hl, hm]
                        rw [h5]
                        exact ih (f + 1) _
                    · have h5 : a5 = a4 + 1 := by
                        simp only [a5, aq, q]
                        rw [if_pos hq, if_neg hl]
                      rw [if_neg hl, Option.some_bind, h5]
                      exact ih (a4 + 1) _
                  · have h5 : a5 = advanceWhile bytes length
                        (fun b => !isWhitespaceTable b && b != 0x3E) (length - a4) a4 := by
                      simp only [a5, aq, q]
                      rw [if_neg hq]
                    rw [if_neg hq, advanceWhile_checked_eq _ _ _ hlen, Option.some_bind, h5]
                    exact ih _ _
              · rw [if_neg heq, if_neg heq]
                exact ih a3 _
    · rw [if_neg ha, if_neg ha]

theorem hintStep_checked_eq {bytes : List Byte} {length : Nat} (sinks : Sinks) {i : Nat}
    (events : List Event) (hi : i < length) (hlen : length ≤ bytes.length) :
    hintStep_checked bytes length sinks i events
      = some (hintStep bytes length sinks i events) := by
  conv => lhs; unfold hintStep_checked
  conv => rhs; arg 1; unfold hintStep
  rw [readAt_eq (by omega), Option.some_bind]
  by_cases hlt : byteAt bytes i ≠ 0x3C
  · rw [if_pos hlt, if_pos hlt]
    by_cases h1 : i + 1 ≥ length
    · rw [if_pos h1, if_pos h1]
    · rw [if_neg h1, if_neg h1, memchr_checked_eq _ (by omega), Option.some_bind]
      cases memchr bytes (i + 1) 0x3C (length - (i + 1)) <;> rfl
  · rw [if_neg hlt, if_neg hlt]
    by_cases h1 : i + 1 ≥ length
    · rw [if_pos h1, if_pos h1]
    · rw [if_neg h1, if_neg h1, readAt_eq (by omega), Option.some_bind]
      simp only
      by_cases h3 : byteAt bytes (i + 1) = 0x21
      · rw [if_pos h3, if_pos h3]
        by_cases ho : ¬ i + 3 < length ∧ INT_MAX < i + 3
        · rw [if_pos ho, if_neg (fun h => ho.1 h.1), if_pos ho]
        · rw [if_neg ho, guardedTest_eq _ (fun h => by simp at h; omega),
            Option.some_bind, guardedTest_eq _ (fun h => by simp at h; omega), Option.some_bind]
          rw [ite_of_iff (q := i + 3 < length ∧ byteAt bytes (i + 2) = 0x2D ∧
            byteAt bytes (i + 3) = 0x2D) (by simp [and_assoc])]
          by_cases hc : i + 3 < length ∧ byteAt bytes (i + 2) = 0x2D ∧
              byteAt bytes (i + 3) = 0x2D
          · rw [if_pos hc, if_pos hc, findCommentEnd_checked_eq _ _ hlen, Option.some_bind]
            cases findCommentEnd bytes length (length - (i + 4) + 1) (i + 4) <;> rfl
          · rw [if_neg hc, if_neg hc, if_neg ho, seekGt_checked_eq _ hlen, Option.some_bind]
      · rw [if_neg h3, if_neg h3]
        by_cases h4 : byteAt bytes (i + 1) = 0x2F
        · rw [if_pos h4, if_pos h4, seekGt_checked_eq _ hlen, Option.some_bind]
        · rw [if_neg h4, if_neg h4]
          by_cases h5 : byteAt bytes (i + 1) = 0x3F
          · rw [if_pos h5, if_pos h5, findPiEnd_checked_eq _ _ hlen, Option.some_bind]
            cases findPiEnd bytes length (length - (i + 2) + 1) (i + 2) <;> rfl
          · rw [if_neg h5, if_neg h5]
            by_cases h6 : isNameCharTable (byteAt bytes (i + 1)) = false
            · rw [if_pos h6, if_pos h6]
            · rw [if_neg h6, if_neg h6, advanceWhile_checked_eq _ _ _ hlen, Option.some_bind]
              by_cases h7 : advanceWhile bytes length isNameCharTable (length - (i + 1)) (i + 1)
                  = i + 1
              · rw [if_pos h7, if_pos h7]
              · rw [if_neg h7, if_neg h7, hintTagEnd_checked_eq _ _ _ _ hlen, Option.some_bind,
                  hintAttrLoop_checked_eq sinks _ _ _ hlen, Option.some_bind]
                cases hintAttrLoop bytes length sinks
                  (length - advanceWhile bytes length isNameCharTable (length - (i + 1)) (i + 1))
                  (advanceWhile bytes length isNameCharTable (length - (i + 1)) (i + 1))
                  (if sinks.recordSelfClosing = true then
                    events ++ [Event.selfClosing (i + 1)
                      (slice bytes (i + 1)
                        (advanceWhile bytes length isNameCharTable (length - (i + 1)) (i + 1)
                          - (i + 1)))
                      ((advanceWhile bytes length isNameCharTable (length - (i + 1)) (i + 1)
                          - (i + 1) : Nat) : Int)
                      (if (hintTagEnd bytes length
                          (length - advanceWhile bytes length isNameCharTable (length - (i + 1))
                            (i + 1))
                          (advanceWhile bytes length isNameCharTable (length - (i + 1)) (i + 1))
                          0 0).2 = true then 1 else 0)]
                  else events) <;> rfl

theorem hintLoop_checked_eq {bytes : List Byte} {length : Nat} (sinks : Sinks) (n i : Nat)
    (events : List Event) (hlen : length ≤ bytes.length) :
    hintLoop_checked bytes length sinks n i events
      = some (hintLoop bytes length sinks n i events) := by
  induction n generalizing i events with
  | zero =>
    unfold hintLoop_checked hintLoop
    split <;> rfl
  | succ n ih =>
    unfold hintLoop_checked hintLoop
    by_cases hi : i < length
    · rw [if_pos hi, if_pos hi, hintStep_checked_eq sinks events hi hlen, Option.some_bind]
      cases hintStep bytes length sinks i events with
      | stop events1 => rfl
      | next i1 events1 => exact ih i1 events1
      | noResult events1 => rfl
    · rw [if_neg hi, if_neg hi]

/-- The hint-only scanner with checked reads never reads outside a buffer of
at least `length` bytes, and returns what the first embedding returns. -/
theorem hints_internal_checked_eq (bytes : List Byte) (length : Int) (sinks : Sinks)
    (hlen : length ≤ (bytes.length : Int)) :
    swiftsoup_scan_hints_internal_checked (some bytes) length sinks
      = some (swiftsoup_scan_hints_internal (some bytes) length sinks) := by
  unfold swiftsoup_scan_hints_internal_checked swiftsoup_scan_hints_internal
  simp only
  split
  · rfl
  · exact hintLoop_checked_eq sinks _ _ _ (by omega)

/-- The checks of the checked embedding are effective: told that the
two-byte buffer `<p` has three bytes, both scanners read `bytes[2]` and the
checked embedding returns `none`. -/
theorem checked_read_out_of_range :
    swiftsoup_should_fallback_internal_checked (some (cstr "<p")) 3 ⟨true, true, false⟩ = none ∧
    swiftsoup_scan_hints_internal_checked (some (cstr "<p")) 3 ⟨true, true, false⟩ = none ∧
    boolean_attribute_index_checked (cstr "hidde") 0 6 = none ∧
    tag_id_for_ascii_lowercase_checked (cstr "<scrip") 1 7 = none ∧
    skip_raw_text_checked (cstr "x</script") 10 (cstr "script") 6 0 = none ∧
    selfClosingFlag_checked (cstr "<a") 2 4 false = none := by
  decide!

/-! ## The hint-only scanner follows the decision scanner -/

theorem memchr_eq_some {bytes : List Byte} {start : Nat} {c : Byte} {n q : Nat}
    (h1 : start ≤ q) (h2 : q < start + n) (hq : byteAt bytes q = c)
    (hno : ∀ k, start ≤ k → k < q → byteAt bytes k ≠ c) :
    memchr bytes start c n = some q := by
  cases h : memchr bytes start c n with
  | none => exact absurd hq (memchr_none h q h1 h2)
  | some p =>
    obtain ⟨g1, _, g3, g4⟩ := memchr_some h
    by_cases hpq : p < q
    · exact absurd g3 (hno p g1 hpq)
    · by_cases hqp : q < p
      · exact absurd hq (g4 q h1 hqp)
      · have : p = q := by omega
        rw [this]

/-- When an iteration of the main loop that the scan arrives at has no
result, the decision scanner has none. -/
theorem reaches_noResult {input : List Byte} {sinks : Sinks} {st : ScanState}
    {events : List Event} (h : Reaches input input.length sinks st) (hi : st.i < input.length)
    (hstep : step input input.length sinks st = Step.noResult events) :
    swiftsoup_should_fallback_internal (some input) (input.length : Int) sinks = none := by
  have hne : input ≠ [] := by
    intro h0
    rw [h0] at hi
    simp at hi
  rw [internal_eq_mainLoop input sinks hne]
  obtain ⟨n, hn, heq⟩ := reaches_mainLoop h
  rw [heq]
  obtain ⟨m, rfl⟩ : ∃ m, n = m + 1 := ⟨n - 1, by omega⟩
  unfold mainLoop
  rw [if_pos hi, hstep]

/-- The bytes of a buffer that holds a text, a `<` and a tail. -/
theorem byteAt_text_tag (text tail : List Byte) :
    (∀ k, k < text.length → byteAt (text ++ 0x3C :: tail) k = byteAt text k) ∧
    byteAt (text ++ 0x3C :: tail) text.length = 0x3C ∧
    (∀ k, byteAt (text ++ 0x3C :: tail) (text.length + 1 + k) = byteAt tail k) := by
  refine ⟨fun k hk => byteAt_append_left _ hk, ?_, fun k => ?_⟩
  · rw [byteAt_append_right text _ (Nat.le_refl _), Nat.sub_self]
    rfl
  · rw [byteAt_append_right text _ (by omega),
      show text.length + 1 + k - text.length = k + 1 by omega]
    rfl

/-- The first iteration of the decision scanner on a non-empty text without
`<` and 0x00 that is followed by a tag: the cursor moves to the `<`. -/
theorem reaches_text_tag (text tail : List Byte) (sinks : Sinks) (hne : text ≠ [])
    (ht : ∀ b ∈ text, b ≠ 0x3C ∧ b ≠ 0x00) :
    ∃ st, Reaches (text ++ 0x3C :: tail) (text ++ 0x3C :: tail).length sinks st ∧
      st.i = text.length ∧ st.tableStack = [] ∧ st.sawHtmlTag = false := by
  have hpos : 0 < text.length := List.length_pos.mpr hne
  have hlen : (text ++ 0x3C :: tail).length = text.length + 1 + tail.length := by
    simp only [List.length_append, List.length_cons]
    omega
  have hocc : OccursAt (text ++ 0x3C :: tail) ScanState.init.i (text ++ [0x3C]) := by
    have h := occursAt_zero (text ++ [0x3C]) tail
    rw [List.append_assoc, List.singleton_append] at h
    exact h
  obtain ⟨c, hstep⟩ := @step_text (text ++ 0x3C :: tail) (text ++ 0x3C :: tail).length sinks
    ScanState.init text hne ht hocc (by
      rw [hlen]
      show 0 + text.length + 1 ≤ _
      omega) rfl
  refine ⟨_, Reaches.next Reaches.init (by
    rw [hlen]
    show 0 < _
    omega) hstep, ?_, rfl, rfl⟩
  show 0 + text.length = text.length
  omega

/-- The decision scanner has no result on a non-empty text without `<` and
0x00 followed by `<script>` when the buffer has `INT_MAX` bytes: the raw-text
skipper is entered at `start = length`, and the sum `j + tagLen + 2` of its
loop condition exceeds `INT_MAX`. -/
theorem internal_overflow_script (text : List Byte) (sinks : Sinks) (hne : text ≠ [])
    (ht : ∀ b ∈ text, b ≠ 0x3C ∧ b ≠ 0x00) (hlen : text.length + 8 = INT_MAX) :
    swiftsoup_should_fallback_internal (some (text ++ cstr "<script>"))
      ((text ++ cstr "<script>").length : Int) sinks = none := by
  have hc : cstr "<script>" = 0x3C :: (cstr "script" ++ [0x3E]) := by decide
  have h6 : (cstr "script").length = 6 := by decide
  rw [hc]
  obtain ⟨st, hreach, hi, htab, hhtml⟩ := reaches_text_tag text (cstr "script" ++ [0x3E]) sinks
    hne ht
  have hl : (text ++ 0x3C :: (cstr "script" ++ [0x3E])).length = text.length + 8 := by
    simp only [List.length_append, List.length_cons, List.length_nil, h6]
  have hocc : OccursAt (text ++ 0x3C :: (cstr "script" ++ [0x3E])) st.i
      (0x3C :: (cstr "script" ++ [0x3E])) := by
    have h := occursAt_self_append text (0x3C :: (cstr "script" ++ [0x3E])) []
    rw [List.append_nil] at h
    rw [hi]
    exact h
  have hstep := @step_raw_startTag (text ++ 0x3C :: (cstr "script" ++ [0x3E]))
    (text ++ 0x3C :: (cstr "script" ++ [0x3E])).length sinks st (cstr "script", TAG_SCRIPT)
    (by decide) hocc (by
      show st.i + (cstr "script").length + 2 ≤ _
      rw [hl, hi, h6]) htab hhtml
  have hskip := (skip_raw_text_overflow (text ++ 0x3C :: (cstr "script" ++ [0x3E]))
    (text ++ 0x3C :: (cstr "script" ++ [0x3E])).length (cstr "script")
    (st.i + (cstr "script").length + 2) (by rw [hl]; omega) (by rw [hi, h6]; omega)).1
  have hfinal : step (text ++ 0x3C :: (cstr "script" ++ [0x3E]))
      (text ++ 0x3C :: (cstr "script" ++ [0x3E])).length sinks st = Step.noResult st.events := by
    rw [hstep]
    unfold rawText
    rw [show (cstr "script", TAG_SCRIPT).1 = cstr "script" from rfl, hskip]
  exact reaches_noResult hreach (by rw [hl, hi]; omega) hfinal

/-- The decision scanner has no result on a non-empty text without `<` and
0x00 followed by `<!` when the buffer has `INT_MAX - 1` bytes: the sum `i + 4`
of the comment test exceeds `INT_MAX`. -/
theorem internal_overflow_bang (text : List Byte) (sinks : Sinks) (hne : text ≠ [])
    (ht : ∀ b ∈ text, b ≠ 0x3C ∧ b ≠ 0x00) (hlen : text.length + 3 = INT_MAX) :
    swiftsoup_should_fallback_internal (some (text ++ cstr "<!"))
      ((text ++ cstr "<!").length : Int) sinks = none := by
  have hc : cstr "<!" = 0x3C :: [0x21] := by decide
  rw [hc]
  obtain ⟨st, hreach, hi, _, _⟩ := reaches_text_tag text [0x21] sinks hne ht
  have hl : (text ++ 0x3C :: [0x21]).length = text.length + 2 := by
    simp only [List.length_append, List.length_cons, List.length_nil]
  obtain ⟨_, hb1, hb2⟩ := byteAt_text_tag text [0x21]
  have hb3 : byteAt (text ++ 0x3C :: [0x21]) (st.i + 1) = 0x21 := by
    rw [hi]
    exact hb2 0
  have hfinal : step (text ++ 0x3C :: [0x21]) (text ++ 0x3C :: [0x21]).length sinks st
      = Step.noResult st.events := by
    unfold step
    rw [hi] at hb3 ⊢
    rw [hb1, if_neg (by decide), if_neg (by simp)]
    simp only
    rw [if_neg (by rw [hl]; omega), hb3, if_pos rfl]
    unfold commentOrDeclaration
    simp only
    rw [if_neg (by rw [hl]; omega), if_pos ⟨by rw [hl]; omega, by omega⟩]
  exact reaches_noResult hreach (by rw [hl, hi]; omega) hfinal

theorem hintLoop_succ_next {bytes : List Byte} {length : Nat} {sinks : Sinks} {n i i1 : Nat}
    {events events1 : List Event} (hi : i < length)
    (h : hintStep bytes length sinks i events = HintStep.next i1 events1) :
    hintLoop bytes length sinks (n + 1) i events = hintLoop bytes length sinks n i1 events1 := by
  conv_lhs => unfold hintLoop
  rw [if_pos hi, h]

theorem hintLoop_succ_noResult {bytes : List Byte} {length : Nat} {sinks : Sinks} {n i : Nat}
    {events events1 : List Event} (hi : i < length)
    (h : hintStep bytes length sinks i events = HintStep.noResult events1) :
    hintLoop bytes length sinks (n + 1) i events = none := by
  unfold hintLoop
  rw [if_pos hi, h]

/-- The hint-only scanner has no result on a non-empty text without `<`
followed by `<?` when the buffer has `INT_MAX` bytes: the search for `?>`
starts at `j = length`, and the sum `j + 1` of its loop condition exceeds
`INT_MAX`. -/
theorem hints_overflow_pi (text : List Byte) (sinks : Sinks) (hne : text ≠ [])
    (ht : ∀ b ∈ text, b ≠ 0x3C) (hlen : text.length + 2 = INT_MAX) :
    swiftsoup_scan_hints_internal (some (text ++ cstr "<?"))
      ((text ++ cstr "<?").length : Int) sinks = none := by
  have hc : cstr "<?" = 0x3C :: [0x3F] := by decide
  rw [hc]
  have hpos : 0 < text.length := List.length_pos.mpr hne
  have hl : (text ++ 0x3C :: [0x3F]).length = text.length + 2 := by
    simp only [List.length_append, List.length_cons, List.length_nil]
  obtain ⟨hb0, hb1, hb2⟩ := byteAt_text_tag text [0x3F]
  have htext : ∀ k, k < text.length → byteAt (text ++ 0x3C :: [0x3F]) k ≠ 0x3C := by
    intro k hk
    rw [hb0 k hk]
    exact ht _ (byteAt_mem hk)
  have hq : byteAt (text ++ 0x3C :: [0x3F]) (text.length + 1) = 0x3F := hb2 0
  unfold swiftsoup_scan_hints_internal
  simp only [Int.toNat_ofNat]
  rw [if_neg (by omega), hl]
  have hstep1 : hintStep (text ++ 0x3C :: [0x3F]) (text.length + 2) sinks 0 []
      = HintStep.next text.length [] := by
    unfold hintStep
    rw [if_pos (htext 0 hpos), if_neg (by omega),
      memchr_eq_some (q := text.length) (by omega) (by omega) hb1
        (fun k _ h2 => htext k h2)]
  have hstep2 : hintStep (text ++ 0x3C :: [0x3F]) (text.length + 2) sinks text.length []
      = HintStep.noResult [] := by
    unfold hintStep
    rw [if_neg (by rw [hb1]; simp), if_neg (by omega)]
    simp only
    rw [hq, if_neg (by decide), if_neg (by decide), if_pos rfl,
      show text.length + 2 - (text.length + 2) + 1 = 1 by omega]
    unfold findPiEnd
    rw [if_neg (by omega), if_neg (by omega)]
  rw [show text.length + 2 = (text.length + 1) + 1 by omega] at hstep1 hstep2 ⊢
  rw [hintLoop_succ_next (by omega) hstep1]
  rw [show text.length + 1 = text.length + 0 + 1 by omega] at hstep2 ⊢
  exact hintLoop_succ_noResult (by omega) hstep2

theorem replicate_space_text (n : Nat) (hn : 0 < n) :
    List.replicate n (0x20 : Byte) ≠ [] ∧
    (∀ b ∈ List.replicate n (0x20 : Byte), b ≠ 0x3C ∧ b ≠ 0x00) ∧
    (List.replicate n (0x20 : Byte)).length = n := by
  refine ⟨?_, ?_, List.length_replicate n _⟩
  · intro h
    have h2 := congrArg List.length h
    rw [List.length_replicate] at h2
    simp only [List.length_nil] at h2
    omega
  · intro b hb
    rw [List.eq_of_mem_replicate hb]
    decide

/-! ## Claims C1, C25 and C32 -/

/-- C1 holds of the code only where the `int` sums of its look-ahead tests are
representable. For every buffer (null or not), every length and every choice
of installed sinks: whatever the decision scanner returns is either 0 with
reason `NONE` (code 0) or 1 with one of the thirteen other reasons (codes 1 to
13), and it returns when `length + 10 <= INT_MAX`. On a buffer of `INT_MAX`
bytes that holds a non-empty text without `<` and 0x00 followed by `<script>`
it has no result: `skip_raw_text` is entered with `start = length`, and the
sum `j + tagLen + 2` of its loop condition exceeds `INT_MAX`. -/
theorem C1_return_contract (bytes : Option (List Byte)) (length : Int) (sinks : Sinks)
    (text : List Byte) :
    (∀ out, swiftsoup_should_fallback_internal bytes length sinks = some out →
      ((out.ret = 0 ∧ out.reason = SWIFTSOUP_FALLBACK_NONE ∧ out.reason.code = 0) ∨
       (out.ret = 1 ∧ out.reason ≠ SWIFTSOUP_FALLBACK_NONE ∧
          1 ≤ out.reason.code ∧ out.reason.code ≤ 13))) ∧
    (length + 10 ≤ (INT_MAX : Int) →
      ∃ out, swiftsoup_should_fallback_internal bytes length sinks = some out) ∧
    (text ≠ [] → (∀ b ∈ text, b ≠ 0x3C ∧ b ≠ 0x00) → text.length + 8 = INT_MAX →
      swiftsoup_should_fallback_internal (some (text ++ cstr "<script>"))
        ((text ++ cstr "<script>").length : Int) sinks = none) :=
  ⟨fun out h => contract_shape out (internal_contract bytes length sinks out h),
   fun hl => internal_returns bytes length sinks hl,
   fun hne ht hlen => internal_overflow_script text sinks hne ht hlen⟩

theorem C1_return_contract_witness :
    (((⟨1, SWIFTSOUP_FALLBACK_MALFORMED_TAG, []⟩ : Outcome).ret = 0 ∧
        (⟨1, SWIFTSOUP_FALLBACK_MALFORMED_TAG, []⟩ : Outcome).reason = SWIFTSOUP_FALLBACK_NONE ∧
        (⟨1, SWIFTSOUP_FALLBACK_MALFORMED_TAG, []⟩ : Outcome).reason.code = 0) ∨
      ((⟨1, SWIFTSOUP_FALLBACK_MALFORMED_TAG, []⟩ : Outcome).ret = 1 ∧
        (⟨1, SWIFTSOUP_FALLBACK_MALFORMED_TAG, []⟩ : Outcome).reason ≠ SWIFTSOUP_FALLBACK_NONE ∧
        1 ≤ (⟨1, SWIFTSOUP_FALLBACK_MALFORMED_TAG, []⟩ : Outcome).reason.code ∧
        (⟨1, SWIFTSOUP_FALLBACK_MALFORMED_TAG, []⟩ : Outcome).reason.code ≤ 13)) ∧
    (∃ out, swiftsoup_should_fallback_internal (some (cstr "<p>a<")) 5 ⟨true, true, false⟩
      = some out) ∧
    swiftsoup_should_fallback_internal
      (some (List.replicate 2147483639 (0x20 : Byte) ++ cstr "<script>"))
      ((List.replicate 2147483639 (0x20 : Byte) ++ cstr "<script>").length : Int)
      ⟨true, true, false⟩ = none :=
  ⟨(C1_return_contract (some (cstr "<p>a<")) 5 ⟨true, true, false⟩ []).1
      ⟨1, SWIFTSOUP_FALLBACK_MALFORMED_TAG, []⟩ (by decide!),
   (C1_return_contract (some (cstr "<p>a<")) 5 ⟨true, true, false⟩ []).2.1 (by decide),
   (C1_return_contract none 0 ⟨true, true, false⟩ (List.replicate 2147483639 (0x20 : Byte))).2.2
      (replicate_space_text 2147483639 (by decide)).1
      (replicate_space_text 2147483639 (by decide)).2.1
      (by rw [(replicate_space_text 2147483639 (by decide)).2.2]; rfl)⟩

/-- C25 holds of the code only where the `int` sums of the look-ahead tests
are representable. Every iteration of the main loop of the decision scanner
that has a result fails or leaves the cursor strictly greater and at most
`length`, and it has a result when `length + 10 <= INT_MAX`; every iteration
of the main loop of the hint-only scanner that has a result breaks or does
the same, and it has a result when `length + 2 <= INT_MAX`; hence under these
bounds `length - i` iterations are enough from the cursor `i`, and both
scanners, run with the bound `length`, return. On a buffer of `INT_MAX` bytes
that holds a non-empty text without `<` followed by `<?` the hint-only scanner
has no result: the search for `?>` starts at `j = length`, and the sum `j + 1`
of its loop condition exceeds `INT_MAX`. -/
theorem C25_termination :
    (∀ (bytes : List Byte) (length : Nat) (sinks : Sinks) (st : ScanState), st.i < length →
      Step.Good length st.i (step bytes length sinks st) ∧
      (length + 10 ≤ INT_MAX → (step bytes length sinks st).Defined)) ∧
    (∀ (bytes : List Byte) (length : Nat) (sinks : Sinks) (i : Nat) (events : List Event),
      i < length → HintStep.Good length i (hintStep bytes length sinks i events) ∧
      (length + 2 ≤ INT_MAX → (hintStep bytes length sinks i events).Defined)) ∧
    (∀ (bytes : List Byte) (length : Nat) (sinks : Sinks) (n : Nat) (st : ScanState),
      length - st.i ≤ n → length + 10 ≤ INT_MAX →
      ∃ out, mainLoop bytes length sinks n st = some out) ∧
    (∀ (bytes : List Byte) (length : Nat) (sinks : Sinks) (n i : Nat) (events : List Event),
      length - i ≤ n → length + 2 ≤ INT_MAX →
      ∃ out, hintLoop bytes length sinks n i events = some out) ∧
    (∀ (bytes : Option (List Byte)) (length : Int) (sinks : Sinks),
      length + 10 ≤ (INT_MAX : Int) →
      ∃ out, swiftsoup_should_fallback_internal bytes length sinks = some out) ∧
    (∀ (bytes : Option (List Byte)) (length : Int) (sinks : Sinks),
      length + 2 ≤ (INT_MAX : Int) →
      ∃ out, swiftsoup_scan_hints_internal bytes length sinks = some out) ∧
    (∀ (text : List Byte) (sinks : Sinks), text ≠ [] → (∀ b ∈ text, b ≠ 0x3C) →
      text.length + 2 = INT_MAX →
      swiftsoup_scan_hints_internal (some (text ++ cstr "<?"))
        ((text ++ cstr "<?").length : Int) sinks = none) := by
  refine ⟨fun bytes length sinks st hi => ⟨step_good bytes length sinks st hi,
      fun hl => step_defined bytes length sinks st hl⟩,
    fun bytes length sinks i events _ => ⟨hintStep_good bytes length sinks i events,
      fun hl => hintStep_defined bytes length sinks i events hl⟩,
    ?_, fun bytes length sinks n i events hn hl => hintLoop_total bytes length sinks n i events hn hl,
    internal_returns, hints_internal_returns,
    fun text sinks hne ht hlen => hints_overflow_pi text sinks hne ht hlen⟩
  intro bytes length sinks n st hn hl
  obtain ⟨out, h, _⟩ := mainLoop_total bytes length sinks n st hn hl
  exact ⟨out, h⟩

theorem C25_termination_witness :
    (Step.Good 7 0 (step (cstr "<p>text") 7 ⟨true, true, false⟩ ScanState.init) ∧
      (step (cstr "<p>text") 7 ⟨true, true, false⟩ ScanState.init).Defined) ∧
    (HintStep.Good 7 0 (hintStep (cstr "<p>text") 7 ⟨true, true, false⟩ 0 []) ∧
      (hintStep (cstr "<p>text") 7 ⟨true, true, false⟩ 0 []).Defined) ∧
    (∃ out, mainLoop (cstr "<p>text") 7 ⟨true, true, false⟩ 7 ScanState.init = some out) ∧
    (∃ out, hintLoop (cstr "<p>text") 7 ⟨true, true, false⟩ 7 0 [] = some out) ∧
    (∃ out, swiftsoup_should_fallback_internal (some (cstr "<p>text")) 7 ⟨true, true, false⟩
      = some out) ∧
    (∃ out, swiftsoup_scan_hints_internal (some (cstr "<p>text")) 7 ⟨true, true, false⟩
      = some out) ∧
    swiftsoup_scan_hints_internal
      (some (List.replicate 2147483645 (0x20 : Byte) ++ cstr "<?"))
      ((List.replicate 2147483645 (0x20 : Byte) ++ cstr "<?").length : Int)
      ⟨true, true, false⟩ = none :=
  ⟨⟨(C25_termination.1 (cstr "<p>text") 7 ⟨true, true, false⟩ ScanState.init (by decide)).1,
     (C25_termination.1 (cstr "<p>text") 7 ⟨true, true, false⟩ ScanState.init (by decide)).2
       (by decide)⟩,
   ⟨(C25_termination.2.1 (cstr "<p>text") 7 ⟨true, true, false⟩ 0 [] (by decide)).1,
     (C25_termination.2.1 (cstr "<p>text") 7 ⟨true, true, false⟩ 0 [] (by decide)).2
       (by decide)⟩,
   C25_termination.2.2.1 (cstr "<p>text") 7 ⟨true, true, false⟩ 7 ScanState.init (by decide)
     (by decide),
   C25_termination.2.2.2.1 (cstr "<p>text") 7 ⟨true, true, false⟩ 7 0 [] (by decide) (by decide),
   C25_termination.2.2.2.2.1 (some (cstr "<p>text")) 7 ⟨true, true, false⟩ (by decide),
   C25_termination.2.2.2.2.2.1 (some (cstr "<p>text")) 7 ⟨true, true, false⟩ (by decide),
   C25_termination.2.2.2.2.2.2 (List.replicate 2147483645 (0x20 : Byte)) ⟨true, true, false⟩
     (replicate_space_text 2147483645 (by decide)).1
     (fun b hb => ((replicate_space_text 2147483645 (by decide)).2.1 b hb).1)
     (by rw [(replicate_space_text 2147483645 (by decide)).2.2]; rfl)⟩

/-- C32 holds of the code only where the `int` sums of the look-ahead tests
are representable. On an input buffer passed with its exact length, the
decision scanner (when `length + 10 <= INT_MAX`) and the hint-only scanner
(when `length + 2 <= INT_MAX`) of the checked embedding, in which every read
of the buffer, including those made inside `boolean_attribute_index`,
`tag_id_for_ascii_lowercase`, `matches_tag`, `skip_raw_text` and the backward
self-closing scan, and every read of a table of the boolean dictionary
returns `none` when its index is out of range, never take the out-of-range
branch: each completes the scan with the result of the first embedding. On a
buffer of `INT_MAX - 1` bytes that holds a non-empty text without `<` and 0x00
followed by `<!` the checked decision scanner does not complete the scan: the
sum `i + 4` of the comment test exceeds `INT_MAX`, the behaviour of the source
is undefined from there, and no index safety is established. -/
theorem C32_index_safety (input : List Byte) (sinks : Sinks) (text : List Byte) :
    ((input.length : Int) + 10 ≤ (INT_MAX : Int) →
      ∃ out, swiftsoup_should_fallback_internal_checked (some input) (input.length : Int) sinks
          = some (some out) ∧
        swiftsoup_should_fallback_internal (some input) (input.length : Int) sinks = some out) ∧
    ((input.length : Int) + 2 ≤ (INT_MAX : Int) →
      ∃ events, swiftsoup_scan_hints_internal_checked (some input) (input.length : Int) sinks
          = some (some events) ∧
        swiftsoup_scan_hints_internal (some input) (input.length : Int) sinks = some events) ∧
    (text ≠ [] → (∀ b ∈ text, b ≠ 0x3C ∧ b ≠ 0x00) → text.length + 3 = INT_MAX →
      swiftsoup_should_fallback_internal_checked (some (text ++ cstr "<!"))
        ((text ++ cstr "<!").length : Int) sinks = some none) := by
  refine ⟨fun hl => ?_, fun hl => ?_, fun hne ht hlen => ?_⟩
  · obtain ⟨out, hout⟩ := internal_returns (some input) (input.length : Int) sinks hl
    exact ⟨out, by rw [internal_checked_eq input _ sinks (Int.le_refl _), hout], hout⟩
  · obtain ⟨out, hout⟩ := hints_internal_returns (some input) (input.length : Int) sinks hl
    exact ⟨out, by rw [hints_internal_checked_eq input _ sinks (Int.le_refl _), hout], hout⟩
  · rw [internal_checked_eq _ _ sinks (Int.le_refl _),
      internal_overflow_bang text sinks hne ht hlen]

theorem C32_index_safety_witness :
    (∃ out, swiftsoup_should_fallback_internal_checked (some (cstr "<p hidden>a</p>"))
          ((cstr "<p hidden>a</p>").length : Int) ⟨true, true, false⟩ = some (some out) ∧
        swiftsoup_should_fallback_internal (some (cstr "<p hidden>a</p>"))
          ((cstr "<p hidden>a</p>").length : Int) ⟨true, true, false⟩ = some out) ∧
    (∃ events, swiftsoup_scan_hints_internal_checked (some (cstr "<p hidden>a</p>"))
          ((cstr "<p hidden>a</p>").length : Int) ⟨true, true, false⟩ = some (some events) ∧
        swiftsoup_scan_hints_internal (some (cstr "<p hidden>a</p>"))
          ((cstr "<p hidden>a</p>").length : Int) ⟨true, true, false⟩ = some events) ∧
    swiftsoup_should_fallback_internal_checked
      (some (List.replicate 2147483644 (0x20 : Byte) ++ cstr "<!"))
      ((List.replicate 2147483644 (0x20 : Byte) ++ cstr "<!").length : Int)
      ⟨true, true, false⟩ = some none :=
  ⟨(C32_index_safety (cstr "<p hidden>a</p>") ⟨true, true, false⟩ []).1 (by decide),
   (C32_index_safety (cstr "<p hidden>a</p>") ⟨true, true, false⟩ []).2.1 (by decide),
   (C32_index_safety [] ⟨true, true, false⟩ (List.replicate 2147483644 (0x20 : Byte))).2.2
     (replicate_space_text 2147483644 (by decide)).1
     (replicate_space_text 2147483644 (by decide)).2.1
     (by rw [(replicate_space_text 2147483644 (by decide)).2.2]; rfl)⟩

end SwiftSoupScan
